import Mathlib

/-!
# MPT witness assembler (`witness/prepare.go`)

A shallow embedding of `prepareWitness` and `addBranchAndPlaceholder`.

* A Go byte is a `Nat` below 256; arithmetic on bytes is reduced `% 256`.
* A Go `[]byte` is a `List Nat`, a `[][]byte` a list of those.
* A Go panic is a `Fault`; the functions return in `Run`, which pairs the
  result with the ordered log of the calls made up to the return or the panic.
* The node preparers and inserters live in other files of the package and are
  parameters of the embedding (`Externals`), together with the layout constants.
  They are taken to return freshly allocated, non-nil buffers and not to write
  to their arguments.
-/

namespace MptWitness

/-- A byte buffer (`[]byte`). -/
abbrev Row := List Nat

/-- A list of byte buffers (`[][]byte`). -/
abbrev Rows := List Row

/-- Which kind of sequence an out-of-range index was applied to. -/
inductive IndexSite
  | proofList
  | keyNibbles
  | rowBuffer
  | rowsList
  | nodeBytes
  deriving DecidableEq, Repr

/-- The ways a run can stop without returning. -/
inductive Fault
  | indexOutOfRange (site : IndexSite)
  | witnessNotProperlyGenerated
  | preparer
  deriving DecidableEq, Repr

deriving instance DecidableEq for Except

/-- The calls made by the assembler, with their arguments, and two ghost marks:
`flip` for every flip of the parity pair and `branchBlock` for every branch
block appended to the rows by the common-prefix walk. -/
inductive Event
  | prepareExtensionRows (extNibbles : Rows) (ind : Nat) (nodeS nodeC : Row)
      (isPlaceholderS isPlaceholderC : Bool)
  | prepareTwoBranches (nodeS nodeC : Row) (nibble c16 c1 : Nat)
      (isPlaceholderS isPlaceholderC : Bool)
  | prepareParallelBranches (nodeS nodeC : Row) (nibble : Nat) (isS : Bool) (c16 c1 : Nat)
      (isModifiedExtNode : Bool)
  | prepareAccountLeaf (leafS leafC key : Row) (nonExistingAccountProof isPlaceholder : Bool)
  | prepareStorageLeafRows (node : Row) (side : Nat) (isPlaceholder : Bool)
  | prepareNonExistingStorageRow (cKeyRow key : Row) (noLeaf : Bool)
  | addBranchAndPlaceholder (keyIndex extensionNodeInd c16 c1 : Nat)
  | addAccountLeafAfterBranchPlaceholder (isModifiedExtNode isExtension : Bool)
      (c16 numberOfNibbles : Nat)
  | addStorageLeafAfterBranchPlaceholder (isModifiedExtNode isExtension : Bool)
      (c16 numberOfNibbles : Nat)
  | addModifiedExtNode (keyIndex extensionNodeInd numberOfNibbles c16 c1 : Nat)
  | addLeafAndPlaceholder (isAccountProof : Bool)
  | flip
  | branchBlock (i extensionNodeInd nibble : Nat) (bRows : Rows)
  deriving DecidableEq, Repr

/-- A run: the log of calls, and the value returned or the fault raised. -/
structure Run (α : Type) where
  trace : List Event
  res : Except Fault α

/-- Return without calling anything. -/
def Run.pure {α : Type} (a : α) : Run α := ⟨[], .ok a⟩

/-- Sequence two runs; a fault stops the run and keeps the log so far. -/
def Run.bind {α β : Type} (m : Run α) (f : α → Run β) : Run β :=
  match m.res with
  | .error e => ⟨m.trace, .error e⟩
  | .ok a => ⟨m.trace ++ (f a).trace, (f a).res⟩

instance : Monad Run where
  pure := Run.pure
  bind := Run.bind

/-- A step that can fault but calls nothing. -/
def liftE {α : Type} (r : Except Fault α) : Run α := ⟨[], r⟩

/-- Log one event. -/
def emit (e : Event) : Run Unit := ⟨[e], .ok ()⟩

/-- Log one event when `b` holds. -/
def emitIf (b : Bool) (e : Event) : Run Unit := if b then emit e else Run.pure ()

/-- A call of an external preparer: logged, and a fault when it does not return. -/
def callExt {α : Type} (e : Event) (r : Option α) : Run α :=
  ⟨[e], match r with
        | some a => .ok a
        | none => .error .preparer⟩

/-- Read `xs[i]` for a Go `int` index. -/
def getI {α : Type} (site : IndexSite) (xs : List α) (i : Int) : Except Fault α :=
  if i < 0 then .error (.indexOutOfRange site)
  else
    match xs[i.toNat]? with
    | some x => .ok x
    | none => .error (.indexOutOfRange site)

/-- Read `xs[i]` for a non-negative index. -/
def getN {α : Type} (site : IndexSite) (xs : List α) (i : Nat) : Except Fault α :=
  match xs[i]? with
  | some x => .ok x
  | none => .error (.indexOutOfRange site)

/-- The assignment `row[i] = v` for a Go `int` index. -/
def setB (row : Row) (i : Int) (v : Nat) : Except Fault Row :=
  if i < 0 then .error (.indexOutOfRange .rowBuffer)
  else if i.toNat < row.length then .ok (row.set i.toNat v)
  else .error (.indexOutOfRange .rowBuffer)

/-- The assignment `rows[r][pos] = v`. -/
def setRowByte (rows : Rows) (r pos v : Nat) : Except Fault Rows :=
  match rows[r]? with
  | none => .error (.indexOutOfRange .rowsList)
  | some row =>
    if pos < row.length then .ok (rows.set r (row.set pos v))
    else .error (.indexOutOfRange .rowBuffer)

/-- The slice expression `key[from:]`. -/
def sliceFrom (key : Row) (start : Nat) : Except Fault Row :=
  if start ≤ key.length then .ok (key.drop start)
  else .error (.indexOutOfRange .keyNibbles)

/-- The conversion `byte(n)` of a Go `int`. -/
def byteOfInt (n : Int) : Nat := (n % 256).toNat

/-- The flip of the parity pair, as written at every flip site:
`if branchC16 == 1 { 0, 1 } else { 1, 0 }`. -/
def flipPair (branchC16 : Nat) : Nat × Nat :=
  if branchC16 = 1 then (0, 1) else (1, 0)

/-- Modelled from the spec: `addForHashing(blob, &toBeHashed)` is not in the
two source files; the spec says every blob is appended to the append-only list
`toBeHashed` in emission order. -/
def addForHashing (blob : Row) (toBeHashed : Rows) : Rows := toBeHashed ++ [blob]

/-- The layout constants, encoding primitives, node preparers and inserters
that `prepare.go` uses from the rest of the package. A preparer or inserter
returns `none` when it does not return normally. The inserters receive
`&rows` and `&toBeHashed` and give back their new contents. -/
structure Externals (StateDB Address : Type) where
  rowLen : Nat
  branchNodeRLPLen : Nat
  branch2start : Nat
  isExtensionPos : Nat
  isSExtLongerThan55Pos : Nat
  isCExtLongerThan55Pos : Nat
  isExtNodeSNonHashedPos : Nat
  isExtNodeCNonHashedPos : Nat
  isExtShortC16Pos : Nat
  isExtShortC1Pos : Nat
  isExtLongEvenC16Pos : Nat
  isExtLongEvenC1Pos : Nat
  isExtLongOddC16Pos : Nat
  isExtLongOddC1Pos : Nat
  isBranch : Row → Bool
  getExtensionNodeKeyLen : Row → Nat
  prepareExtensionRows : Rows → Nat → Row → Row → Bool → Bool → Option (Nat × Row × Row)
  prepareEmptyExtensionRows : Bool → Bool → Rows
  prepareTwoBranches : Row → Row → Nat → Nat → Nat → Bool → Bool → Option Rows
  prepareParallelBranches : Row → Row → Nat → Bool → Nat → Nat → Bool → Option (Rows × Row)
  prepareAccountLeaf : Row → Row → Row → Bool → Bool → Option (Rows × Rows)
  prepareStorageLeafRows : Row → Nat → Bool → Option (Rows × Row)
  prepareDriftedLeafPlaceholder : Bool → Rows
  prepareEmptyNonExistingStorageRow : Row
  prepareNonExistingStorageRow : Row → Row → Bool → Option Row
  addAccountLeafAfterBranchPlaceholder :
    Rows → Rows → Rows → Row → Row → Bool → Bool → Bool → Nat → Nat → Rows → Option (Rows × Rows)
  addStorageLeafAfterBranchPlaceholder :
    Rows → Rows → Rows → Row → Row → Bool → Bool → Bool → Nat → Nat → Rows → Option (Rows × Rows)
  addModifiedExtNode :
    StateDB → Address → Rows → Rows → Rows → Rows → Rows → Row → Row →
      Nat → Nat → Nat → Bool → Bool → Bool → Bool → Nat → Nat → Rows → Option (Rows × Rows)
  addLeafAndPlaceholder :
    Rows → Rows → Rows → Row → Bool → Bool → Rows → Option (Rows × Rows)

/-- What `addBranchAndPlaceholder` leaves behind: the new contents of `*rows`
and `*toBeHashed`, and its four return values. -/
structure BranchPlaceholderResult where
  rows : Rows
  toBeHashed : Rows
  isModifiedExtNode : Bool
  isExtension : Bool
  numberOfNibbles : Nat
  branchC16 : Nat
  deriving DecidableEq, Repr

/-- The locals of `prepareWitness` that the common-prefix walk updates.
`extensionRows` holds `extensionRowS` and `extensionRowC`, which are assigned
together (line 162) and reset to nil together (lines 282-283); `none` is nil. -/
structure WalkState where
  rows : Rows
  toBeHashed : Rows
  keyIndex : Nat
  extensionNodeInd : Nat
  branchC16 : Nat
  branchC1 : Nat
  extensionRows : Option (Row × Row)
  deriving DecidableEq, Repr

/-- The locals of `addBranchAndPlaceholder` after its extension part. -/
structure ExtensionPart where
  numberOfNibbles : Nat
  extRows : Rows
  branchC16 : Nat
  branchC1 : Nat
  toBeHashed : Rows
  deriving DecidableEq, Repr

section

variable {StateDB Address : Type}

/-- Lines 21-64 of `addBranchAndPlaceholder`: the extension rows that go with
the inserted branch, the nibble count, and the parity pair after them. -/
def addBranchExtensionPart (E : Externals StateDB Address) (proof1 proof2 extNibblesS extNibblesC : Rows)
    (extensionNodeInd branchC16 branchC1 : Nat) (toBeHashed : Rows) : Run ExtensionPart :=
  let len1 := proof1.length
  let len2 := proof2.length
  let isExtension : Bool := (len1 == len2 + 2) || (len2 == len1 + 2)
  if !isExtension then do
    let extRows := E.prepareEmptyExtensionRows false false
    emit .flip
    Run.pure ⟨0, extRows, (flipPair branchC16).1, (flipPair branchC16).2, toBeHashed⟩
  else do
    let node ← liftE (if len1 > len2 then getI .proofList proof1 ((len1 : Int) - 3)
                      else getI .proofList proof2 ((len2 : Int) - 3))
    let ext ← callExt
      (.prepareExtensionRows (if len1 > len2 then extNibblesS else extNibblesC)
        extensionNodeInd node node false false)
      (E.prepareExtensionRows (if len1 > len2 then extNibblesS else extNibblesC)
        extensionNodeInd node node false false)
    let numberOfNibbles := ext.1 % 256
    let extRows := [ext.2.1, ext.2.2]
    let toBeHashed := addForHashing node toBeHashed
    if numberOfNibbles % 2 == 0 then do
      emit .flip
      Run.pure ⟨numberOfNibbles, extRows, (flipPair branchC16).1, (flipPair branchC16).2,
        toBeHashed⟩
    else
      Run.pure ⟨numberOfNibbles, extRows, branchC16, branchC1, toBeHashed⟩

/-- The Go function `addBranchAndPlaceholder` (prepare.go, lines 12-112). -/
def addBranchAndPlaceholder (E : Externals StateDB Address) (_statedb : StateDB) (_addr : Address)
    (rows : Rows) (proof1 proof2 extNibblesS extNibblesC : Rows) (key _neighbourNode : Row)
    (keyIndex extensionNodeInd : Nat)
    (_additionalBranch _isAccountProof _nonExistingAccountProof isShorterProofLastLeaf : Bool)
    (branchC16 branchC1 : Nat) (toBeHashed : Rows) : Run BranchPlaceholderResult := do
  emit (.addBranchAndPlaceholder keyIndex extensionNodeInd branchC16 branchC1)
  let len1 := proof1.length
  let len2 := proof2.length
  let isExtension : Bool := (len1 == len2 + 2) || (len2 == len1 + 2)
  let p ← addBranchExtensionPart E proof1 proof2 extNibblesS extNibblesC extensionNodeInd
    branchC16 branchC1 toBeHashed
  let longExtNode ← liftE (if len1 > len2 then getI .proofList proof2 ((len2 : Int) - 1)
                           else getI .proofList proof1 ((len1 : Int) - 1))
  let isModifiedExtNode : Bool := !E.isBranch longExtNode && !isShorterProofLastLeaf
  let branch ← liftE (if len1 > len2 then getI .proofList proof1 ((len1 : Int) - 2)
                      else getI .proofList proof2 ((len2 : Int) - 2))
  let nibble ← liftE (getN .keyNibbles key (keyIndex + p.numberOfNibbles))
  let pb ← callExt
    (.prepareParallelBranches branch branch nibble (decide (len1 > len2)) p.branchC16 p.branchC1
      isModifiedExtNode)
    (E.prepareParallelBranches branch branch nibble (decide (len1 > len2)) p.branchC16 p.branchC1
      isModifiedExtNode)
  let rows := rows ++ pb.1
  let toBeHashed := addForHashing pb.2 p.toBeHashed
  let rows := rows ++ p.extRows
  Run.pure
    { rows := rows, toBeHashed := toBeHashed, isModifiedExtNode := isModifiedExtNode,
      isExtension := isExtension, numberOfNibbles := p.numberOfNibbles,
      branchC16 := p.branchC16 }

/-- Lines 186-196: the decision `switchC16` at a branch position `i`. -/
def switchC16 (E : Externals StateDB Address) (proof1 : Rows) (i : Nat)
    (extensionRows : Option (Row × Row)) : Except Fault Bool :=
  match extensionRows with
  | none => .ok true
  | some _ => do
    let prev ← getI .proofList proof1 ((i : Int) - 1)
    if E.getExtensionNodeKeyLen prev = 1 then
      .ok false
    else do
      let marker ← getN .nodeBytes prev 2
      if marker ≠ 0 then .ok false else .ok true

/-- Lines 215-254: the flags written into the branch init row `bRows[0]` when
extension rows are attached to the branch at position `i`. -/
def setExtensionFlags (E : Externals StateDB Address) (proof1 proof2 : Rows) (i : Nat)
    (branchC16 : Nat) (bRows : Rows) : Except Fault Rows := do
  let bRows ← setRowByte bRows 0 E.isExtensionPos 1
  let prevS ← getI .proofList proof1 ((i : Int) - 1)
  let bRows ← (if prevS.length > 56 then setRowByte bRows 0 E.isSExtLongerThan55Pos 1
               else .ok bRows)
  let prevC ← getI .proofList proof2 ((i : Int) - 1)
  let bRows ← (if prevC.length > 56 then setRowByte bRows 0 E.isCExtLongerThan55Pos 1
               else .ok bRows)
  let bRows ← (if prevS.length < 32 then setRowByte bRows 0 E.isExtNodeSNonHashedPos 1
               else .ok bRows)
  let bRows ← (if prevC.length < 32 then setRowByte bRows 0 E.isExtNodeCNonHashedPos 1
               else .ok bRows)
  if E.getExtensionNodeKeyLen prevS = 1 then
    if branchC16 = 1 then setRowByte bRows 0 E.isExtShortC16Pos 1
    else setRowByte bRows 0 E.isExtShortC1Pos 1
  else do
    let marker ← getN .nodeBytes prevS 2
    if marker = 0 then
      if branchC16 = 1 then setRowByte bRows 0 E.isExtLongEvenC16Pos 1
      else setRowByte bRows 0 E.isExtLongEvenC1Pos 1
    else
      if branchC16 = 1 then setRowByte bRows 0 E.isExtLongOddC16Pos 1
      else setRowByte bRows 0 E.isExtLongOddC1Pos 1

/-- Lines 210-262: the extension rows (stashed or empty) appended to the branch
block, the flags, and the extension nodes added for hashing. Returns the block
and the new `toBeHashed`. -/
def attachExtension (E : Externals StateDB Address) (proof1 proof2 : Rows) (i : Nat)
    (branchC16 : Nat) (extensionRows : Option (Row × Row)) (bRows : Rows) (toBeHashed : Rows) :
    Except Fault (Rows × Rows) :=
  match extensionRows with
  | some ext => do
    let bRows ← setExtensionFlags E proof1 proof2 i branchC16 (bRows ++ [ext.1, ext.2])
    let prevS ← getI .proofList proof1 ((i : Int) - 1)
    let prevC ← getI .proofList proof2 ((i : Int) - 1)
    .ok (bRows, addForHashing prevC (addForHashing prevS toBeHashed))
  | none => .ok (bRows ++ E.prepareEmptyExtensionRows false false, toBeHashed)

/-- Lines 274-278: the inner loop of the branch check over `j`, `n` iterations
from `j`. -/
def checkRowBytes (branch2start : Nat) (row : Row) : Nat → Nat → Except Fault Unit
  | 0, _ => .ok ()
  | n + 1, j => do
    let a ← getN .rowBuffer row j
    let b ← getN .rowBuffer row (branch2start + j)
    if a ≠ b then .error .witnessNotProperlyGenerated
    else checkRowBytes branch2start row n (j + 1)

/-- Lines 270-279: the outer loop of the branch check over `k`, `n` iterations
from `k` (the source runs it as 16 iterations from `k = 1`). -/
def checkBranches (branchNodeRLPLen branch2start : Nat) (key : Row) (i : Nat) (bRows : Rows) :
    Nat → Nat → Except Fault Unit
  | 0, _ => .ok ()
  | n + 1, k => do
    let nibble ← getN .keyNibbles key i
    if k - 1 = nibble then
      checkBranches branchNodeRLPLen branch2start key i bRows n (k + 1)
    else do
      let row ← getN .rowsList bRows k
      checkRowBytes branch2start row (branchNodeRLPLen + 32) 0
      checkBranches branchNodeRLPLen branch2start key i bRows n (k + 1)

/-- Lines 160-166: an extension node at position `i` of the common prefix. -/
def walkExtension (E : Externals StateDB Address) (proof1 proof2 extNibblesS : Rows) (i : Nat)
    (st : WalkState) : Run WalkState := do
  let nodeS ← liftE (getN .proofList proof1 i)
  let nodeC ← liftE (getN .proofList proof2 i)
  let ext ← callExt
    (.prepareExtensionRows extNibblesS st.extensionNodeInd nodeS nodeC false false)
    (E.prepareExtensionRows extNibblesS st.extensionNodeInd nodeS nodeC false false)
  Run.pure
    { st with
      keyIndex := st.keyIndex + ext.1 % 256
      extensionNodeInd := st.extensionNodeInd + 1
      extensionRows := some (ext.2.1, ext.2.2) }

/-- Lines 168-184: the leaf at the last position of `proof1`. -/
def walkLeaf (E : Externals StateDB Address) (proof1 proof2 : Rows) (key : Row)
    (isAccountProof nonExistingAccountProof : Bool) (i : Nat) (st : WalkState) :
    Run WalkState :=
  if isAccountProof then do
    let leafS ← liftE (getI .proofList proof1 ((proof1.length : Int) - 1))
    let leafC ← liftE (getI .proofList proof2 ((proof1.length : Int) - 1))
    let leaf ← callExt (.prepareAccountLeaf leafS leafC key nonExistingAccountProof false)
      (E.prepareAccountLeaf leafS leafC key nonExistingAccountProof false)
    Run.pure { st with rows := st.rows ++ leaf.1, toBeHashed := st.toBeHashed ++ leaf.2 }
  else do
    let nodeS ← liftE (getN .proofList proof1 i)
    let leafS ← callExt (.prepareStorageLeafRows nodeS 2 false)
      (E.prepareStorageLeafRows nodeS 2 false)
    let nodeC ← liftE (getN .proofList proof2 i)
    let leafC ← callExt (.prepareStorageLeafRows nodeC 3 false)
      (E.prepareStorageLeafRows nodeC 3 false)
    Run.pure
      { st with
        rows := st.rows ++ leafS.1 ++ leafC.1
        toBeHashed := st.toBeHashed ++ [leafS.2] ++ [leafC.2] }

/-- Lines 186-283: a branch at position `i` of the common prefix. -/
def walkBranch (E : Externals StateDB Address) (proof1 proof2 : Rows) (key : Row) (i : Nat)
    (st : WalkState) : Run WalkState := do
  let sw ← liftE (switchC16 E proof1 i st.extensionRows)
  emitIf sw .flip
  let branchC16 := if sw then (flipPair st.branchC16).1 else st.branchC16
  let branchC1 := if sw then (flipPair st.branchC16).2 else st.branchC1
  let nodeS ← liftE (getN .proofList proof1 i)
  let nodeC ← liftE (getN .proofList proof2 i)
  let nibble ← liftE (getN .keyNibbles key st.keyIndex)
  let bRows ← callExt (.prepareTwoBranches nodeS nodeC nibble branchC16 branchC1 false false)
    (E.prepareTwoBranches nodeS nodeC nibble branchC16 branchC1 false false)
  let blk ← liftE (attachExtension E proof1 proof2 i branchC16 st.extensionRows bRows
    st.toBeHashed)
  emit (.branchBlock i st.extensionNodeInd nibble blk.1)
  liftE (if st.extensionNodeInd = 0 then
      checkBranches E.branchNodeRLPLen E.branch2start key i blk.1 16 1
    else .ok ())
  Run.pure
    { rows := st.rows ++ blk.1
      toBeHashed := addForHashing nodeC (addForHashing nodeS blk.2)
      keyIndex := st.keyIndex + 1
      extensionNodeInd := st.extensionNodeInd
      branchC16 := branchC16
      branchC1 := branchC1
      extensionRows := none }

/-- Lines 158-285: the body of the common-prefix loop at index `i`. -/
def walkStep (E : Externals StateDB Address) (proof1 proof2 extNibblesS : Rows) (key : Row)
    (isAccountProof nonExistingAccountProof : Bool) (i : Nat) (st : WalkState) :
    Run WalkState := do
  let node ← liftE (getN .proofList proof1 i)
  if !E.isBranch node then
    if (i : Int) ≠ (proof1.length : Int) - 1 then
      walkExtension E proof1 proof2 extNibblesS i st
    else
      walkLeaf E proof1 proof2 key isAccountProof nonExistingAccountProof i st
  else
    walkBranch E proof1 proof2 key i st

/-- The loop `for i := ...; i < upTo; i++`: `n` iterations starting at `i`. -/
def walkFrom (E : Externals StateDB Address) (proof1 proof2 extNibblesS : Rows) (key : Row)
    (isAccountProof nonExistingAccountProof : Bool) : Nat → Nat → WalkState → Run WalkState
  | 0, _, st => Run.pure st
  | n + 1, i, st => do
    let st ← walkStep E proof1 proof2 extNibblesS key isAccountProof nonExistingAccountProof i st
    walkFrom E proof1 proof2 extNibblesS key isAccountProof nonExistingAccountProof n (i + 1) st

/-- Lines 119-127 and 152-157: the locals before the loop; the parity pair
starts at `(branchC16, branchC1) = (0, 1)`. -/
def initialState : WalkState :=
  { rows := [], toBeHashed := [], keyIndex := 0, extensionNodeInd := 0,
    branchC16 := 0, branchC1 := 1, extensionRows := none }

/-- Lines 138-145: the flag `additionalBranch`. -/
def additionalBranchOf (E : Externals StateDB Address) (proof1 proof2 : Rows) :
    Except Fault Bool :=
  let len1 := proof1.length
  let len2 := proof2.length
  if len1 < len2 ∧ len1 > 0 then do
    let last ← getI .proofList proof1 ((len1 : Int) - 1)
    .ok (!E.isBranch last)
  else if len2 < len1 ∧ len2 > 0 then do
    let last ← getI .proofList proof2 ((len2 : Int) - 1)
    .ok (!E.isBranch last)
  else .ok false

/-- Lines 122-125 and 147-150: the loop bound `upTo` (a Go `int`). -/
def upToOf (proof1 proof2 : Rows) (additionalBranch : Bool) : Int :=
  let minLen : Int := if proof2.length < proof1.length then proof2.length else proof1.length
  if proof1.length ≠ proof2.length ∧ additionalBranch = true then minLen - 1 else minLen

/-- Lines 119-285: the common-prefix walk of `prepareWitness` from the initial
locals; the loop runs for `0 ≤ i < upTo`. -/
def walk (E : Externals StateDB Address) (proof1 proof2 extNibblesS : Rows) (key : Row)
    (isAccountProof nonExistingAccountProof : Bool) (additionalBranch : Bool) : Run WalkState :=
  walkFrom E proof1 proof2 extNibblesS key isAccountProof nonExistingAccountProof
    (upToOf proof1 proof2 additionalBranch).toNat 0 initialState

/-- Lines 368-370: the loop packing the remaining nibbles into the synthetic
account leaf, `n` iterations from `i`. -/
def fillKeyBytes (remainingNibbles : Row) (offset : Nat) : Nat → Nat → Row → Except Fault Row
  | 0, _, leaf => .ok leaf
  | n + 1, i, leaf => do
    let hi ← getN .keyNibbles remainingNibbles (2 * i + offset)
    let lo ← getN .keyNibbles remainingNibbles (2 * i + 1 + offset)
    let leaf ← setB leaf (4 + (i : Int)) ((hi * 16 + lo) % 256)
    fillKeyBytes remainingNibbles offset n (i + 1) leaf

/-- The Go expression `int(math.Floor(float64(64-keyIndex) / float64(2))) + 1`;
the operands are small integers, for which the float computation is exact. -/
def placeholderKeyLen (keyIndex : Nat) : Int := Int.fdiv (64 - (keyIndex : Int)) 2 + 1

/-- Lines 356-361: the buffer `make([]byte, rowLen)` of the synthetic account
leaf with the bytes that do not depend on the key nibbles. -/
def syntheticAccountLeafHeader (rowLen : Nat) (keyLen : Int) : Except Fault Row := do
  let leaf : Row := List.replicate rowLen 0
  let leaf ← setB leaf 0 248
  let leaf ← setB leaf 2 ((byteOfInt keyLen + 128) % 256)
  let leaf ← setB leaf (3 + keyLen) 184
  let leaf ← setB leaf (3 + keyLen + 1 + 1) 248
  let v ← getI .rowBuffer leaf (3 + keyLen + 1)
  setB leaf (3 + keyLen + 1 + 1 + 1) ((v + 256 - 2) % 256)

/-- Lines 352-370: the synthetic account leaf built at a branch terminus. -/
def syntheticAccountLeaf (rowLen : Nat) (key : Row) (keyIndex : Nat) : Except Fault Row := do
  let isEven : Bool := keyIndex % 2 == 0
  let keyLen := placeholderKeyLen keyIndex
  let remainingNibbles ← sliceFrom key keyIndex
  let leaf ← syntheticAccountLeafHeader rowLen keyLen
  if isEven then do
    let leaf ← setB leaf 3 32
    fillKeyBytes remainingNibbles 0 (keyLen - 1).toNat 0 leaf
  else do
    let first ← getN .keyNibbles remainingNibbles 0
    let leaf ← setB leaf 3 ((first + 48) % 256)
    fillKeyBytes remainingNibbles 1 (keyLen - 1).toNat 0 leaf

/-- Lines 334-344: the non-existing-storage row written at a branch terminus. -/
def branchTerminusStorageRow (emptyRow key : Row) (keyIndex : Nat) : Except Fault Row := do
  let isEven : Bool := keyIndex % 2 == 0
  let keyLen := placeholderKeyLen keyIndex
  let remainingNibbles ← sliceFrom key keyIndex
  let leaf ← setB emptyRow 1 ((byteOfInt keyLen + 128) % 256)
  if isEven then
    setB leaf 2 32
  else do
    let first ← getN .keyNibbles remainingNibbles 0
    setB leaf 2 ((first + 48) % 256)

/-- Lines 319-323: the placeholder storage leaf `make([]byte, rowLen)` with its
first three bytes set. -/
def placeholderStorageLeaf (rowLen : Nat) : Except Fault Row := do
  let leaf : Row := List.replicate rowLen 0
  let leaf ← setB leaf 0 228
  let leaf ← setB leaf 1 130
  setB leaf 2 51

/-- Lines 287-309: the tail of `prepareWitness` when the proof lengths differ.
Returns `rows` and `toBeHashed`. The pair handed to `addModifiedExtNode` is the
`branchC16` returned by `addBranchAndPlaceholder` (declared with `:=` in the
inner block) with the `branchC1` of the walk. -/
def tailUnequal (E : Externals StateDB Address) (statedb : StateDB) (addr : Address)
    (proof1 proof2 extNibblesS extNibblesC : Rows) (key neighbourNode : Row)
    (isAccountProof nonExistingAccountProof isShorterProofLastLeaf additionalBranch : Bool)
    (st : WalkState) : Run (Rows × Rows) :=
  if additionalBranch then do
    let r ← addBranchAndPlaceholder E statedb addr st.rows proof1 proof2 extNibblesS extNibblesC
      key neighbourNode st.keyIndex st.extensionNodeInd additionalBranch isAccountProof
      nonExistingAccountProof isShorterProofLastLeaf st.branchC16 st.branchC1 st.toBeHashed
    let l ←
      (if isAccountProof then
        callExt
          (.addAccountLeafAfterBranchPlaceholder r.isModifiedExtNode r.isExtension r.branchC16
            r.numberOfNibbles)
          (E.addAccountLeafAfterBranchPlaceholder r.rows proof1 proof2 neighbourNode key
            nonExistingAccountProof r.isModifiedExtNode r.isExtension r.branchC16
            r.numberOfNibbles r.toBeHashed)
      else
        callExt
          (.addStorageLeafAfterBranchPlaceholder r.isModifiedExtNode r.isExtension r.branchC16
            r.numberOfNibbles)
          (E.addStorageLeafAfterBranchPlaceholder r.rows proof1 proof2 neighbourNode key
            nonExistingAccountProof r.isModifiedExtNode r.isExtension r.branchC16
            r.numberOfNibbles r.toBeHashed))
    if r.isModifiedExtNode then
      callExt
        (.addModifiedExtNode st.keyIndex st.extensionNodeInd r.numberOfNibbles r.branchC16
          st.branchC1)
        (E.addModifiedExtNode statedb addr l.1 proof1 proof2 extNibblesS extNibblesC key
          neighbourNode st.keyIndex st.extensionNodeInd r.numberOfNibbles additionalBranch
          isAccountProof nonExistingAccountProof isShorterProofLastLeaf r.branchC16 st.branchC1
          l.2)
    else Run.pure l
  else
    callExt (.addLeafAndPlaceholder isAccountProof)
      (E.addLeafAndPlaceholder st.rows proof1 proof2 key nonExistingAccountProof isAccountProof
        st.toBeHashed)

/-- Lines 317-350: both proofs end in the same branch, storage proof. -/
def tailBranchStorage (E : Externals StateDB Address) (key : Row)
    (nonExistingStorageProof : Bool) (st : WalkState) : Run (Rows × Rows) := do
  let leaf ← liftE (placeholderStorageLeaf E.rowLen)
  let leafS ← callExt (.prepareStorageLeafRows leaf 2 false)
    (E.prepareStorageLeafRows leaf 2 false)
  let leafC ← callExt (.prepareStorageLeafRows leaf 3 false)
    (E.prepareStorageLeafRows leaf 3 false)
  let rows := st.rows ++ leafS.1 ++ leafC.1 ++ E.prepareDriftedLeafPlaceholder false
  if nonExistingStorageProof then do
    let last ← liftE (branchTerminusStorageRow E.prepareEmptyNonExistingStorageRow key
      st.keyIndex)
    Run.pure (rows ++ [last], st.toBeHashed)
  else
    Run.pure (rows ++ [E.prepareEmptyNonExistingStorageRow], st.toBeHashed)

/-- Lines 351-377: both proofs end in the same branch, account proof. -/
def tailBranchAccount (E : Externals StateDB Address) (key : Row)
    (nonExistingAccountProof : Bool) (st : WalkState) : Run (Rows × Rows) := do
  let leaf ← liftE (syntheticAccountLeaf E.rowLen key st.keyIndex)
  let leafRows ← callExt (.prepareAccountLeaf leaf leaf key nonExistingAccountProof true)
    (E.prepareAccountLeaf leaf leaf key nonExistingAccountProof true)
  Run.pure (st.rows ++ leafRows.1 ++ E.prepareDriftedLeafPlaceholder true, st.toBeHashed)

/-- Lines 378-393: the proofs have equal length and `proof2` ends in a leaf. -/
def tailLeaf (E : Externals StateDB Address) (key : Row)
    (isAccountProof nonExistingStorageProof : Bool) (st : WalkState) : Run (Rows × Rows) :=
  let rows := st.rows ++ E.prepareDriftedLeafPlaceholder isAccountProof
  if !isAccountProof then
    if nonExistingStorageProof then do
      let cKeyRow ← liftE (getI .rowsList rows ((rows.length : Int) - 3))
      let row ← callExt (.prepareNonExistingStorageRow cKeyRow key false)
        (E.prepareNonExistingStorageRow cKeyRow key false)
      Run.pure (rows ++ [row], st.toBeHashed)
    else
      Run.pure (rows ++ [E.prepareEmptyNonExistingStorageRow], st.toBeHashed)
  else
    Run.pure (rows, st.toBeHashed)

/-- Lines 310-394: the tail of `prepareWitness` when the proof lengths are equal. -/
def tailEqual (E : Externals StateDB Address) (proof2 : Rows) (key : Row)
    (isAccountProof nonExistingAccountProof nonExistingStorageProof : Bool) (st : WalkState) :
    Run (Rows × Rows) := do
  let last ← liftE (getI .proofList proof2 ((proof2.length : Int) - 1))
  if E.isBranch last then
    if !isAccountProof then
      tailBranchStorage E key nonExistingStorageProof st
    else
      tailBranchAccount E key nonExistingAccountProof st
  else
    tailLeaf E key isAccountProof nonExistingStorageProof st

/-- The Go function `prepareWitness` (prepare.go, lines 117-397). -/
def prepareWitness (E : Externals StateDB Address) (statedb : StateDB) (addr : Address)
    (proof1 proof2 extNibblesS extNibblesC : Rows) (key neighbourNode : Row)
    (isAccountProof nonExistingAccountProof nonExistingStorageProof isShorterProofLastLeaf : Bool) :
    Run (Rows × Rows × Bool) := do
  let additionalBranch ← liftE (additionalBranchOf E proof1 proof2)
  let st ← walk E proof1 proof2 extNibblesS key isAccountProof nonExistingAccountProof
    additionalBranch
  let out ←
    (if proof1.length ≠ proof2.length then
      tailUnequal E statedb addr proof1 proof2 extNibblesS extNibblesC key neighbourNode
        isAccountProof nonExistingAccountProof isShorterProofLastLeaf additionalBranch st
    else
      tailEqual E proof2 key isAccountProof nonExistingAccountProof nonExistingStorageProof st)
  Run.pure (out.1, out.2, decide (st.extensionNodeInd > 0))

end

/-- A run `m` logs only events satisfying `P` and, when it returns, returns a
value satisfying `Q`. -/
def Run.Sat {α : Type} (m : Run α) (P : Event → Prop) (Q : α → Prop) : Prop :=
  (∀ e ∈ m.trace, P e) ∧ ∀ a, m.res = .ok a → Q a

/-- The parity pair carried by an event is well formed: `C16 + C1 = 1`, that is,
exactly one of them equals 1. Events that carry no pair to check are accepted. -/
def Event.parityWellFormed : Event → Prop
  | .prepareTwoBranches _ _ _ c16 c1 _ _ =>
      c16 + c1 = 1 ∧ ((c16 = 1 ∧ c1 ≠ 1) ∨ (c16 ≠ 1 ∧ c1 = 1))
  | .prepareParallelBranches _ _ _ _ c16 c1 _ =>
      c16 + c1 = 1 ∧ ((c16 = 1 ∧ c1 ≠ 1) ∨ (c16 ≠ 1 ∧ c1 = 1))
  | .addBranchAndPlaceholder _ _ c16 c1 =>
      c16 + c1 = 1 ∧ ((c16 = 1 ∧ c1 ≠ 1) ∨ (c16 ≠ 1 ∧ c1 = 1))
  | _ => True

/-! ## A small concrete instance of the externals

Used to evaluate the assembler on concrete proofs. Nodes are written
`[249, c0, ..., c15]` for a branch with one byte per child slot and start with
another byte for an extension node or a leaf. -/

namespace Fixture

/-- A row of 68 zero bytes. -/
def zeroRow : Row := List.replicate 68 0

/-- A node is a branch when its first byte is 249. -/
def isBranch (node : Row) : Bool := node.head? == some 249

/-- The key length read from the second byte of an extension node. -/
def getExtensionNodeKeyLen (node : Row) : Nat :=
  if node.getD 1 0 ≤ 32 then 1 else (node.getD 1 0 - 128) % 256

/-- The nibble count is the length of `extNibbles[ind]`; the rows are the nodes. -/
def prepareExtensionRows (extNibbles : Rows) (ind : Nat) (nodeS nodeC : Row) (_ _ : Bool) :
    Option (Nat × Row × Row) :=
  match extNibbles[ind]? with
  | some nibbles => some (nibbles.length, nodeS, nodeC)
  | none => none

/-- Row `k` of a branch block: 34 copies of child byte `k` of the S node, then
34 copies of child byte `k` of the C node. -/
def childRow (nodeS nodeC : Row) (k : Nat) : Row :=
  List.replicate 34 (nodeS.getD k 0) ++ List.replicate 34 (nodeC.getD k 0)

/-- The sixteen child rows of a branch block. -/
def childRows (nodeS nodeC : Row) : Rows :=
  (List.range 16).map (fun k => childRow nodeS nodeC (k + 1))

/-- The branch init row carrying the parity pair and the active nibble, then
the sixteen child rows. -/
def prepareTwoBranches (nodeS nodeC : Row) (nibble c16 c1 : Nat) (_ _ : Bool) : Option Rows :=
  some (([c16, c1, nibble] ++ List.replicate 65 0) :: childRows nodeS nodeC)

/-- The same block, with the side and the modified-extension flag in the init row. -/
def prepareParallelBranches (nodeS nodeC : Row) (nibble : Nat) (isS : Bool) (c16 c1 : Nat)
    (isModifiedExtNode : Bool) : Option (Rows × Row) :=
  some ((([c16, c1, nibble, isS.toNat, isModifiedExtNode.toNat] ++ List.replicate 63 0)
    :: childRows nodeS nodeC), nodeS)

/-- Two rows for an account leaf, and both leaves for hashing. -/
def prepareAccountLeaf (leafS leafC _key : Row) (_ _ : Bool) : Option (Rows × Rows) :=
  some ([leafS, leafC], [leafS, leafC])

/-- A key row and a value row for a storage leaf, tagged with the side, and the
leaf for hashing. -/
def prepareStorageLeafRows (node : Row) (side : Nat) (_ : Bool) : Option (Rows × Row) :=
  some ([side :: node, [side]], node)

/-- The externals of the fixture. The four inserters append one marker row. -/
def externals : Externals Unit Unit where
  rowLen := 68
  branchNodeRLPLen := 2
  branch2start := 34
  isExtensionPos := 4
  isSExtLongerThan55Pos := 5
  isCExtLongerThan55Pos := 6
  isExtNodeSNonHashedPos := 7
  isExtNodeCNonHashedPos := 8
  isExtShortC16Pos := 9
  isExtShortC1Pos := 10
  isExtLongEvenC16Pos := 11
  isExtLongEvenC1Pos := 12
  isExtLongOddC16Pos := 13
  isExtLongOddC1Pos := 14
  isBranch := isBranch
  getExtensionNodeKeyLen := getExtensionNodeKeyLen
  prepareExtensionRows := prepareExtensionRows
  prepareEmptyExtensionRows := fun _ _ => [zeroRow, zeroRow]
  prepareTwoBranches := prepareTwoBranches
  prepareParallelBranches := prepareParallelBranches
  prepareAccountLeaf := prepareAccountLeaf
  prepareStorageLeafRows := prepareStorageLeafRows
  prepareDriftedLeafPlaceholder := fun _ => [zeroRow]
  prepareEmptyNonExistingStorageRow := zeroRow
  prepareNonExistingStorageRow := fun cKeyRow _ _ => some cKeyRow
  addAccountLeafAfterBranchPlaceholder := fun rows _ _ _ _ _ _ _ _ _ tbh => some (rows ++ [[1]], tbh)
  addStorageLeafAfterBranchPlaceholder := fun rows _ _ _ _ _ _ _ _ _ tbh => some (rows ++ [[2]], tbh)
  addModifiedExtNode := fun _ _ rows _ _ _ _ _ _ _ _ _ _ _ _ _ c16 c1 tbh =>
    some (rows ++ [[3, c16, c1]], tbh)
  addLeafAndPlaceholder := fun rows _ _ _ _ _ tbh => some (rows ++ [[4]], tbh)

/-- A branch node whose sixteen child bytes are all `c`. -/
def branchOf (c : Nat) : Row := 249 :: List.replicate 16 c

/-- A branch node whose child bytes are all `c` except child `n`, which is `v`. -/
def branchWith (c n v : Nat) : Row := 249 :: (List.replicate 16 c).set n v

/-- A leaf node. -/
def leafNode (v : Nat) : Row := [226, 32, v]

/-- An extension node with a one-byte key (one nibble). -/
def shortExt : Row := [226, 17, 160]

/-- An extension node with a two-byte key and marker byte 0 (two nibbles). -/
def longEvenExt : Row := [228, 130, 0, 18, 160]

/-- A key of 64 nibbles, all 1, and the terminator 16. -/
def key : Row := List.replicate 64 1 ++ [16]

end Fixture

/-- The two inserters of the tail and the two leaf emitters that follow the
branch-and-placeholder inserter. -/
inductive Inserter
  | addBranchAndPlaceholder
  | addAccountLeafAfterBranchPlaceholder
  | addStorageLeafAfterBranchPlaceholder
  | addLeafAndPlaceholder
  deriving DecidableEq, Repr

/-- The inserter an event is a call of, if any. -/
def Event.inserter? : Event → Option Inserter
  | .addBranchAndPlaceholder _ _ _ _ => some .addBranchAndPlaceholder
  | .addAccountLeafAfterBranchPlaceholder _ _ _ _ => some .addAccountLeafAfterBranchPlaceholder
  | .addStorageLeafAfterBranchPlaceholder _ _ _ _ => some .addStorageLeafAfterBranchPlaceholder
  | .addLeafAndPlaceholder _ => some .addLeafAndPlaceholder
  | _ => none

/-- The inserter calls of a log, in order. -/
def inserterCalls (trace : List Event) : List Inserter := trace.filterMap Event.inserter?

/-- When the run returns, the tagged events of its log are exactly `L`. -/
def Run.Logs {α τ : Type} (tag : Event → Option τ) (m : Run α) (L : List τ) : Prop :=
  ∀ a, m.res = .ok a → m.trace.filterMap tag = L

/-- The shorter of two proofs of different lengths. -/
def shorterProof (proof1 proof2 : Rows) : Rows :=
  if proof1.length < proof2.length then proof1 else proof2

/-- The events the common-prefix walk can log. -/
def Event.isWalkEvent : Event → Prop
  | .prepareExtensionRows _ _ _ _ _ _ => True
  | .prepareTwoBranches _ _ _ _ _ _ _ => True
  | .prepareAccountLeaf _ _ _ _ _ => True
  | .prepareStorageLeafRows _ _ _ => True
  | .flip => True
  | .branchBlock _ _ _ _ => True
  | _ => False

namespace Fixture

/-- Branch split at the root, S side: the leaf that will be displaced. -/
def splitS : Rows := [leafNode 5]

/-- Branch split at the root, C side: the new branch and the new leaf. -/
def splitC : Rows := [branchOf 3, leafNode 6]

end Fixture

/-- The S side and the C side of a branch block agree off the active nibble:
for every `k` in `1..16` with `k - 1 ≠ nibble` and every `j < branchNodeRLPLen + 32`,
`bRows[k][j]` and `bRows[k][branch2start + j]` exist and are equal. -/
def BranchesAgree (branchNodeRLPLen branch2start nibble : Nat) (bRows : Rows) : Prop :=
  ∀ k, 1 ≤ k → k ≤ 16 → k - 1 ≠ nibble → ∀ j, j < branchNodeRLPLen + 32 →
    ∃ row a, bRows[k]? = some row ∧ row[j]? = some a ∧ row[branch2start + j]? = some a

section

variable {StateDB Address : Type}

/-- The parity pair handed to the branch at position `i` of a walk without
extension nodes: `(1, 0)` for even `i`, `(0, 1)` for odd `i`. -/
def parityAt (i : Nat) : Nat × Nat := if i % 2 = 0 then (1, 0) else (0, 1)

/-- Scenario A, as the specification words it: for the branch pairs
`(S[i], C[i])` from position `i` on, the active nibble `key[i]` and the block
`prepareTwoBranches(S[i], C[i], key[i], C16_i, C1_i, false, false)` followed by
`prepareEmptyExtensionRows(false, false)`. Undefined when the key is too short
or a preparer does not return. -/
def updateBranchBlocks (E : Externals StateDB Address) (key : Row) :
    Nat → List (Row × Row) → Option (List (Nat × Rows))
  | _, [] => some []
  | i, p :: rest =>
    match key[i]? with
    | none => none
    | some nibble =>
      match E.prepareTwoBranches p.1 p.2 nibble (parityAt i).1 (parityAt i).2 false false with
      | none => none
      | some blk =>
        match updateBranchBlocks E key (i + 1) rest with
        | none => none
        | some blocks =>
          some ((nibble, blk ++ E.prepareEmptyExtensionRows false false) :: blocks)

/-- Scenario A: the blobs `S[0], C[0], ..., S[n-2], C[n-2]` of the branch pairs. -/
def branchBlobs : List (Row × Row) → Rows
  | [] => []
  | p :: rest => p.1 :: p.2 :: branchBlobs rest

/-- Scenario A: the rows of the blocks, in order. -/
def blockRows : List (Nat × Rows) → Rows
  | [] => []
  | b :: rest => b.2 ++ blockRows rest

end

section

variable {StateDB Address : Type}

/-- Scenario A: the single non-existing-storage row that closes the witness,
given the rows emitted before it. With `nonExistingStorageProof` it is
`prepareNonExistingStorageRow` of the C-side key row, the third row from the
end; otherwise `prepareEmptyNonExistingStorageRow()`. -/
def updateLastRow (E : Externals StateDB Address) (key : Row) (nonExistingStorageProof : Bool)
    (rows : Rows) : Option Row :=
  if nonExistingStorageProof then
    if 3 ≤ rows.length then
      match rows[rows.length - 3]? with
      | some cKeyRow => E.prepareNonExistingStorageRow cKeyRow key false
      | none => none
    else none
  else some E.prepareEmptyNonExistingStorageRow

namespace Fixture

/-- Scenario A, S side: the root branch and the leaf before the update. -/
def updateS : Rows := [branchWith 7 1 8, leafNode 5]

/-- Scenario A, C side: the root branch and the leaf after the update. -/
def updateC : Rows := [branchWith 7 1 9, leafNode 6]

end Fixture

end

section

variable {StateDB Address : Type}

/-- The events the tail of `prepareWitness` can log: every event except the
two that belong to a branch position of the walk. -/
def Event.isTailEvent : Event → Prop
  | .prepareTwoBranches _ _ _ _ _ _ _ => False
  | .branchBlock _ _ _ _ => False
  | _ => True

/-- The tail of `prepareWitness` (lines 287-394) from the locals left by the walk. -/
def tailOf (E : Externals StateDB Address) (statedb : StateDB) (addr : Address)
    (proof1 proof2 extNibblesS extNibblesC : Rows) (key neighbourNode : Row)
    (isAccountProof nonExistingAccountProof nonExistingStorageProof isShorterProofLastLeaf
      additionalBranch : Bool) (st : WalkState) : Run (Rows × Rows) :=
  if proof1.length ≠ proof2.length then
    tailUnequal E statedb addr proof1 proof2 extNibblesS extNibblesC key neighbourNode
      isAccountProof nonExistingAccountProof isShorterProofLastLeaf additionalBranch st
  else
    tailEqual E proof2 key isAccountProof nonExistingAccountProof nonExistingStorageProof st

namespace Fixture

/-- A walk through an extension node, S side: a one-nibble extension node, the
branch below it and a leaf. -/
def extS : Rows := [shortExt, branchOf 7, leafNode 5]

/-- The C side of the same walk; the branch differs from the S branch in every
child. -/
def extC : Rows := [shortExt, branchOf 8, leafNode 6]

end Fixture

end

namespace Fixture

/-- Both proofs are an extension node and the branch below it. -/
def extTerminus : Rows := [longEvenExt, branchOf 7]

end Fixture

/-- The `isModifiedExtNode` flag of a `prepareParallelBranches` call. -/
def Event.parallelFlag? : Event → Option Bool
  | .prepareParallelBranches _ _ _ _ _ _ isModifiedExtNode => some isModifiedExtNode
  | _ => none

/-- Marks the calls of `addModifiedExtNode`. -/
def Event.modifiedExtNode? : Event → Option Unit
  | .addModifiedExtNode _ _ _ _ _ => some ()
  | _ => none

/-- The events `addBranchAndPlaceholder` logs before its call of
`prepareParallelBranches`, apart from its own entry mark. -/
def Event.isExtensionPartEvent : Event → Prop
  | .flip => True
  | .prepareExtensionRows _ _ _ _ _ _ => True
  | _ => False

namespace Fixture

/-- A modified extension node, S side: the proof stops at the old extension node. -/
def modifiedS : Rows := [longEvenExt]

/-- A modified extension node, C side: the new branch and the new leaf. -/
def modifiedC : Rows := [branchOf 3, leafNode 6]

end Fixture

section

variable {StateDB Address : Type}

/-- The number of flips of the parity pair in a log. -/
def flipCount (trace : List Event) : Nat := trace.count Event.flip

/-- Position `i` of `proof1` is a branch at which the walk flips the pair: a
branch that is not preceded by an extension node with key length 1 or with a
non-zero marker byte `node[2]`. -/
def switchesAt (E : Externals StateDB Address) (proof1 : Rows) (i : Nat) : Bool :=
  match proof1[i]? with
  | none => false
  | some node =>
    E.isBranch node &&
      (match (if i = 0 then none else proof1[i - 1]?) with
       | none => true
       | some prev =>
         E.isBranch prev || (E.getExtensionNodeKeyLen prev != 1 && prev.getD 2 0 == 0))

/-- The number of branch positions `i < upTo` of `proof1`. -/
def branchesWalked (E : Externals StateDB Address) (proof1 : Rows) (upTo : Nat) : Nat :=
  ((List.range upTo).filter fun i =>
    match proof1[i]? with
    | some node => E.isBranch node
    | none => false).length

/-- The number of `prepareExtensionRows` calls in a log that returned an even
nibble count. -/
def evenExtensionCalls (E : Externals StateDB Address) (trace : List Event) : Nat :=
  (trace.filter fun e =>
    match e with
    | .prepareExtensionRows extNibbles ind nodeS nodeC phS phC =>
      (match E.prepareExtensionRows extNibbles ind nodeS nodeC phS phC with
       | some r => r.1 % 256 % 2 == 0
       | none => false)
    | _ => false).length

namespace Fixture

/-- A walk through a two-nibble extension node: the extension node, the branch
below it and a leaf (used for both sides). -/
def evenExtProof : Rows := [longEvenExt, branchOf 7, leafNode 5]

end Fixture

end

section

variable {StateDB Address : Type}

namespace Fixture

/-- Five proof elements: an extension node, a branch, an extension node, a
branch and a leaf. -/
def twoBranches : Rows := [shortExt, branchOf 7, shortExt, branchOf 7, leafNode 5]

end Fixture

end

section

variable {StateDB Address : Type}

/-- The value of `additionalBranch` on an input (lines 138-145). -/
def additionalBranchFlag (E : Externals StateDB Address) (proof1 proof2 : Rows) : Bool :=
  match additionalBranchOf E proof1 proof2 with
  | .ok b => b
  | .error _ => false

/-- The number of positions the common-prefix walk visits: `upTo`. -/
def walkedPositions (E : Externals StateDB Address) (proof1 proof2 : Rows) : Nat :=
  (upToOf proof1 proof2 (additionalBranchFlag E proof1 proof2)).toNat

namespace Fixture

end Fixture

end

section

variable {StateDB Address : Type}

/-- Position `i` of `proof1` holds an extension node of the walk: `proof1[i]` is
not a branch and `i` is not the last index of `proof1` (lines 159-160). -/
def isExtensionAt (E : Externals StateDB Address) (proof1 : Rows) (i : Nat) : Bool :=
  match proof1[i]? with
  | some node => !E.isBranch node && decide (i + 1 ≠ proof1.length)
  | none => false

/-- The extension-node positions `i < upTo` of `proof1`, in increasing order. -/
def extensionPositions (E : Externals StateDB Address) (proof1 : Rows) (upTo : Nat) : List Nat :=
  (List.range upTo).filter (isExtensionAt E proof1)

/-- The arguments of a `prepareExtensionRows` call. -/
def Event.extensionCall? : Event → Option (Rows × Nat × Row × Row × Bool × Bool)
  | .prepareExtensionRows extNibbles ind nodeS nodeC phS phC =>
    some (extNibbles, ind, nodeS, nodeC, phS, phC)
  | _ => none

/-- The calls `prepareExtensionRows(extNibblesS, m, proof1[i], proof2[i], false, false)`
for the positions `i` of a list, numbered `m = first, first + 1, ...`. -/
def expectedExtensionCalls (proof1 proof2 extNibblesS : Rows) :
    Nat → List Nat → List (Rows × Nat × Row × Row × Bool × Bool)
  | _, [] => []
  | m, i :: rest =>
    (extNibblesS, m, proof1.getD i [], proof2.getD i [], false, false) ::
      expectedExtensionCalls proof1 proof2 extNibblesS (m + 1) rest

/-- The proof lengths differ by exactly 2 (line 23). -/
def lengthsDifferByTwo (proof1 proof2 : Rows) : Bool :=
  (proof1.length == proof2.length + 2) || (proof2.length == proof1.length + 2)

namespace Fixture

/-- A branch split below a new extension node, C side: the extension node, the
new branch and the new leaf. -/
def splitExtC : Rows := [shortExt, branchOf 3, leafNode 6]

end Fixture

end
section

variable {StateDB Address : Type}

/-- The proof `addBranchAndPlaceholder` reads the branch and the extension node
from: `proof1` when `len1 > len2`, else `proof2` (lines 37, 49, 100). -/
def longerProof (proof1 proof2 : Rows) : Rows :=
  if proof1.length > proof2.length then proof1 else proof2

/-- The nibble streams that go with `longerProof` (lines 37-43). -/
def longerNibbles (proof1 proof2 extNibblesS extNibblesC : Rows) : Rows :=
  if proof1.length > proof2.length then extNibblesS else extNibblesC

end

/-- The `C16` value of a `prepareParallelBranches` call. -/
def Event.parallelC16? : Event → Option Nat
  | .prepareParallelBranches _ _ _ _ c16 _ _ => some c16
  | _ => none

namespace Fixture

/-- The locals of the walk after a two-nibble extension node at position 0. -/
def afterLongEvenExt : WalkState :=
  { rows := [], toBeHashed := [], keyIndex := 2, extensionNodeInd := 1, branchC16 := 0,
    branchC1 := 1, extensionRows := some (longEvenExt, longEvenExt) }

end Fixture

/-- The eleven named flags of the branch init row that lines 215-254 write. -/
inductive ExtensionFlag
  | isExtension
  | isSExtLongerThan55
  | isCExtLongerThan55
  | isExtNodeSNonHashed
  | isExtNodeCNonHashed
  | isExtShortC16
  | isExtShortC1
  | isExtLongEvenC16
  | isExtLongEvenC1
  | isExtLongOddC16
  | isExtLongOddC1
  deriving DecidableEq, Repr

/-- The six flags that tell the kind of the extension node. -/
def kindFlags : List ExtensionFlag :=
  [.isExtShortC16, .isExtShortC1, .isExtLongEvenC16, .isExtLongEvenC1, .isExtLongOddC16,
    .isExtLongOddC1]

/-- The four flags derived from the lengths of the two extension nodes. -/
def lengthFlags : List ExtensionFlag :=
  [.isSExtLongerThan55, .isCExtLongerThan55, .isExtNodeSNonHashed, .isExtNodeCNonHashed]

/-- All eleven flags. -/
def allFlags : List ExtensionFlag := .isExtension :: (lengthFlags ++ kindFlags)

section

variable {StateDB Address : Type}

/-- The byte offset of a flag in the branch init row. -/
def flagPos (E : Externals StateDB Address) : ExtensionFlag → Nat
  | .isExtension => E.isExtensionPos
  | .isSExtLongerThan55 => E.isSExtLongerThan55Pos
  | .isCExtLongerThan55 => E.isCExtLongerThan55Pos
  | .isExtNodeSNonHashed => E.isExtNodeSNonHashedPos
  | .isExtNodeCNonHashed => E.isExtNodeCNonHashedPos
  | .isExtShortC16 => E.isExtShortC16Pos
  | .isExtShortC1 => E.isExtShortC1Pos
  | .isExtLongEvenC16 => E.isExtLongEvenC16Pos
  | .isExtLongEvenC1 => E.isExtLongEvenC1Pos
  | .isExtLongOddC16 => E.isExtLongOddC16Pos
  | .isExtLongOddC1 => E.isExtLongOddC1Pos

/-- The kind flag the specification selects for an extension node `prevS` and
the parity `branchC16` after the flip: key length 1 is Short; otherwise marker
byte `prevS[2]` zero is LongEven and non-zero is LongOdd; `branchC16 = 1` takes
the C16 variant, anything else the C1 variant. -/
def selectedKindFlag (E : Externals StateDB Address) (prevS : Row) (branchC16 : Nat) :
    ExtensionFlag :=
  if E.getExtensionNodeKeyLen prevS = 1 then
    if branchC16 = 1 then .isExtShortC16 else .isExtShortC1
  else if prevS.getD 2 0 = 0 then
    if branchC16 = 1 then .isExtLongEvenC16 else .isExtLongEvenC1
  else
    if branchC16 = 1 then .isExtLongOddC16 else .isExtLongOddC1

/-- The flags the specification has set for the extension nodes `prevS`
(`proof1[i-1]`) and `prevC` (`proof2[i-1]`), in the order of the source:
`isExtension`; longer-than-55 for a node of more than 56 bytes; non-hashed for a
node of fewer than 32 bytes; the selected kind flag. -/
def flagsSet (E : Externals StateDB Address) (prevS prevC : Row) (branchC16 : Nat) :
    List ExtensionFlag :=
  [.isExtension] ++
  (if prevS.length > 56 then [.isSExtLongerThan55] else []) ++
  (if prevC.length > 56 then [.isCExtLongerThan55] else []) ++
  (if prevS.length < 32 then [.isExtNodeSNonHashed] else []) ++
  (if prevC.length < 32 then [.isExtNodeCNonHashed] else []) ++
  [selectedKindFlag E prevS branchC16]

/-- The row after the byte of every flag of a list has been set to 1. -/
def writeFlags (E : Externals StateDB Address) (row : Row) : List ExtensionFlag → Row
  | [] => row
  | f :: rest => writeFlags E (row.set (flagPos E f) 1) rest

end

/-- A branch block has an off-active-nibble mismatch: for some `k` in `1..16` with
`k - 1 ≠ nibble` and some `j < branchNodeRLPLen + 32`, the bytes `bRows[k][j]` and
`bRows[k][branch2start + j]` exist and differ. -/
def BranchesMismatch (branchNodeRLPLen branch2start nibble : Nat) (bRows : Rows) : Prop :=
  ∃ k j row a b, 1 ≤ k ∧ k ≤ 16 ∧ k - 1 ≠ nibble ∧ j < branchNodeRLPLen + 32 ∧
    bRows[k]? = some row ∧ row[j]? = some a ∧ row[branch2start + j]? = some b ∧ a ≠ b

/-- Rows `1..16` of a branch block exist and are wide enough for the check: each
has at least `branch2start + branchNodeRLPLen + 32` bytes. -/
def BlockShaped (branchNodeRLPLen branch2start : Nat) (bRows : Rows) : Prop :=
  ∀ k, 1 ≤ k → k ≤ 16 →
    ∃ row, bRows[k]? = some row ∧ branch2start + (branchNodeRLPLen + 32) ≤ row.length

/-- A step that faults does not fault with "witness not properly generated". -/
def NoCheckStep {α : Type} (r : Except Fault α) : Prop :=
  r ≠ .error .witnessNotProperlyGenerated

/-- A run that faults does not fault with "witness not properly generated". -/
def Run.NoCheckFault {α : Type} (m : Run α) : Prop :=
  m.res ≠ .error .witnessNotProperlyGenerated

/-- Marks the branch blocks emitted by the walk. -/
def Event.isBranchBlock : Event → Prop
  | .branchBlock _ _ _ _ => True
  | _ => False

namespace Fixture

/-- Scenario A with a second difference between the two root branches, at child
2, off the active nibble 1. -/
def mismatchC : Rows := [(branchWith 7 1 9).set 3 9, leafNode 6]

end Fixture

/-- The nibbles of a list packed pairwise into bytes, `high * 16 + low`. -/
def packNibbles : List Nat → List Nat
  | hi :: lo :: rest => (hi * 16 + lo) :: packNibbles rest
  | _ => []

/-- The hex-prefix (compact) encoding of the key of a leaf: the first byte is 32
for an even number of nibbles and `48 + first nibble` for an odd number; the
other nibbles follow packed pairwise. -/
def hexPrefixLeaf (nibbles : List Nat) : List Nat :=
  if nibbles.length % 2 = 0 then 32 :: packNibbles nibbles
  else
    match nibbles with
    | first :: rest => (48 + first) :: packNibbles rest
    | [] => []

/-- Marks the entry of `addBranchAndPlaceholder`. -/
def Event.placeholderEntry? : Event → Option Unit
  | .addBranchAndPlaceholder _ _ _ _ => some ()
  | _ => none

/-- A step does not stop with an out-of-range index into a proof list. -/
def ProofIndexSafeStep {α : Type} (r : Except Fault α) : Prop :=
  r ≠ .error (.indexOutOfRange .proofList)

/-- A run does not stop with an out-of-range index into a proof list. -/
def Run.ProofIndexSafe {α : Type} (m : Run α) : Prop :=
  m.res ≠ .error (.indexOutOfRange .proofList)

section

variable {StateDB Address : Type}

/-- The test the walk applies at a branch to the extension node before it
(lines 188-195): key length 1, or a non-zero marker byte `node[2]`. -/
def oddExtension (E : Externals StateDB Address) (node : Row) : Bool :=
  E.getExtensionNodeKeyLen node == 1 || node.getD 2 0 != 0

/-- Among the first `n` positions of `proof1`, every node that is not a branch
and has a position after it is followed by a branch. -/
def ExtensionsFollowedByBranch (E : Externals StateDB Address) (proof1 : Rows) (n : Nat) : Prop :=
  ∀ i node, i + 1 < n → proof1[i]? = some node → E.isBranch node = false →
    ∃ next, proof1[i + 1]? = some next ∧ E.isBranch next = true

/-- Every call of `prepareExtensionRows` in a log returns a nibble count (a
byte) that is odd exactly when the key length of the node it was given is 1 or
the marker byte `node[2]` of that node is not 0. -/
def NibbleCountParity (E : Externals StateDB Address) (trace : List Event) : Prop :=
  ∀ (extNibbles : Rows) (ind : Nat) (nodeS nodeC : Row) (phS phC : Bool)
    (ext : Nat × Row × Row),
    Event.prepareExtensionRows extNibbles ind nodeS nodeC phS phC ∈ trace →
    E.prepareExtensionRows extNibbles ind nodeS nodeC phS phC = some ext →
    ((ext.1 % 256) % 2 = 1 ↔ (E.getExtensionNodeKeyLen nodeS = 1 ∨ nodeS.getD 2 0 ≠ 0))

/-- The invariant of the loop before position `i`: the pair is well formed; with
nothing stashed it tracks the key position; with the rows of the extension node
`proof1[i-1]` stashed, it tracks the key position before that node, which
differs from `keyIndex` in parity exactly when the node passes the test
`oddExtension`. -/
def WalkParity (E : Externals StateDB Address) (proof1 : Rows) (i : Nat) (st : WalkState) :
    Prop :=
  st.branchC1 = 1 - st.branchC16 ∧
  match st.extensionRows with
  | none => st.branchC16 = st.keyIndex % 2
  | some _ =>
    0 < i ∧ i ≠ proof1.length ∧ ∃ prev, proof1[i - 1]? = some prev ∧
      E.isBranch prev = false ∧
      st.branchC16 = (st.keyIndex + (if oddExtension E prev then 1 else 0)) % 2

/-- The nibbles of the key a call of the walk consumes: 1 for a branch
(`prepareTwoBranches`), the nibble count returned for an extension node
(`prepareExtensionRows`), 0 otherwise. -/
def Event.nibblesConsumed (E : Externals StateDB Address) : Event → Nat
  | .prepareTwoBranches _ _ _ _ _ _ _ => 1
  | .prepareExtensionRows extNibbles ind nodeS nodeC isPlaceholderS isPlaceholderC =>
    match E.prepareExtensionRows extNibbles ind nodeS nodeC isPlaceholderS isPlaceholderC with
    | some ext => ext.1 % 256
    | none => 0
  | _ => 0

end

namespace Fixture

/-- A chain of mixed parity (used for both sides): a one-nibble extension node
and its branch, then twice a two-nibble extension node and its branch. -/
def mixedChain : Rows :=
  [shortExt, branchOf 7, longEvenExt, branchOf 7, longEvenExt, branchOf 7]

end Fixture

/-! ## Theorems -/

section

variable {StateDB Address : Type}

theorem Run.bind_def {α β : Type} (m : Run α) (f : α → Run β) : m >>= f = Run.bind m f := rfl

theorem Run.sat_bind {α β : Type} {P : Event → Prop} {Q : α → Prop} {R : β → Prop}
    {m : Run α} {f : α → Run β} (hm : m.Sat P Q) (hf : ∀ a, Q a → (f a).Sat P R) :
    (m >>= f).Sat P R := by
  rw [Run.bind_def]
  unfold Run.bind
  cases hres : m.res with
  | error x =>
    refine ⟨fun e he => hm.1 e he, fun a ha => ?_⟩
    simp at ha
  | ok a =>
    have hq := hm.2 a hres
    refine ⟨fun e he => ?_, fun b hb => (hf a hq).2 b hb⟩
    simp only [List.mem_append] at he
    rcases he with he | he
    · exact hm.1 e he
    · exact (hf a hq).1 e he

theorem Run.sat_pure {α : Type} {P : Event → Prop} {Q : α → Prop} {a : α} (h : Q a) :
    (Run.pure a).Sat P Q := by
  refine ⟨fun e he => ?_, fun b hb => ?_⟩
  · simp [Run.pure] at he
  · simp only [Run.pure, Except.ok.injEq] at hb
    exact hb ▸ h

theorem Run.sat_liftE {α : Type} {P : Event → Prop} {Q : α → Prop} {r : Except Fault α}
    (h : ∀ a, r = .ok a → Q a) : (liftE r).Sat P Q := by
  refine ⟨fun e he => ?_, fun b hb => h b hb⟩
  simp [liftE] at he

theorem Run.sat_emit {P : Event → Prop} {Q : Unit → Prop} {e : Event} (he : P e) (hq : Q ()) :
    (emit e).Sat P Q := by
  refine ⟨fun e' he' => ?_, fun _ _ => hq⟩
  simp only [emit, List.mem_singleton] at he'
  exact he' ▸ he

theorem Run.sat_emitIf {P : Event → Prop} {Q : Unit → Prop} {b : Bool} {e : Event}
    (he : b = true → P e) (hq : Q ()) : (emitIf b e).Sat P Q := by
  unfold emitIf
  split
  · exact Run.sat_emit (he ‹_›) hq
  · exact Run.sat_pure hq

theorem Run.sat_callExt {α : Type} {P : Event → Prop} {Q : α → Prop} {e : Event}
    {r : Option α} (he : P e) (hq : ∀ a, r = some a → Q a) : (callExt e r).Sat P Q := by
  refine ⟨fun e' he' => ?_, fun a ha => ?_⟩
  · simp only [callExt, List.mem_singleton] at he'
    exact he' ▸ he
  · cases r with
    | none => simp [callExt] at ha
    | some x =>
      simp only [callExt, Except.ok.injEq] at ha
      exact hq a (by rw [ha])

theorem Run.Sat.mono {α : Type} {P P' : Event → Prop} {Q Q' : α → Prop} {m : Run α}
    (h : m.Sat P Q) (hP : ∀ e, P e → P' e) (hQ : ∀ a, Q a → Q' a) : m.Sat P' Q' :=
  ⟨fun e he => hP e (h.1 e he), fun a ha => hQ a (h.2 a ha)⟩

theorem flipPair_sum (c : Nat) : (flipPair c).1 + (flipPair c).2 = 1 := by
  unfold flipPair; split <;> rfl

theorem parity_cases {c16 c1 : Nat} (h : c16 + c1 = 1) :
    c16 + c1 = 1 ∧ ((c16 = 1 ∧ c1 ≠ 1) ∨ (c16 ≠ 1 ∧ c1 = 1)) := by
  refine ⟨h, ?_⟩
  omega

theorem addBranchExtensionPart_parity (E : Externals StateDB Address)
    (proof1 proof2 extNibblesS extNibblesC : Rows) (extensionNodeInd branchC16 branchC1 : Nat)
    (toBeHashed : Rows) (h : branchC16 + branchC1 = 1) :
    (addBranchExtensionPart E proof1 proof2 extNibblesS extNibblesC extensionNodeInd branchC16
      branchC1 toBeHashed).Sat Event.parityWellFormed
      (fun p => p.branchC16 + p.branchC1 = 1) := by
  unfold addBranchExtensionPart
  simp only []
  split
  · exact Run.sat_bind (Q := fun _ => True) (Run.sat_emit trivial trivial)
      (fun _ _ => Run.sat_pure (flipPair_sum _))
  · refine Run.sat_bind (Q := fun _ => True) (Run.sat_liftE (fun _ _ => trivial)) (fun node _ => ?_)
    refine Run.sat_bind (Q := fun _ => True) (Run.sat_callExt trivial (fun _ _ => trivial))
      (fun ext _ => ?_)
    split
    · exact Run.sat_bind (Q := fun _ => True) (Run.sat_emit trivial trivial)
        (fun _ _ => Run.sat_pure (flipPair_sum _))
    · exact Run.sat_pure h

theorem addBranchAndPlaceholder_parity (E : Externals StateDB Address) (statedb : StateDB)
    (addr : Address) (rows proof1 proof2 extNibblesS extNibblesC : Rows) (key neighbourNode : Row)
    (keyIndex extensionNodeInd : Nat)
    (additionalBranch isAccountProof nonExistingAccountProof isShorterProofLastLeaf : Bool)
    (branchC16 branchC1 : Nat) (toBeHashed : Rows) (h : branchC16 + branchC1 = 1) :
    (addBranchAndPlaceholder E statedb addr rows proof1 proof2 extNibblesS extNibblesC key
      neighbourNode keyIndex extensionNodeInd additionalBranch isAccountProof
      nonExistingAccountProof isShorterProofLastLeaf branchC16 branchC1 toBeHashed).Sat
      Event.parityWellFormed (fun _ => True) := by
  unfold addBranchAndPlaceholder
  refine Run.sat_bind (Q := fun _ => True) (Run.sat_emit (parity_cases h) trivial) (fun _ _ => ?_)
  refine Run.sat_bind (addBranchExtensionPart_parity E proof1 proof2 extNibblesS extNibblesC
    extensionNodeInd branchC16 branchC1 toBeHashed h) (fun p hp => ?_)
  refine Run.sat_bind (Q := fun _ => True) (Run.sat_liftE (fun _ _ => trivial)) (fun _ _ => ?_)
  refine Run.sat_bind (Q := fun _ => True) (Run.sat_liftE (fun _ _ => trivial)) (fun _ _ => ?_)
  refine Run.sat_bind (Q := fun _ => True) (Run.sat_liftE (fun _ _ => trivial)) (fun _ _ => ?_)
  refine Run.sat_bind (Q := fun _ => True) (Run.sat_callExt (parity_cases hp)
    (fun _ _ => trivial)) (fun _ _ => ?_)
  exact Run.sat_pure trivial

theorem walkBranch_parity (E : Externals StateDB Address) (proof1 proof2 : Rows) (key : Row)
    (i : Nat) (st : WalkState) (h : st.branchC16 + st.branchC1 = 1) :
    (walkBranch E proof1 proof2 key i st).Sat Event.parityWellFormed
      (fun st' => st'.branchC16 + st'.branchC1 = 1) := by
  unfold walkBranch
  refine Run.sat_bind (Q := fun _ => True) (Run.sat_liftE (fun _ _ => trivial)) (fun sw _ => ?_)
  refine Run.sat_bind (Q := fun _ => True) (Run.sat_emitIf (fun _ => trivial) trivial)
    (fun _ _ => ?_)
  have hp : (if sw = true then (flipPair st.branchC16).1 else st.branchC16) +
      (if sw = true then (flipPair st.branchC16).2 else st.branchC1) = 1 := by
    split
    · exact flipPair_sum _
    · exact h
  refine Run.sat_bind (Q := fun _ => True) (Run.sat_liftE (fun _ _ => trivial)) (fun _ _ => ?_)
  refine Run.sat_bind (Q := fun _ => True) (Run.sat_liftE (fun _ _ => trivial)) (fun _ _ => ?_)
  refine Run.sat_bind (Q := fun _ => True) (Run.sat_liftE (fun _ _ => trivial)) (fun _ _ => ?_)
  refine Run.sat_bind (Q := fun _ => True) (Run.sat_callExt (parity_cases hp)
    (fun _ _ => trivial)) (fun _ _ => ?_)
  refine Run.sat_bind (Q := fun _ => True) (Run.sat_liftE (fun _ _ => trivial)) (fun _ _ => ?_)
  refine Run.sat_bind (Q := fun _ => True) (Run.sat_emit trivial trivial) (fun _ _ => ?_)
  refine Run.sat_bind (Q := fun _ => True) (Run.sat_liftE (fun _ _ => trivial)) (fun _ _ => ?_)
  exact Run.sat_pure hp

theorem walkExtension_parity (E : Externals StateDB Address) (proof1 proof2 extNibblesS : Rows)
    (i : Nat) (st : WalkState) (h : st.branchC16 + st.branchC1 = 1) :
    (walkExtension E proof1 proof2 extNibblesS i st).Sat Event.parityWellFormed
      (fun st' => st'.branchC16 + st'.branchC1 = 1) := by
  unfold walkExtension
  refine Run.sat_bind (Q := fun _ => True) (Run.sat_liftE (fun _ _ => trivial)) (fun _ _ => ?_)
  refine Run.sat_bind (Q := fun _ => True) (Run.sat_liftE (fun _ _ => trivial)) (fun _ _ => ?_)
  refine Run.sat_bind (Q := fun _ => True) (Run.sat_callExt trivial (fun _ _ => trivial))
    (fun _ _ => ?_)
  exact Run.sat_pure h

theorem walkLeaf_parity (E : Externals StateDB Address) (proof1 proof2 : Rows) (key : Row)
    (isAccountProof nonExistingAccountProof : Bool) (i : Nat) (st : WalkState)
    (h : st.branchC16 + st.branchC1 = 1) :
    (walkLeaf E proof1 proof2 key isAccountProof nonExistingAccountProof i st).Sat
      Event.parityWellFormed (fun st' => st'.branchC16 + st'.branchC1 = 1) := by
  unfold walkLeaf
  split
  · refine Run.sat_bind (Q := fun _ => True) (Run.sat_liftE (fun _ _ => trivial)) (fun _ _ => ?_)
    refine Run.sat_bind (Q := fun _ => True) (Run.sat_liftE (fun _ _ => trivial)) (fun _ _ => ?_)
    refine Run.sat_bind (Q := fun _ => True) (Run.sat_callExt trivial (fun _ _ => trivial))
      (fun _ _ => ?_)
    exact Run.sat_pure h
  · refine Run.sat_bind (Q := fun _ => True) (Run.sat_liftE (fun _ _ => trivial)) (fun _ _ => ?_)
    refine Run.sat_bind (Q := fun _ => True) (Run.sat_callExt trivial (fun _ _ => trivial))
      (fun _ _ => ?_)
    refine Run.sat_bind (Q := fun _ => True) (Run.sat_liftE (fun _ _ => trivial)) (fun _ _ => ?_)
    refine Run.sat_bind (Q := fun _ => True) (Run.sat_callExt trivial (fun _ _ => trivial))
      (fun _ _ => ?_)
    exact Run.sat_pure h

theorem walkStep_parity (E : Externals StateDB Address) (proof1 proof2 extNibblesS : Rows)
    (key : Row) (isAccountProof nonExistingAccountProof : Bool) (i : Nat) (st : WalkState)
    (h : st.branchC16 + st.branchC1 = 1) :
    (walkStep E proof1 proof2 extNibblesS key isAccountProof nonExistingAccountProof i st).Sat
      Event.parityWellFormed (fun st' => st'.branchC16 + st'.branchC1 = 1) := by
  unfold walkStep
  refine Run.sat_bind (Q := fun _ => True) (Run.sat_liftE (fun _ _ => trivial)) (fun _ _ => ?_)
  split
  · split
    · exact walkExtension_parity E proof1 proof2 extNibblesS i st h
    · exact walkLeaf_parity E proof1 proof2 key isAccountProof nonExistingAccountProof i st h
  · exact walkBranch_parity E proof1 proof2 key i st h

theorem walkFrom_parity (E : Externals StateDB Address) (proof1 proof2 extNibblesS : Rows)
    (key : Row) (isAccountProof nonExistingAccountProof : Bool) (n : Nat) :
    ∀ (i : Nat) (st : WalkState), st.branchC16 + st.branchC1 = 1 →
    (walkFrom E proof1 proof2 extNibblesS key isAccountProof nonExistingAccountProof n i st).Sat
      Event.parityWellFormed (fun st' => st'.branchC16 + st'.branchC1 = 1) := by
  induction n with
  | zero => intro i st h; exact Run.sat_pure h
  | succ n ih =>
    intro i st h
    unfold walkFrom
    exact Run.sat_bind (walkStep_parity E proof1 proof2 extNibblesS key isAccountProof
      nonExistingAccountProof i st h) (fun st' h' => ih (i + 1) st' h')

theorem tailUnequal_parity (E : Externals StateDB Address) (statedb : StateDB) (addr : Address)
    (proof1 proof2 extNibblesS extNibblesC : Rows) (key neighbourNode : Row)
    (isAccountProof nonExistingAccountProof isShorterProofLastLeaf additionalBranch : Bool)
    (st : WalkState) (h : st.branchC16 + st.branchC1 = 1) :
    (tailUnequal E statedb addr proof1 proof2 extNibblesS extNibblesC key neighbourNode
      isAccountProof nonExistingAccountProof isShorterProofLastLeaf additionalBranch st).Sat
      Event.parityWellFormed (fun _ => True) := by
  unfold tailUnequal
  split
  · refine Run.sat_bind (addBranchAndPlaceholder_parity E statedb addr st.rows proof1 proof2
      extNibblesS extNibblesC key neighbourNode st.keyIndex st.extensionNodeInd _ _ _ _
      st.branchC16 st.branchC1 st.toBeHashed h) (fun r _ => ?_)
    refine Run.sat_bind (Q := fun _ => True) ?_ (fun l _ => ?_)
    · split
      · exact Run.sat_callExt trivial (fun _ _ => trivial)
      · exact Run.sat_callExt trivial (fun _ _ => trivial)
    · split
      · exact Run.sat_callExt trivial (fun _ _ => trivial)
      · exact Run.sat_pure trivial
  · exact Run.sat_callExt trivial (fun _ _ => trivial)

theorem tailEqual_parity (E : Externals StateDB Address) (proof2 : Rows) (key : Row)
    (isAccountProof nonExistingAccountProof nonExistingStorageProof : Bool) (st : WalkState) :
    (tailEqual E proof2 key isAccountProof nonExistingAccountProof nonExistingStorageProof st).Sat
      Event.parityWellFormed (fun _ => True) := by
  unfold tailEqual
  refine Run.sat_bind (Q := fun _ => True) (Run.sat_liftE (fun _ _ => trivial)) (fun _ _ => ?_)
  split
  · split
    · unfold tailBranchStorage
      refine Run.sat_bind (Q := fun _ => True) (Run.sat_liftE (fun _ _ => trivial)) (fun _ _ => ?_)
      refine Run.sat_bind (Q := fun _ => True) (Run.sat_callExt trivial (fun _ _ => trivial))
        (fun _ _ => ?_)
      refine Run.sat_bind (Q := fun _ => True) (Run.sat_callExt trivial (fun _ _ => trivial))
        (fun _ _ => ?_)
      split
      · refine Run.sat_bind (Q := fun _ => True) (Run.sat_liftE (fun _ _ => trivial))
          (fun _ _ => ?_)
        exact Run.sat_pure trivial
      · exact Run.sat_pure trivial
    · unfold tailBranchAccount
      refine Run.sat_bind (Q := fun _ => True) (Run.sat_liftE (fun _ _ => trivial)) (fun _ _ => ?_)
      refine Run.sat_bind (Q := fun _ => True) (Run.sat_callExt trivial (fun _ _ => trivial))
        (fun _ _ => ?_)
      exact Run.sat_pure trivial
  · unfold tailLeaf
    simp only []
    split
    · split
      · refine Run.sat_bind (Q := fun _ => True) (Run.sat_liftE (fun _ _ => trivial))
          (fun _ _ => ?_)
        refine Run.sat_bind (Q := fun _ => True) (Run.sat_callExt trivial (fun _ _ => trivial))
          (fun _ _ => ?_)
        exact Run.sat_pure trivial
      · exact Run.sat_pure trivial
    · exact Run.sat_pure trivial

/-- C1. In `prepareWitness`, starting from `(branchC16, branchC1) = (0, 1)`, every
call to `prepareTwoBranches` in the common-prefix walk, the call to
`addBranchAndPlaceholder` and the call to `prepareParallelBranches` inside it
receive a parity pair with `C16 + C1 = 1`, exactly one of the two being 1. This
holds for every input and every behaviour of the preparers, also on runs that
end in a panic. -/
theorem prepareWitness_parity_well_formed (E : Externals StateDB Address) (statedb : StateDB)
    (addr : Address) (proof1 proof2 extNibblesS extNibblesC : Rows) (key neighbourNode : Row)
    (isAccountProof nonExistingAccountProof nonExistingStorageProof
      isShorterProofLastLeaf : Bool) :
    ∀ e ∈ (prepareWitness E statedb addr proof1 proof2 extNibblesS extNibblesC key neighbourNode
        isAccountProof nonExistingAccountProof nonExistingStorageProof
        isShorterProofLastLeaf).trace,
      e.parityWellFormed := by
  have hsat : (prepareWitness E statedb addr proof1 proof2 extNibblesS extNibblesC key
      neighbourNode isAccountProof nonExistingAccountProof nonExistingStorageProof
      isShorterProofLastLeaf).Sat Event.parityWellFormed (fun _ => True) := by
    unfold prepareWitness
    refine Run.sat_bind (Q := fun _ => True) (Run.sat_liftE (fun _ _ => trivial)) (fun ab _ => ?_)
    refine Run.sat_bind (walkFrom_parity E proof1 proof2 extNibblesS key isAccountProof
      nonExistingAccountProof _ 0 initialState rfl) (fun st hst => ?_)
    refine Run.sat_bind (Q := fun _ => True) ?_ (fun _ _ => Run.sat_pure (Q := fun _ => True) trivial)
    split
    · exact tailUnequal_parity E statedb addr proof1 proof2 extNibblesS extNibblesC key
        neighbourNode _ _ _ _ st hst
    · exact tailEqual_parity E proof2 key _ _ _ st
  exact hsat.1

/-- C1 at a concrete branch split at the root: the `prepareParallelBranches`
call logged by the run carries the pair `(1, 0)`. -/
theorem prepareWitness_parity_well_formed_witness :
    (Event.prepareParallelBranches (Fixture.branchOf 3) (Fixture.branchOf 3) 1 false 1 0
      false).parityWellFormed :=
  prepareWitness_parity_well_formed Fixture.externals () () Fixture.splitS Fixture.splitC [] []
    Fixture.key [] false false false true _ (by decide)

/-- C2 (failing input). With `proof1` a single non-branch node, `proof2` a
branch and a leaf and `isShorterProofLastLeaf = false`, `prepareWitness` calls
`addModifiedExtNode` with the pair `(branchC16, branchC1) = (1, 1)`:
`addBranchAndPlaceholder` received `(0, 1)`, flipped it to `(1, 0)` for the
parallel branches and returned only `branchC16 = 1`, which the caller pairs with
its unflipped `branchC1 = 1`. -/
theorem addModifiedExtNode_receives_broken_pair :
    (prepareWitness Fixture.externals () () [Fixture.shortExt]
        [Fixture.branchOf 7, Fixture.leafNode 5] [] [[1]] Fixture.key [] false false false
        false).trace =
      [ .addBranchAndPlaceholder 0 0 0 1,
        .flip,
        .prepareParallelBranches (Fixture.branchOf 7) (Fixture.branchOf 7) 1 false 1 0 true,
        .addStorageLeafAfterBranchPlaceholder true false 1 0,
        .addModifiedExtNode 0 0 0 1 1 ] := by
  decide

theorem Run.bind_res_ok {α β : Type} {m : Run α} {f : α → Run β} {b : β}
    (h : (m >>= f).res = .ok b) : ∃ a, m.res = .ok a ∧ (f a).res = .ok b := by
  rw [Run.bind_def] at h
  unfold Run.bind at h
  cases hres : m.res with
  | error x => rw [hres] at h; simp at h
  | ok a => rw [hres] at h; exact ⟨a, rfl, h⟩

theorem Run.bind_res_of_ok {α β : Type} {m : Run α} {f : α → Run β} {a : α}
    (h : m.res = .ok a) : (m >>= f).res = (f a).res := by
  rw [Run.bind_def]
  unfold Run.bind
  rw [h]

theorem Run.bind_trace_of_ok {α β : Type} {m : Run α} {f : α → Run β} {a : α}
    (h : m.res = .ok a) : (m >>= f).trace = m.trace ++ (f a).trace := by
  rw [Run.bind_def]
  unfold Run.bind
  rw [h]

theorem Run.logs_bind {α β τ : Type} {tag : Event → Option τ} {m : Run α} {f : α → Run β}
    {L M : List τ} (h1 : m.Logs tag L) (h2 : ∀ a, m.res = .ok a → (f a).Logs tag M) :
    (m >>= f).Logs tag (L ++ M) := by
  intro b hb
  obtain ⟨a, ha, hfa⟩ := Run.bind_res_ok hb
  rw [Run.bind_trace_of_ok ha, List.filterMap_append, h1 a ha, h2 a ha b hfa]

theorem Run.logs_bind_left {α β τ : Type} {tag : Event → Option τ} {m : Run α}
    {f : α → Run β} {L : List τ} (h1 : m.Logs tag [])
    (h2 : ∀ a, m.res = .ok a → (f a).Logs tag L) : (m >>= f).Logs tag L := by
  have h := Run.logs_bind h1 h2
  rwa [List.nil_append] at h

theorem Run.logs_bind_right {α β τ : Type} {tag : Event → Option τ} {m : Run α}
    {f : α → Run β} {L : List τ} (h1 : m.Logs tag L)
    (h2 : ∀ a, m.res = .ok a → (f a).Logs tag []) : (m >>= f).Logs tag L := by
  have h := Run.logs_bind h1 h2
  rwa [List.append_nil] at h

theorem Run.logs_pure {α τ : Type} {tag : Event → Option τ} {a : α} :
    (Run.pure a).Logs tag [] := by
  intro b _; rfl

theorem Run.logs_liftE {α τ : Type} {tag : Event → Option τ} {r : Except Fault α} :
    (liftE r).Logs tag [] := by
  intro b _; rfl

theorem Run.logs_emit {τ : Type} {tag : Event → Option τ} {e : Event} :
    (emit e).Logs tag (tag e).toList := by
  intro b _
  simp only [emit, List.filterMap_cons, List.filterMap_nil]
  cases tag e <;> rfl

theorem Run.logs_callExt {α τ : Type} {tag : Event → Option τ} {e : Event} {r : Option α} :
    (callExt e r).Logs tag (tag e).toList := by
  intro b _
  simp only [callExt, List.filterMap_cons, List.filterMap_nil]
  cases tag e <;> rfl

theorem Run.logs_of_sat {α τ : Type} {tag : Event → Option τ} {m : Run α} {Q : α → Prop}
    (h : m.Sat (fun e => tag e = none) Q) : m.Logs tag [] := by
  intro b _
  rw [List.filterMap_eq_nil_iff]
  exact h.1

theorem Run.Logs.congr {α τ : Type} {tag : Event → Option τ} {m : Run α} {L L' : List τ}
    (h : m.Logs tag L) (e : L = L') : m.Logs tag L' := e ▸ h

theorem getI_pred_length {α : Type} (site : IndexSite) (xs : List α) (k : Nat) (x : α)
    (h : xs[xs.length - k]? = some x) (hk : k ≤ xs.length) :
    getI site xs ((xs.length : Int) - (k : Int)) = .ok x := by
  unfold getI
  have h0 : ¬ ((xs.length : Int) - (k : Int) < 0) := by omega
  have h1 : ((xs.length : Int) - (k : Int)).toNat = xs.length - k := by omega
  rw [if_neg h0, h1, h]

theorem getI_last {α : Type} (site : IndexSite) (xs : List α) (x : α)
    (h : xs.getLast? = some x) : getI site xs ((xs.length : Int) - 1) = .ok x := by
  have hne : xs ≠ [] := by
    intro hnil; subst hnil; simp at h
  have hlen : 1 ≤ xs.length := List.length_pos.mpr hne
  rw [List.getLast?_eq_getElem?] at h
  exact getI_pred_length site xs 1 x h hlen

theorem walkStep_walkEvents (E : Externals StateDB Address) (proof1 proof2 extNibblesS : Rows)
    (key : Row) (isAccountProof nonExistingAccountProof : Bool) (i : Nat) (st : WalkState) :
    (walkStep E proof1 proof2 extNibblesS key isAccountProof nonExistingAccountProof i st).Sat
      Event.isWalkEvent (fun _ => True) := by
  unfold walkStep walkExtension walkLeaf walkBranch
  repeat (first
    | exact Run.sat_pure trivial
    | refine Run.sat_bind (Q := fun _ => True) (Run.sat_liftE (fun _ _ => trivial)) (fun _ _ => ?_)
    | refine Run.sat_bind (Q := fun _ => True) (Run.sat_callExt trivial (fun _ _ => trivial))
        (fun _ _ => ?_)
    | refine Run.sat_bind (Q := fun _ => True) (Run.sat_emit trivial trivial) (fun _ _ => ?_)
    | refine Run.sat_bind (Q := fun _ => True) (Run.sat_emitIf (fun _ => trivial) trivial)
        (fun _ _ => ?_)
    | split)

theorem walkFrom_walkEvents (E : Externals StateDB Address) (proof1 proof2 extNibblesS : Rows)
    (key : Row) (isAccountProof nonExistingAccountProof : Bool) (n : Nat) :
    ∀ (i : Nat) (st : WalkState),
    (walkFrom E proof1 proof2 extNibblesS key isAccountProof nonExistingAccountProof n i st).Sat
      Event.isWalkEvent (fun _ => True) := by
  induction n with
  | zero => intro i st; exact Run.sat_pure trivial
  | succ n ih =>
    intro i st
    unfold walkFrom
    exact Run.sat_bind (walkStep_walkEvents E proof1 proof2 extNibblesS key isAccountProof
      nonExistingAccountProof i st) (fun st' _ => ih (i + 1) st')

theorem additionalBranchOf_spec (E : Externals StateDB Address) (proof1 proof2 : Rows) :
    ∃ ab, additionalBranchOf E proof1 proof2 = .ok ab ∧
      (ab = true ↔ proof1.length ≠ proof2.length ∧
        ∃ last, (shorterProof proof1 proof2).getLast? = some last ∧ E.isBranch last = false) := by
  unfold additionalBranchOf shorterProof
  simp only []
  by_cases h1 : proof1.length < proof2.length ∧ proof1.length > 0
  · rw [if_pos h1, if_pos h1.1]
    have hne : proof1 ≠ [] := List.length_pos.mp h1.2
    obtain ⟨last, hlast⟩ : ∃ last, proof1.getLast? = some last :=
      ⟨proof1.getLast hne, List.getLast?_eq_getLast _ hne⟩
    refine ⟨!E.isBranch last, ?_, ?_⟩
    · rw [getI_last _ _ _ hlast]; rfl
    · constructor
      · intro h
        exact ⟨by omega, last, hlast, by simpa using h⟩
      · rintro ⟨_, last', hlast', hb⟩
        rw [hlast] at hlast'
        cases hlast'
        simpa using hb
  · rw [if_neg h1]
    by_cases h2 : proof2.length < proof1.length ∧ proof2.length > 0
    · rw [if_pos h2, if_neg (by omega)]
      have hne : proof2 ≠ [] := List.length_pos.mp h2.2
      obtain ⟨last, hlast⟩ : ∃ last, proof2.getLast? = some last :=
        ⟨proof2.getLast hne, List.getLast?_eq_getLast _ hne⟩
      refine ⟨!E.isBranch last, ?_, ?_⟩
      · rw [getI_last _ _ _ hlast]; rfl
      · constructor
        · intro h
          exact ⟨by omega, last, hlast, by simpa using h⟩
        · rintro ⟨_, last', hlast', hb⟩
          rw [hlast] at hlast'
          cases hlast'
          simpa using hb
    · rw [if_neg h2]
      refine ⟨false, rfl, ?_⟩
      constructor
      · intro h; cases h
      · rintro ⟨hne, last, hlast, _⟩
        exfalso
        by_cases hlt : proof1.length < proof2.length
        · rw [if_pos hlt] at hlast
          have h0 : proof1.length = 0 := by omega
          rw [List.length_eq_zero.mp h0] at hlast
          simp at hlast
        · rw [if_neg hlt] at hlast
          have h0 : proof2.length = 0 := by omega
          rw [List.length_eq_zero.mp h0] at hlast
          simp at hlast

theorem walk_no_inserter (E : Externals StateDB Address) (proof1 proof2 extNibblesS : Rows)
    (key : Row) (isAccountProof nonExistingAccountProof additionalBranch : Bool) :
    (walk E proof1 proof2 extNibblesS key isAccountProof nonExistingAccountProof
      additionalBranch).Logs Event.inserter? [] := by
  refine Run.logs_of_sat (Q := fun _ => True) ?_
  refine (walkFrom_walkEvents E proof1 proof2 extNibblesS key isAccountProof
    nonExistingAccountProof _ 0 initialState).mono (fun e he => ?_) (fun _ h => h)
  cases e <;> first | rfl | exact he.elim

theorem addBranchAndPlaceholder_inserters (E : Externals StateDB Address) (statedb : StateDB)
    (addr : Address) (rows proof1 proof2 extNibblesS extNibblesC : Rows) (key neighbourNode : Row)
    (keyIndex extensionNodeInd : Nat)
    (additionalBranch isAccountProof nonExistingAccountProof isShorterProofLastLeaf : Bool)
    (branchC16 branchC1 : Nat) (toBeHashed : Rows) :
    (addBranchAndPlaceholder E statedb addr rows proof1 proof2 extNibblesS extNibblesC key
      neighbourNode keyIndex extensionNodeInd additionalBranch isAccountProof
      nonExistingAccountProof isShorterProofLastLeaf branchC16 branchC1 toBeHashed).Logs
      Event.inserter? [.addBranchAndPlaceholder] := by
  unfold addBranchAndPlaceholder
  refine (Run.logs_bind Run.logs_emit (fun _ _ => Run.logs_of_sat (Q := fun _ => True) ?_)).congr
    rfl
  unfold addBranchExtensionPart
  simp only []
  repeat (first
    | exact Run.sat_pure trivial
    | refine Run.sat_bind (Q := fun _ => True) (Run.sat_liftE (fun _ _ => trivial)) (fun _ _ => ?_)
    | refine Run.sat_bind (Q := fun _ => True) (Run.sat_callExt rfl (fun _ _ => trivial))
        (fun _ _ => ?_)
    | refine Run.sat_bind (Q := fun _ => True) (Run.sat_emit rfl trivial) (fun _ _ => ?_)
    | refine Run.sat_bind (Q := fun _ => True) ?_ (fun _ _ => ?_)
    | split)

theorem tailEqual_no_inserter (E : Externals StateDB Address) (proof2 : Rows) (key : Row)
    (isAccountProof nonExistingAccountProof nonExistingStorageProof : Bool) (st : WalkState) :
    (tailEqual E proof2 key isAccountProof nonExistingAccountProof nonExistingStorageProof
      st).Logs Event.inserter? [] := by
  refine Run.logs_of_sat (Q := fun _ => True) ?_
  unfold tailEqual tailBranchStorage tailBranchAccount tailLeaf
  simp only []
  repeat (first
    | exact Run.sat_pure trivial
    | refine Run.sat_bind (Q := fun _ => True) (Run.sat_liftE (fun _ _ => trivial)) (fun _ _ => ?_)
    | refine Run.sat_bind (Q := fun _ => True) (Run.sat_callExt rfl (fun _ _ => trivial))
        (fun _ _ => ?_)
    | split)

theorem tailUnequal_inserters (E : Externals StateDB Address) (statedb : StateDB) (addr : Address)
    (proof1 proof2 extNibblesS extNibblesC : Rows) (key neighbourNode : Row)
    (isAccountProof nonExistingAccountProof isShorterProofLastLeaf additionalBranch : Bool)
    (st : WalkState) :
    (tailUnequal E statedb addr proof1 proof2 extNibblesS extNibblesC key neighbourNode
      isAccountProof nonExistingAccountProof isShorterProofLastLeaf additionalBranch st).Logs
      Event.inserter?
      (if additionalBranch then
        [.addBranchAndPlaceholder,
          if isAccountProof then .addAccountLeafAfterBranchPlaceholder
          else .addStorageLeafAfterBranchPlaceholder]
      else [.addLeafAndPlaceholder]) := by
  unfold tailUnequal
  cases additionalBranch with
  | false => exact Run.logs_callExt
  | true =>
    simp only [if_true]
    refine (Run.logs_bind (addBranchAndPlaceholder_inserters E statedb addr st.rows proof1 proof2
      extNibblesS extNibblesC key neighbourNode st.keyIndex st.extensionNodeInd _ _ _ _ _ _ _)
      (fun r _ => Run.logs_bind (L := [if isAccountProof then
          Inserter.addAccountLeafAfterBranchPlaceholder
          else Inserter.addStorageLeafAfterBranchPlaceholder]) (M := []) ?_ (fun l _ => ?_))).congr
      (by simp)
    · cases isAccountProof
      · exact Run.logs_callExt
      · exact Run.logs_callExt
    · split
      · exact Run.logs_callExt
      · exact Run.logs_pure

/-- C3. Tail dispatch of `prepareWitness`. `additionalBranch` is computed without
fault and is true iff the proof lengths differ and the shorter proof has a last
element that is not a branch (so it is non-empty). On every run that returns,
the inserter calls are: when the lengths differ and `additionalBranch` holds,
`addBranchAndPlaceholder` followed by exactly one of
`addAccountLeafAfterBranchPlaceholder` / `addStorageLeafAfterBranchPlaceholder`,
chosen by `isAccountProof`; when the lengths differ and `additionalBranch` is
false (also when the shorter proof is empty), `addLeafAndPlaceholder` alone;
and none when the lengths are equal. -/
theorem prepareWitness_tail_dispatch (E : Externals StateDB Address) (statedb : StateDB)
    (addr : Address) (proof1 proof2 extNibblesS extNibblesC : Rows) (key neighbourNode : Row)
    (isAccountProof nonExistingAccountProof nonExistingStorageProof
      isShorterProofLastLeaf : Bool) :
    ∃ ab, additionalBranchOf E proof1 proof2 = .ok ab ∧
      (ab = true ↔ proof1.length ≠ proof2.length ∧
        ∃ last, (shorterProof proof1 proof2).getLast? = some last ∧ E.isBranch last = false) ∧
      ∀ out, (prepareWitness E statedb addr proof1 proof2 extNibblesS extNibblesC key
          neighbourNode isAccountProof nonExistingAccountProof nonExistingStorageProof
          isShorterProofLastLeaf).res = .ok out →
        inserterCalls (prepareWitness E statedb addr proof1 proof2 extNibblesS extNibblesC key
          neighbourNode isAccountProof nonExistingAccountProof nonExistingStorageProof
          isShorterProofLastLeaf).trace =
          if proof1.length ≠ proof2.length then
            if ab then
              [.addBranchAndPlaceholder,
                if isAccountProof then .addAccountLeafAfterBranchPlaceholder
                else .addStorageLeafAfterBranchPlaceholder]
            else [.addLeafAndPlaceholder]
          else [] := by
  obtain ⟨ab, hab, hiff⟩ := additionalBranchOf_spec E proof1 proof2
  refine ⟨ab, hab, hiff, ?_⟩
  have hlogs : (prepareWitness E statedb addr proof1 proof2 extNibblesS extNibblesC key
      neighbourNode isAccountProof nonExistingAccountProof nonExistingStorageProof
      isShorterProofLastLeaf).Logs Event.inserter?
      (if proof1.length ≠ proof2.length then
        if ab then
          [.addBranchAndPlaceholder,
            if isAccountProof then .addAccountLeafAfterBranchPlaceholder
            else .addStorageLeafAfterBranchPlaceholder]
        else [.addLeafAndPlaceholder]
      else []) := by
    unfold prepareWitness
    refine Run.logs_bind_left Run.logs_liftE (fun ab' hab' => ?_)
    have hab'' : ab' = ab := by
      have h := hab'
      simp only [liftE] at h
      rw [hab] at h
      cases h
      rfl
    subst hab''
    refine Run.logs_bind_left (walk_no_inserter E proof1 proof2 extNibblesS key isAccountProof
      nonExistingAccountProof ab') (fun st _ => ?_)
    refine Run.logs_bind_right ?_ (fun _ _ => Run.logs_pure)
    split
    · exact tailUnequal_inserters E statedb addr proof1 proof2 extNibblesS extNibblesC key
        neighbourNode _ _ _ _ st
    · exact tailEqual_no_inserter E proof2 key _ _ _ st
  exact hlogs

theorem exists_ok_of_toBool {α : Type} {r : Except Fault α} (h : r.toBool = true) :
    ∃ a, r = .ok a := by
  cases r with
  | error e => cases h
  | ok a => exact ⟨a, rfl⟩

/-- C3 at a concrete branch split at the root (storage proof): the run returns
and the inserter calls are `addBranchAndPlaceholder` then
`addStorageLeafAfterBranchPlaceholder`. -/
theorem prepareWitness_tail_dispatch_witness :
    (prepareWitness Fixture.externals () () Fixture.splitS Fixture.splitC [] [] Fixture.key []
        false false false true).res.toBool = true ∧
      inserterCalls (prepareWitness Fixture.externals () () Fixture.splitS Fixture.splitC [] []
        Fixture.key [] false false false true).trace =
        [.addBranchAndPlaceholder, .addStorageLeafAfterBranchPlaceholder] := by
  have hok : (prepareWitness Fixture.externals () () Fixture.splitS Fixture.splitC [] []
      Fixture.key [] false false false true).res.toBool = true := by decide
  refine ⟨hok, ?_⟩
  obtain ⟨out, hout⟩ := exists_ok_of_toBool hok
  obtain ⟨ab, hab, _, h⟩ := prepareWitness_tail_dispatch Fixture.externals () () Fixture.splitS
    Fixture.splitC [] [] Fixture.key [] false false false true
  have hab' : ab = true := by
    have h2 : additionalBranchOf Fixture.externals Fixture.splitS Fixture.splitC = .ok true :=
      rfl
    rw [h2] at hab
    cases hab
    rfl
  subst hab'
  exact h out hout

theorem getN_eq_ok {α : Type} {site : IndexSite} {xs : List α} {i : Nat} {x : α} :
    getN site xs i = .ok x ↔ xs[i]? = some x := by
  unfold getN
  cases h : xs[i]? with
  | none => simp
  | some y => simp

theorem getN_of_getElem? {α : Type} (site : IndexSite) {xs : List α} {i : Nat} {x : α}
    (h : xs[i]? = some x) : getN site xs i = .ok x := getN_eq_ok.mpr h

theorem checkRowBytes_ok_iff (branch2start : Nat) (row : Row) (n : Nat) :
    ∀ j, checkRowBytes branch2start row n j = .ok () ↔
      ∀ t, t < n → ∃ a, row[j + t]? = some a ∧ row[branch2start + (j + t)]? = some a := by
  induction n with
  | zero =>
    intro j
    simp [checkRowBytes]
  | succ n ih =>
    intro j
    unfold checkRowBytes
    cases ha : row[j]? with
    | none =>
      have hg : getN IndexSite.rowBuffer row j = .error (.indexOutOfRange .rowBuffer) := by
        unfold getN; rw [ha]
      rw [hg]
      constructor
      · intro h; cases h
      · intro h
        obtain ⟨a, h1, _⟩ := h 0 (Nat.succ_pos n)
        rw [Nat.add_zero, ha] at h1
        cases h1
    | some a =>
      rw [getN_of_getElem? _ ha]
      cases hb : row[branch2start + j]? with
      | none =>
        have hg : getN IndexSite.rowBuffer row (branch2start + j) =
            .error (.indexOutOfRange .rowBuffer) := by
          unfold getN; rw [hb]
        rw [hg]
        constructor
        · intro h; cases h
        · intro h
          obtain ⟨a', _, h2⟩ := h 0 (Nat.succ_pos n)
          rw [Nat.add_zero, hb] at h2
          cases h2
      | some b =>
        rw [getN_of_getElem? _ hb]
        by_cases hab : a = b
        · subst hab
          have hstep : (do
              let a' ← (Except.ok a : Except Fault Nat)
              let b' ← (Except.ok a : Except Fault Nat)
              if a' ≠ b' then Except.error Fault.witnessNotProperlyGenerated
              else checkRowBytes branch2start row n (j + 1)) =
              checkRowBytes branch2start row n (j + 1) := by
            simp [bind, Except.bind]
          rw [hstep, ih (j + 1)]
          constructor
          · intro h t ht
            cases t with
            | zero => exact ⟨a, by simpa using ha, by simpa using hb⟩
            | succ t =>
              obtain ⟨x, h1, h2⟩ := h t (by omega)
              refine ⟨x, ?_, ?_⟩
              · rw [← h1]; congr 1; omega
              · rw [← h2]; congr 1; omega
          · intro h t ht
            obtain ⟨x, h1, h2⟩ := h (t + 1) (by omega)
            refine ⟨x, ?_, ?_⟩
            · rw [← h1]; congr 1; omega
            · rw [← h2]; congr 1; omega
        · have hstep : (do
              let a' ← (Except.ok a : Except Fault Nat)
              let b' ← (Except.ok b : Except Fault Nat)
              if a' ≠ b' then Except.error Fault.witnessNotProperlyGenerated
              else checkRowBytes branch2start row n (j + 1)) =
              .error Fault.witnessNotProperlyGenerated := by
            simp [bind, Except.bind, hab]
          rw [hstep]
          constructor
          · intro h; cases h
          · intro h
            obtain ⟨x, h1, h2⟩ := h 0 (Nat.succ_pos n)
            rw [Nat.add_zero, ha] at h1
            rw [Nat.add_zero, hb] at h2
            cases h1; cases h2
            exact absurd rfl hab

theorem checkBranches_key {branchNodeRLPLen branch2start : Nat} {key : Row} {i : Nat}
    {bRows : Rows} {n k : Nat}
    (h : checkBranches branchNodeRLPLen branch2start key i bRows (n + 1) k = .ok ()) :
    ∃ nibble, key[i]? = some nibble := by
  unfold checkBranches at h
  cases hk : key[i]? with
  | some nibble => exact ⟨nibble, rfl⟩
  | none =>
    have hg : getN IndexSite.keyNibbles key i = .error (.indexOutOfRange .keyNibbles) := by
      unfold getN; rw [hk]
    rw [hg] at h
    cases h

theorem checkBranches_ok_iff (branchNodeRLPLen branch2start : Nat) (key : Row) (i : Nat)
    (bRows : Rows) (nibble : Nat) (hkey : key[i]? = some nibble) (n : Nat) :
    ∀ k, checkBranches branchNodeRLPLen branch2start key i bRows n k = .ok () ↔
      ∀ t, t < n → (k + t) - 1 ≠ nibble →
        ∃ row, bRows[k + t]? = some row ∧
          ∀ j, j < branchNodeRLPLen + 32 →
            ∃ a, row[j]? = some a ∧ row[branch2start + j]? = some a := by
  induction n with
  | zero => intro k; simp [checkBranches]
  | succ n ih =>
    intro k
    unfold checkBranches
    rw [getN_of_getElem? _ hkey]
    have hshift : (∀ t, t < n → (k + 1 + t) - 1 ≠ nibble →
        ∃ row, bRows[k + 1 + t]? = some row ∧
          ∀ j, j < branchNodeRLPLen + 32 →
            ∃ a, row[j]? = some a ∧ row[branch2start + j]? = some a) ↔
        (∀ t, 0 < t → t < n + 1 → (k + t) - 1 ≠ nibble →
        ∃ row, bRows[k + t]? = some row ∧
          ∀ j, j < branchNodeRLPLen + 32 →
            ∃ a, row[j]? = some a ∧ row[branch2start + j]? = some a) := by
      constructor
      · intro h t ht0 ht hne
        obtain ⟨t', rfl⟩ : ∃ t', t = t' + 1 := ⟨t - 1, by omega⟩
        have e : k + (t' + 1) = k + 1 + t' := by omega
        rw [e] at hne ⊢
        exact h t' (by omega) hne
      · intro h t ht hne
        have e : k + 1 + t = k + (t + 1) := by omega
        rw [e] at hne ⊢
        exact h (t + 1) (by omega) (by omega) hne
    by_cases hk : k - 1 = nibble
    · have hstep : (do
          let nib ← (Except.ok nibble : Except Fault Nat)
          if k - 1 = nib then
            checkBranches branchNodeRLPLen branch2start key i bRows n (k + 1)
          else do
            let row ← getN IndexSite.rowsList bRows k
            checkRowBytes branch2start row (branchNodeRLPLen + 32) 0
            checkBranches branchNodeRLPLen branch2start key i bRows n (k + 1)) =
          checkBranches branchNodeRLPLen branch2start key i bRows n (k + 1) := by
        simp [bind, Except.bind, hk]
      rw [hstep, ih (k + 1), hshift]
      constructor
      · intro h t ht hne
        cases t with
        | zero => exact absurd hk hne
        | succ t => exact h (t + 1) (by omega) ht hne
      · intro h t _ ht hne
        exact h t ht hne
    · cases hrow : bRows[k]? with
      | none =>
        have hstep : (do
            let nib ← (Except.ok nibble : Except Fault Nat)
            if k - 1 = nib then
              checkBranches branchNodeRLPLen branch2start key i bRows n (k + 1)
            else do
              let row ← getN IndexSite.rowsList bRows k
              checkRowBytes branch2start row (branchNodeRLPLen + 32) 0
              checkBranches branchNodeRLPLen branch2start key i bRows n (k + 1)) =
            .error (.indexOutOfRange .rowsList) := by
          simp [bind, Except.bind, hk, getN, hrow]
        rw [hstep]
        constructor
        · intro h; cases h
        · intro h
          obtain ⟨row, h1, _⟩ := h 0 (Nat.succ_pos n) hk
          rw [Nat.add_zero, hrow] at h1
          cases h1
      | some row =>
        cases hchk : checkRowBytes branch2start row (branchNodeRLPLen + 32) 0 with
        | error e =>
          have hstep : (do
              let nib ← (Except.ok nibble : Except Fault Nat)
              if k - 1 = nib then
                checkBranches branchNodeRLPLen branch2start key i bRows n (k + 1)
              else do
                let row ← getN IndexSite.rowsList bRows k
                checkRowBytes branch2start row (branchNodeRLPLen + 32) 0
                checkBranches branchNodeRLPLen branch2start key i bRows n (k + 1)) =
              .error e := by
            simp [bind, Except.bind, hk, getN, hrow, hchk]
          rw [hstep]
          constructor
          · intro h; cases h
          · intro h
            exfalso
            obtain ⟨row', h1, h2⟩ := h 0 (Nat.succ_pos n) hk
            rw [Nat.add_zero, hrow] at h1
            cases h1
            have hok : checkRowBytes branch2start row (branchNodeRLPLen + 32) 0 = .ok () := by
              rw [checkRowBytes_ok_iff]
              intro t ht
              simpa using h2 t ht
            rw [hok] at hchk
            cases hchk
        | ok u =>
          have hstep : (do
              let nib ← (Except.ok nibble : Except Fault Nat)
              if k - 1 = nib then
                checkBranches branchNodeRLPLen branch2start key i bRows n (k + 1)
              else do
                let row ← getN IndexSite.rowsList bRows k
                checkRowBytes branch2start row (branchNodeRLPLen + 32) 0
                checkBranches branchNodeRLPLen branch2start key i bRows n (k + 1)) =
              checkBranches branchNodeRLPLen branch2start key i bRows n (k + 1) := by
            simp [bind, Except.bind, hk, getN, hrow, hchk]
          rw [hstep, ih (k + 1), hshift]
          have hrowok : ∀ j, j < branchNodeRLPLen + 32 →
              ∃ a, row[j]? = some a ∧ row[branch2start + j]? = some a := by
            have h0 := (checkRowBytes_ok_iff branch2start row (branchNodeRLPLen + 32) 0).mp hchk
            intro j hj
            simpa using h0 j hj
          constructor
          · intro h t ht hne
            cases t with
            | zero => exact ⟨row, by simpa using hrow, hrowok⟩
            | succ t => exact h (t + 1) (by omega) ht hne
          · intro h t _ ht hne
            exact h t ht hne

theorem checkBranches_iff_agree (branchNodeRLPLen branch2start : Nat) (key : Row) (i : Nat)
    (bRows : Rows) (nibble : Nat) (hkey : key[i]? = some nibble) :
    checkBranches branchNodeRLPLen branch2start key i bRows 16 1 = .ok () ↔
      BranchesAgree branchNodeRLPLen branch2start nibble bRows := by
  rw [checkBranches_ok_iff branchNodeRLPLen branch2start key i bRows nibble hkey 16 1]
  unfold BranchesAgree
  constructor
  · intro h k hk1 hk16 hne j hj
    obtain ⟨t, rfl⟩ : ∃ t, k = 1 + t := ⟨k - 1, by omega⟩
    obtain ⟨row, hrow, hall⟩ := h t (by omega) hne
    obtain ⟨a, ha, hb⟩ := hall j hj
    exact ⟨row, a, hrow, ha, hb⟩
  · intro h t ht hne
    obtain ⟨row, _, hrow, _, _⟩ := h (1 + t) (by omega) (by omega) hne 0 (by omega)
    refine ⟨row, hrow, fun j hj => ?_⟩
    obtain ⟨row', a, hrow', ha, hb⟩ := h (1 + t) (by omega) (by omega) hne j hj
    rw [hrow] at hrow'
    cases hrow'
    exact ⟨a, ha, hb⟩

theorem Run.mk_ok_bind {α β : Type} (t : List Event) (a : α) (f : α → Run β) :
    ((⟨t, .ok a⟩ : Run α) >>= f) = ⟨t ++ (f a).trace, (f a).res⟩ := rfl

theorem Run.mk_error_bind {α β : Type} (t : List Event) (e : Fault) (f : α → Run β) :
    ((⟨t, .error e⟩ : Run α) >>= f) = ⟨t, .error e⟩ := rfl

theorem walkBranch_plain (E : Externals StateDB Address) (proof1 proof2 : Rows) (key : Row)
    (i : Nat) (st : WalkState) (s c : Row) (nibble : Nat) (blk : Rows)
    (hstash : st.extensionRows = none)
    (hs : proof1[i]? = some s) (hc : proof2[i]? = some c)
    (hkey : key[st.keyIndex]? = some nibble)
    (hblk : E.prepareTwoBranches s c nibble (flipPair st.branchC16).1 (flipPair st.branchC16).2
      false false = some blk)
    (hcheck : st.extensionNodeInd = 0 →
      checkBranches E.branchNodeRLPLen E.branch2start key i
        (blk ++ E.prepareEmptyExtensionRows false false) 16 1 = .ok ()) :
    walkBranch E proof1 proof2 key i st =
      ⟨[.flip,
        .prepareTwoBranches s c nibble (flipPair st.branchC16).1 (flipPair st.branchC16).2
          false false,
        .branchBlock i st.extensionNodeInd nibble
          (blk ++ E.prepareEmptyExtensionRows false false)],
       .ok
        { rows := st.rows ++ (blk ++ E.prepareEmptyExtensionRows false false)
          toBeHashed := st.toBeHashed ++ [s] ++ [c]
          keyIndex := st.keyIndex + 1
          extensionNodeInd := st.extensionNodeInd
          branchC16 := (flipPair st.branchC16).1
          branchC1 := (flipPair st.branchC16).2
          extensionRows := none }⟩ := by
  unfold walkBranch
  have hchk : (if st.extensionNodeInd = 0 then
      checkBranches E.branchNodeRLPLen E.branch2start key i
        (blk ++ E.prepareEmptyExtensionRows false false) 16 1 else .ok ()) = .ok () := by
    split
    · exact hcheck ‹_›
    · rfl
  simp only [hstash, switchC16, attachExtension, liftE, emitIf, emit, callExt, Run.pure,
    Run.mk_ok_bind, getN_of_getElem? _ hs, getN_of_getElem? _ hc, getN_of_getElem? _ hkey,
    if_true, hblk, hchk, addForHashing, List.nil_append, List.cons_append, List.append_nil,
    List.singleton_append]

theorem liftE_ok_bind {α β : Type} (x : α) (f : α → Run β) : (liftE (.ok x) >>= f) = f x := rfl

theorem Run.pure_bind {α β : Type} (x : α) (f : α → Run β) : (Run.pure x >>= f) = f x := rfl

theorem walkStep_branch (E : Externals StateDB Address) (proof1 proof2 extNibblesS : Rows)
    (key : Row) (isAccountProof nonExistingAccountProof : Bool) (i : Nat) (st : WalkState)
    (s : Row) (hs : proof1[i]? = some s) (hb : E.isBranch s = true) :
    walkStep E proof1 proof2 extNibblesS key isAccountProof nonExistingAccountProof i st =
      walkBranch E proof1 proof2 key i st := by
  unfold walkStep
  rw [getN_of_getElem? _ hs, liftE_ok_bind]
  simp [hb]

theorem walkStep_leaf (E : Externals StateDB Address) (proof1 proof2 extNibblesS : Rows)
    (key : Row) (isAccountProof nonExistingAccountProof : Bool) (i : Nat) (st : WalkState)
    (s : Row) (hs : proof1[i]? = some s) (hb : E.isBranch s = false)
    (hi : i + 1 = proof1.length) :
    walkStep E proof1 proof2 extNibblesS key isAccountProof nonExistingAccountProof i st =
      walkLeaf E proof1 proof2 key isAccountProof nonExistingAccountProof i st := by
  unfold walkStep
  rw [getN_of_getElem? _ hs, liftE_ok_bind]
  have h : ¬ ((i : Int) ≠ (proof1.length : Int) - 1) := by omega
  simp [hb, h]

theorem walkStep_extension (E : Externals StateDB Address) (proof1 proof2 extNibblesS : Rows)
    (key : Row) (isAccountProof nonExistingAccountProof : Bool) (i : Nat) (st : WalkState)
    (s : Row) (hs : proof1[i]? = some s) (hb : E.isBranch s = false)
    (hi : i + 1 ≠ proof1.length) :
    walkStep E proof1 proof2 extNibblesS key isAccountProof nonExistingAccountProof i st =
      walkExtension E proof1 proof2 extNibblesS i st := by
  unfold walkStep
  rw [getN_of_getElem? _ hs, liftE_ok_bind]
  have h : (i : Int) ≠ (proof1.length : Int) - 1 := by omega
  simp [hb, h]

theorem flipPair_parityAt (i : Nat) : flipPair (parityAt i).1 = parityAt (i + 1) := by
  unfold flipPair parityAt
  rcases Nat.mod_two_eq_zero_or_one i with h | h
  · have h' : (i + 1) % 2 = 1 := by omega
    simp [h, h']
  · have h' : (i + 1) % 2 = 0 := by omega
    simp [h, h']

theorem walkFrom_branches (E : Externals StateDB Address) (proof1 proof2 extNibblesS : Rows)
    (key : Row) (isAccountProof nonExistingAccountProof : Bool) (pairs : List (Row × Row)) :
    ∀ (i : Nat) (st : WalkState) (blocks : List (Nat × Rows)),
    st.extensionRows = none → st.extensionNodeInd = 0 → st.keyIndex = i →
    flipPair st.branchC16 = parityAt i →
    (∀ t p, pairs[t]? = some p →
      proof1[i + t]? = some p.1 ∧ proof2[i + t]? = some p.2 ∧ E.isBranch p.1 = true) →
    updateBranchBlocks E key i pairs = some blocks →
    (∀ b ∈ blocks, BranchesAgree E.branchNodeRLPLen E.branch2start b.1 b.2) →
    ∃ st', (walkFrom E proof1 proof2 extNibblesS key isAccountProof nonExistingAccountProof
        pairs.length i st).res = .ok st' ∧
      st'.rows = st.rows ++ blockRows blocks ∧
      st'.toBeHashed = st.toBeHashed ++ branchBlobs pairs ∧
      st'.keyIndex = i + pairs.length ∧
      st'.extensionNodeInd = 0 := by
  induction pairs with
  | nil =>
    intro i st blocks _ hind hkey _ _ hblocks _
    simp only [updateBranchBlocks, Option.some.injEq] at hblocks
    subst hblocks
    exact ⟨st, rfl, by simp [blockRows], by simp [branchBlobs], by simpa using hkey, hind⟩
  | cons p rest ih =>
    intro i st blocks hstash hind hkey hpar hproof hblocks hagree
    obtain ⟨hs, hc, hbr⟩ := hproof 0 p (by simp)
    rw [Nat.add_zero] at hs hc
    unfold updateBranchBlocks at hblocks
    cases hk : key[i]? with
    | none => rw [hk] at hblocks; cases hblocks
    | some nibble =>
      rw [hk] at hblocks
      simp only [] at hblocks
      cases hb : E.prepareTwoBranches p.1 p.2 nibble (parityAt i).1 (parityAt i).2 false false with
      | none => rw [hb] at hblocks; cases hblocks
      | some blk =>
        rw [hb] at hblocks
        simp only [] at hblocks
        cases hr : updateBranchBlocks E key (i + 1) rest with
        | none => rw [hr] at hblocks; cases hblocks
        | some blocks' =>
          rw [hr] at hblocks
          simp only [Option.some.injEq] at hblocks
          subst hblocks
          have hkey' : key[st.keyIndex]? = some nibble := by rw [hkey]; exact hk
          have hblk' : E.prepareTwoBranches p.1 p.2 nibble (flipPair st.branchC16).1
              (flipPair st.branchC16).2 false false = some blk := by rw [hpar]; exact hb
          have hag := hagree (nibble, blk ++ E.prepareEmptyExtensionRows false false)
            (List.mem_cons_self _ _)
          have hcheck : st.extensionNodeInd = 0 →
              checkBranches E.branchNodeRLPLen E.branch2start key i
                (blk ++ E.prepareEmptyExtensionRows false false) 16 1 = .ok () :=
            fun _ => (checkBranches_iff_agree _ _ key i _ nibble hk).mpr hag
          have hstep := walkBranch_plain E proof1 proof2 key i st p.1 p.2 nibble blk hstash hs hc
            hkey' hblk' hcheck
          have hws := walkStep_branch E proof1 proof2 extNibblesS key isAccountProof
            nonExistingAccountProof i st p.1 hs hbr
          obtain ⟨st', hres, hrows, htbh, hki, hei⟩ := ih (i + 1)
            { rows := st.rows ++ (blk ++ E.prepareEmptyExtensionRows false false)
              toBeHashed := st.toBeHashed ++ [p.1] ++ [p.2]
              keyIndex := st.keyIndex + 1
              extensionNodeInd := st.extensionNodeInd
              branchC16 := (flipPair st.branchC16).1
              branchC1 := (flipPair st.branchC16).2
              extensionRows := none } blocks' rfl hind (by simp [hkey])
            (by simp only []; rw [hpar]; exact flipPair_parityAt i)
            (fun t q hq => by
              have h := hproof (t + 1) q (by simpa using hq)
              have e : i + (t + 1) = i + 1 + t := by omega
              rw [e] at h
              exact h)
            hr (fun b hb' => hagree b (List.mem_cons_of_mem _ hb'))
          refine ⟨st', ?_, ?_, ?_, ?_, hei⟩
          · simp only [List.length_cons]
            unfold walkFrom
            rw [hws, hstep, Run.mk_ok_bind]
            exact hres
          · rw [hrows]; simp [blockRows]
          · rw [htbh]; simp [branchBlobs]
          · rw [hki]; simp; omega

theorem Run.bind_pure_res {α : Type} (m : Run α) : (m >>= Run.pure).res = m.res := by
  rw [Run.bind_def]
  unfold Run.bind
  cases h : m.res with
  | error e => rfl
  | ok a => rfl

theorem walkFrom_res_snoc (E : Externals StateDB Address) (proof1 proof2 extNibblesS : Rows)
    (key : Row) (isAccountProof nonExistingAccountProof : Bool) (a : Nat) :
    ∀ (i : Nat) (st st' : WalkState),
    (walkFrom E proof1 proof2 extNibblesS key isAccountProof nonExistingAccountProof a i st).res =
      .ok st' →
    (walkFrom E proof1 proof2 extNibblesS key isAccountProof nonExistingAccountProof (a + 1) i
      st).res =
      (walkStep E proof1 proof2 extNibblesS key isAccountProof nonExistingAccountProof (i + a)
        st').res := by
  induction a with
  | zero =>
    intro i st st' h
    simp only [walkFrom, Run.pure, Except.ok.injEq] at h
    subst h
    show (walkStep E proof1 proof2 extNibblesS key isAccountProof nonExistingAccountProof i st >>=
      fun s => walkFrom E proof1 proof2 extNibblesS key isAccountProof nonExistingAccountProof 0
        (i + 1) s).res = _
    exact Run.bind_pure_res _
  | succ a ih =>
    intro i st st' h
    have h' : (walkStep E proof1 proof2 extNibblesS key isAccountProof nonExistingAccountProof i
        st >>= fun s => walkFrom E proof1 proof2 extNibblesS key isAccountProof
        nonExistingAccountProof a (i + 1) s).res = .ok st' := h
    obtain ⟨st1, h1, h2⟩ := Run.bind_res_ok h'
    show (walkStep E proof1 proof2 extNibblesS key isAccountProof nonExistingAccountProof i st >>=
      fun s => walkFrom E proof1 proof2 extNibblesS key isAccountProof nonExistingAccountProof
        (a + 1) (i + 1) s).res = _
    rw [Run.bind_res_of_ok h1, ih (i + 1) st1 st' h2]
    have e : i + 1 + a = i + (a + 1) := by omega
    rw [e]

theorem walkLeaf_storage_res (E : Externals StateDB Address) (proof1 proof2 : Rows) (key : Row)
    (nonExistingAccountProof : Bool) (i : Nat) (st : WalkState) (s c : Row) (ls lc : Rows × Row)
    (hs : proof1[i]? = some s) (hc : proof2[i]? = some c)
    (hls : E.prepareStorageLeafRows s 2 false = some ls)
    (hlc : E.prepareStorageLeafRows c 3 false = some lc) :
    (walkLeaf E proof1 proof2 key false nonExistingAccountProof i st).res =
      .ok { st with
        rows := st.rows ++ ls.1 ++ lc.1
        toBeHashed := st.toBeHashed ++ [ls.2] ++ [lc.2] } := by
  unfold walkLeaf
  simp only [Bool.false_eq_true, if_false, liftE, callExt, Run.pure, Run.mk_ok_bind,
    getN_of_getElem? _ hs, getN_of_getElem? _ hc, hls, hlc]

theorem additionalBranchOf_equal_length (E : Externals StateDB Address) (proof1 proof2 : Rows)
    (h : proof1.length = proof2.length) : additionalBranchOf E proof1 proof2 = .ok false := by
  unfold additionalBranchOf
  simp only []
  rw [if_neg (by omega), if_neg (by omega)]

theorem tailLeaf_storage_res (E : Externals StateDB Address) (key : Row)
    (nonExistingStorageProof : Bool) (st : WalkState) (last : Row)
    (hlast : updateLastRow E key nonExistingStorageProof
      (st.rows ++ E.prepareDriftedLeafPlaceholder false) = some last) :
    (tailLeaf E key false nonExistingStorageProof st).res =
      .ok (st.rows ++ E.prepareDriftedLeafPlaceholder false ++ [last], st.toBeHashed) := by
  unfold tailLeaf
  unfold updateLastRow at hlast
  cases nonExistingStorageProof with
  | false =>
    simp only [Bool.false_eq_true, if_false, Option.some.injEq] at hlast
    subst hlast
    simp [Run.pure]
  | true =>
    simp only [if_true] at hlast
    split at hlast
    · rename_i h3
      cases hrow : (st.rows ++ E.prepareDriftedLeafPlaceholder false)[(st.rows ++
          E.prepareDriftedLeafPlaceholder false).length - 3]? with
      | none => rw [hrow] at hlast; cases hlast
      | some cKeyRow =>
        rw [hrow] at hlast
        simp only [] at hlast
        have hg := getI_pred_length IndexSite.rowsList
          (st.rows ++ E.prepareDriftedLeafPlaceholder false) 3 cKeyRow hrow h3
        simp only [Nat.cast_ofNat] at hg
        simp only [Bool.not_false, if_true, hg, liftE, callExt, Run.pure, Run.mk_ok_bind, hlast]
    · cases hlast

/-- C4. Storage update without extension nodes (Scenario A generalised). Let
`S = s_0 .. s_(n-2), sLeaf` and `C = c_0 .. c_(n-2), cLeaf` with every `s_i` a
branch and `sLeaf`, `cLeaf` non-branches, let the preparers return on the calls
of the scenario (`blocks`, `ls`, `lc`, `last`), and let every branch block pass
the branch-equality check. Then `prepareWitness` (storage proof) returns
(a) the rows: for each `i < n-1` the block
`prepareTwoBranches(s_i, c_i, key[i], C16_i, C1_i, false, false)` followed by
`prepareEmptyExtensionRows(false, false)`, with `(C16_i, C1_i) = (1, 0)` for even
`i` and `(0, 1)` for odd `i`; then the rows of `prepareStorageLeafRows(sLeaf, 2,
false)`; then those of `prepareStorageLeafRows(cLeaf, 3, false)`; then
`prepareDriftedLeafPlaceholder(false)`; then one non-existing-storage row;
(b) `toBeHashed = s_0, c_0, ..., s_(n-2), c_(n-2)`, S-leaf blob, C-leaf blob;
(c) `sawExtensionNode = false`. -/
theorem prepareWitness_storage_update (E : Externals StateDB Address) (statedb : StateDB)
    (addr : Address) (pairs : List (Row × Row)) (sLeaf cLeaf : Row)
    (extNibblesS extNibblesC : Rows) (key neighbourNode : Row)
    (nonExistingAccountProof nonExistingStorageProof isShorterProofLastLeaf : Bool)
    (blocks : List (Nat × Rows)) (ls lc : Rows × Row) (last : Row)
    (hbr : ∀ p ∈ pairs, E.isBranch p.1 = true)
    (hS : E.isBranch sLeaf = false) (hC : E.isBranch cLeaf = false)
    (hblocks : updateBranchBlocks E key 0 pairs = some blocks)
    (hagree : ∀ b ∈ blocks, BranchesAgree E.branchNodeRLPLen E.branch2start b.1 b.2)
    (hls : E.prepareStorageLeafRows sLeaf 2 false = some ls)
    (hlc : E.prepareStorageLeafRows cLeaf 3 false = some lc)
    (hlast : updateLastRow E key nonExistingStorageProof
      (blockRows blocks ++ ls.1 ++ lc.1 ++ E.prepareDriftedLeafPlaceholder false) = some last) :
    (prepareWitness E statedb addr (pairs.map Prod.fst ++ [sLeaf]) (pairs.map Prod.snd ++ [cLeaf])
      extNibblesS extNibblesC key neighbourNode false nonExistingAccountProof
      nonExistingStorageProof isShorterProofLastLeaf).res =
      .ok (blockRows blocks ++ ls.1 ++ lc.1 ++ E.prepareDriftedLeafPlaceholder false ++ [last],
        branchBlobs pairs ++ [ls.2, lc.2], false) := by
  have hlen1 : (pairs.map Prod.fst ++ [sLeaf]).length = pairs.length + 1 := by simp
  have hlen2 : (pairs.map Prod.snd ++ [cLeaf]).length = pairs.length + 1 := by simp
  have hlen : (pairs.map Prod.fst ++ [sLeaf]).length = (pairs.map Prod.snd ++ [cLeaf]).length := by
    rw [hlen1, hlen2]
  have hproof : ∀ t p, pairs[t]? = some p →
      (pairs.map Prod.fst ++ [sLeaf])[0 + t]? = some p.1 ∧
      (pairs.map Prod.snd ++ [cLeaf])[0 + t]? = some p.2 ∧ E.isBranch p.1 = true := by
    intro t p hp
    have ht : t < pairs.length := by
      by_contra hcon
      rw [List.getElem?_eq_none (by omega)] at hp
      cases hp
    refine ⟨?_, ?_, hbr p (List.getElem?_mem hp)⟩
    · rw [Nat.zero_add, List.getElem?_append_left (by simpa using ht), List.getElem?_map, hp]
      rfl
    · rw [Nat.zero_add, List.getElem?_append_left (by simpa using ht), List.getElem?_map, hp]
      rfl
  obtain ⟨st', hres, hrows, htbh, _, hei⟩ := walkFrom_branches E
    (pairs.map Prod.fst ++ [sLeaf]) (pairs.map Prod.snd ++ [cLeaf]) extNibblesS key false
    nonExistingAccountProof pairs 0 initialState blocks rfl rfl rfl rfl hproof hblocks hagree
  have hsl : (pairs.map Prod.fst ++ [sLeaf])[pairs.length]? = some sLeaf := by
    rw [List.getElem?_append_right (by simp)]
    simp
  have hcl : (pairs.map Prod.snd ++ [cLeaf])[pairs.length]? = some cLeaf := by
    rw [List.getElem?_append_right (by simp)]
    simp
  have hwalk : (walk E (pairs.map Prod.fst ++ [sLeaf]) (pairs.map Prod.snd ++ [cLeaf])
      extNibblesS key false nonExistingAccountProof false).res =
      .ok { st' with
        rows := st'.rows ++ ls.1 ++ lc.1
        toBeHashed := st'.toBeHashed ++ [ls.2] ++ [lc.2] } := by
    unfold walk
    have hup : (upToOf (pairs.map Prod.fst ++ [sLeaf]) (pairs.map Prod.snd ++ [cLeaf])
        false).toNat = pairs.length + 1 := by
      unfold upToOf
      simp only [hlen1, hlen2]
      simp
    rw [hup, walkFrom_res_snoc _ _ _ _ _ _ _ _ 0 initialState st' hres, Nat.zero_add,
      walkStep_leaf _ _ _ _ _ _ _ _ _ sLeaf hsl hS hlen1.symm]
    exact walkLeaf_storage_res E _ _ key nonExistingAccountProof pairs.length st' sLeaf cLeaf ls lc
      hsl hcl hls hlc
  have hlastC : getI IndexSite.proofList (pairs.map Prod.snd ++ [cLeaf])
      (((pairs.map Prod.snd ++ [cLeaf]).length : Int) - 1) = .ok cLeaf :=
    getI_last _ _ _ (by simp)
  unfold prepareWitness
  rw [additionalBranchOf_equal_length E _ _ hlen, liftE_ok_bind, Run.bind_res_of_ok hwalk,
    if_neg (by rw [hlen]; simp)]
  have htail : (tailEqual E (pairs.map Prod.snd ++ [cLeaf]) key false nonExistingAccountProof
      nonExistingStorageProof { st' with
        rows := st'.rows ++ ls.1 ++ lc.1
        toBeHashed := st'.toBeHashed ++ [ls.2] ++ [lc.2] }).res =
      .ok (blockRows blocks ++ ls.1 ++ lc.1 ++ E.prepareDriftedLeafPlaceholder false ++ [last],
        branchBlobs pairs ++ [ls.2, lc.2]) := by
    unfold tailEqual
    rw [hlastC, liftE_ok_bind]
    simp only [hC, Bool.false_eq_true, if_false]
    rw [tailLeaf_storage_res E key nonExistingStorageProof _ last
      (by simpa [hrows, initialState] using hlast)]
    simp [hrows, htbh, initialState]
  rw [Run.bind_res_of_ok htail]
  simp [Run.pure, hei]

/-- C4 at the single-level update of Scenario A: one branch pair, an S leaf and
a C leaf, with the non-existing-storage row requested. The hypotheses hold and
the run returns the rows and blobs of the scenario. -/
theorem prepareWitness_storage_update_witness :
    (prepareWitness Fixture.externals () () Fixture.updateS Fixture.updateC [] [] Fixture.key []
      false false true false).res =
      .ok ((([1, 0, 1] ++ List.replicate 65 0) ::
            Fixture.childRows (Fixture.branchWith 7 1 8) (Fixture.branchWith 7 1 9)) ++
          [Fixture.zeroRow, Fixture.zeroRow] ++
          [2 :: Fixture.leafNode 5, [2]] ++ [3 :: Fixture.leafNode 6, [3]] ++
          [Fixture.zeroRow] ++ [3 :: Fixture.leafNode 6],
        [Fixture.branchWith 7 1 8, Fixture.branchWith 7 1 9, Fixture.leafNode 5,
          Fixture.leafNode 6], false) := by
  have h := prepareWitness_storage_update Fixture.externals () ()
    [(Fixture.branchWith 7 1 8, Fixture.branchWith 7 1 9)] (Fixture.leafNode 5)
    (Fixture.leafNode 6) [] [] Fixture.key [] false true false
    [(1, (([1, 0, 1] ++ List.replicate 65 0) ::
      Fixture.childRows (Fixture.branchWith 7 1 8) (Fixture.branchWith 7 1 9)) ++
      [Fixture.zeroRow, Fixture.zeroRow])]
    ([2 :: Fixture.leafNode 5, [2]], Fixture.leafNode 5)
    ([3 :: Fixture.leafNode 6, [3]], Fixture.leafNode 6)
    (3 :: Fixture.leafNode 6)
    (by decide) (by decide) (by decide) (by decide)
    (by
      intro b hb
      rw [List.mem_singleton] at hb
      subst hb
      exact (checkBranches_iff_agree 2 34 Fixture.key 0 _ 1 (by decide)).mp (by decide))
    (by decide) (by decide) (by decide)
  exact h

theorem Run.liftE_bind_res {α β : Type} (r : Except Fault α) (f : α → Run β) :
    (liftE r >>= f).res = match r with
      | .ok a => (f a).res
      | .error e => .error e := by
  cases r <;> rfl

theorem Run.liftE_bind_trace {α β : Type} (r : Except Fault α) (f : α → Run β) :
    (liftE r >>= f).trace = match r with
      | .ok a => (f a).trace
      | .error _ => [] := by
  cases r <;> rfl

theorem Run.emit_bind_res {β : Type} (e : Event) (f : Unit → Run β) :
    (emit e >>= f).res = (f ()).res := rfl

theorem Run.emit_bind_trace {β : Type} (e : Event) (f : Unit → Run β) :
    (emit e >>= f).trace = e :: (f ()).trace := rfl

theorem Run.emitIf_bind_res {β : Type} (b : Bool) (e : Event) (f : Unit → Run β) :
    (emitIf b e >>= f).res = (f ()).res := by
  cases b <;> rfl

theorem Run.emitIf_bind_trace {β : Type} (b : Bool) (e : Event) (f : Unit → Run β) :
    (emitIf b e >>= f).trace = (if b then [e] else []) ++ (f ()).trace := by
  cases b <;> rfl

theorem Run.callExt_bind_res {α β : Type} (e : Event) (r : Option α) (f : α → Run β) :
    (callExt e r >>= f).res = match r with
      | some a => (f a).res
      | none => .error .preparer := by
  cases r <;> rfl

theorem Run.callExt_bind_trace {α β : Type} (e : Event) (r : Option α) (f : α → Run β) :
    (callExt e r >>= f).trace = match r with
      | some a => e :: (f a).trace
      | none => [e] := by
  cases r <;> rfl

theorem walkBranch_ok (E : Externals StateDB Address) (proof1 proof2 : Rows) (key : Row)
    (i : Nat) (st st' : WalkState)
    (h : (walkBranch E proof1 proof2 key i st).res = .ok st') :
    ∃ (sw : Bool) (s c : Row) (nibble : Nat) (bRows : Rows) (blk : Rows × Rows),
      switchC16 E proof1 i st.extensionRows = .ok sw ∧
      proof1[i]? = some s ∧ proof2[i]? = some c ∧ key[st.keyIndex]? = some nibble ∧
      E.prepareTwoBranches s c nibble
        (if sw then (flipPair st.branchC16).1 else st.branchC16)
        (if sw then (flipPair st.branchC16).2 else st.branchC1) false false = some bRows ∧
      attachExtension E proof1 proof2 i
        (if sw then (flipPair st.branchC16).1 else st.branchC16) st.extensionRows bRows
        st.toBeHashed = .ok blk ∧
      (st.extensionNodeInd = 0 →
        checkBranches E.branchNodeRLPLen E.branch2start key i blk.1 16 1 = .ok ()) ∧
      (walkBranch E proof1 proof2 key i st).trace =
        (if sw then [Event.flip] else []) ++
          [.prepareTwoBranches s c nibble
            (if sw then (flipPair st.branchC16).1 else st.branchC16)
            (if sw then (flipPair st.branchC16).2 else st.branchC1) false false,
           .branchBlock i st.extensionNodeInd nibble blk.1] ∧
      st' =
        { rows := st.rows ++ blk.1
          toBeHashed := addForHashing c (addForHashing s blk.2)
          keyIndex := st.keyIndex + 1
          extensionNodeInd := st.extensionNodeInd
          branchC16 := if sw then (flipPair st.branchC16).1 else st.branchC16
          branchC1 := if sw then (flipPair st.branchC16).2 else st.branchC1
          extensionRows := none } := by
  unfold walkBranch at h ⊢
  cases hsw : switchC16 E proof1 i st.extensionRows with
  | error e => simp [hsw, Run.liftE_bind_res] at h
  | ok sw =>
    cases hs : getN IndexSite.proofList proof1 i with
    | error e => simp [hsw, hs, Run.liftE_bind_res, Run.emitIf_bind_res] at h
    | ok s =>
      cases hc : getN IndexSite.proofList proof2 i with
      | error e => simp [hsw, hs, hc, Run.liftE_bind_res, Run.emitIf_bind_res] at h
      | ok c =>
        cases hk : getN IndexSite.keyNibbles key st.keyIndex with
        | error e => simp [hsw, hs, hc, hk, Run.liftE_bind_res, Run.emitIf_bind_res] at h
        | ok nibble =>
          cases hb : E.prepareTwoBranches s c nibble
              (if sw then (flipPair st.branchC16).1 else st.branchC16)
              (if sw then (flipPair st.branchC16).2 else st.branchC1) false false with
          | none =>
            simp [hsw, hs, hc, hk, hb, Run.liftE_bind_res, Run.emitIf_bind_res,
              Run.callExt_bind_res] at h
          | some bRows =>
            cases ha : attachExtension E proof1 proof2 i
                (if sw then (flipPair st.branchC16).1 else st.branchC16) st.extensionRows bRows
                st.toBeHashed with
            | error e =>
              simp [hsw, hs, hc, hk, hb, ha, Run.liftE_bind_res, Run.emitIf_bind_res,
                Run.callExt_bind_res] at h
            | ok blk =>
              cases hchk : (if st.extensionNodeInd = 0 then
                  checkBranches E.branchNodeRLPLen E.branch2start key i blk.1 16 1
                  else .ok ()) with
              | error e =>
                simp [hsw, hs, hc, hk, hb, ha, hchk, Run.liftE_bind_res, Run.emitIf_bind_res,
                  Run.callExt_bind_res, Run.emit_bind_res] at h
              | ok u =>
                refine ⟨sw, s, c, nibble, bRows, blk, rfl, getN_eq_ok.mp hs, getN_eq_ok.mp hc,
                  getN_eq_ok.mp hk, hb, ha, ?_, ?_, ?_⟩
                · intro h0
                  rw [if_pos h0] at hchk
                  exact hchk
                · simp [hs, hc, hk, hb, ha, hchk, Run.liftE_bind_trace,
                    Run.emitIf_bind_trace, Run.callExt_bind_trace, Run.emit_bind_trace, Run.pure]
                · simp [hsw, hs, hc, hk, hb, ha, hchk, Run.liftE_bind_res, Run.emitIf_bind_res,
                    Run.callExt_bind_res, Run.emit_bind_res, Run.pure] at h
                  exact h.symm

theorem walkExtension_ok (E : Externals StateDB Address) (proof1 proof2 extNibblesS : Rows)
    (i : Nat) (st st' : WalkState)
    (h : (walkExtension E proof1 proof2 extNibblesS i st).res = .ok st') :
    ∃ (s c : Row) (ext : Nat × Row × Row),
      proof1[i]? = some s ∧ proof2[i]? = some c ∧
      E.prepareExtensionRows extNibblesS st.extensionNodeInd s c false false = some ext ∧
      (walkExtension E proof1 proof2 extNibblesS i st).trace =
        [.prepareExtensionRows extNibblesS st.extensionNodeInd s c false false] ∧
      st' =
        { st with
          keyIndex := st.keyIndex + ext.1 % 256
          extensionNodeInd := st.extensionNodeInd + 1
          extensionRows := some (ext.2.1, ext.2.2) } := by
  unfold walkExtension at h ⊢
  cases hs : getN IndexSite.proofList proof1 i with
  | error e => simp [hs, Run.liftE_bind_res] at h
  | ok s =>
    cases hc : getN IndexSite.proofList proof2 i with
    | error e => simp [hs, hc, Run.liftE_bind_res] at h
    | ok c =>
      cases hx : E.prepareExtensionRows extNibblesS st.extensionNodeInd s c false false with
      | none => simp [hs, hc, hx, Run.liftE_bind_res, Run.callExt_bind_res] at h
      | some ext =>
        refine ⟨s, c, ext, getN_eq_ok.mp hs, getN_eq_ok.mp hc, hx, ?_, ?_⟩
        · simp [hs, hc, hx, Run.liftE_bind_trace, Run.callExt_bind_trace, Run.pure]
        · simp [hs, hc, hx, Run.liftE_bind_res, Run.callExt_bind_res, Run.pure] at h
          exact h.symm

theorem walkLeaf_ok (E : Externals StateDB Address) (proof1 proof2 : Rows) (key : Row)
    (isAccountProof nonExistingAccountProof : Bool) (i : Nat) (st st' : WalkState)
    (h : (walkLeaf E proof1 proof2 key isAccountProof nonExistingAccountProof i st).res =
      .ok st') :
    (isAccountProof = true ∧ ∃ (leafS leafC : Row) (leaf : Rows × Rows),
      getI .proofList proof1 ((proof1.length : Int) - 1) = .ok leafS ∧
      getI .proofList proof2 ((proof1.length : Int) - 1) = .ok leafC ∧
      E.prepareAccountLeaf leafS leafC key nonExistingAccountProof false = some leaf ∧
      (walkLeaf E proof1 proof2 key isAccountProof nonExistingAccountProof i st).trace =
        [.prepareAccountLeaf leafS leafC key nonExistingAccountProof false] ∧
      st' = { st with rows := st.rows ++ leaf.1, toBeHashed := st.toBeHashed ++ leaf.2 }) ∨
    (isAccountProof = false ∧ ∃ (s c : Row) (ls lc : Rows × Row),
      proof1[i]? = some s ∧ proof2[i]? = some c ∧
      E.prepareStorageLeafRows s 2 false = some ls ∧
      E.prepareStorageLeafRows c 3 false = some lc ∧
      (walkLeaf E proof1 proof2 key isAccountProof nonExistingAccountProof i st).trace =
        [.prepareStorageLeafRows s 2 false, .prepareStorageLeafRows c 3 false] ∧
      st' = { st with
        rows := st.rows ++ ls.1 ++ lc.1
        toBeHashed := st.toBeHashed ++ [ls.2] ++ [lc.2] }) := by
  unfold walkLeaf at h ⊢
  cases isAccountProof with
  | true =>
    left
    simp only [if_true] at h ⊢
    cases hs : getI IndexSite.proofList proof1 ((proof1.length : Int) - 1) with
    | error e => simp [hs, Run.liftE_bind_res] at h
    | ok leafS =>
      cases hc : getI IndexSite.proofList proof2 ((proof1.length : Int) - 1) with
      | error e => simp [hs, hc, Run.liftE_bind_res] at h
      | ok leafC =>
        cases hx : E.prepareAccountLeaf leafS leafC key nonExistingAccountProof false with
        | none => simp [hs, hc, hx, Run.liftE_bind_res, Run.callExt_bind_res] at h
        | some leaf =>
          refine ⟨trivial, leafS, leafC, leaf, rfl, rfl, hx, ?_, ?_⟩
          · simp [hx, Run.liftE_bind_trace, Run.callExt_bind_trace, Run.pure]
          · simp [hs, hc, hx, Run.liftE_bind_res, Run.callExt_bind_res, Run.pure] at h
            exact h.symm
  | false =>
    right
    simp only [Bool.false_eq_true, if_false] at h ⊢
    cases hs : getN IndexSite.proofList proof1 i with
    | error e => simp [hs, Run.liftE_bind_res] at h
    | ok s =>
      cases hls : E.prepareStorageLeafRows s 2 false with
      | none => simp [hs, hls, Run.liftE_bind_res, Run.callExt_bind_res] at h
      | some ls =>
        cases hc : getN IndexSite.proofList proof2 i with
        | error e => simp [hs, hc, hls, Run.liftE_bind_res, Run.callExt_bind_res] at h
        | ok c =>
          cases hlc : E.prepareStorageLeafRows c 3 false with
          | none => simp [hs, hc, hls, hlc, Run.liftE_bind_res, Run.callExt_bind_res] at h
          | some lc =>
            refine ⟨trivial, s, c, ls, lc, getN_eq_ok.mp hs, getN_eq_ok.mp hc, hls, hlc, ?_, ?_⟩
            · simp [hs, hc, hls, hlc, Run.liftE_bind_trace, Run.callExt_bind_trace, Run.pure]
            · simp [hs, hc, hls, hlc, Run.liftE_bind_res, Run.callExt_bind_res, Run.pure] at h
              rw [← h]
              simp

theorem walkStep_cases (E : Externals StateDB Address) (proof1 proof2 extNibblesS : Rows)
    (key : Row) (isAccountProof nonExistingAccountProof : Bool) (i : Nat) (st st' : WalkState)
    (h : (walkStep E proof1 proof2 extNibblesS key isAccountProof nonExistingAccountProof i
      st).res = .ok st') :
    ∃ s, proof1[i]? = some s ∧
      ((E.isBranch s = true ∧
        walkStep E proof1 proof2 extNibblesS key isAccountProof nonExistingAccountProof i st =
          walkBranch E proof1 proof2 key i st) ∨
       (E.isBranch s = false ∧ i + 1 ≠ proof1.length ∧
        walkStep E proof1 proof2 extNibblesS key isAccountProof nonExistingAccountProof i st =
          walkExtension E proof1 proof2 extNibblesS i st) ∨
       (E.isBranch s = false ∧ i + 1 = proof1.length ∧
        walkStep E proof1 proof2 extNibblesS key isAccountProof nonExistingAccountProof i st =
          walkLeaf E proof1 proof2 key isAccountProof nonExistingAccountProof i st)) := by
  cases hs : proof1[i]? with
  | none =>
    exfalso
    unfold walkStep at h
    have hg : getN IndexSite.proofList proof1 i = .error (.indexOutOfRange .proofList) := by
      unfold getN; rw [hs]
    simp [hg, Run.liftE_bind_res] at h
  | some s =>
    refine ⟨s, rfl, ?_⟩
    cases hb : E.isBranch s with
    | true => exact Or.inl ⟨rfl, walkStep_branch E _ _ _ _ _ _ i st s hs hb⟩
    | false =>
      by_cases hi : i + 1 = proof1.length
      · exact Or.inr (Or.inr ⟨rfl, hi, walkStep_leaf E _ _ _ _ _ _ i st s hs hb hi⟩)
      · exact Or.inr (Or.inl ⟨rfl, hi, walkStep_extension E _ _ _ _ _ _ i st s hs hb hi⟩)

theorem tailOf_tailEvents (E : Externals StateDB Address) (statedb : StateDB) (addr : Address)
    (proof1 proof2 extNibblesS extNibblesC : Rows) (key neighbourNode : Row)
    (isAccountProof nonExistingAccountProof nonExistingStorageProof isShorterProofLastLeaf
      additionalBranch : Bool) (st : WalkState) :
    (tailOf E statedb addr proof1 proof2 extNibblesS extNibblesC key neighbourNode isAccountProof
      nonExistingAccountProof nonExistingStorageProof isShorterProofLastLeaf additionalBranch
      st).Sat Event.isTailEvent (fun _ => True) := by
  unfold tailOf tailUnequal tailEqual tailBranchStorage tailBranchAccount tailLeaf
    addBranchAndPlaceholder addBranchExtensionPart
  simp only []
  repeat (first
    | exact Run.sat_pure trivial
    | exact Run.sat_callExt trivial (fun _ _ => trivial)
    | refine Run.sat_bind (Q := fun _ => True) (Run.sat_liftE (fun _ _ => trivial)) (fun _ _ => ?_)
    | refine Run.sat_bind (Q := fun _ => True) (Run.sat_callExt trivial (fun _ _ => trivial))
        (fun _ _ => ?_)
    | refine Run.sat_bind (Q := fun _ => True) (Run.sat_emit trivial trivial) (fun _ _ => ?_)
    | refine Run.sat_bind (Q := fun _ => True) ?_ (fun _ _ => ?_)
    | split)

theorem prepareWitness_ok (E : Externals StateDB Address) (statedb : StateDB) (addr : Address)
    (proof1 proof2 extNibblesS extNibblesC : Rows) (key neighbourNode : Row)
    (isAccountProof nonExistingAccountProof nonExistingStorageProof
      isShorterProofLastLeaf : Bool) (out : Rows × Rows × Bool)
    (h : (prepareWitness E statedb addr proof1 proof2 extNibblesS extNibblesC key neighbourNode
      isAccountProof nonExistingAccountProof nonExistingStorageProof
      isShorterProofLastLeaf).res = .ok out) :
    ∃ (ab : Bool) (st : WalkState) (tl : Rows × Rows),
      additionalBranchOf E proof1 proof2 = .ok ab ∧
      (walk E proof1 proof2 extNibblesS key isAccountProof nonExistingAccountProof ab).res =
        .ok st ∧
      (tailOf E statedb addr proof1 proof2 extNibblesS extNibblesC key neighbourNode
        isAccountProof nonExistingAccountProof nonExistingStorageProof isShorterProofLastLeaf ab
        st).res = .ok tl ∧
      (prepareWitness E statedb addr proof1 proof2 extNibblesS extNibblesC key neighbourNode
        isAccountProof nonExistingAccountProof nonExistingStorageProof
        isShorterProofLastLeaf).trace =
        (walk E proof1 proof2 extNibblesS key isAccountProof nonExistingAccountProof ab).trace ++
        (tailOf E statedb addr proof1 proof2 extNibblesS extNibblesC key neighbourNode
          isAccountProof nonExistingAccountProof nonExistingStorageProof isShorterProofLastLeaf
          ab st).trace ∧
      out = (tl.1, tl.2, decide (st.extensionNodeInd > 0)) := by
  unfold prepareWitness at h ⊢
  obtain ⟨ab, hab, h1⟩ := Run.bind_res_ok h
  obtain ⟨st, hst, h2⟩ := Run.bind_res_ok h1
  obtain ⟨tl, htl, h3⟩ := Run.bind_res_ok h2
  refine ⟨ab, st, tl, hab, hst, htl, ?_, ?_⟩
  · rw [Run.bind_trace_of_ok hab, Run.bind_trace_of_ok hst, Run.bind_trace_of_ok htl]
    simp [liftE, Run.pure, tailOf]
  · simp only [Run.pure, Except.ok.injEq] at h3
    exact h3.symm

theorem upToOf_le_length (proof1 proof2 : Rows) (ab : Bool) :
    (upToOf proof1 proof2 ab).toNat ≤ proof1.length ∧
    (upToOf proof1 proof2 ab).toNat ≤ proof2.length := by
  unfold upToOf
  simp only []
  split <;> split <;> omega

theorem walkFrom_blocks_agree (E : Externals StateDB Address) (proof1 proof2 extNibblesS : Rows)
    (key : Row) (isAccountProof nonExistingAccountProof : Bool) (n : Nat) :
    ∀ (i : Nat) (st st' : WalkState), i + n ≤ proof1.length →
    (st.extensionNodeInd = 0 → st.keyIndex = i) →
    (walkFrom E proof1 proof2 extNibblesS key isAccountProof nonExistingAccountProof n i st).res =
      .ok st' →
    ∀ j nibble bRows, Event.branchBlock j 0 nibble bRows ∈
      (walkFrom E proof1 proof2 extNibblesS key isAccountProof nonExistingAccountProof n i
        st).trace →
      BranchesAgree E.branchNodeRLPLen E.branch2start nibble bRows := by
  induction n with
  | zero =>
    intro i st st' _ _ _ j nibble bRows hmem
    simp [walkFrom, Run.pure] at hmem
  | succ n ih =>
    intro i st st' hbound hinv hres j nibble bRows hmem
    have hres' : (walkStep E proof1 proof2 extNibblesS key isAccountProof
        nonExistingAccountProof i st >>= fun s => walkFrom E proof1 proof2 extNibblesS key
        isAccountProof nonExistingAccountProof n (i + 1) s).res = .ok st' := hres
    have hmem' : Event.branchBlock j 0 nibble bRows ∈ (walkStep E proof1 proof2 extNibblesS key
        isAccountProof nonExistingAccountProof i st >>= fun s => walkFrom E proof1 proof2
        extNibblesS key isAccountProof nonExistingAccountProof n (i + 1) s).trace := hmem
    obtain ⟨st1, h1, h2⟩ := Run.bind_res_ok hres'
    rw [Run.bind_trace_of_ok h1, List.mem_append] at hmem'
    obtain ⟨s, hs, hcase⟩ := walkStep_cases E proof1 proof2 extNibblesS key isAccountProof
      nonExistingAccountProof i st st1 h1
    rcases hcase with ⟨_, heq⟩ | ⟨_, _, heq⟩ | ⟨_, hlast, heq⟩
    · rw [heq] at h1 hmem'
      obtain ⟨sw, s', c, nib, bR, blk, _, _, _, hkey, _, _, hchk, htr, hst1⟩ :=
        walkBranch_ok E proof1 proof2 key i st st1 h1
      rcases hmem' with hm | hm
      · rw [htr] at hm
        have hm' : Event.branchBlock j 0 nibble bRows =
            Event.branchBlock i st.extensionNodeInd nib blk.1 := by
          cases sw <;> simpa using hm
        injection hm' with hj h0 hn hb
        subst hn hb
        have hk := hinv h0.symm
        rw [hk] at hkey
        exact (checkBranches_iff_agree _ _ key i blk.1 nibble hkey).mp (hchk h0.symm)
      · refine ih (i + 1) st1 st' (by omega) ?_ h2 j nibble bRows hm
        intro h0
        rw [hst1] at h0 ⊢
        simp only [] at h0 ⊢
        rw [hinv h0]
    · rw [heq] at h1 hmem'
      obtain ⟨s', c, ext, _, _, _, htr, hst1⟩ :=
        walkExtension_ok E proof1 proof2 extNibblesS i st st1 h1
      rcases hmem' with hm | hm
      · rw [htr] at hm
        simp at hm
      · refine ih (i + 1) st1 st' (by omega) ?_ h2 j nibble bRows hm
        intro h0
        rw [hst1] at h0
        simp at h0
    · rw [heq] at h1 hmem'
      have hn : n = 0 := by omega
      subst hn
      rcases hmem' with hm | hm
      · rcases walkLeaf_ok E proof1 proof2 key isAccountProof nonExistingAccountProof i st st1 h1
          with ⟨_, _, _, _, _, _, _, htr, _⟩ | ⟨_, _, _, _, _, _, _, _, _, htr, _⟩
        · rw [htr] at hm; simp at hm
        · rw [htr] at hm; simp at hm
      · simp [walkFrom, Run.pure] at hm

/-- C5 (amended). On every input on which `prepareWitness` returns normally, every
branch block emitted by the common-prefix walk before the first extension node
has been consumed (`extensionNodeInd = 0`) agrees off its active nibble: for
every `k` in `1..16` with `k - 1` different from the nibble given to
`prepareTwoBranches` and every `j < branchNodeRLPLen + 32`,
`row[k][j] = row[k][branch2start + j]`. Equivalently, an off-active-nibble S/C
mismatch in such a block is fatal. -/
theorem prepareWitness_blocks_agree_before_extension (E : Externals StateDB Address)
    (statedb : StateDB) (addr : Address)
    (proof1 proof2 extNibblesS extNibblesC : Rows) (key neighbourNode : Row)
    (isAccountProof nonExistingAccountProof nonExistingStorageProof
      isShorterProofLastLeaf : Bool) (out : Rows × Rows × Bool)
    (hret : (prepareWitness E statedb addr proof1 proof2 extNibblesS extNibblesC key
      neighbourNode isAccountProof nonExistingAccountProof nonExistingStorageProof
      isShorterProofLastLeaf).res = .ok out) :
    ∀ i nibble bRows, Event.branchBlock i 0 nibble bRows ∈
      (prepareWitness E statedb addr proof1 proof2 extNibblesS extNibblesC key neighbourNode
        isAccountProof nonExistingAccountProof nonExistingStorageProof
        isShorterProofLastLeaf).trace →
      BranchesAgree E.branchNodeRLPLen E.branch2start nibble bRows := by
  intro i nibble bRows hmem
  obtain ⟨ab, st, tl, _, hst, _, htr, _⟩ := prepareWitness_ok E statedb addr proof1 proof2
    extNibblesS extNibblesC key neighbourNode isAccountProof nonExistingAccountProof
    nonExistingStorageProof isShorterProofLastLeaf out hret
  rw [htr, List.mem_append] at hmem
  rcases hmem with hm | hm
  · exact walkFrom_blocks_agree E proof1 proof2 extNibblesS key isAccountProof
      nonExistingAccountProof _ 0 initialState st
      (by have := (upToOf_le_length proof1 proof2 ab).1; omega) (fun _ => rfl) hst i nibble bRows hm
  · exact ((tailOf_tailEvents E statedb addr proof1 proof2 extNibblesS extNibblesC key
      neighbourNode isAccountProof nonExistingAccountProof nonExistingStorageProof
      isShorterProofLastLeaf ab st).1 _ hm).elim

/-- C5 at the single-level update of Scenario A: the run returns and its one
branch block, emitted with the active nibble 1, agrees off that nibble. -/
theorem prepareWitness_blocks_agree_before_extension_witness :
    BranchesAgree 2 34 1
      ((([1, 0, 1] ++ List.replicate 65 0) ::
        Fixture.childRows (Fixture.branchWith 7 1 8) (Fixture.branchWith 7 1 9)) ++
        [Fixture.zeroRow, Fixture.zeroRow]) := by
  have hok : (prepareWitness Fixture.externals () () Fixture.updateS Fixture.updateC [] []
      Fixture.key [] false false true false).res.toBool = true := by decide
  obtain ⟨out, hout⟩ := exists_ok_of_toBool hok
  exact prepareWitness_blocks_agree_before_extension Fixture.externals () () Fixture.updateS
    Fixture.updateC [] [] Fixture.key [] false false true false out hout 0 1 _ (by decide)

/-- C5 (counterexample). With a one-nibble extension node above the branch,
`prepareWitness` returns normally although the branch block it emitted (active
nibble 1) has S bytes 7 and C bytes 8 in every child row: the check of lines
268-280 is skipped once `extensionNodeInd` is no longer 0. -/
theorem blocks_after_extension_not_checked :
    (prepareWitness Fixture.externals () () Fixture.extS Fixture.extC [[1]] [[1]] Fixture.key []
      false false false false).res.toBool = true ∧
    ∃ i ind nibble bRows, Event.branchBlock i ind nibble bRows ∈
      (prepareWitness Fixture.externals () () Fixture.extS Fixture.extC [[1]] [[1]] Fixture.key
        [] false false false false).trace ∧
      ¬ BranchesAgree Fixture.externals.branchNodeRLPLen Fixture.externals.branch2start nibble
        bRows := by
  refine ⟨by decide, 1, 1, 1,
    ((([0, 1, 1, 0, 1, 0, 0, 1, 1, 0, 1] ++ List.replicate 57 0) ::
        Fixture.childRows (Fixture.branchOf 7) (Fixture.branchOf 8)) ++
        [Fixture.shortExt, Fixture.shortExt]), by decide, ?_⟩
  intro h
  have hchk := (checkBranches_iff_agree 2 34 Fixture.key 1 _ 1 (by decide)).mpr h
  revert hchk
  decide

theorem setB_ok {row row' : Row} {i : Int} {v : Nat} (h : setB row i v = .ok row') :
    0 ≤ i ∧ i.toNat < row.length ∧ row' = row.set i.toNat v := by
  unfold setB at h
  split at h
  · cases h
  · split at h
    · simp only [Except.ok.injEq] at h
      exact ⟨by omega, ‹_›, h.symm⟩
    · cases h

theorem setB_nat_ok {row row' : Row} {n v : Nat} (h : setB row (n : Int) v = .ok row') :
    n < row.length ∧ row' = row.set n v := by
  obtain ⟨_, h2, h3⟩ := setB_ok h
  simp only [Int.toNat_ofNat] at h2 h3
  exact ⟨h2, h3⟩

theorem placeholderStorageLeaf_ok {rowLen : Nat} {leaf : Row}
    (h : placeholderStorageLeaf rowLen = .ok leaf) :
    3 ≤ rowLen ∧ leaf = 228 :: 130 :: 51 :: List.replicate (rowLen - 3) 0 := by
  unfold placeholderStorageLeaf at h
  cases h0 : setB (List.replicate rowLen 0) 0 228 with
  | error e => simp [h0, bind, Except.bind] at h
  | ok l0 =>
    cases h1 : setB l0 1 130 with
    | error e => simp [h0, h1, bind, Except.bind] at h
    | ok l1 =>
      simp [h0, h1, bind, Except.bind] at h
      obtain ⟨a0, b0⟩ := setB_nat_ok (n := 0) h0
      obtain ⟨a1, b1⟩ := setB_nat_ok (n := 1) h1
      obtain ⟨a2, b2⟩ := setB_nat_ok (n := 2) h
      subst b0 b1 b2
      simp only [List.length_set, List.length_replicate] at a0 a1 a2
      refine ⟨by omega, ?_⟩
      obtain ⟨m, rfl⟩ : ∃ m, rowLen = m + 3 := ⟨rowLen - 3, by omega⟩
      simp [List.replicate_succ]

theorem branchTerminusStorageRow_ok {emptyRow key last : Row} {keyIndex : Nat}
    (h : branchTerminusStorageRow emptyRow key keyIndex = .ok last) :
    2 < emptyRow.length ∧ keyIndex ≤ key.length ∧
    ∃ b2, last = (emptyRow.set 1 ((byteOfInt (placeholderKeyLen keyIndex) + 128) % 256)).set 2 b2 ∧
      (keyIndex % 2 = 0 → b2 = 32) ∧
      (keyIndex % 2 = 1 → ∃ nibble, key[keyIndex]? = some nibble ∧ b2 = (nibble + 48) % 256) := by
  unfold branchTerminusStorageRow at h
  cases hs : sliceFrom key keyIndex with
  | error e => simp [hs, bind, Except.bind] at h
  | ok rem =>
    have hsl : keyIndex ≤ key.length ∧ rem = key.drop keyIndex := by
      unfold sliceFrom at hs
      split at hs
      · simp only [Except.ok.injEq] at hs
        exact ⟨‹_›, hs.symm⟩
      · cases hs
    cases h1 : setB emptyRow 1 ((byteOfInt (placeholderKeyLen keyIndex) + 128) % 256) with
    | error e => simp [hs, h1, bind, Except.bind] at h
    | ok l1 =>
      obtain ⟨a1, b1⟩ := setB_nat_ok (n := 1) h1
      by_cases hev : keyIndex % 2 = 0
      · simp [hs, h1, hev, bind, Except.bind] at h
        obtain ⟨a2, b2⟩ := setB_nat_ok (n := 2) h
        subst b1
        simp only [List.length_set] at a2
        exact ⟨a2, hsl.1, 32, b2, fun _ => rfl, fun h1 => by omega⟩
      · cases hf : getN IndexSite.keyNibbles rem 0 with
        | error e => simp [hs, h1, hev, hf, bind, Except.bind] at h
        | ok first =>
          simp [hs, h1, hev, hf, bind, Except.bind] at h
          obtain ⟨a2, b2⟩ := setB_nat_ok (n := 2) h
          subst b1
          simp only [List.length_set] at a2
          refine ⟨a2, hsl.1, (first + 48) % 256, b2, fun h0 => absurd h0 hev, fun _ => ?_⟩
          refine ⟨first, ?_, rfl⟩
          have hf' := getN_eq_ok.mp hf
          rw [hsl.2] at hf'
          simpa using hf'

theorem tailBranchStorage_ok (E : Externals StateDB Address) (key : Row)
    (nonExistingStorageProof : Bool) (st : WalkState) (tl : Rows × Rows)
    (h : (tailBranchStorage E key nonExistingStorageProof st).res = .ok tl) :
    ∃ (leaf : Row) (ls lc : Rows × Row) (last : Row),
      placeholderStorageLeaf E.rowLen = .ok leaf ∧
      E.prepareStorageLeafRows leaf 2 false = some ls ∧
      E.prepareStorageLeafRows leaf 3 false = some lc ∧
      (if nonExistingStorageProof then
        branchTerminusStorageRow E.prepareEmptyNonExistingStorageRow key st.keyIndex = .ok last
       else last = E.prepareEmptyNonExistingStorageRow) ∧
      tl = (st.rows ++ ls.1 ++ lc.1 ++ E.prepareDriftedLeafPlaceholder false ++ [last],
        st.toBeHashed) := by
  unfold tailBranchStorage at h
  cases hl : placeholderStorageLeaf E.rowLen with
  | error e => simp [hl, Run.liftE_bind_res] at h
  | ok leaf =>
    cases hls : E.prepareStorageLeafRows leaf 2 false with
    | none => simp [hl, hls, Run.liftE_bind_res, Run.callExt_bind_res] at h
    | some ls =>
      cases hlc : E.prepareStorageLeafRows leaf 3 false with
      | none => simp [hl, hls, hlc, Run.liftE_bind_res, Run.callExt_bind_res] at h
      | some lc =>
        cases nonExistingStorageProof with
        | false =>
          simp [hl, hls, hlc, Run.liftE_bind_res, Run.callExt_bind_res, Run.pure] at h
          refine ⟨leaf, ls, lc, E.prepareEmptyNonExistingStorageRow, rfl, hls, hlc, by simp, ?_⟩
          rw [← h]
          simp
        | true =>
          cases hb : branchTerminusStorageRow E.prepareEmptyNonExistingStorageRow key
              st.keyIndex with
          | error e =>
            simp [hl, hls, hlc, hb, Run.liftE_bind_res, Run.callExt_bind_res, Run.pure] at h
          | ok last =>
            simp [hl, hls, hlc, hb, Run.liftE_bind_res, Run.callExt_bind_res, Run.pure] at h
            refine ⟨leaf, ls, lc, last, rfl, hls, hlc, by simp, ?_⟩
            rw [← h]
            simp

theorem placeholderKeyLen_eq (keyIndex : Nat) :
    placeholderKeyLen keyIndex = (64 - (keyIndex : Int)) / 2 + 1 := by
  unfold placeholderKeyLen
  rw [Int.fdiv_eq_ediv _ (by decide)]

theorem byteOfInt_add_128 (n : Int) :
    (((byteOfInt n + 128) % 256 : Nat) : Int) = (n + 128) % 256 := by
  unfold byteOfInt
  omega

theorem tailOf_equal_branch (E : Externals StateDB Address) (statedb : StateDB) (addr : Address)
    (proof1 proof2 extNibblesS extNibblesC : Rows) (key neighbourNode : Row)
    (isAccountProof nonExistingAccountProof nonExistingStorageProof isShorterProofLastLeaf
      additionalBranch : Bool) (st : WalkState) (lastC : Row)
    (hlen : proof1.length = proof2.length) (hlastC : proof2.getLast? = some lastC)
    (hbr : E.isBranch lastC = true) :
    tailOf E statedb addr proof1 proof2 extNibblesS extNibblesC key neighbourNode isAccountProof
      nonExistingAccountProof nonExistingStorageProof isShorterProofLastLeaf additionalBranch st =
      if isAccountProof then tailBranchAccount E key nonExistingAccountProof st
      else tailBranchStorage E key nonExistingStorageProof st := by
  unfold tailOf tailEqual
  rw [if_neg (by rw [hlen]; simp), getI_last _ _ _ hlastC, liftE_ok_bind]
  cases isAccountProof <;> simp [hbr]

theorem except_bind_ok {α β : Type} {x : Except Fault α} {f : α → Except Fault β} {b : β}
    (h : (x >>= f) = .ok b) : ∃ a, x = .ok a ∧ f a = .ok b := by
  cases x with
  | error e => cases h
  | ok a => exact ⟨a, rfl, h⟩

theorem fillKeyBytes_preserves (remainingNibbles : Row) (offset : Nat) (n : Nat) :
    ∀ (i : Nat) (leaf leaf' : Row),
    fillKeyBytes remainingNibbles offset n i leaf = .ok leaf' →
    leaf'.length = leaf.length ∧
    ∀ p, (p < 4 + i ∨ 4 + i + n ≤ p) → leaf'[p]? = leaf[p]? := by
  induction n with
  | zero =>
    intro i leaf leaf' h
    simp only [fillKeyBytes, Except.ok.injEq] at h
    subst h
    exact ⟨rfl, fun _ _ => rfl⟩
  | succ n ih =>
    intro i leaf leaf' h
    unfold fillKeyBytes at h
    obtain ⟨hi, _, h⟩ := except_bind_ok h
    obtain ⟨lo, _, h⟩ := except_bind_ok h
    obtain ⟨l1, hset, h⟩ := except_bind_ok h
    obtain ⟨hlen, hp⟩ := ih (i + 1) l1 leaf' h
    obtain ⟨_, hi1, hl1⟩ := setB_ok hset
    have ht : (4 + (i : Int)).toNat = 4 + i := by omega
    rw [ht] at hl1
    subst hl1
    refine ⟨by rw [hlen, List.length_set], fun p hpp => ?_⟩
    rw [hp p (by omega), List.getElem?_set_ne (by omega)]

theorem syntheticAccountLeafHeader_ok {rowLen kl : Nat} {leaf : Row} (hkl : 1 ≤ kl)
    (hkl2 : kl ≤ 127)
    (h : syntheticAccountLeafHeader rowLen (kl : Int) = .ok leaf) :
    leaf.length = rowLen ∧
    leaf[0]? = some 248 ∧ leaf[2]? = some (kl + 128) ∧
    leaf[3 + kl]? = some 184 ∧ leaf[3 + kl + 1]? = some 0 ∧
    leaf[3 + kl + 2]? = some 248 ∧ leaf[3 + kl + 3]? = some 254 := by
  unfold syntheticAccountLeafHeader at h
  obtain ⟨l0, h0, h⟩ := except_bind_ok h
  obtain ⟨l1, h1, h⟩ := except_bind_ok h
  obtain ⟨l2, h2, h⟩ := except_bind_ok h
  obtain ⟨l3, h3, h⟩ := except_bind_ok h
  obtain ⟨v, h4, h5⟩ := except_bind_ok h
  have hbyte : (byteOfInt (kl : Int) + 128) % 256 = kl + 128 := by
    unfold byteOfInt; omega
  rw [hbyte] at h1
  obtain ⟨a0, b0⟩ := setB_nat_ok (n := 0) h0
  obtain ⟨a1, b1⟩ := setB_nat_ok (n := 2) h1
  obtain ⟨_, a2, b2⟩ := setB_ok h2
  obtain ⟨_, a3, b3⟩ := setB_ok h3
  obtain ⟨_, a5, b5⟩ := setB_ok h5
  have e2 : (3 + (kl : Int)).toNat = 3 + kl := by omega
  have e3 : (3 + (kl : Int) + 1 + 1).toNat = 3 + kl + 2 := by omega
  have e4 : (3 + (kl : Int) + 1).toNat = 3 + kl + 1 := by omega
  have e5 : (3 + (kl : Int) + 1 + 1 + 1).toNat = 3 + kl + 3 := by omega
  rw [e2] at a2 b2
  rw [e3] at a3 b3
  rw [e5] at a5 b5
  have n0 : l0.length = rowLen := by rw [b0, List.length_set, List.length_replicate]
  have n1 : l1.length = rowLen := by rw [b1, List.length_set, n0]
  have n2 : l2.length = rowLen := by rw [b2, List.length_set, n1]
  have n3 : l3.length = rowLen := by rw [b3, List.length_set, n2]
  have n5 : leaf.length = rowLen := by rw [b5, List.length_set, n3]
  rw [n3] at a5
  have z0 : ∀ p, p ≠ 0 → p < rowLen → l0[p]? = some 0 := by
    intro p hp hlt
    rw [b0, List.getElem?_set_ne (Ne.symm hp), List.getElem?_replicate_of_lt hlt]
  have hv : v = 0 := by
    unfold getI at h4
    rw [if_neg (by omega), e4] at h4
    have hz : l3[3 + kl + 1]? = some 0 := by
      rw [b3, List.getElem?_set_ne (by omega), b2, List.getElem?_set_ne (by omega),
        b1, List.getElem?_set_ne (by omega)]
      exact z0 _ (by omega) (by omega)
    rw [hz] at h4
    simp only [Except.ok.injEq] at h4
    exact h4.symm
  subst hv
  refine ⟨n5, ?_, ?_, ?_, ?_, ?_, ?_⟩
  · rw [b5, List.getElem?_set_ne (by omega), b3, List.getElem?_set_ne (by omega),
      b2, List.getElem?_set_ne (by omega), b1, List.getElem?_set_ne (by omega), b0]
    exact List.getElem?_set_self a0
  · rw [b5, List.getElem?_set_ne (by omega), b3, List.getElem?_set_ne (by omega),
      b2, List.getElem?_set_ne (by omega), b1]
    exact List.getElem?_set_self a1
  · rw [b5, List.getElem?_set_ne (by omega), b3, List.getElem?_set_ne (by omega), b2]
    exact List.getElem?_set_self a2
  · rw [b5, List.getElem?_set_ne (by omega), b3, List.getElem?_set_ne (by omega),
      b2, List.getElem?_set_ne (by omega), b1, List.getElem?_set_ne (by omega)]
    exact z0 _ (by omega) (by omega)
  · rw [b5, List.getElem?_set_ne (by omega), b3]
    exact List.getElem?_set_self a3
  · rw [b5]
    exact List.getElem?_set_self (by rw [n3]; exact a5)

theorem tailBranchAccount_ok (E : Externals StateDB Address) (key : Row)
    (nonExistingAccountProof : Bool) (st : WalkState) (tl : Rows × Rows)
    (h : (tailBranchAccount E key nonExistingAccountProof st).res = .ok tl) :
    ∃ (leaf : Row) (leafRows : Rows × Rows),
      syntheticAccountLeaf E.rowLen key st.keyIndex = .ok leaf ∧
      E.prepareAccountLeaf leaf leaf key nonExistingAccountProof true = some leafRows ∧
      (tailBranchAccount E key nonExistingAccountProof st).trace =
        [.prepareAccountLeaf leaf leaf key nonExistingAccountProof true] ∧
      tl = (st.rows ++ leafRows.1 ++ E.prepareDriftedLeafPlaceholder true, st.toBeHashed) := by
  unfold tailBranchAccount at h ⊢
  cases hl : syntheticAccountLeaf E.rowLen key st.keyIndex with
  | error e => simp [hl, Run.liftE_bind_res] at h
  | ok leaf =>
    cases hp : E.prepareAccountLeaf leaf leaf key nonExistingAccountProof true with
    | none => simp [hl, hp, Run.liftE_bind_res, Run.callExt_bind_res] at h
    | some leafRows =>
      refine ⟨leaf, leafRows, rfl, hp, ?_, ?_⟩
      · simp [hp, Run.liftE_bind_trace, Run.callExt_bind_trace, Run.pure]
      · simp [hl, hp, Run.liftE_bind_res, Run.callExt_bind_res, Run.pure] at h
        rw [← h]
        simp

theorem addBranchExtensionPart_events (E : Externals StateDB Address)
    (proof1 proof2 extNibblesS extNibblesC : Rows) (extensionNodeInd branchC16 branchC1 : Nat)
    (toBeHashed : Rows) :
    (addBranchExtensionPart E proof1 proof2 extNibblesS extNibblesC extensionNodeInd branchC16
      branchC1 toBeHashed).Sat Event.isExtensionPartEvent (fun _ => True) := by
  unfold addBranchExtensionPart
  simp only []
  repeat (first
    | exact Run.sat_pure trivial
    | refine Run.sat_bind (Q := fun _ => True) (Run.sat_liftE (fun _ _ => trivial)) (fun _ _ => ?_)
    | refine Run.sat_bind (Q := fun _ => True) (Run.sat_callExt trivial (fun _ _ => trivial))
        (fun _ _ => ?_)
    | refine Run.sat_bind (Q := fun _ => True) (Run.sat_emit trivial trivial) (fun _ _ => ?_)
    | split)

theorem addBranchAndPlaceholder_ok (E : Externals StateDB Address) (statedb : StateDB)
    (addr : Address) (rows proof1 proof2 extNibblesS extNibblesC : Rows) (key neighbourNode : Row)
    (keyIndex extensionNodeInd : Nat)
    (additionalBranch isAccountProof nonExistingAccountProof isShorterProofLastLeaf : Bool)
    (branchC16 branchC1 : Nat) (toBeHashed : Rows) (r : BranchPlaceholderResult)
    (h : (addBranchAndPlaceholder E statedb addr rows proof1 proof2 extNibblesS extNibblesC key
      neighbourNode keyIndex extensionNodeInd additionalBranch isAccountProof
      nonExistingAccountProof isShorterProofLastLeaf branchC16 branchC1 toBeHashed).res = .ok r) :
    ∃ (p : ExtensionPart) (longExtNode branch : Row) (nibble : Nat) (pb : Rows × Row),
      (addBranchExtensionPart E proof1 proof2 extNibblesS extNibblesC extensionNodeInd branchC16
        branchC1 toBeHashed).res = .ok p ∧
      (if proof1.length > proof2.length then
          getI .proofList proof2 ((proof2.length : Int) - 1)
        else getI .proofList proof1 ((proof1.length : Int) - 1)) = .ok longExtNode ∧
      (if proof1.length > proof2.length then
          getI .proofList proof1 ((proof1.length : Int) - 2)
        else getI .proofList proof2 ((proof2.length : Int) - 2)) = .ok branch ∧
      key[keyIndex + p.numberOfNibbles]? = some nibble ∧
      E.prepareParallelBranches branch branch nibble (decide (proof1.length > proof2.length))
        p.branchC16 p.branchC1 (!E.isBranch longExtNode && !isShorterProofLastLeaf) = some pb ∧
      (addBranchAndPlaceholder E statedb addr rows proof1 proof2 extNibblesS extNibblesC key
        neighbourNode keyIndex extensionNodeInd additionalBranch isAccountProof
        nonExistingAccountProof isShorterProofLastLeaf branchC16 branchC1 toBeHashed).trace =
        Event.addBranchAndPlaceholder keyIndex extensionNodeInd branchC16 branchC1 ::
          ((addBranchExtensionPart E proof1 proof2 extNibblesS extNibblesC extensionNodeInd
            branchC16 branchC1 toBeHashed).trace ++
          [.prepareParallelBranches branch branch nibble (decide (proof1.length > proof2.length))
            p.branchC16 p.branchC1 (!E.isBranch longExtNode && !isShorterProofLastLeaf)]) ∧
      r =
        { rows := rows ++ pb.1 ++ p.extRows
          toBeHashed := addForHashing pb.2 p.toBeHashed
          isModifiedExtNode := !E.isBranch longExtNode && !isShorterProofLastLeaf
          isExtension := (proof1.length == proof2.length + 2) ||
            (proof2.length == proof1.length + 2)
          numberOfNibbles := p.numberOfNibbles
          branchC16 := p.branchC16 } := by
  unfold addBranchAndPlaceholder at h ⊢
  rw [Run.emit_bind_res] at h
  rw [Run.emit_bind_trace]
  obtain ⟨p, hp, h⟩ := Run.bind_res_ok h
  rw [Run.bind_trace_of_ok hp]
  obtain ⟨longExtNode, hl, h⟩ := Run.bind_res_ok h
  rw [Run.bind_trace_of_ok hl]
  obtain ⟨branch, hb, h⟩ := Run.bind_res_ok h
  rw [Run.bind_trace_of_ok hb]
  obtain ⟨nibble, hn, h⟩ := Run.bind_res_ok h
  rw [Run.bind_trace_of_ok hn]
  obtain ⟨pb, hpb, h⟩ := Run.bind_res_ok h
  rw [Run.bind_trace_of_ok hpb]
  have hpb' : E.prepareParallelBranches branch branch nibble
      (decide (proof1.length > proof2.length)) p.branchC16 p.branchC1
      (!E.isBranch longExtNode && !isShorterProofLastLeaf) = some pb := by
    cases hc : E.prepareParallelBranches branch branch nibble
        (decide (proof1.length > proof2.length)) p.branchC16 p.branchC1
        (!E.isBranch longExtNode && !isShorterProofLastLeaf) with
    | none => simp [callExt, hc] at hpb
    | some x =>
      simp only [callExt, hc, Except.ok.injEq] at hpb
      rw [hpb]
  refine ⟨p, longExtNode, branch, nibble, pb, hp, hl, hb, getN_eq_ok.mp hn, hpb', ?_, ?_⟩
  · simp [liftE, callExt, Run.pure]
  · simp only [Run.pure, Except.ok.injEq] at h
    exact h.symm

theorem callExt_ok {α : Type} {e : Event} {r : Option α} {a : α}
    (h : (callExt e r).res = .ok a) : r = some a := by
  cases r with
  | none => simp [callExt] at h
  | some x =>
    simp only [callExt, Except.ok.injEq] at h
    rw [h]

theorem tailUnequal_ok (E : Externals StateDB Address) (statedb : StateDB) (addr : Address)
    (proof1 proof2 extNibblesS extNibblesC : Rows) (key neighbourNode : Row)
    (isAccountProof nonExistingAccountProof isShorterProofLastLeaf : Bool)
    (st : WalkState) (tl : Rows × Rows)
    (h : (tailUnequal E statedb addr proof1 proof2 extNibblesS extNibblesC key neighbourNode
      isAccountProof nonExistingAccountProof isShorterProofLastLeaf true st).res = .ok tl) :
    ∃ (r : BranchPlaceholderResult) (l : Rows × Rows),
      (addBranchAndPlaceholder E statedb addr st.rows proof1 proof2 extNibblesS extNibblesC key
        neighbourNode st.keyIndex st.extensionNodeInd true isAccountProof
        nonExistingAccountProof isShorterProofLastLeaf st.branchC16 st.branchC1
        st.toBeHashed).res = .ok r ∧
      (if isAccountProof then
        E.addAccountLeafAfterBranchPlaceholder r.rows proof1 proof2 neighbourNode key
          nonExistingAccountProof r.isModifiedExtNode r.isExtension r.branchC16
          r.numberOfNibbles r.toBeHashed
       else
        E.addStorageLeafAfterBranchPlaceholder r.rows proof1 proof2 neighbourNode key
          nonExistingAccountProof r.isModifiedExtNode r.isExtension r.branchC16
          r.numberOfNibbles r.toBeHashed) = some l ∧
      (if r.isModifiedExtNode then
        E.addModifiedExtNode statedb addr l.1 proof1 proof2 extNibblesS extNibblesC key
          neighbourNode st.keyIndex st.extensionNodeInd r.numberOfNibbles true
          isAccountProof nonExistingAccountProof isShorterProofLastLeaf r.branchC16 st.branchC1
          l.2 = some tl
       else tl = l) ∧
      (tailUnequal E statedb addr proof1 proof2 extNibblesS extNibblesC key neighbourNode
        isAccountProof nonExistingAccountProof isShorterProofLastLeaf true st).trace =
        (addBranchAndPlaceholder E statedb addr st.rows proof1 proof2 extNibblesS extNibblesC key
          neighbourNode st.keyIndex st.extensionNodeInd true isAccountProof
          nonExistingAccountProof isShorterProofLastLeaf st.branchC16 st.branchC1
          st.toBeHashed).trace ++
        [if isAccountProof then
          Event.addAccountLeafAfterBranchPlaceholder r.isModifiedExtNode r.isExtension
            r.branchC16 r.numberOfNibbles
         else
          Event.addStorageLeafAfterBranchPlaceholder r.isModifiedExtNode r.isExtension
            r.branchC16 r.numberOfNibbles] ++
        (if r.isModifiedExtNode then
          [Event.addModifiedExtNode st.keyIndex st.extensionNodeInd r.numberOfNibbles
            r.branchC16 st.branchC1]
         else []) := by
  unfold tailUnequal at h ⊢
  simp only [if_true] at h ⊢
  obtain ⟨r, hr, h⟩ := Run.bind_res_ok h
  rw [Run.bind_trace_of_ok hr]
  obtain ⟨l, hl, h⟩ := Run.bind_res_ok h
  rw [Run.bind_trace_of_ok hl]
  refine ⟨r, l, hr, ?_, ?_, ?_⟩
  · cases isAccountProof
    · exact callExt_ok hl
    · exact callExt_ok hl
  · cases hm : r.isModifiedExtNode
    · rw [hm] at h
      simp only [Bool.false_eq_true, if_false, Run.pure, Except.ok.injEq] at h ⊢
      exact h.symm
    · rw [hm] at h
      simp only [if_true] at h ⊢
      exact callExt_ok h
  · cases isAccountProof <;> cases hm : r.isModifiedExtNode <;>
      simp [callExt, Run.pure, hm]

theorem addBranchAndPlaceholder_no_modifiedExtNode (E : Externals StateDB Address)
    (statedb : StateDB) (addr : Address) (rows proof1 proof2 extNibblesS extNibblesC : Rows)
    (key neighbourNode : Row) (keyIndex extensionNodeInd : Nat)
    (additionalBranch isAccountProof nonExistingAccountProof isShorterProofLastLeaf : Bool)
    (branchC16 branchC1 : Nat) (toBeHashed : Rows) :
    (addBranchAndPlaceholder E statedb addr rows proof1 proof2 extNibblesS extNibblesC key
      neighbourNode keyIndex extensionNodeInd additionalBranch isAccountProof
      nonExistingAccountProof isShorterProofLastLeaf branchC16 branchC1 toBeHashed).Sat
      (fun e => e.modifiedExtNode? = none) (fun _ => True) := by
  unfold addBranchAndPlaceholder addBranchExtensionPart
  simp only []
  repeat (first
    | exact Run.sat_pure trivial
    | refine Run.sat_bind (Q := fun _ => True) (Run.sat_liftE (fun _ _ => trivial)) (fun _ _ => ?_)
    | refine Run.sat_bind (Q := fun _ => True) (Run.sat_callExt rfl (fun _ _ => trivial))
        (fun _ _ => ?_)
    | refine Run.sat_bind (Q := fun _ => True) (Run.sat_emit rfl trivial) (fun _ _ => ?_)
    | refine Run.sat_bind (Q := fun _ => True) ?_ (fun _ _ => ?_)
    | split)

theorem filterMap_eq_nil_of_forall {τ : Type} {tag : Event → Option τ} {l : List Event}
    (h : ∀ e ∈ l, tag e = none) : l.filterMap tag = [] :=
  List.filterMap_eq_nil_iff.mpr h

theorem getI_last_ok {α : Type} {site : IndexSite} {xs : List α} {x : α}
    (h : getI site xs ((xs.length : Int) - 1) = .ok x) : xs.getLast? = some x := by
  unfold getI at h
  split at h
  · cases h
  · have e : ((xs.length : Int) - 1).toNat = xs.length - 1 := by omega
    rw [e] at h
    rw [List.getLast?_eq_getElem?]
    cases hx : xs[xs.length - 1]? with
    | none => rw [hx] at h; cases h
    | some y =>
      rw [hx] at h
      simp only [Except.ok.injEq] at h
      rw [h]

theorem walk_no_modifiedExtNode (E : Externals StateDB Address) (proof1 proof2 extNibblesS : Rows)
    (key : Row) (isAccountProof nonExistingAccountProof additionalBranch : Bool) :
    ∀ e ∈ (walk E proof1 proof2 extNibblesS key isAccountProof nonExistingAccountProof
      additionalBranch).trace, e.modifiedExtNode? = none := by
  intro e he
  have h := (walkFrom_walkEvents E proof1 proof2 extNibblesS key isAccountProof
    nonExistingAccountProof _ 0 initialState).1 e he
  cases e <;> first | rfl | exact h.elim

theorem tailOf_no_modifiedExtNode (E : Externals StateDB Address) (statedb : StateDB)
    (addr : Address) (proof1 proof2 extNibblesS extNibblesC : Rows) (key neighbourNode : Row)
    (isAccountProof nonExistingAccountProof nonExistingStorageProof
      isShorterProofLastLeaf : Bool) (st : WalkState) :
    (tailOf E statedb addr proof1 proof2 extNibblesS extNibblesC key neighbourNode isAccountProof
      nonExistingAccountProof nonExistingStorageProof isShorterProofLastLeaf false st).Sat
      (fun e => e.modifiedExtNode? = none) (fun _ => True) := by
  unfold tailOf tailUnequal tailEqual tailBranchStorage tailBranchAccount tailLeaf
  simp only [Bool.false_eq_true, if_false]
  repeat (first
    | exact Run.sat_pure trivial
    | exact Run.sat_callExt rfl (fun _ _ => trivial)
    | refine Run.sat_bind (Q := fun _ => True) (Run.sat_liftE (fun _ _ => trivial)) (fun _ _ => ?_)
    | refine Run.sat_bind (Q := fun _ => True) (Run.sat_callExt rfl (fun _ _ => trivial))
        (fun _ _ => ?_)
    | split)

/-- C8. Modified-extension-node decision. (1) Whenever `addBranchAndPlaceholder`
returns, the shorter-side node `longExtNode` (the last element of `proof2` when
`|S| > |C|`, of `proof1` otherwise) exists, the returned `isModifiedExtNode` is
true iff `longExtNode` is not a branch and `isShorterProofLastLeaf` is false, and
the one call of `prepareParallelBranches` it logs carries that same boolean.
(2) Whenever `prepareWitness` returns: if `additionalBranch` holds, it has called
`addBranchAndPlaceholder` on the locals left by the walk and has called
`addModifiedExtNode` once if the returned `isModifiedExtNode` is true and not at
all otherwise; if `additionalBranch` does not hold, it has not called
`addModifiedExtNode`. -/
theorem modified_extension_node_decision (E : Externals StateDB Address) (statedb : StateDB)
    (addr : Address) :
    (∀ (rows proof1 proof2 extNibblesS extNibblesC : Rows) (key neighbourNode : Row)
      (keyIndex extensionNodeInd : Nat)
      (additionalBranch isAccountProof nonExistingAccountProof isShorterProofLastLeaf : Bool)
      (branchC16 branchC1 : Nat) (toBeHashed : Rows) (r : BranchPlaceholderResult),
      (addBranchAndPlaceholder E statedb addr rows proof1 proof2 extNibblesS extNibblesC key
        neighbourNode keyIndex extensionNodeInd additionalBranch isAccountProof
        nonExistingAccountProof isShorterProofLastLeaf branchC16 branchC1 toBeHashed).res =
        .ok r →
      ∃ longExtNode,
        (if proof1.length > proof2.length then proof2 else proof1).getLast? = some longExtNode ∧
        (r.isModifiedExtNode = true ↔
          E.isBranch longExtNode = false ∧ isShorterProofLastLeaf = false) ∧
        (addBranchAndPlaceholder E statedb addr rows proof1 proof2 extNibblesS extNibblesC key
          neighbourNode keyIndex extensionNodeInd additionalBranch isAccountProof
          nonExistingAccountProof isShorterProofLastLeaf branchC16 branchC1
          toBeHashed).trace.filterMap Event.parallelFlag? = [r.isModifiedExtNode]) ∧
    (∀ (proof1 proof2 extNibblesS extNibblesC : Rows) (key neighbourNode : Row)
      (isAccountProof nonExistingAccountProof nonExistingStorageProof
        isShorterProofLastLeaf : Bool) (out : Rows × Rows × Bool),
      (prepareWitness E statedb addr proof1 proof2 extNibblesS extNibblesC key neighbourNode
        isAccountProof nonExistingAccountProof nonExistingStorageProof
        isShorterProofLastLeaf).res = .ok out →
      (additionalBranchOf E proof1 proof2 = .ok true →
        ∃ (st : WalkState) (r : BranchPlaceholderResult),
          (walk E proof1 proof2 extNibblesS key isAccountProof nonExistingAccountProof
            true).res = .ok st ∧
          (addBranchAndPlaceholder E statedb addr st.rows proof1 proof2 extNibblesS extNibblesC
            key neighbourNode st.keyIndex st.extensionNodeInd true isAccountProof
            nonExistingAccountProof isShorterProofLastLeaf st.branchC16 st.branchC1
            st.toBeHashed).res = .ok r ∧
          (prepareWitness E statedb addr proof1 proof2 extNibblesS extNibblesC key neighbourNode
            isAccountProof nonExistingAccountProof nonExistingStorageProof
            isShorterProofLastLeaf).trace.filterMap Event.modifiedExtNode? =
            if r.isModifiedExtNode then [()] else []) ∧
      (additionalBranchOf E proof1 proof2 = .ok false →
        (prepareWitness E statedb addr proof1 proof2 extNibblesS extNibblesC key neighbourNode
          isAccountProof nonExistingAccountProof nonExistingStorageProof
          isShorterProofLastLeaf).trace.filterMap Event.modifiedExtNode? = [])) := by
  constructor
  · intro rows proof1 proof2 extNibblesS extNibblesC key neighbourNode keyIndex extensionNodeInd
      additionalBranch isAccountProof nonExistingAccountProof isShorterProofLastLeaf branchC16
      branchC1 toBeHashed r h
    obtain ⟨p, longExtNode, branch, nibble, pb, _, hl, _, _, _, htr, hr⟩ :=
      addBranchAndPlaceholder_ok E statedb addr rows proof1 proof2 extNibblesS extNibblesC key
        neighbourNode keyIndex extensionNodeInd additionalBranch isAccountProof
        nonExistingAccountProof isShorterProofLastLeaf branchC16 branchC1 toBeHashed r h
    refine ⟨longExtNode, ?_, ?_, ?_⟩
    · split
      · rw [if_pos ‹_›] at hl
        exact getI_last_ok hl
      · rw [if_neg ‹_›] at hl
        exact getI_last_ok hl
    · rw [hr]
      simp
    · rw [htr, hr]
      have hext : (addBranchExtensionPart E proof1 proof2 extNibblesS extNibblesC
          extensionNodeInd branchC16 branchC1 toBeHashed).trace.filterMap Event.parallelFlag? =
          [] := by
        refine filterMap_eq_nil_of_forall (fun e he => ?_)
        have h := (addBranchExtensionPart_events E proof1 proof2 extNibblesS extNibblesC
          extensionNodeInd branchC16 branchC1 toBeHashed).1 e he
        cases e <;> first | rfl | exact h.elim
      simp [List.filterMap_cons, List.filterMap_append, hext, Event.parallelFlag?]
  · intro proof1 proof2 extNibblesS extNibblesC key neighbourNode isAccountProof
      nonExistingAccountProof nonExistingStorageProof isShorterProofLastLeaf out hret
    obtain ⟨ab, st, tl, hab, hst, htl, htr, _⟩ := prepareWitness_ok E statedb addr proof1 proof2
      extNibblesS extNibblesC key neighbourNode isAccountProof nonExistingAccountProof
      nonExistingStorageProof isShorterProofLastLeaf out hret
    have hwalk := filterMap_eq_nil_of_forall (walk_no_modifiedExtNode E proof1 proof2
      extNibblesS key isAccountProof nonExistingAccountProof ab)
    constructor
    · intro htrue
      rw [htrue] at hab
      cases hab
      obtain ⟨ab', hab', hiff⟩ := additionalBranchOf_spec E proof1 proof2
      rw [htrue] at hab'
      cases hab'
      have hne : proof1.length ≠ proof2.length := (hiff.mp rfl).1
      have htail : tailOf E statedb addr proof1 proof2 extNibblesS extNibblesC key neighbourNode
          isAccountProof nonExistingAccountProof nonExistingStorageProof isShorterProofLastLeaf
          true st = tailUnequal E statedb addr proof1 proof2 extNibblesS extNibblesC key
          neighbourNode isAccountProof nonExistingAccountProof isShorterProofLastLeaf true st := by
        unfold tailOf
        rw [if_pos hne]
      rw [htail] at htl htr
      obtain ⟨r, l, hr, _, _, htr'⟩ := tailUnequal_ok E statedb addr proof1 proof2 extNibblesS
        extNibblesC key neighbourNode isAccountProof nonExistingAccountProof
        isShorterProofLastLeaf st tl htl
      refine ⟨st, r, hst, hr, ?_⟩
      have habp := filterMap_eq_nil_of_forall (addBranchAndPlaceholder_no_modifiedExtNode E
        statedb addr st.rows proof1 proof2 extNibblesS extNibblesC key neighbourNode st.keyIndex
        st.extensionNodeInd true isAccountProof nonExistingAccountProof isShorterProofLastLeaf
        st.branchC16 st.branchC1 st.toBeHashed).1
      rw [htr, htr', List.filterMap_append, List.filterMap_append, List.filterMap_append, hwalk,
        habp]
      cases isAccountProof <;> cases r.isModifiedExtNode <;> rfl
    · intro hfalse
      rw [hfalse] at hab
      cases hab
      rw [htr, List.filterMap_append, hwalk]
      exact filterMap_eq_nil_of_forall (tailOf_no_modifiedExtNode E statedb addr proof1 proof2
        extNibblesS extNibblesC key neighbourNode isAccountProof nonExistingAccountProof
        nonExistingStorageProof isShorterProofLastLeaf st).1

/-- C8 at a concrete modified extension node: `proof1` stops at an extension
node, `proof2` adds a branch and a leaf, and `isShorterProofLastLeaf` is false.
The run returns, `addBranchAndPlaceholder` returns `isModifiedExtNode = true` and
`addModifiedExtNode` is called once. -/
theorem modified_extension_node_decision_witness :
    ∃ (st : WalkState) (r : BranchPlaceholderResult),
      (walk Fixture.externals Fixture.modifiedS Fixture.modifiedC [] Fixture.key false false
        true).res = .ok st ∧
      (addBranchAndPlaceholder Fixture.externals () () st.rows Fixture.modifiedS
        Fixture.modifiedC [] [] Fixture.key [] st.keyIndex st.extensionNodeInd true false false
        false st.branchC16 st.branchC1 st.toBeHashed).res = .ok r ∧
      r.isModifiedExtNode = true ∧
      (prepareWitness Fixture.externals () () Fixture.modifiedS Fixture.modifiedC [] []
        Fixture.key [] false false false false).trace.filterMap Event.modifiedExtNode? =
        [()] := by
  have hok : (prepareWitness Fixture.externals () () Fixture.modifiedS Fixture.modifiedC [] []
      Fixture.key [] false false false false).res.toBool = true := by decide
  obtain ⟨out, hout⟩ := exists_ok_of_toBool hok
  obtain ⟨st, r, hst, hr, htr⟩ := ((modified_extension_node_decision Fixture.externals () ()).2
    Fixture.modifiedS Fixture.modifiedC [] [] Fixture.key [] false false false false out
    hout).1 rfl
  obtain ⟨longExtNode, hl, hiff, _⟩ := (modified_extension_node_decision Fixture.externals ()
    ()).1 st.rows Fixture.modifiedS Fixture.modifiedC [] [] Fixture.key [] st.keyIndex
    st.extensionNodeInd true false false false st.branchC16 st.branchC1 st.toBeHashed r hr
  have hmod : r.isModifiedExtNode = true := by
    refine hiff.mpr ⟨?_, rfl⟩
    have hl' : (if Fixture.modifiedS.length > Fixture.modifiedC.length then Fixture.modifiedC
        else Fixture.modifiedS).getLast? = some Fixture.longEvenExt := by decide
    rw [hl'] at hl
    cases hl
    decide
  rw [hmod] at htr
  exact ⟨st, r, hst, hr, hmod, htr⟩

theorem switchC16_ok (E : Externals StateDB Address) (proof1 : Rows) (i : Nat)
    (stash : Option (Row × Row)) (sw : Bool) (h : switchC16 E proof1 i stash = .ok sw) :
    (stash = none ∧ sw = true) ∨
    (stash.isSome = true ∧ ∃ prev, 0 < i ∧ proof1[i - 1]? = some prev ∧
      sw = (E.getExtensionNodeKeyLen prev != 1 && prev.getD 2 0 == 0)) := by
  unfold switchC16 at h
  cases stash with
  | none =>
    simp only [Except.ok.injEq] at h
    exact Or.inl ⟨rfl, h.symm⟩
  | some x =>
    right
    refine ⟨rfl, ?_⟩
    simp only [] at h
    obtain ⟨prev, hprev, h⟩ := except_bind_ok h
    have hi : 0 < i ∧ proof1[i - 1]? = some prev := by
      unfold getI at hprev
      split at hprev
      · cases hprev
      · rename_i hnn
        have e : ((i : Int) - 1).toNat = i - 1 := by omega
        rw [e] at hprev
        refine ⟨by omega, ?_⟩
        cases hx : proof1[i - 1]? with
        | none => rw [hx] at hprev; cases hprev
        | some y =>
          rw [hx] at hprev
          simp only [Except.ok.injEq] at hprev
          rw [hprev]
    refine ⟨prev, hi.1, hi.2, ?_⟩
    split at h
    · rename_i hk
      simp only [Except.ok.injEq] at h
      rw [← h]
      simp [hk]
    · rename_i hk
      obtain ⟨marker, hm, h⟩ := except_bind_ok h
      have hm' := getN_eq_ok.mp hm
      have hd : prev.getD 2 0 = marker := by
        rw [List.getD_eq_getElem?_getD, hm']
        rfl
      rw [hd]
      split at h
      · rename_i hne
        simp only [Except.ok.injEq] at h
        rw [← h]
        simp [hne]
      · rename_i hne
        simp only [Except.ok.injEq] at h
        rw [← h]
        simp only [ne_eq, Decidable.not_not] at hne
        simp [hk, hne]

theorem walkFrom_flipCount (E : Externals StateDB Address) (proof1 proof2 extNibblesS : Rows)
    (key : Row) (isAccountProof nonExistingAccountProof : Bool) (n : Nat) :
    ∀ (i : Nat) (st st' : WalkState), i + n ≤ proof1.length →
    (st.extensionRows.isSome = (decide (0 < i) &&
      match proof1[i - 1]? with
      | some prev => !E.isBranch prev
      | none => false)) →
    (walkFrom E proof1 proof2 extNibblesS key isAccountProof nonExistingAccountProof n i st).res =
      .ok st' →
    flipCount (walkFrom E proof1 proof2 extNibblesS key isAccountProof nonExistingAccountProof
      n i st).trace = ((List.range' i n).filter (switchesAt E proof1)).length := by
  induction n with
  | zero =>
    intro i st st' _ _ _
    simp [walkFrom, Run.pure, flipCount]
  | succ n ih =>
    intro i st st' hbound hinv hres
    have hres' : (walkStep E proof1 proof2 extNibblesS key isAccountProof
        nonExistingAccountProof i st >>= fun s => walkFrom E proof1 proof2 extNibblesS key
        isAccountProof nonExistingAccountProof n (i + 1) s).res = .ok st' := hres
    obtain ⟨st1, h1, h2⟩ := Run.bind_res_ok hres'
    have htrace : (walkFrom E proof1 proof2 extNibblesS key isAccountProof
        nonExistingAccountProof (n + 1) i st).trace =
        (walkStep E proof1 proof2 extNibblesS key isAccountProof nonExistingAccountProof i
          st).trace ++
        (walkFrom E proof1 proof2 extNibblesS key isAccountProof nonExistingAccountProof n
          (i + 1) st1).trace := Run.bind_trace_of_ok h1
    rw [htrace]
    unfold flipCount
    rw [List.count_append, List.range'_succ, List.filter_cons]
    obtain ⟨s, hs, hcase⟩ := walkStep_cases E proof1 proof2 extNibblesS key isAccountProof
      nonExistingAccountProof i st st1 h1
    rcases hcase with ⟨hbr, heq⟩ | ⟨hbr, _, heq⟩ | ⟨hbr, hlast, heq⟩
    · rw [heq] at h1 ⊢
      obtain ⟨sw, s', c, nib, bR, blk, hsw, _, _, _, _, _, _, htr, hst1⟩ :=
        walkBranch_ok E proof1 proof2 key i st st1 h1
      have hinv1 : st1.extensionRows.isSome = (decide (0 < i + 1) &&
          match proof1[i + 1 - 1]? with
          | some prev => !E.isBranch prev
          | none => false) := by
        rw [hst1]
        simp [hs, hbr]
      have hrec := ih (i + 1) st1 st' (by omega) hinv1 h2
      unfold flipCount at hrec
      rw [hrec, htr]
      have hswitch : switchesAt E proof1 i = sw := by
        unfold switchesAt
        rw [hs]
        simp only [hbr, Bool.true_and]
        rcases switchC16_ok E proof1 i st.extensionRows sw hsw with ⟨hnone, hswt⟩ |
          ⟨hsome, prev, hi0, hprev, hswe⟩
        · rw [hnone] at hinv
          by_cases hi : i = 0
          · simp [hi, hswt]
          · rw [if_neg hi]
            cases hp : proof1[i - 1]? with
            | none => simp [hswt]
            | some prev =>
              rw [hp] at hinv
              have hpos : 0 < i := by omega
              simp [hpos] at hinv
              simp [hinv, hswt]
        · rw [hsome, hprev] at hinv
          have hi : i ≠ 0 := by omega
          rw [if_neg hi, hprev]
          simp [hi0] at hinv
          simp [hinv, hswe]
      rw [hswitch]
      cases sw
      · simp [List.count_cons]
      · simp [List.count_cons]
        omega
    · rw [heq] at h1 ⊢
      obtain ⟨s', c, ext, _, _, _, htr, hst1⟩ :=
        walkExtension_ok E proof1 proof2 extNibblesS i st st1 h1
      have hinv1 : st1.extensionRows.isSome = (decide (0 < i + 1) &&
          match proof1[i + 1 - 1]? with
          | some prev => !E.isBranch prev
          | none => false) := by
        rw [hst1]
        simp [hs, hbr]
      have hrec := ih (i + 1) st1 st' (by omega) hinv1 h2
      unfold flipCount at hrec
      rw [hrec, htr]
      have hswitch : switchesAt E proof1 i = false := by
        unfold switchesAt
        rw [hs]
        simp [hbr]
      rw [hswitch]
      simp [List.count_cons]
    · rw [heq] at h1 ⊢
      have hn : n = 0 := by omega
      subst hn
      have hswitch : switchesAt E proof1 i = false := by
        unfold switchesAt
        rw [hs]
        simp [hbr]
      rw [hswitch]
      rcases walkLeaf_ok E proof1 proof2 key isAccountProof nonExistingAccountProof i st st1 h1
        with ⟨_, _, _, _, _, _, _, htr, _⟩ | ⟨_, _, _, _, _, _, _, _, _, htr, _⟩
      · rw [htr]
        simp [walkFrom, Run.pure, List.count_cons]
      · rw [htr]
        simp [walkFrom, Run.pure, List.count_cons]

/-- C9 (amended). Parity flip count. On every run whose common-prefix walk
completes (for either value of `additionalBranch`), the number of flips of
`(branchC16, branchC1)` during the walk equals the number of branch positions
`i < upTo` of `proof1` that are not immediately preceded by an extension node
`proof1[i-1]` with key length 1 or with a non-zero marker byte `proof1[i-1][2]`
(the positions counted by `switchesAt`). -/
theorem walk_flip_count (E : Externals StateDB Address) (proof1 proof2 extNibblesS : Rows)
    (key : Row) (isAccountProof nonExistingAccountProof additionalBranch : Bool)
    (st : WalkState)
    (hwalk : (walk E proof1 proof2 extNibblesS key isAccountProof nonExistingAccountProof
      additionalBranch).res = .ok st) :
    flipCount (walk E proof1 proof2 extNibblesS key isAccountProof nonExistingAccountProof
      additionalBranch).trace =
      ((List.range (upToOf proof1 proof2 additionalBranch).toNat).filter
        (switchesAt E proof1)).length := by
  rw [List.range_eq_range']
  exact walkFrom_flipCount E proof1 proof2 extNibblesS key isAccountProof
    nonExistingAccountProof _ 0 initialState st
    (by have := (upToOf_le_length proof1 proof2 additionalBranch).1; omega) rfl hwalk

/-- C9 at a walk through a two-nibble extension node, a branch and a leaf: the
walk completes and flips once, at the branch. -/
theorem walk_flip_count_witness :
    flipCount (walk Fixture.externals Fixture.evenExtProof Fixture.evenExtProof [[1, 1]]
      Fixture.key false false false).trace = 1 := by
  have hok : (walk Fixture.externals Fixture.evenExtProof Fixture.evenExtProof [[1, 1]]
      Fixture.key false false false).res.toBool = true := by decide
  obtain ⟨st, hst⟩ := exists_ok_of_toBool hok
  rw [walk_flip_count Fixture.externals Fixture.evenExtProof Fixture.evenExtProof [[1, 1]]
    Fixture.key false false false st hst]
  decide

/-- C9 (counterexample). Walking a two-nibble (even) extension node, the branch
below it and a leaf, the pair is flipped once, while the walk passes one branch
position and one extension node with an even nibble count: 1 is not 1 + 1. -/
theorem flip_count_not_branches_plus_even_extensions :
    (walk Fixture.externals Fixture.evenExtProof Fixture.evenExtProof [[1, 1]] Fixture.key false
      false false).res.toBool = true ∧
    additionalBranchOf Fixture.externals Fixture.evenExtProof Fixture.evenExtProof = .ok false ∧
    flipCount (walk Fixture.externals Fixture.evenExtProof Fixture.evenExtProof [[1, 1]]
      Fixture.key false false false).trace = 1 ∧
    branchesWalked Fixture.externals Fixture.evenExtProof
      (upToOf Fixture.evenExtProof Fixture.evenExtProof false).toNat = 1 ∧
    evenExtensionCalls Fixture.externals
      (walk Fixture.externals Fixture.evenExtProof Fixture.evenExtProof [[1, 1]] Fixture.key
        false false false).trace = 1 ∧
    flipCount (walk Fixture.externals Fixture.evenExtProof Fixture.evenExtProof [[1, 1]]
      Fixture.key false false false).trace ≠
      branchesWalked Fixture.externals Fixture.evenExtProof
        (upToOf Fixture.evenExtProof Fixture.evenExtProof false).toNat +
      evenExtensionCalls Fixture.externals
        (walk Fixture.externals Fixture.evenExtProof Fixture.evenExtProof [[1, 1]] Fixture.key
          false false false).trace := by
  decide

theorem addBranchExtensionPart_ok (E : Externals StateDB Address)
    (proof1 proof2 extNibblesS extNibblesC : Rows) (extensionNodeInd branchC16 branchC1 : Nat)
    (toBeHashed : Rows) (p : ExtensionPart)
    (h : (addBranchExtensionPart E proof1 proof2 extNibblesS extNibblesC extensionNodeInd
      branchC16 branchC1 toBeHashed).res = .ok p) :
    (lengthsDifferByTwo proof1 proof2 = false ∧
      (addBranchExtensionPart E proof1 proof2 extNibblesS extNibblesC extensionNodeInd
        branchC16 branchC1 toBeHashed).trace = [.flip] ∧
      p = ⟨0, E.prepareEmptyExtensionRows false false, (flipPair branchC16).1,
        (flipPair branchC16).2, toBeHashed⟩) ∨
    (lengthsDifferByTwo proof1 proof2 = true ∧ ∃ (node : Row) (ext : Nat × Row × Row),
      (if proof1.length > proof2.length then
          getI .proofList proof1 ((proof1.length : Int) - 3)
        else getI .proofList proof2 ((proof2.length : Int) - 3)) = .ok node ∧
      E.prepareExtensionRows (if proof1.length > proof2.length then extNibblesS else extNibblesC)
        extensionNodeInd node node false false = some ext ∧
      (addBranchExtensionPart E proof1 proof2 extNibblesS extNibblesC extensionNodeInd
        branchC16 branchC1 toBeHashed).trace =
        Event.prepareExtensionRows
          (if proof1.length > proof2.length then extNibblesS else extNibblesC)
          extensionNodeInd node node false false ::
          (if ext.1 % 256 % 2 = 0 then [Event.flip] else []) ∧
      p = ⟨ext.1 % 256, [ext.2.1, ext.2.2],
        if ext.1 % 256 % 2 = 0 then (flipPair branchC16).1 else branchC16,
        if ext.1 % 256 % 2 = 0 then (flipPair branchC16).2 else branchC1,
        addForHashing node toBeHashed⟩) := by
  unfold addBranchExtensionPart at h ⊢
  simp only [] at h ⊢
  cases hx : lengthsDifferByTwo proof1 proof2 with
  | false =>
    left
    unfold lengthsDifferByTwo at hx
    rw [hx] at h ⊢
    simp only [Bool.not_false, if_true] at h ⊢
    refine ⟨trivial, rfl, ?_⟩
    simp only [Run.emit_bind_res, Run.pure, Except.ok.injEq] at h
    exact h.symm
  | true =>
    right
    unfold lengthsDifferByTwo at hx
    rw [hx] at h ⊢
    simp only [Bool.not_true, Bool.false_eq_true, if_false] at h ⊢
    obtain ⟨node, hn, h⟩ := Run.bind_res_ok h
    rw [Run.bind_trace_of_ok hn]
    obtain ⟨ext, he, h⟩ := Run.bind_res_ok h
    rw [Run.bind_trace_of_ok he]
    have hn' : (if proof1.length > proof2.length then
          getI .proofList proof1 ((proof1.length : Int) - 3)
        else getI .proofList proof2 ((proof2.length : Int) - 3)) = .ok node := hn
    refine ⟨trivial, node, ext, hn', callExt_ok he, ?_, ?_⟩
    · by_cases hev : ext.1 % 256 % 2 = 0
      · simp [hev, liftE, callExt, emit, Run.pure, Run.bind_def, Run.bind]
      · simp [hev, liftE, callExt, emit, Run.pure]
    · by_cases hev : ext.1 % 256 % 2 = 0
      · simp only [hev, beq_self_eq_true, if_true, Run.emit_bind_res, Run.pure,
          Except.ok.injEq] at h
        rw [← h]
        simp [hev]
      · have hb : (ext.1 % 256 % 2 == 0) = false := by simpa using hev
        simp only [hb, Bool.false_eq_true, if_false, Run.pure, Except.ok.injEq] at h
        rw [← h]
        simp [hev]

theorem walkFrom_extensionCalls (E : Externals StateDB Address)
    (proof1 proof2 extNibblesS : Rows) (key : Row)
    (isAccountProof nonExistingAccountProof : Bool) (n : Nat) :
    ∀ (i : Nat) (st st' : WalkState), i + n ≤ proof1.length →
    (walkFrom E proof1 proof2 extNibblesS key isAccountProof nonExistingAccountProof n i st).res =
      .ok st' →
    st'.extensionNodeInd =
      st.extensionNodeInd + ((List.range' i n).filter (isExtensionAt E proof1)).length ∧
    (walkFrom E proof1 proof2 extNibblesS key isAccountProof nonExistingAccountProof n i
      st).trace.filterMap Event.extensionCall? =
      expectedExtensionCalls proof1 proof2 extNibblesS st.extensionNodeInd
        ((List.range' i n).filter (isExtensionAt E proof1)) := by
  induction n with
  | zero =>
    intro i st st' _ h
    simp only [walkFrom, Run.pure, Except.ok.injEq] at h
    subst h
    simp [walkFrom, Run.pure, expectedExtensionCalls]
  | succ n ih =>
    intro i st st' hbound hres
    have hres' : (walkStep E proof1 proof2 extNibblesS key isAccountProof
        nonExistingAccountProof i st >>= fun s => walkFrom E proof1 proof2 extNibblesS key
        isAccountProof nonExistingAccountProof n (i + 1) s).res = .ok st' := hres
    obtain ⟨st1, h1, h2⟩ := Run.bind_res_ok hres'
    have htrace : (walkFrom E proof1 proof2 extNibblesS key isAccountProof
        nonExistingAccountProof (n + 1) i st).trace =
        (walkStep E proof1 proof2 extNibblesS key isAccountProof nonExistingAccountProof i
          st).trace ++
        (walkFrom E proof1 proof2 extNibblesS key isAccountProof nonExistingAccountProof n
          (i + 1) st1).trace := Run.bind_trace_of_ok h1
    rw [htrace, List.filterMap_append, List.range'_succ, List.filter_cons]
    obtain ⟨r1, r2⟩ := ih (i + 1) st1 st' (by omega) h2
    obtain ⟨s, hs, hcase⟩ := walkStep_cases E proof1 proof2 extNibblesS key isAccountProof
      nonExistingAccountProof i st st1 h1
    rcases hcase with ⟨hbr, heq⟩ | ⟨hbr, hnl, heq⟩ | ⟨hbr, hlast, heq⟩
    · rw [heq] at h1 ⊢
      obtain ⟨sw, s', c, nib, bR, blk, _, _, _, _, _, _, _, htr, hst1⟩ :=
        walkBranch_ok E proof1 proof2 key i st st1 h1
      have hext : isExtensionAt E proof1 i = false := by
        unfold isExtensionAt
        rw [hs]
        simp [hbr]
      have hind : st1.extensionNodeInd = st.extensionNodeInd := by rw [hst1]
      rw [hext, htr, r2, r1, hind]
      cases sw
      · simp [Event.extensionCall?]
      · simp [Event.extensionCall?]
    · rw [heq] at h1 ⊢
      obtain ⟨s', c, ext, hs', hc, _, htr, hst1⟩ :=
        walkExtension_ok E proof1 proof2 extNibblesS i st st1 h1
      have hext : isExtensionAt E proof1 i = true := by
        unfold isExtensionAt
        rw [hs]
        simp [hbr, hnl]
      have hind : st1.extensionNodeInd = st.extensionNodeInd + 1 := by rw [hst1]
      rw [hext, htr, r2, r1, hind]
      constructor
      · simp only [if_true, List.length_cons]
        omega
      · simp only [if_true, List.filterMap_cons, Event.extensionCall?, List.filterMap_nil,
          expectedExtensionCalls, List.singleton_append]
        rw [List.getD_eq_getElem?_getD, List.getD_eq_getElem?_getD, hs', hc]
        rfl
    · rw [heq] at h1 ⊢
      have hext : isExtensionAt E proof1 i = false := by
        unfold isExtensionAt
        rw [hs]
        simp [hbr, hlast]
      rw [hext, r2, r1]
      rcases walkLeaf_ok E proof1 proof2 key isAccountProof nonExistingAccountProof i st st1 h1
        with ⟨_, _, _, _, _, _, _, htr, hst1⟩ | ⟨_, _, _, _, _, _, _, _, _, htr, hst1⟩
      · have hind : st1.extensionNodeInd = st.extensionNodeInd := by rw [hst1]
        rw [htr, hind]
        simp [Event.extensionCall?]
      · have hind : st1.extensionNodeInd = st.extensionNodeInd := by rw [hst1]
        rw [htr, hind]
        simp [Event.extensionCall?]

theorem getI_sub_ok {α : Type} {site : IndexSite} {xs : List α} {k : Nat} {x : α}
    (h : getI site xs ((xs.length : Int) - (k : Int)) = .ok x) :
    k ≤ xs.length ∧ xs[xs.length - k]? = some x := by
  unfold getI at h
  split at h
  · cases h
  · have e : ((xs.length : Int) - (k : Int)).toNat = xs.length - k := by omega
    rw [e] at h
    refine ⟨by omega, ?_⟩
    cases hq : xs[xs.length - k]? with
    | none => rw [hq] at h; cases h
    | some y =>
      rw [hq] at h
      simp only [Except.ok.injEq] at h
      rw [h]

theorem tailOf_no_extensionCall (E : Externals StateDB Address) (statedb : StateDB)
    (addr : Address) (proof1 proof2 extNibblesS extNibblesC : Rows) (key neighbourNode : Row)
    (isAccountProof nonExistingAccountProof nonExistingStorageProof
      isShorterProofLastLeaf : Bool) (st : WalkState) :
    (tailOf E statedb addr proof1 proof2 extNibblesS extNibblesC key neighbourNode isAccountProof
      nonExistingAccountProof nonExistingStorageProof isShorterProofLastLeaf false st).Sat
      (fun e => e.extensionCall? = none) (fun _ => True) := by
  unfold tailOf tailUnequal tailEqual tailBranchStorage tailBranchAccount tailLeaf
  simp only [Bool.false_eq_true, if_false]
  repeat (first
    | exact Run.sat_pure trivial
    | exact Run.sat_callExt rfl (fun _ _ => trivial)
    | refine Run.sat_bind (Q := fun _ => True) (Run.sat_liftE (fun _ _ => trivial)) (fun _ _ => ?_)
    | refine Run.sat_bind (Q := fun _ => True) (Run.sat_callExt rfl (fun _ _ => trivial))
        (fun _ _ => ?_)
    | split)

theorem additionalBranchFlag_of_ok (E : Externals StateDB Address) (proof1 proof2 : Rows)
    (ab : Bool) (h : additionalBranchOf E proof1 proof2 = .ok ab) :
    additionalBranchFlag E proof1 proof2 = ab := by
  unfold additionalBranchFlag
  rw [h]

theorem tailOf_additional (E : Externals StateDB Address) (statedb : StateDB)
    (addr : Address) (proof1 proof2 extNibblesS extNibblesC : Rows) (key neighbourNode : Row)
    (isAccountProof nonExistingAccountProof nonExistingStorageProof
      isShorterProofLastLeaf : Bool) (st : WalkState)
    (hab : additionalBranchOf E proof1 proof2 = .ok true) :
    proof1.length ≠ proof2.length ∧
    tailOf E statedb addr proof1 proof2 extNibblesS extNibblesC key neighbourNode
      isAccountProof nonExistingAccountProof nonExistingStorageProof isShorterProofLastLeaf
      true st = tailUnequal E statedb addr proof1 proof2 extNibblesS extNibblesC key
      neighbourNode isAccountProof nonExistingAccountProof isShorterProofLastLeaf true st := by
  obtain ⟨ab', hab', hiff⟩ := additionalBranchOf_spec E proof1 proof2
  rw [hab] at hab'
  cases hab'
  have hne : proof1.length ≠ proof2.length := (hiff.mp rfl).1
  refine ⟨hne, ?_⟩
  unfold tailOf
  rw [if_pos hne]

theorem addBranchAndPlaceholder_extensionCalls (E : Externals StateDB Address)
    (statedb : StateDB) (addr : Address) (rows proof1 proof2 extNibblesS extNibblesC : Rows)
    (key neighbourNode : Row) (keyIndex extensionNodeInd : Nat)
    (additionalBranch isAccountProof nonExistingAccountProof isShorterProofLastLeaf : Bool)
    (branchC16 branchC1 : Nat) (toBeHashed : Rows) (r : BranchPlaceholderResult)
    (h : (addBranchAndPlaceholder E statedb addr rows proof1 proof2 extNibblesS extNibblesC key
      neighbourNode keyIndex extensionNodeInd additionalBranch isAccountProof
      nonExistingAccountProof isShorterProofLastLeaf branchC16 branchC1 toBeHashed).res = .ok r) :
    (addBranchAndPlaceholder E statedb addr rows proof1 proof2 extNibblesS extNibblesC key
      neighbourNode keyIndex extensionNodeInd additionalBranch isAccountProof
      nonExistingAccountProof isShorterProofLastLeaf branchC16 branchC1
      toBeHashed).trace.filterMap Event.extensionCall? =
      if lengthsDifferByTwo proof1 proof2 then
        [((if proof1.length > proof2.length then extNibblesS else extNibblesC), extensionNodeInd,
          (if proof1.length > proof2.length then proof1.getD (proof1.length - 3) []
           else proof2.getD (proof2.length - 3) []),
          (if proof1.length > proof2.length then proof1.getD (proof1.length - 3) []
           else proof2.getD (proof2.length - 3) []), false, false)]
      else [] := by
  obtain ⟨p, _, _, _, _, hp, _, _, _, _, htr, _⟩ :=
    addBranchAndPlaceholder_ok E statedb addr rows proof1 proof2 extNibblesS extNibblesC key
      neighbourNode keyIndex extensionNodeInd additionalBranch isAccountProof
      nonExistingAccountProof isShorterProofLastLeaf branchC16 branchC1 toBeHashed r h
  rw [htr]
  rcases addBranchExtensionPart_ok E proof1 proof2 extNibblesS extNibblesC extensionNodeInd
    branchC16 branchC1 toBeHashed p hp with ⟨hx, hxt, _⟩ | ⟨hx, node, ext, hn, _, hxt, _⟩
  · rw [hxt, hx]
    simp [Event.extensionCall?]
  · rw [hxt, hx]
    have hnode : (if proof1.length > proof2.length then proof1.getD (proof1.length - 3) []
        else proof2.getD (proof2.length - 3) []) = node := by
      split at hn
      · rename_i hgt
        rw [if_pos hgt, List.getD_eq_getElem?_getD, (getI_sub_ok (k := 3) hn).2]
        rfl
      · rename_i hgt
        rw [if_neg hgt, List.getD_eq_getElem?_getD, (getI_sub_ok (k := 3) hn).2]
        rfl
    rw [hnode]
    by_cases hev : ext.1 % 256 % 2 = 0
    · simp [hev, Event.extensionCall?]
    · simp [hev, Event.extensionCall?]

/-- C11 (amended). Extension-node accounting. On every input on which
`prepareWitness` returns, with `n` the number of indices `i < upTo` such that
`proof1[i]` is not a branch and `i` is not the last index of `proof1`:
`extensionNodeInd` equals `n` at the end of the common-prefix walk; the walk
calls `prepareExtensionRows` exactly `n` times, the `m`-th time (from 0) as
`prepareExtensionRows(extNibblesS, m, proof1[i], proof2[i], false, false)` for the
`m`-th such index `i`; the third value returned is true iff `n > 0`; and the
whole run calls `prepareExtensionRows` `n` times, plus once more, uncounted, when
`addBranchAndPlaceholder` runs on proofs whose lengths differ by exactly 2. -/
theorem prepareWitness_extension_accounting (E : Externals StateDB Address)
    (statedb : StateDB) (addr : Address)
    (proof1 proof2 extNibblesS extNibblesC : Rows) (key neighbourNode : Row)
    (isAccountProof nonExistingAccountProof nonExistingStorageProof
      isShorterProofLastLeaf : Bool) (out : Rows × Rows × Bool)
    (hret : (prepareWitness E statedb addr proof1 proof2 extNibblesS extNibblesC key
      neighbourNode isAccountProof nonExistingAccountProof nonExistingStorageProof
      isShorterProofLastLeaf).res = .ok out) :
    ∃ (ab : Bool) (st : WalkState),
      additionalBranchOf E proof1 proof2 = .ok ab ∧
      (walk E proof1 proof2 extNibblesS key isAccountProof nonExistingAccountProof ab).res =
        .ok st ∧
      st.extensionNodeInd =
        (extensionPositions E proof1 (walkedPositions E proof1 proof2)).length ∧
      (walk E proof1 proof2 extNibblesS key isAccountProof nonExistingAccountProof
        ab).trace.filterMap Event.extensionCall? =
        expectedExtensionCalls proof1 proof2 extNibblesS 0
          (extensionPositions E proof1 (walkedPositions E proof1 proof2)) ∧
      (out.2.2 = true ↔
        0 < (extensionPositions E proof1 (walkedPositions E proof1 proof2)).length) ∧
      ((prepareWitness E statedb addr proof1 proof2 extNibblesS extNibblesC key neighbourNode
        isAccountProof nonExistingAccountProof nonExistingStorageProof
        isShorterProofLastLeaf).trace.filterMap Event.extensionCall?).length =
        (extensionPositions E proof1 (walkedPositions E proof1 proof2)).length +
          (if ab = true ∧ lengthsDifferByTwo proof1 proof2 = true then 1 else 0) := by
  obtain ⟨ab, st, tl, hab, hst, htl, htr, hout⟩ := prepareWitness_ok E statedb addr proof1 proof2
    extNibblesS extNibblesC key neighbourNode isAccountProof nonExistingAccountProof
    nonExistingStorageProof isShorterProofLastLeaf out hret
  have hup : walkedPositions E proof1 proof2 = (upToOf proof1 proof2 ab).toNat := by
    unfold walkedPositions
    rw [additionalBranchFlag_of_ok E proof1 proof2 ab hab]
  obtain ⟨r1, r2⟩ := walkFrom_extensionCalls E proof1 proof2 extNibblesS key isAccountProof
    nonExistingAccountProof (upToOf proof1 proof2 ab).toNat 0 initialState st
    (by have := (upToOf_le_length proof1 proof2 ab).1; omega) hst
  rw [← List.range_eq_range'] at r1 r2
  have hcount : st.extensionNodeInd =
      (extensionPositions E proof1 (walkedPositions E proof1 proof2)).length := by
    rw [r1, hup]
    simp [initialState, extensionPositions]
  have hcalls : (walk E proof1 proof2 extNibblesS key isAccountProof nonExistingAccountProof
      ab).trace.filterMap Event.extensionCall? =
      expectedExtensionCalls proof1 proof2 extNibblesS 0
        (extensionPositions E proof1 (walkedPositions E proof1 proof2)) := by
    rw [hup]
    exact r2
  have hlen : ∀ (m : Nat) (l : List Nat),
      (expectedExtensionCalls proof1 proof2 extNibblesS m l).length = l.length := by
    intro m l
    induction l generalizing m with
    | nil => rfl
    | cons a l ih => simp [expectedExtensionCalls, ih]
  refine ⟨ab, st, hab, hst, hcount, hcalls, ?_, ?_⟩
  · rw [hout, ← hcount]
    simp
  · rw [htr, List.filterMap_append, List.length_append, hcalls, hlen]
    congr 1
    cases ab with
    | false =>
      rw [filterMap_eq_nil_of_forall (tailOf_no_extensionCall E statedb addr proof1 proof2
        extNibblesS extNibblesC key neighbourNode isAccountProof nonExistingAccountProof
        nonExistingStorageProof isShorterProofLastLeaf st).1]
      simp
    | true =>
      obtain ⟨_, htail⟩ := tailOf_additional E statedb addr proof1 proof2 extNibblesS
        extNibblesC key neighbourNode isAccountProof nonExistingAccountProof
        nonExistingStorageProof isShorterProofLastLeaf st hab
      rw [htail] at htl ⊢
      obtain ⟨r, l, hr, _, _, htr'⟩ := tailUnequal_ok E statedb addr proof1 proof2 extNibblesS
        extNibblesC key neighbourNode isAccountProof nonExistingAccountProof
        isShorterProofLastLeaf st tl htl
      rw [htr', List.filterMap_append, List.filterMap_append,
        addBranchAndPlaceholder_extensionCalls E statedb addr st.rows proof1 proof2 extNibblesS
          extNibblesC key neighbourNode st.keyIndex st.extensionNodeInd true isAccountProof
          nonExistingAccountProof isShorterProofLastLeaf st.branchC16 st.branchC1 st.toBeHashed
          r hr]
      cases isAccountProof <;> cases r.isModifiedExtNode <;>
        cases lengthsDifferByTwo proof1 proof2 <;> simp [Event.extensionCall?]

/-- C11 at a walk through two extension nodes: the run returns, the walk consumes
two extension nodes, numbered 0 and 1, and the third value returned is true. -/
theorem prepareWitness_extension_accounting_witness :
    ∃ (out : Rows × Rows × Bool) (ab : Bool) (st : WalkState),
      (prepareWitness Fixture.externals () () Fixture.twoBranches Fixture.twoBranches
        [[1], [1]] [] Fixture.key [] false false false false).res = .ok out ∧
      additionalBranchOf Fixture.externals Fixture.twoBranches Fixture.twoBranches = .ok ab ∧
      (walk Fixture.externals Fixture.twoBranches Fixture.twoBranches [[1], [1]] Fixture.key
        false false ab).res = .ok st ∧
      st.extensionNodeInd = 2 ∧
      (walk Fixture.externals Fixture.twoBranches Fixture.twoBranches [[1], [1]] Fixture.key
        false false ab).trace.filterMap Event.extensionCall? =
        [([[1], [1]], 0, Fixture.shortExt, Fixture.shortExt, false, false),
         ([[1], [1]], 1, Fixture.shortExt, Fixture.shortExt, false, false)] ∧
      out.2.2 = true := by
  have hok : (prepareWitness Fixture.externals () () Fixture.twoBranches Fixture.twoBranches
      [[1], [1]] [] Fixture.key [] false false false false).res.toBool = true := by decide
  obtain ⟨out, hout⟩ := exists_ok_of_toBool hok
  obtain ⟨ab, st, hab, hst, hcount, hcalls, hiff, _⟩ :=
    prepareWitness_extension_accounting Fixture.externals () () Fixture.twoBranches
      Fixture.twoBranches [[1], [1]] [] Fixture.key [] false false false false out hout
  have hpos : extensionPositions Fixture.externals Fixture.twoBranches
      (walkedPositions Fixture.externals Fixture.twoBranches Fixture.twoBranches) = [0, 2] := by
    decide
  rw [hpos] at hcount hcalls hiff
  exact ⟨out, ab, st, hout, hab, hst, hcount, hcalls, hiff.mpr (by decide)⟩

/-- C11 (counterexample). `proof1` is one leaf and `proof2` an extension node, a
branch and a leaf. The run returns; the walk visits no position, so
`extensionNodeInd` is 0 and the third value returned is false; yet
`addBranchAndPlaceholder` consumes the extension node `proof2[0]` with one call of
`prepareExtensionRows`: the count does not include it. -/
theorem extension_in_addBranchAndPlaceholder_not_counted :
    (prepareWitness Fixture.externals () () Fixture.splitS Fixture.splitExtC [] [[1]]
      Fixture.key [] false false false true).res.toBool = true ∧
    (∀ out, (prepareWitness Fixture.externals () () Fixture.splitS Fixture.splitExtC [] [[1]]
      Fixture.key [] false false false true).res = .ok out → out.2.2 = false) ∧
    (walk Fixture.externals Fixture.splitS Fixture.splitExtC [] Fixture.key false false
      true).res.map WalkState.extensionNodeInd = .ok 0 ∧
    (prepareWitness Fixture.externals () () Fixture.splitS Fixture.splitExtC [] [[1]]
      Fixture.key [] false false false true).trace.filterMap Event.extensionCall? =
      [([[1]], 0, Fixture.shortExt, Fixture.shortExt, false, false)] := by
  refine ⟨by decide, ?_, by decide, by rfl⟩
  intro out h
  have h2 : (prepareWitness Fixture.externals () () Fixture.splitS Fixture.splitExtC [] [[1]]
      Fixture.key [] false false false true).res.map (fun o => o.2.2) = .ok false := by decide
  rw [h] at h2
  simpa [Except.map] using h2

theorem getI_longer {proof1 proof2 : Rows} {k : Nat} {x : Row}
    (h : (if proof1.length > proof2.length then
        getI .proofList proof1 ((proof1.length : Int) - (k : Int))
      else getI .proofList proof2 ((proof2.length : Int) - (k : Int))) = .ok x) :
    k ≤ (longerProof proof1 proof2).length ∧
    (longerProof proof1 proof2)[(longerProof proof1 proof2).length - k]? = some x := by
  unfold longerProof
  split at h
  · rename_i hgt
    rw [if_pos hgt]
    exact getI_sub_ok h
  · rename_i hgt
    rw [if_neg hgt]
    exact getI_sub_ok h

/-- C12. `addBranchAndPlaceholder` takes everything from the longer proof `L`
(`proof1` when `|S| > |C|`, else `proof2`). Whenever it returns: `L[len-2]` exists
and the one call of `prepareParallelBranches` is
`(L[len-2], L[len-2], key[keyIndex + numberOfNibbles], |S| > |C|, C16, C1, isModifiedExtNode)`
with the pair after the extension part. When the lengths do not differ by exactly
2, no extension rows are prepared, the rows appended are the parallel-branch rows
followed by `prepareEmptyExtensionRows(false, false)`, and `toBeHashed` receives
the branch blob only. When they differ by exactly 2, `L[len-3]` exists, the
extension rows are prepared by
`prepareExtensionRows(extNibbles of L, extensionNodeInd, L[len-3], L[len-3], false, false)`
before the branch, the rows appended are the parallel-branch rows followed by the
two extension rows, and `toBeHashed` receives `L[len-3]` and then the branch blob. -/
theorem addBranchAndPlaceholder_takes_longer_proof (E : Externals StateDB Address)
    (statedb : StateDB) (addr : Address) (rows proof1 proof2 extNibblesS extNibblesC : Rows)
    (key neighbourNode : Row) (keyIndex extensionNodeInd : Nat)
    (additionalBranch isAccountProof nonExistingAccountProof isShorterProofLastLeaf : Bool)
    (branchC16 branchC1 : Nat) (toBeHashed : Rows) (r : BranchPlaceholderResult)
    (h : (addBranchAndPlaceholder E statedb addr rows proof1 proof2 extNibblesS extNibblesC key
      neighbourNode keyIndex extensionNodeInd additionalBranch isAccountProof
      nonExistingAccountProof isShorterProofLastLeaf branchC16 branchC1 toBeHashed).res = .ok r) :
    ∃ (branch : Row) (nibble : Nat) (pb : Rows × Row) (c1 : Nat),
      2 ≤ (longerProof proof1 proof2).length ∧
      (longerProof proof1 proof2)[(longerProof proof1 proof2).length - 2]? = some branch ∧
      key[keyIndex + r.numberOfNibbles]? = some nibble ∧
      E.prepareParallelBranches branch branch nibble (decide (proof1.length > proof2.length))
        r.branchC16 c1 r.isModifiedExtNode = some pb ∧
      (lengthsDifferByTwo proof1 proof2 = false →
        (addBranchAndPlaceholder E statedb addr rows proof1 proof2 extNibblesS extNibblesC key
          neighbourNode keyIndex extensionNodeInd additionalBranch isAccountProof
          nonExistingAccountProof isShorterProofLastLeaf branchC16 branchC1 toBeHashed).trace =
          [.addBranchAndPlaceholder keyIndex extensionNodeInd branchC16 branchC1, .flip,
           .prepareParallelBranches branch branch nibble (decide (proof1.length > proof2.length))
             r.branchC16 c1 r.isModifiedExtNode] ∧
        r.rows = rows ++ pb.1 ++ E.prepareEmptyExtensionRows false false ∧
        r.toBeHashed = toBeHashed ++ [pb.2]) ∧
      (lengthsDifferByTwo proof1 proof2 = true →
        ∃ (node : Row) (ext : Nat × Row × Row),
          3 ≤ (longerProof proof1 proof2).length ∧
          (longerProof proof1 proof2)[(longerProof proof1 proof2).length - 3]? = some node ∧
          E.prepareExtensionRows (longerNibbles proof1 proof2 extNibblesS extNibblesC)
            extensionNodeInd node node false false = some ext ∧
          (addBranchAndPlaceholder E statedb addr rows proof1 proof2 extNibblesS extNibblesC key
            neighbourNode keyIndex extensionNodeInd additionalBranch isAccountProof
            nonExistingAccountProof isShorterProofLastLeaf branchC16 branchC1 toBeHashed).trace =
            [.addBranchAndPlaceholder keyIndex extensionNodeInd branchC16 branchC1,
             .prepareExtensionRows (longerNibbles proof1 proof2 extNibblesS extNibblesC)
               extensionNodeInd node node false false] ++
            (if r.numberOfNibbles % 2 = 0 then [Event.flip] else []) ++
            [.prepareParallelBranches branch branch nibble
              (decide (proof1.length > proof2.length)) r.branchC16 c1 r.isModifiedExtNode] ∧
          r.rows = rows ++ pb.1 ++ [ext.2.1, ext.2.2] ∧
          r.toBeHashed = toBeHashed ++ [node, pb.2]) := by
  obtain ⟨p, longExtNode, branch, nibble, pb, hp, _, hb, hn, hpb, htr, hr⟩ :=
    addBranchAndPlaceholder_ok E statedb addr rows proof1 proof2 extNibblesS extNibblesC key
      neighbourNode keyIndex extensionNodeInd additionalBranch isAccountProof
      nonExistingAccountProof isShorterProofLastLeaf branchC16 branchC1 toBeHashed r h
  have hb' := getI_longer (k := 2) hb
  have hnum : r.numberOfNibbles = p.numberOfNibbles := by rw [hr]
  have hc16 : r.branchC16 = p.branchC16 := by rw [hr]
  have hmod : r.isModifiedExtNode = (!E.isBranch longExtNode && !isShorterProofLastLeaf) := by
    rw [hr]
  have hrows : r.rows = rows ++ pb.1 ++ p.extRows := by rw [hr]
  have htbh : r.toBeHashed = addForHashing pb.2 p.toBeHashed := by rw [hr]
  refine ⟨branch, nibble, pb, p.branchC1, hb'.1, hb'.2, ?_, ?_, ?_, ?_⟩
  · rw [hnum]
    exact hn
  · rw [hc16, hmod]
    exact hpb
  · intro hx
    rcases addBranchExtensionPart_ok E proof1 proof2 extNibblesS extNibblesC extensionNodeInd
      branchC16 branchC1 toBeHashed p hp with ⟨_, hxt, hpe⟩ | ⟨hx', _⟩
    · refine ⟨?_, ?_, ?_⟩
      · rw [htr, hxt, hc16, hmod]
        rfl
      · rw [hrows, hpe]
      · rw [htbh, hpe]
        rfl
    · rw [hx] at hx'
      cases hx'
  · intro hx
    rcases addBranchExtensionPart_ok E proof1 proof2 extNibblesS extNibblesC extensionNodeInd
      branchC16 branchC1 toBeHashed p hp with ⟨hx', _⟩ | ⟨_, node, ext, hnode, hext, hxt, hpe⟩
    · rw [hx] at hx'
      cases hx'
    · have hnode' := getI_longer (k := 3) hnode
      have hpn : p.numberOfNibbles = ext.1 % 256 := by rw [hpe]
      refine ⟨node, ext, hnode'.1, hnode'.2, hext, ?_, ?_, ?_⟩
      · rw [htr, hxt, hc16, hmod, hnum, hpn]
        rfl
      · rw [hrows, hpe]
      · rw [htbh, hpe]
        simp [addForHashing]

/-- C12 at a branch split below a new extension node: `proof1` is one leaf,
`proof2` an extension node, a branch and a leaf, so the lengths differ by 2. The
call returns; the rows appended are the parallel-branch rows and the two
extension rows, and `toBeHashed` receives `proof2[0]` and then the branch blob. -/
theorem addBranchAndPlaceholder_takes_longer_proof_witness :
    ∃ (r : BranchPlaceholderResult) (branch node : Row) (pb : Rows × Row)
      (ext : Nat × Row × Row),
      (addBranchAndPlaceholder Fixture.externals () () [] Fixture.splitS Fixture.splitExtC []
        [[1]] Fixture.key [] 0 0 true false false true 0 1 []).res = .ok r ∧
      (longerProof Fixture.splitS Fixture.splitExtC)[
        (longerProof Fixture.splitS Fixture.splitExtC).length - 2]? = some branch ∧
      (longerProof Fixture.splitS Fixture.splitExtC)[
        (longerProof Fixture.splitS Fixture.splitExtC).length - 3]? = some node ∧
      Fixture.externals.prepareExtensionRows
        (longerNibbles Fixture.splitS Fixture.splitExtC [] [[1]]) 0 node node false false =
        some ext ∧
      r.rows = [] ++ pb.1 ++ [ext.2.1, ext.2.2] ∧
      r.toBeHashed = [] ++ [node, pb.2] := by
  have hok : (addBranchAndPlaceholder Fixture.externals () () [] Fixture.splitS
      Fixture.splitExtC [] [[1]] Fixture.key [] 0 0 true false false true 0 1 []).res.toBool =
      true := by decide
  obtain ⟨r, hr⟩ := exists_ok_of_toBool hok
  obtain ⟨branch, nibble, pb, c1, _, hb, _, _, _, h2⟩ :=
    addBranchAndPlaceholder_takes_longer_proof Fixture.externals () () [] Fixture.splitS
      Fixture.splitExtC [] [[1]] Fixture.key [] 0 0 true false false true 0 1 [] r hr
  obtain ⟨node, ext, _, hnode, hext, _, hrows, htbh⟩ := h2 (by decide)
  exact ⟨r, branch, node, pb, ext, hr, hb, hnode, hext, hrows, htbh⟩

/-- C13. Return value and parity of `addBranchAndPlaceholder`. Whenever it
returns on a well-formed pair (`C16 + C1 = 1`): `isExtension` holds iff the proof
lengths differ by exactly 2; `numberOfNibbles` is 0 when `isExtension` is false and
otherwise the nibble count (a byte) returned by
`prepareExtensionRows(extNibbles of L, extensionNodeInd, L[len-3], L[len-3], false, false)`;
`C16_after = 1 - C16` when `isExtension` is false or `numberOfNibbles` is even, and
`C16_after = C16` when `isExtension` holds and `numberOfNibbles` is odd; and
`C16_after` is the `C16` given to the one `prepareParallelBranches` call. -/
theorem addBranchAndPlaceholder_return_value (E : Externals StateDB Address)
    (statedb : StateDB) (addr : Address) (rows proof1 proof2 extNibblesS extNibblesC : Rows)
    (key neighbourNode : Row) (keyIndex extensionNodeInd : Nat)
    (additionalBranch isAccountProof nonExistingAccountProof isShorterProofLastLeaf : Bool)
    (branchC16 branchC1 : Nat) (toBeHashed : Rows) (r : BranchPlaceholderResult)
    (hpair : branchC16 + branchC1 = 1)
    (h : (addBranchAndPlaceholder E statedb addr rows proof1 proof2 extNibblesS extNibblesC key
      neighbourNode keyIndex extensionNodeInd additionalBranch isAccountProof
      nonExistingAccountProof isShorterProofLastLeaf branchC16 branchC1 toBeHashed).res = .ok r) :
    (r.isExtension = true ↔
      (proof1.length = proof2.length + 2 ∨ proof2.length = proof1.length + 2)) ∧
    (r.isExtension = false → r.numberOfNibbles = 0) ∧
    (r.isExtension = true → ∃ (node : Row) (ext : Nat × Row × Row),
      (longerProof proof1 proof2)[(longerProof proof1 proof2).length - 3]? = some node ∧
      E.prepareExtensionRows (longerNibbles proof1 proof2 extNibblesS extNibblesC)
        extensionNodeInd node node false false = some ext ∧
      r.numberOfNibbles = ext.1 % 256 ∧ (ext.1 < 256 → r.numberOfNibbles = ext.1)) ∧
    (r.isExtension = false ∨ r.numberOfNibbles % 2 = 0 → r.branchC16 = 1 - branchC16) ∧
    (r.isExtension = true ∧ r.numberOfNibbles % 2 = 1 → r.branchC16 = branchC16) ∧
    (addBranchAndPlaceholder E statedb addr rows proof1 proof2 extNibblesS extNibblesC key
      neighbourNode keyIndex extensionNodeInd additionalBranch isAccountProof
      nonExistingAccountProof isShorterProofLastLeaf branchC16 branchC1
      toBeHashed).trace.filterMap Event.parallelC16? = [r.branchC16] := by
  obtain ⟨p, longExtNode, branch, nibble, pb, hp, _, _, _, _, htr, hr⟩ :=
    addBranchAndPlaceholder_ok E statedb addr rows proof1 proof2 extNibblesS extNibblesC key
      neighbourNode keyIndex extensionNodeInd additionalBranch isAccountProof
      nonExistingAccountProof isShorterProofLastLeaf branchC16 branchC1 toBeHashed r h
  have hnum : r.numberOfNibbles = p.numberOfNibbles := by rw [hr]
  have hc16 : r.branchC16 = p.branchC16 := by rw [hr]
  have hisext : r.isExtension = lengthsDifferByTwo proof1 proof2 := by rw [hr]; rfl
  have hflip : (flipPair branchC16).1 = 1 - branchC16 := by
    unfold flipPair
    split
    · rename_i h1
      rw [h1]
    · rename_i h1
      have h0 : branchC16 = 0 := by omega
      rw [h0]
  have hparallel : (addBranchExtensionPart E proof1 proof2 extNibblesS extNibblesC
      extensionNodeInd branchC16 branchC1 toBeHashed).trace.filterMap Event.parallelC16? =
      [] := by
    refine filterMap_eq_nil_of_forall (fun e he => ?_)
    have h := (addBranchExtensionPart_events E proof1 proof2 extNibblesS extNibblesC
      extensionNodeInd branchC16 branchC1 toBeHashed).1 e he
    cases e <;> first | rfl | exact h.elim
  have hlast : (addBranchAndPlaceholder E statedb addr rows proof1 proof2 extNibblesS
      extNibblesC key neighbourNode keyIndex extensionNodeInd additionalBranch isAccountProof
      nonExistingAccountProof isShorterProofLastLeaf branchC16 branchC1
      toBeHashed).trace.filterMap Event.parallelC16? = [r.branchC16] := by
    rw [htr, hc16]
    simp [List.filterMap_cons, List.filterMap_append, hparallel, Event.parallelC16?]
  have hiff : r.isExtension = true ↔
      (proof1.length = proof2.length + 2 ∨ proof2.length = proof1.length + 2) := by
    rw [hisext]
    unfold lengthsDifferByTwo
    simp
  rcases addBranchExtensionPart_ok E proof1 proof2 extNibblesS extNibblesC extensionNodeInd
    branchC16 branchC1 toBeHashed p hp with ⟨hx, _, hpe⟩ | ⟨hx, node, ext, hnode, hext, _, hpe⟩
  · have hpn : p.numberOfNibbles = 0 := by rw [hpe]
    have hpc : p.branchC16 = (flipPair branchC16).1 := by rw [hpe]
    refine ⟨hiff, fun _ => by rw [hnum, hpn], ?_, ?_, ?_, hlast⟩
    · intro hx'
      rw [hisext, hx] at hx'
      cases hx'
    · intro _
      rw [hc16, hpc, hflip]
    · rintro ⟨hx', _⟩
      rw [hisext, hx] at hx'
      cases hx'
  · have hpn : p.numberOfNibbles = ext.1 % 256 := by rw [hpe]
    have hpc : p.branchC16 =
        if ext.1 % 256 % 2 = 0 then (flipPair branchC16).1 else branchC16 := by rw [hpe]
    refine ⟨hiff, ?_, ?_, ?_, ?_, hlast⟩
    · intro hx'
      rw [hisext, hx] at hx'
      cases hx'
    · intro _
      refine ⟨node, ext, (getI_longer (k := 3) hnode).2, hext, by rw [hnum, hpn], ?_⟩
      intro hlt
      rw [hnum, hpn]
      exact Nat.mod_eq_of_lt hlt
    · intro hor
      have hev : ext.1 % 256 % 2 = 0 := by
        rcases hor with hx' | hev
        · rw [hisext, hx] at hx'
          cases hx'
        · rw [hnum, hpn] at hev
          exact hev
      rw [hc16, hpc, if_pos hev, hflip]
    · rintro ⟨_, hodd⟩
      rw [hnum, hpn] at hodd
      have hev : ¬ ext.1 % 256 % 2 = 0 := by omega
      rw [hc16, hpc, if_neg hev]

/-- C13 at a branch split below a one-nibble extension node, from the pair
`(0, 1)`: the call returns `isExtension = true`, `numberOfNibbles = 1` and
`C16_after = 0`, the `C16` it was given. -/
theorem addBranchAndPlaceholder_return_value_witness :
    ∃ (r : BranchPlaceholderResult),
      (addBranchAndPlaceholder Fixture.externals () () [] Fixture.splitS Fixture.splitExtC []
        [[1]] Fixture.key [] 0 0 true false false true 0 1 []).res = .ok r ∧
      r.isExtension = true ∧ r.numberOfNibbles = 1 ∧ r.branchC16 = 0 ∧
      (addBranchAndPlaceholder Fixture.externals () () [] Fixture.splitS Fixture.splitExtC []
        [[1]] Fixture.key [] 0 0 true false false true 0 1 []).trace.filterMap
        Event.parallelC16? = [r.branchC16] := by
  have hok : (addBranchAndPlaceholder Fixture.externals () () [] Fixture.splitS
      Fixture.splitExtC [] [[1]] Fixture.key [] 0 0 true false false true 0 1 []).res.toBool =
      true := by decide
  obtain ⟨r, hr⟩ := exists_ok_of_toBool hok
  obtain ⟨hiff, _, hnum, _, hodd, hcall⟩ :=
    addBranchAndPlaceholder_return_value Fixture.externals () () [] Fixture.splitS
      Fixture.splitExtC [] [[1]] Fixture.key [] 0 0 true false false true 0 1 [] r rfl hr
  have hext : r.isExtension = true := hiff.mpr (Or.inr (by decide))
  obtain ⟨node, ext, hnode, hcallext, hn, _⟩ := hnum hext
  have hnode' : (longerProof Fixture.splitS Fixture.splitExtC)[
      (longerProof Fixture.splitS Fixture.splitExtC).length - 3]? = some Fixture.shortExt := by
    decide
  rw [hnode'] at hnode
  cases hnode
  have hext' : Fixture.externals.prepareExtensionRows
      (longerNibbles Fixture.splitS Fixture.splitExtC [] [[1]]) 0 Fixture.shortExt
      Fixture.shortExt false false = some (1, Fixture.shortExt, Fixture.shortExt) := by decide
  rw [hext'] at hcallext
  cases hcallext
  have hn1 : r.numberOfNibbles = 1 := hn
  exact ⟨r, hr, hext, hn1, hodd ⟨hext, by rw [hn1]⟩, hcall⟩

theorem prepareWitness_both_empty (E : Externals StateDB Address) (statedb : StateDB)
    (addr : Address) (extNibblesS extNibblesC : Rows) (key neighbourNode : Row)
    (isAccountProof nonExistingAccountProof nonExistingStorageProof
      isShorterProofLastLeaf : Bool) :
    prepareWitness E statedb addr [] [] extNibblesS extNibblesC key neighbourNode
      isAccountProof nonExistingAccountProof nonExistingStorageProof isShorterProofLastLeaf =
      ⟨[], .error (.indexOutOfRange .proofList)⟩ := by
  rfl

theorem prepareWitness_one_empty (E : Externals StateDB Address) (statedb : StateDB)
    (addr : Address) (proof1 proof2 extNibblesS extNibblesC : Rows) (key neighbourNode : Row)
    (isAccountProof nonExistingAccountProof nonExistingStorageProof
      isShorterProofLastLeaf : Bool)
    (hone : (proof1 = [] ∧ proof2 ≠ []) ∨ (proof1 ≠ [] ∧ proof2 = [])) :
    additionalBranchOf E proof1 proof2 = .ok false ∧
    walk E proof1 proof2 extNibblesS key isAccountProof nonExistingAccountProof false =
      ⟨[], .ok initialState⟩ ∧
    prepareWitness E statedb addr proof1 proof2 extNibblesS extNibblesC key neighbourNode
      isAccountProof nonExistingAccountProof nonExistingStorageProof isShorterProofLastLeaf =
      ⟨[.addLeafAndPlaceholder isAccountProof],
        match E.addLeafAndPlaceholder [] proof1 proof2 key nonExistingAccountProof
          isAccountProof [] with
        | some r => .ok (r.1, r.2, false)
        | none => .error .preparer⟩ := by
  have hab : additionalBranchOf E proof1 proof2 = .ok false := by
    rcases hone with ⟨h1, _⟩ | ⟨_, h2⟩
    · subst h1
      simp [additionalBranchOf]
    · subst h2
      simp [additionalBranchOf]
  have hup : (upToOf proof1 proof2 false).toNat = 0 := by
    rcases hone with ⟨h1, _⟩ | ⟨_, h2⟩
    · subst h1
      simp [upToOf]
    · subst h2
      have hpos : 0 < proof1.length := List.length_pos.mpr ‹_›
      simp [upToOf, hpos]
  have hwalk : walk E proof1 proof2 extNibblesS key isAccountProof nonExistingAccountProof
      false = ⟨[], .ok initialState⟩ := by
    unfold walk
    rw [hup]
    rfl
  have hne : proof1.length ≠ proof2.length := by
    rcases hone with ⟨h1, h2⟩ | ⟨h1, h2⟩
    · subst h1
      intro h
      exact h2 (List.length_eq_zero.mp h.symm)
    · subst h2
      intro h
      exact h1 (List.length_eq_zero.mp h)
  refine ⟨hab, hwalk, ?_⟩
  unfold prepareWitness
  rw [hab, liftE_ok_bind, hwalk, Run.mk_ok_bind]
  simp only [if_pos hne]
  unfold tailUnequal
  cases hl : E.addLeafAndPlaceholder [] proof1 proof2 key nonExistingAccountProof
      isAccountProof [] with
  | none =>
    simp [Run.bind_def, Run.bind, liftE, callExt, initialState, hl]
  | some r =>
    simp [Run.bind_def, Run.bind, liftE, callExt, initialState, hl, Run.pure]

/-- C14. Empty-trie boundary. When both proofs are empty, `prepareWitness` calls
nothing and does not return: it stops with an out-of-range index into the proof
list, at `proof2[len(proof2)-1]` in the equal-length tail. When exactly one proof
is empty, `additionalBranch` is false, the walk visits no position (no call, no
rows, no blobs, the initial locals), and the run is the one call
`addLeafAndPlaceholder(&rows, proof1, proof2, key, nonExistingAccountProof, isAccountProof, &toBeHashed)`
on empty `rows` and empty `toBeHashed`, whose results are returned with the third
value false. -/
theorem prepareWitness_empty_trie_boundary (E : Externals StateDB Address) (statedb : StateDB)
    (addr : Address) (proof1 proof2 extNibblesS extNibblesC : Rows) (key neighbourNode : Row)
    (isAccountProof nonExistingAccountProof nonExistingStorageProof
      isShorterProofLastLeaf : Bool) :
    (proof1 = [] ∧ proof2 = [] →
      prepareWitness E statedb addr proof1 proof2 extNibblesS extNibblesC key neighbourNode
        isAccountProof nonExistingAccountProof nonExistingStorageProof isShorterProofLastLeaf =
        ⟨[], .error (.indexOutOfRange .proofList)⟩ ∧
      getI .proofList proof2 ((proof2.length : Int) - 1) =
        .error (.indexOutOfRange .proofList)) ∧
    ((proof1 = [] ∧ proof2 ≠ []) ∨ (proof1 ≠ [] ∧ proof2 = []) →
      additionalBranchOf E proof1 proof2 = .ok false ∧
      walk E proof1 proof2 extNibblesS key isAccountProof nonExistingAccountProof false =
        ⟨[], .ok initialState⟩ ∧
      initialState.rows = [] ∧ initialState.toBeHashed = [] ∧
      prepareWitness E statedb addr proof1 proof2 extNibblesS extNibblesC key neighbourNode
        isAccountProof nonExistingAccountProof nonExistingStorageProof isShorterProofLastLeaf =
        ⟨[.addLeafAndPlaceholder isAccountProof],
          match E.addLeafAndPlaceholder [] proof1 proof2 key nonExistingAccountProof
            isAccountProof [] with
          | some r => .ok (r.1, r.2, false)
          | none => .error .preparer⟩) := by
  constructor
  · rintro ⟨h1, h2⟩
    subst h1
    subst h2
    exact ⟨prepareWitness_both_empty E statedb addr extNibblesS extNibblesC key neighbourNode
      isAccountProof nonExistingAccountProof nonExistingStorageProof isShorterProofLastLeaf, rfl⟩
  · intro hone
    obtain ⟨hab, hwalk, hrun⟩ := prepareWitness_one_empty E statedb addr proof1 proof2
      extNibblesS extNibblesC key neighbourNode isAccountProof nonExistingAccountProof
      nonExistingStorageProof isShorterProofLastLeaf hone
    exact ⟨hab, hwalk, rfl, rfl, hrun⟩

/-- C14 at an insertion into an empty storage trie: `proof1` is empty and `proof2`
is one leaf. The run is the single call of `addLeafAndPlaceholder` on empty rows
and returns what the fixture's inserter appends to them. -/
theorem prepareWitness_empty_trie_boundary_witness :
    additionalBranchOf Fixture.externals [] [Fixture.leafNode 6] = .ok false ∧
    walk Fixture.externals [] [Fixture.leafNode 6] [] Fixture.key false false false =
      ⟨[], .ok initialState⟩ ∧
    prepareWitness Fixture.externals () () [] [Fixture.leafNode 6] [] [] Fixture.key [] false
      false false false = ⟨[.addLeafAndPlaceholder false], .ok ([[4]], [], false)⟩ := by
  obtain ⟨hab, hwalk, _, _, hrun⟩ :=
    (prepareWitness_empty_trie_boundary Fixture.externals () () [] [Fixture.leafNode 6] [] []
      Fixture.key [] false false false false).2 (Or.inl ⟨rfl, by decide⟩)
  exact ⟨hab, hwalk, hrun⟩

/-- C15. The `switchC16` rule of the common-prefix walk. Let the loop body at
position `i` return from the locals `st`. If `proof1[i]` is a branch, the pair is
flipped, before `prepareTwoBranches` is called with it, if and only if it is not
the case that extension rows are stashed and `proof1[i-1]` has key length 1 or a
non-zero marker byte `proof1[i-1][2]`: it is flipped when nothing is stashed and
when the stashed extension node has a key length above 1 and marker byte 0, and
left unchanged when the stashed node has key length 1 or a non-zero marker byte;
the stash is cleared. A flip turns the pair `(1, 0)` into `(0, 1)` and any other
pair into `(1, 0)`, so `(0, 1)` becomes `(1, 0)`; without a flip the pair is
kept. If `proof1[i]` is an extension node (not a branch, not the last element),
the pair is not flipped and the extension rows are stashed. -/
theorem walk_switchC16_rule (E : Externals StateDB Address)
    (proof1 proof2 extNibblesS : Rows) (key : Row)
    (isAccountProof nonExistingAccountProof : Bool) (i : Nat) (st st' : WalkState) (node : Row)
    (hnode : proof1[i]? = some node)
    (hret : (walkStep E proof1 proof2 extNibblesS key isAccountProof nonExistingAccountProof i
      st).res = .ok st') :
    (E.isBranch node = true →
      ∃ (flipped : Bool) (c : Row) (n : Nat) (bRows : Rows),
        (flipped = true ↔
          ¬ (st.extensionRows.isSome = true ∧ ∃ prev, proof1[i - 1]? = some prev ∧
            (E.getExtensionNodeKeyLen prev = 1 ∨ prev.getD 2 0 ≠ 0))) ∧
        (st.extensionRows = none → flipped = true) ∧
        (∀ prev, st.extensionRows.isSome = true → proof1[i - 1]? = some prev →
          1 < E.getExtensionNodeKeyLen prev → prev.getD 2 0 = 0 → flipped = true) ∧
        (∀ prev, st.extensionRows.isSome = true → proof1[i - 1]? = some prev →
          E.getExtensionNodeKeyLen prev = 1 ∨ prev.getD 2 0 ≠ 0 → flipped = false) ∧
        (st.extensionRows.isSome = true → 0 < i ∧ ∃ prev, proof1[i - 1]? = some prev) ∧
        (walkStep E proof1 proof2 extNibblesS key isAccountProof nonExistingAccountProof i
          st).trace =
          (if flipped then [Event.flip] else []) ++
            [.prepareTwoBranches node c n st'.branchC16 st'.branchC1 false false,
             .branchBlock i st.extensionNodeInd n bRows] ∧
        (st'.branchC16, st'.branchC1) =
          (if flipped then (if st.branchC16 = 1 then (0, 1) else (1, 0))
           else (st.branchC16, st.branchC1)) ∧
        (flipped = true → st.branchC16 = 0 → st.branchC1 = 1 →
          st'.branchC16 = 1 ∧ st'.branchC1 = 0) ∧
        (flipped = true → st.branchC16 = 1 → st.branchC1 = 0 →
          st'.branchC16 = 0 ∧ st'.branchC1 = 1) ∧
        (flipped = false → st'.branchC16 = st.branchC16 ∧ st'.branchC1 = st.branchC1) ∧
        st'.extensionRows = none) ∧
    (E.isBranch node = false → i + 1 ≠ proof1.length →
      flipCount (walkStep E proof1 proof2 extNibblesS key isAccountProof
        nonExistingAccountProof i st).trace = 0 ∧
      st'.branchC16 = st.branchC16 ∧ st'.branchC1 = st.branchC1 ∧
      st'.extensionRows.isSome = true) := by
  obtain ⟨s, hs, hcase⟩ := walkStep_cases E proof1 proof2 extNibblesS key isAccountProof
    nonExistingAccountProof i st st' hret
  rw [hnode] at hs
  cases hs
  rcases hcase with ⟨hbr, heq⟩ | ⟨hbr, hnl, heq⟩ | ⟨hbr, hlast, heq⟩
  · refine ⟨fun _ => ?_, fun hf => ?_⟩
    · rw [heq] at hret ⊢
      obtain ⟨sw, s', c, nib, bR, blk, hsw, hs', _, _, _, _, _, htr, hst1⟩ :=
        walkBranch_ok E proof1 proof2 key i st st' hret
      rw [hnode] at hs'
      cases hs'
      have h16 : st'.branchC16 = if sw then (flipPair st.branchC16).1 else st.branchC16 := by
        rw [hst1]
      have h1 : st'.branchC1 = if sw then (flipPair st.branchC16).2 else st.branchC1 := by
        rw [hst1]
      have hstash : st'.extensionRows = none := by rw [hst1]
      have hpair : (st'.branchC16, st'.branchC1) =
          (if sw then (if st.branchC16 = 1 then (0, 1) else (1, 0))
           else (st.branchC16, st.branchC1)) := by
        rw [h16, h1]
        unfold flipPair
        cases sw
        · rfl
        · by_cases hc : st.branchC16 = 1
          · simp only [if_true, if_pos hc]
          · simp only [if_true, if_neg hc]
      refine ⟨sw, c, nib, blk.1, ?_, ?_, ?_, ?_, ?_, ?_, hpair, ?_, ?_, ?_, hstash⟩
      · rcases switchC16_ok E proof1 i st.extensionRows sw hsw with ⟨hnone, hswt⟩ |
          ⟨hsome, prev, _, hprev, hswe⟩
        · rw [hswt, hnone]
          simp
        · rw [hswe]
          constructor
          · intro hh
            rintro ⟨_, prev', hprev', hor⟩
            rw [hprev] at hprev'
            cases hprev'
            simp only [Bool.and_eq_true, bne_iff_ne, ne_eq, beq_iff_eq] at hh
            rcases hor with h1' | h2'
            · exact hh.1 h1'
            · exact h2' hh.2
          · intro hh
            simp only [Bool.and_eq_true, bne_iff_ne, ne_eq, beq_iff_eq]
            constructor
            · intro hk
              exact hh ⟨hsome, prev, hprev, Or.inl hk⟩
            · by_contra hm
              exact hh ⟨hsome, prev, hprev, Or.inr hm⟩
      · intro hnone
        rcases switchC16_ok E proof1 i st.extensionRows sw hsw with ⟨_, hswt⟩ |
          ⟨hsome, _⟩
        · exact hswt
        · rw [hnone] at hsome
          cases hsome
      · intro prev _ hprev hk hm
        rcases switchC16_ok E proof1 i st.extensionRows sw hsw with ⟨_, hswt⟩ |
          ⟨_, prev', _, hprev', hswe⟩
        · exact hswt
        · rw [hprev] at hprev'
          cases hprev'
          rw [hswe, hm]
          have hk1 : E.getExtensionNodeKeyLen prev ≠ 1 := by omega
          simp [hk1]
      · intro prev hsome hprev hor
        rcases switchC16_ok E proof1 i st.extensionRows sw hsw with ⟨hnone, _⟩ |
          ⟨_, prev', _, hprev', hswe⟩
        · rw [hnone] at hsome
          cases hsome
        · rw [hprev] at hprev'
          cases hprev'
          rw [hswe]
          rcases hor with hk | hm
          · simp [hk]
          · rw [beq_false_of_ne hm, Bool.and_false]
      · intro hsome
        rcases switchC16_ok E proof1 i st.extensionRows sw hsw with ⟨hnone, _⟩ |
          ⟨_, prev, hi, hprev, _⟩
        · rw [hnone] at hsome
          cases hsome
        · exact ⟨hi, prev, hprev⟩
      · rw [htr, h16, h1]
      · intro hf h0 _
        rw [hf, if_pos rfl, if_neg (by omega)] at hpair
        exact ⟨congrArg Prod.fst hpair, congrArg Prod.snd hpair⟩
      · intro hf h0 _
        rw [hf, if_pos rfl, if_pos h0] at hpair
        exact ⟨congrArg Prod.fst hpair, congrArg Prod.snd hpair⟩
      · intro hf
        rw [hf, if_neg (by decide)] at hpair
        exact ⟨congrArg Prod.fst hpair, congrArg Prod.snd hpair⟩
    · rw [hbr] at hf
      cases hf
  · refine ⟨fun hb => ?_, fun _ _ => ?_⟩
    · rw [hbr] at hb
      cases hb
    · rw [heq] at hret ⊢
      obtain ⟨s', c, ext, _, _, _, htr, hst1⟩ :=
        walkExtension_ok E proof1 proof2 extNibblesS i st st' hret
      rw [htr, hst1]
      simp [flipCount]
  · refine ⟨fun hb => ?_, fun _ hne => ?_⟩
    · rw [hbr] at hb
      cases hb
    · exact absurd hlast hne

/-- C15 at three branch steps. Below a two-nibble extension node with marker
byte 0 the pair `(0, 1)` is flipped to `(1, 0)`; from the pair `(1, 0)` the same
step flips back to `(0, 1)`; below a one-nibble extension node the pair `(0, 1)`
is left unchanged. Each step returns and clears the stash. -/
theorem walk_switchC16_rule_witness :
    (∃ st', (walkStep Fixture.externals Fixture.evenExtProof Fixture.evenExtProof [[1, 1]]
        Fixture.key false false 1 Fixture.afterLongEvenExt).res = .ok st' ∧
      (st'.branchC16, st'.branchC1) = (1, 0) ∧ st'.extensionRows = none) ∧
    (∃ st', (walkStep Fixture.externals Fixture.evenExtProof Fixture.evenExtProof [[1, 1]]
        Fixture.key false false 1
        { Fixture.afterLongEvenExt with branchC16 := 1, branchC1 := 0 }).res = .ok st' ∧
      (st'.branchC16, st'.branchC1) = (0, 1) ∧ st'.extensionRows = none) ∧
    (∃ st', (walkStep Fixture.externals Fixture.extS Fixture.extC [[1]]
        Fixture.key false false 1
        { Fixture.afterLongEvenExt with
          keyIndex := 1, extensionRows := some (Fixture.shortExt, Fixture.shortExt) }).res =
        .ok st' ∧
      (st'.branchC16, st'.branchC1) = (0, 1) ∧ st'.extensionRows = none) ∧
    ((walkStep Fixture.externals Fixture.evenExtProof Fixture.evenExtProof [[1, 1]]
      Fixture.key false false 1 Fixture.afterLongEvenExt).res.map
        fun s => (s.branchC16, s.branchC1)) = .ok (1, 0) ∧
    ((walkStep Fixture.externals Fixture.evenExtProof Fixture.evenExtProof [[1, 1]]
      Fixture.key false false 1
      { Fixture.afterLongEvenExt with branchC16 := 1, branchC1 := 0 }).res.map
        fun s => (s.branchC16, s.branchC1)) = .ok (0, 1) ∧
    ((walkStep Fixture.externals Fixture.extS Fixture.extC [[1]] Fixture.key false false 1
      { Fixture.afterLongEvenExt with
        keyIndex := 1, extensionRows := some (Fixture.shortExt, Fixture.shortExt) }).res.map
        fun s => (s.branchC16, s.branchC1)) = .ok (0, 1) := by
  refine ⟨?_, ?_, ?_, by decide, by decide, by decide⟩
  · have hok : (walkStep Fixture.externals Fixture.evenExtProof Fixture.evenExtProof [[1, 1]]
        Fixture.key false false 1 Fixture.afterLongEvenExt).res.toBool = true := by decide
    obtain ⟨st', h⟩ := exists_ok_of_toBool hok
    obtain ⟨flipped, c, n, bRows, _, _, hlong, _, _, _, _, hup, _, _, hstash⟩ :=
      (walk_switchC16_rule Fixture.externals Fixture.evenExtProof Fixture.evenExtProof [[1, 1]]
        Fixture.key false false 1 Fixture.afterLongEvenExt st' (Fixture.branchOf 7) rfl h).1
        (by decide)
    have hf : flipped = true :=
      hlong Fixture.longEvenExt rfl rfl (by decide) (by decide)
    obtain ⟨e1, e2⟩ := hup hf rfl rfl
    exact ⟨st', h, by rw [e1, e2], hstash⟩
  · have hok : (walkStep Fixture.externals Fixture.evenExtProof Fixture.evenExtProof [[1, 1]]
        Fixture.key false false 1
        { Fixture.afterLongEvenExt with branchC16 := 1, branchC1 := 0 }).res.toBool = true := by
      decide
    obtain ⟨st', h⟩ := exists_ok_of_toBool hok
    obtain ⟨flipped, c, n, bRows, _, _, hlong, _, _, _, _, _, hdown, _, hstash⟩ :=
      (walk_switchC16_rule Fixture.externals Fixture.evenExtProof Fixture.evenExtProof [[1, 1]]
        Fixture.key false false 1 { Fixture.afterLongEvenExt with branchC16 := 1, branchC1 := 0 }
        st' (Fixture.branchOf 7) rfl h).1 (by decide)
    have hf : flipped = true :=
      hlong Fixture.longEvenExt rfl rfl (by decide) (by decide)
    obtain ⟨e1, e2⟩ := hdown hf rfl rfl
    exact ⟨st', h, by rw [e1, e2], hstash⟩
  · have hok : (walkStep Fixture.externals Fixture.extS Fixture.extC [[1]]
        Fixture.key false false 1
        { Fixture.afterLongEvenExt with
          keyIndex := 1, extensionRows := some (Fixture.shortExt, Fixture.shortExt) }).res.toBool =
        true := by
      decide
    obtain ⟨st', h⟩ := exists_ok_of_toBool hok
    obtain ⟨flipped, c, n, bRows, _, _, _, hshort, _, _, _, _, _, hkeep, hstash⟩ :=
      (walk_switchC16_rule Fixture.externals Fixture.extS Fixture.extC [[1]]
        Fixture.key false false 1
        { Fixture.afterLongEvenExt with
          keyIndex := 1, extensionRows := some (Fixture.shortExt, Fixture.shortExt) }
        st' (Fixture.branchOf 7) rfl h).1 (by decide)
    have hf : flipped = false :=
      hshort Fixture.shortExt rfl rfl (Or.inl (by decide))
    obtain ⟨e1, e2⟩ := hkeep hf
    exact ⟨st', h, by rw [e1, e2]; rfl, hstash⟩

theorem writeFlags_length (E : Externals StateDB Address) (flags : List ExtensionFlag) :
    ∀ row : Row, (writeFlags E row flags).length = row.length := by
  induction flags with
  | nil => intro row; rfl
  | cons f rest ih =>
    intro row
    rw [writeFlags, ih, List.length_set]

theorem writeFlags_append (E : Externals StateDB Address) (fs gs : List ExtensionFlag) :
    ∀ row : Row, writeFlags E row (fs ++ gs) = writeFlags E (writeFlags E row fs) gs := by
  induction fs with
  | nil => intro row; rfl
  | cons f rest ih =>
    intro row
    simp only [List.cons_append, writeFlags]
    exact ih _

theorem writeFlags_getElem? (E : Externals StateDB Address) (flags : List ExtensionFlag)
    (q : Nat) :
    ∀ row : Row, (writeFlags E row flags)[q]? =
      if q ∈ flags.map (flagPos E) ∧ q < row.length then some 1 else row[q]? := by
  induction flags with
  | nil => intro row; simp [writeFlags]
  | cons f rest ih =>
    intro row
    rw [writeFlags, ih, List.length_set]
    by_cases hq : q ∈ rest.map (flagPos E)
    · by_cases hlt : q < row.length
      · simp [hq, hlt]
      · have hnone : row[q]? = none := List.getElem?_eq_none (by omega)
        have hnone' : (row.set (flagPos E f) 1)[q]? = none :=
          List.getElem?_eq_none (by rw [List.length_set]; omega)
        simp [hlt, hnone, hnone']
    · by_cases hf : flagPos E f = q
      · by_cases hlt : q < row.length
        · simp [hq, hf, hlt, List.getElem?_set]
        · have hnone : row[q]? = none := List.getElem?_eq_none (by omega)
          simp [hq, hf, hlt, hnone, List.getElem?_set]
      · have hf' : ¬ q = flagPos E f := fun h => hf h.symm
        simp [hq, hf, hf', List.getElem?_set]

theorem setRowByte_head_ok {rows rows' : Rows} {pos v : Nat}
    (h : setRowByte rows 0 pos v = .ok rows') :
    ∃ row rest, rows = row :: rest ∧ pos < row.length ∧ rows' = row.set pos v :: rest := by
  unfold setRowByte at h
  cases rows with
  | nil => simp at h
  | cons row rest =>
    simp only [List.getElem?_cons_zero] at h
    split at h
    · rename_i hlt
      simp only [List.set_cons_zero, Except.ok.injEq] at h
      exact ⟨row, rest, rfl, hlt, h.symm⟩
    · cases h

theorem setFlag_step (E : Externals StateDB Address) {row0 : Row} {rest rows' : Rows}
    {fs : List ExtensionFlag} (f : ExtensionFlag)
    (h : setRowByte (writeFlags E row0 fs :: rest) 0 (flagPos E f) 1 = .ok rows') :
    flagPos E f < row0.length ∧ rows' = writeFlags E row0 (fs ++ [f]) :: rest := by
  obtain ⟨row, rest', hcons, hlt, hrows⟩ := setRowByte_head_ok h
  injection hcons with h1 h2
  subst h1
  subst h2
  rw [writeFlags_length] at hlt
  refine ⟨hlt, ?_⟩
  rw [hrows, writeFlags_append]
  rfl

theorem setFlag_if_step (E : Externals StateDB Address) {row0 : Row} {rest rows' : Rows}
    {fs : List ExtensionFlag} (f : ExtensionFlag) {c : Prop} [Decidable c]
    (h : (if c then setRowByte (writeFlags E row0 fs :: rest) 0 (flagPos E f) 1
      else .ok (writeFlags E row0 fs :: rest)) = .ok rows') :
    (c → flagPos E f < row0.length) ∧
    rows' = writeFlags E row0 (fs ++ if c then [f] else []) :: rest := by
  split at h
  · rename_i hc
    obtain ⟨hlt, hrows⟩ := setFlag_step E f h
    rw [if_pos hc]
    exact ⟨fun _ => hlt, hrows⟩
  · rename_i hc
    simp only [Except.ok.injEq] at h
    refine ⟨fun hc' => absurd hc' hc, ?_⟩
    rw [← h, if_neg hc, List.append_nil]

theorem getI_pred_ok {α : Type} {site : IndexSite} {xs : List α} {i : Nat} {x : α}
    (h : getI site xs ((i : Int) - 1) = .ok x) : 0 < i ∧ xs[i - 1]? = some x := by
  unfold getI at h
  split at h
  · cases h
  · have e : ((i : Int) - 1).toNat = i - 1 := by omega
    rw [e] at h
    refine ⟨by omega, ?_⟩
    cases hx : xs[i - 1]? with
    | none => rw [hx] at h; cases h
    | some y =>
      rw [hx] at h
      simp only [Except.ok.injEq] at h
      rw [h]

theorem setExtensionFlags_ok (E : Externals StateDB Address) (proof1 proof2 : Rows) (i : Nat)
    (branchC16 : Nat) (bRows bRows' : Rows)
    (h : setExtensionFlags E proof1 proof2 i branchC16 bRows = .ok bRows') :
    ∃ (row0 : Row) (rest : Rows) (prevS prevC : Row),
      bRows = row0 :: rest ∧ 0 < i ∧ proof1[i - 1]? = some prevS ∧
      proof2[i - 1]? = some prevC ∧
      (∀ f ∈ flagsSet E prevS prevC branchC16, flagPos E f < row0.length) ∧
      bRows' = writeFlags E row0 (flagsSet E prevS prevC branchC16) :: rest := by
  unfold setExtensionFlags at h
  obtain ⟨r0, h0, h⟩ := except_bind_ok h
  obtain ⟨row0, rest, hcons, hlt0, hr0⟩ := setRowByte_head_ok h0
  have hr0' : r0 = writeFlags E row0 [.isExtension] :: rest := hr0
  obtain ⟨prevS, hpS, h⟩ := except_bind_ok h
  obtain ⟨r1, h1, h⟩ := except_bind_ok h
  rw [hr0'] at h1
  obtain ⟨hb1, hr1⟩ := setFlag_if_step E .isSExtLongerThan55 h1
  obtain ⟨prevC, hpC, h⟩ := except_bind_ok h
  obtain ⟨r2, h2, h⟩ := except_bind_ok h
  rw [hr1] at h2
  obtain ⟨hb2, hr2⟩ := setFlag_if_step E .isCExtLongerThan55 h2
  obtain ⟨r3, h3, h⟩ := except_bind_ok h
  rw [hr2] at h3
  obtain ⟨hb3, hr3⟩ := setFlag_if_step E .isExtNodeSNonHashed h3
  obtain ⟨r4, h4, h⟩ := except_bind_ok h
  rw [hr3] at h4
  obtain ⟨hb4, hr4⟩ := setFlag_if_step E .isExtNodeCNonHashed h4
  rw [hr4] at h
  have hkind : setRowByte
      (writeFlags E row0 (((([ExtensionFlag.isExtension] ++
        if prevS.length > 56 then [ExtensionFlag.isSExtLongerThan55] else []) ++
        if prevC.length > 56 then [ExtensionFlag.isCExtLongerThan55] else []) ++
        if prevS.length < 32 then [ExtensionFlag.isExtNodeSNonHashed] else []) ++
        if prevC.length < 32 then [ExtensionFlag.isExtNodeCNonHashed] else []) :: rest) 0
      (flagPos E (selectedKindFlag E prevS branchC16)) 1 = .ok bRows' := by
    unfold selectedKindFlag
    split at h
    · rename_i hk
      rw [if_pos hk]
      split at h
      · rename_i hc
        rw [if_pos hc]
        exact h
      · rename_i hc
        rw [if_neg hc]
        exact h
    · rename_i hk
      rw [if_neg hk]
      obtain ⟨marker, hm, h⟩ := except_bind_ok h
      have hd : prevS.getD 2 0 = marker := by
        rw [List.getD_eq_getElem?_getD, getN_eq_ok.mp hm]
        rfl
      rw [hd]
      split at h
      · rename_i hz
        rw [if_pos hz]
        split at h
        · rename_i hc
          rw [if_pos hc]
          exact h
        · rename_i hc
          rw [if_neg hc]
          exact h
      · rename_i hz
        rw [if_neg hz]
        split at h
        · rename_i hc
          rw [if_pos hc]
          exact h
        · rename_i hc
          rw [if_neg hc]
          exact h
  obtain ⟨hb5, hr5⟩ := setFlag_step E (selectedKindFlag E prevS branchC16) hkind
  obtain ⟨hi, hS⟩ := getI_pred_ok hpS
  obtain ⟨_, hC⟩ := getI_pred_ok hpC
  refine ⟨row0, rest, prevS, prevC, hcons, hi, hS, hC, ?_, hr5⟩
  intro f hf
  unfold flagsSet at hf
  simp only [List.mem_append, List.mem_singleton] at hf
  rcases hf with ((((hf | hf) | hf) | hf) | hf) | hf
  · rw [hf]
    exact hlt0
  · split at hf
    · rename_i hc
      simp only [List.mem_singleton] at hf
      rw [hf]
      exact hb1 hc
    · cases hf
  · split at hf
    · rename_i hc
      simp only [List.mem_singleton] at hf
      rw [hf]
      exact hb2 hc
    · cases hf
  · split at hf
    · rename_i hc
      simp only [List.mem_singleton] at hf
      rw [hf]
      exact hb3 hc
    · cases hf
  · split at hf
    · rename_i hc
      simp only [List.mem_singleton] at hf
      rw [hf]
      exact hb4 hc
    · cases hf
  · rw [hf]
    exact hb5

theorem attachExtension_ok (E : Externals StateDB Address) (proof1 proof2 : Rows) (i : Nat)
    (branchC16 : Nat) (stash : Option (Row × Row)) (bRows toBeHashed : Rows) (blk : Rows × Rows)
    (h : attachExtension E proof1 proof2 i branchC16 stash bRows toBeHashed = .ok blk) :
    (stash = none ∧ blk = (bRows ++ E.prepareEmptyExtensionRows false false, toBeHashed)) ∨
    (∃ (ext : Row × Row) (row0 : Row) (rest : Rows) (prevS prevC : Row),
      stash = some ext ∧ bRows ++ [ext.1, ext.2] = row0 :: rest ∧ 0 < i ∧
      proof1[i - 1]? = some prevS ∧ proof2[i - 1]? = some prevC ∧
      (∀ f ∈ flagsSet E prevS prevC branchC16, flagPos E f < row0.length) ∧
      blk = (writeFlags E row0 (flagsSet E prevS prevC branchC16) :: rest,
        addForHashing prevC (addForHashing prevS toBeHashed))) := by
  unfold attachExtension at h
  cases stash with
  | none =>
    simp only [Except.ok.injEq] at h
    exact Or.inl ⟨rfl, h.symm⟩
  | some ext =>
    right
    simp only [] at h
    obtain ⟨r, hr, h⟩ := except_bind_ok h
    obtain ⟨prevS', hS', h⟩ := except_bind_ok h
    obtain ⟨prevC', hC', h⟩ := except_bind_ok h
    obtain ⟨row0, rest, prevS, prevC, hcons, hi, hS, hC, hbound, hrows⟩ :=
      setExtensionFlags_ok E proof1 proof2 i branchC16 _ r hr
    have e1 := (getI_pred_ok hS').2
    have e2 := (getI_pred_ok hC').2
    rw [hS] at e1
    rw [hC] at e2
    cases e1
    cases e2
    refine ⟨ext, row0, rest, prevS', prevC', rfl, hcons, hi, hS, hC, hbound, ?_⟩
    simp only [Except.ok.injEq] at h
    rw [← h, hrows]

theorem walkStep_branch_block (E : Externals StateDB Address)
    (proof1 proof2 extNibblesS : Rows) (key : Row)
    (isAccountProof nonExistingAccountProof : Bool) (i : Nat) (st st' : WalkState) (node : Row)
    (hnode : proof1[i]? = some node) (hbr : E.isBranch node = true)
    (hret : (walkStep E proof1 proof2 extNibblesS key isAccountProof nonExistingAccountProof i
      st).res = .ok st') :
    ∃ (c : Row) (n : Nat) (bRows blk : Rows),
      proof2[i]? = some c ∧ key[st.keyIndex]? = some n ∧
      E.prepareTwoBranches node c n st'.branchC16 st'.branchC1 false false = some bRows ∧
      Event.branchBlock i st.extensionNodeInd n blk ∈
        (walkStep E proof1 proof2 extNibblesS key isAccountProof nonExistingAccountProof i
          st).trace ∧
      st'.rows = st.rows ++ blk ∧
      ((st.extensionRows = none ∧ blk = bRows ++ E.prepareEmptyExtensionRows false false) ∨
       (∃ (ext : Row × Row) (row0 : Row) (rest : Rows) (prevS prevC : Row),
        st.extensionRows = some ext ∧ bRows ++ [ext.1, ext.2] = row0 :: rest ∧ 0 < i ∧
        proof1[i - 1]? = some prevS ∧ proof2[i - 1]? = some prevC ∧
        (∀ f ∈ flagsSet E prevS prevC st'.branchC16, flagPos E f < row0.length) ∧
        blk = writeFlags E row0 (flagsSet E prevS prevC st'.branchC16) :: rest)) := by
  rw [walkStep_branch E proof1 proof2 extNibblesS key isAccountProof nonExistingAccountProof i
    st node hnode hbr] at hret ⊢
  obtain ⟨sw, s', c, nib, bR, blk, _, hs', hc, hkey, hprep, hatt, _, htr, hst1⟩ :=
    walkBranch_ok E proof1 proof2 key i st st' hret
  rw [hnode] at hs'
  cases hs'
  have h16 : st'.branchC16 = if sw then (flipPair st.branchC16).1 else st.branchC16 := by
    rw [hst1]
  have h1 : st'.branchC1 = if sw then (flipPair st.branchC16).2 else st.branchC1 := by
    rw [hst1]
  have hrows : st'.rows = st.rows ++ blk.1 := by rw [hst1]
  rw [← h16, ← h1] at hprep
  rw [← h16] at hatt
  refine ⟨c, nib, bR, blk.1, hc, hkey, hprep, ?_, hrows, ?_⟩
  · rw [htr]
    simp
  · rcases attachExtension_ok E proof1 proof2 i st'.branchC16 st.extensionRows bR
      st.toBeHashed blk hatt with ⟨hnone, hblk⟩ |
      ⟨ext, row0, rest, prevS, prevC, hsome, hcons, hi, hS, hC, hbound, hblk⟩
    · left
      exact ⟨hnone, by rw [hblk]⟩
    · right
      exact ⟨ext, row0, rest, prevS, prevC, hsome, hcons, hi, hS, hC, hbound, by rw [hblk]⟩

theorem selectedKindFlag_mem (E : Externals StateDB Address) (prevS : Row) (branchC16 : Nat) :
    selectedKindFlag E prevS branchC16 ∈ kindFlags := by
  unfold selectedKindFlag kindFlags
  repeat (first | split | simp)

theorem flagsSet_mem (E : Externals StateDB Address) (prevS prevC : Row) (branchC16 : Nat)
    (f : ExtensionFlag) :
    f ∈ flagsSet E prevS prevC branchC16 ↔
      f = .isExtension ∨ (f = .isSExtLongerThan55 ∧ prevS.length > 56) ∨
      (f = .isCExtLongerThan55 ∧ prevC.length > 56) ∨
      (f = .isExtNodeSNonHashed ∧ prevS.length < 32) ∨
      (f = .isExtNodeCNonHashed ∧ prevC.length < 32) ∨
      f = selectedKindFlag E prevS branchC16 := by
  unfold flagsSet
  simp only [List.mem_append, List.mem_singleton]
  constructor
  · rintro (((((h | h) | h) | h) | h) | h)
    · exact Or.inl h
    · split at h
      · rename_i hc
        exact Or.inr (Or.inl ⟨List.mem_singleton.mp h, hc⟩)
      · cases h
    · split at h
      · rename_i hc
        exact Or.inr (Or.inr (Or.inl ⟨List.mem_singleton.mp h, hc⟩))
      · cases h
    · split at h
      · rename_i hc
        exact Or.inr (Or.inr (Or.inr (Or.inl ⟨List.mem_singleton.mp h, hc⟩)))
      · cases h
    · split at h
      · rename_i hc
        exact Or.inr (Or.inr (Or.inr (Or.inr (Or.inl ⟨List.mem_singleton.mp h, hc⟩))))
      · cases h
    · exact Or.inr (Or.inr (Or.inr (Or.inr (Or.inr h))))
  · rintro (h | ⟨h, hc⟩ | ⟨h, hc⟩ | ⟨h, hc⟩ | ⟨h, hc⟩ | h)
    · exact Or.inl (Or.inl (Or.inl (Or.inl (Or.inl h))))
    · refine Or.inl (Or.inl (Or.inl (Or.inl (Or.inr ?_))))
      rw [if_pos hc]
      exact List.mem_singleton.mpr h
    · refine Or.inl (Or.inl (Or.inl (Or.inr ?_)))
      rw [if_pos hc]
      exact List.mem_singleton.mpr h
    · refine Or.inl (Or.inl (Or.inr ?_))
      rw [if_pos hc]
      exact List.mem_singleton.mpr h
    · refine Or.inl (Or.inr ?_)
      rw [if_pos hc]
      exact List.mem_singleton.mpr h
    · exact Or.inr h

theorem Fixture.prepareTwoBranches_flags_zero (E : Externals Unit Unit)
    (hprep : E.prepareTwoBranches = Fixture.prepareTwoBranches)
    (hpos : ∀ f ∈ allFlags, 3 ≤ flagPos E f ∧ flagPos E f < 68) :
    ∀ s c nibble c16 c1 rows,
      E.prepareTwoBranches s c nibble c16 c1 false false = some rows →
        ∃ row0 rest, rows = row0 :: rest ∧ ∀ f ∈ allFlags, row0[flagPos E f]? = some 0 := by
  intro s c nibble c16 c1 rows h
  rw [hprep] at h
  simp only [Fixture.prepareTwoBranches, Option.some.injEq] at h
  refine ⟨_, _, h.symm, ?_⟩
  intro f hf
  obtain ⟨h3, h68⟩ := hpos f hf
  obtain ⟨d, hd⟩ : ∃ d, flagPos E f = 3 + d := ⟨flagPos E f - 3, by omega⟩
  rw [hd]
  have hlt : d < 65 := by omega
  have hlen : [c16, c1, nibble].length ≤ 3 + d := by
    simp only [List.length_cons, List.length_nil]
    omega
  have hsub : 3 + d - [c16, c1, nibble].length = d := by
    simp only [List.length_cons, List.length_nil]
    omega
  rw [List.getElem?_append_right hlen, hsub, List.getElem?_replicate, if_pos hlt]

theorem allFlags_mem (f : ExtensionFlag) : f ∈ allFlags := by
  cases f <;> simp [allFlags, lengthFlags, kindFlags]

theorem selectedKindFlag_not_length (E : Externals StateDB Address) (prevS : Row)
    (branchC16 : Nat) : selectedKindFlag E prevS branchC16 ∉ lengthFlags := by
  unfold selectedKindFlag lengthFlags
  repeat (first | split | simp)

theorem writeFlags_flag_iff (E : Externals StateDB Address) (row0 : Row)
    (flags : List ExtensionFlag) (f : ExtensionFlag)
    (hlayout : (allFlags.map (flagPos E)).Nodup)
    (hbound : ∀ g ∈ flags, flagPos E g < row0.length)
    (hclean : row0[flagPos E f]? ≠ some 1) :
    (writeFlags E row0 flags)[flagPos E f]? = some 1 ↔ f ∈ flags := by
  rw [writeFlags_getElem?]
  constructor
  · intro h
    split at h
    · rename_i hc
      obtain ⟨g, hg, hpos⟩ := List.mem_map.mp hc.1
      have := List.inj_on_of_nodup_map hlayout (allFlags_mem g) (allFlags_mem f) hpos
      rw [← this]
      exact hg
    · exact absurd h hclean
  · intro hf
    rw [if_pos ⟨List.mem_map.mpr ⟨f, hf, rfl⟩, hbound f hf⟩]

/-- C17. Length-derived extension flags. Let the loop body return at a branch
position `i` with extension rows stashed, and let `row0` be row 0 of the block
before the flags are written. Row 0 of the emitted block is `row0` with 1 written
at the bytes of the flags set, where `isSExtLongerThan55` is set iff
`len(proof1[i-1]) > 56`, `isCExtLongerThan55` iff `len(proof2[i-1]) > 56`,
`isExtNodeSNonHashed` iff `len(proof1[i-1]) < 32` and `isExtNodeCNonHashed` iff
`len(proof2[i-1]) < 32`; on neither side are both flags set. When the eleven flag
positions are distinct and the four bytes are not 1 in `row0`, the byte of each of
the four flags is 1 in the emitted row 0 iff its condition holds, and on neither
side are both bytes 1. -/
theorem branch_block_length_flags (E : Externals StateDB Address)
    (proof1 proof2 extNibblesS : Rows) (key : Row)
    (isAccountProof nonExistingAccountProof : Bool) (i : Nat) (st st' : WalkState) (node : Row)
    (hnode : proof1[i]? = some node) (hbr : E.isBranch node = true)
    (hstash : st.extensionRows.isSome = true)
    (hret : (walkStep E proof1 proof2 extNibblesS key isAccountProof nonExistingAccountProof i
      st).res = .ok st') :
    ∃ (c : Row) (n : Nat) (bRows : Rows) (ext : Row × Row) (row0 : Row) (rest : Rows)
      (prevS prevC : Row) (flags : List ExtensionFlag),
      E.prepareTwoBranches node c n st'.branchC16 st'.branchC1 false false = some bRows ∧
      st.extensionRows = some ext ∧ bRows ++ [ext.1, ext.2] = row0 :: rest ∧
      0 < i ∧ proof1[i - 1]? = some prevS ∧ proof2[i - 1]? = some prevC ∧
      flags = flagsSet E prevS prevC st'.branchC16 ∧
      Event.branchBlock i st.extensionNodeInd n (writeFlags E row0 flags :: rest) ∈
        (walkStep E proof1 proof2 extNibblesS key isAccountProof nonExistingAccountProof i
          st).trace ∧
      st'.rows = st.rows ++ writeFlags E row0 flags :: rest ∧
      (.isSExtLongerThan55 ∈ flags ↔ prevS.length > 56) ∧
      (.isCExtLongerThan55 ∈ flags ↔ prevC.length > 56) ∧
      (.isExtNodeSNonHashed ∈ flags ↔ prevS.length < 32) ∧
      (.isExtNodeCNonHashed ∈ flags ↔ prevC.length < 32) ∧
      ¬ (.isSExtLongerThan55 ∈ flags ∧ .isExtNodeSNonHashed ∈ flags) ∧
      ¬ (.isCExtLongerThan55 ∈ flags ∧ .isExtNodeCNonHashed ∈ flags) ∧
      ((allFlags.map (flagPos E)).Nodup →
        (∀ f ∈ lengthFlags, row0[flagPos E f]? ≠ some 1) →
        ((writeFlags E row0 flags)[E.isSExtLongerThan55Pos]? = some 1 ↔ prevS.length > 56) ∧
        ((writeFlags E row0 flags)[E.isCExtLongerThan55Pos]? = some 1 ↔ prevC.length > 56) ∧
        ((writeFlags E row0 flags)[E.isExtNodeSNonHashedPos]? = some 1 ↔ prevS.length < 32) ∧
        ((writeFlags E row0 flags)[E.isExtNodeCNonHashedPos]? = some 1 ↔ prevC.length < 32) ∧
        ¬ ((writeFlags E row0 flags)[E.isSExtLongerThan55Pos]? = some 1 ∧
          (writeFlags E row0 flags)[E.isExtNodeSNonHashedPos]? = some 1) ∧
        ¬ ((writeFlags E row0 flags)[E.isCExtLongerThan55Pos]? = some 1 ∧
          (writeFlags E row0 flags)[E.isExtNodeCNonHashedPos]? = some 1)) := by
  obtain ⟨c, n, bRows, blk, _, _, hprep, hmem, hrows, hcase⟩ :=
    walkStep_branch_block E proof1 proof2 extNibblesS key isAccountProof
      nonExistingAccountProof i st st' node hnode hbr hret
  rcases hcase with ⟨hnone, _⟩ |
    ⟨ext, row0, rest, prevS, prevC, hsome, hcons, hi, hS, hC, hbound, hblk⟩
  · rw [hnone] at hstash
    cases hstash
  · have hsel := selectedKindFlag_not_length E prevS st'.branchC16
    have m1 : ExtensionFlag.isSExtLongerThan55 ∈ flagsSet E prevS prevC st'.branchC16 ↔
        prevS.length > 56 := by
      rw [flagsSet_mem]
      constructor
      · rintro (h | ⟨_, h⟩ | ⟨h, _⟩ | ⟨h, _⟩ | ⟨h, _⟩ | h)
        · cases h
        · exact h
        · cases h
        · cases h
        · cases h
        · exact absurd (h ▸ (by simp [lengthFlags])) hsel
      · intro h
        exact Or.inr (Or.inl ⟨rfl, h⟩)
    have m2 : ExtensionFlag.isCExtLongerThan55 ∈ flagsSet E prevS prevC st'.branchC16 ↔
        prevC.length > 56 := by
      rw [flagsSet_mem]
      constructor
      · rintro (h | ⟨h, _⟩ | ⟨_, h⟩ | ⟨h, _⟩ | ⟨h, _⟩ | h)
        · cases h
        · cases h
        · exact h
        · cases h
        · cases h
        · exact absurd (h ▸ (by simp [lengthFlags])) hsel
      · intro h
        exact Or.inr (Or.inr (Or.inl ⟨rfl, h⟩))
    have m3 : ExtensionFlag.isExtNodeSNonHashed ∈ flagsSet E prevS prevC st'.branchC16 ↔
        prevS.length < 32 := by
      rw [flagsSet_mem]
      constructor
      · rintro (h | ⟨h, _⟩ | ⟨h, _⟩ | ⟨_, h⟩ | ⟨h, _⟩ | h)
        · cases h
        · cases h
        · cases h
        · exact h
        · cases h
        · exact absurd (h ▸ (by simp [lengthFlags])) hsel
      · intro h
        exact Or.inr (Or.inr (Or.inr (Or.inl ⟨rfl, h⟩)))
    have m4 : ExtensionFlag.isExtNodeCNonHashed ∈ flagsSet E prevS prevC st'.branchC16 ↔
        prevC.length < 32 := by
      rw [flagsSet_mem]
      constructor
      · rintro (h | ⟨h, _⟩ | ⟨h, _⟩ | ⟨h, _⟩ | ⟨_, h⟩ | h)
        · cases h
        · cases h
        · cases h
        · cases h
        · exact h
        · exact absurd (h ▸ (by simp [lengthFlags])) hsel
      · intro h
        exact Or.inr (Or.inr (Or.inr (Or.inr (Or.inl ⟨rfl, h⟩))))
    refine ⟨c, n, bRows, ext, row0, rest, prevS, prevC, _, hprep, hsome, hcons, hi, hS, hC, rfl,
      ?_, ?_, m1, m2, m3, m4, ?_, ?_, ?_⟩
    · rw [← hblk]
      exact hmem
    · rw [← hblk]
      exact hrows
    · rw [m1, m3]
      omega
    · rw [m2, m4]
      omega
    · intro hlayout hclean
      have v1 := writeFlags_flag_iff E row0 (flagsSet E prevS prevC st'.branchC16)
        .isSExtLongerThan55 hlayout hbound (hclean _ (by simp [lengthFlags]))
      have v2 := writeFlags_flag_iff E row0 (flagsSet E prevS prevC st'.branchC16)
        .isCExtLongerThan55 hlayout hbound (hclean _ (by simp [lengthFlags]))
      have v3 := writeFlags_flag_iff E row0 (flagsSet E prevS prevC st'.branchC16)
        .isExtNodeSNonHashed hlayout hbound (hclean _ (by simp [lengthFlags]))
      have v4 := writeFlags_flag_iff E row0 (flagsSet E prevS prevC st'.branchC16)
        .isExtNodeCNonHashed hlayout hbound (hclean _ (by simp [lengthFlags]))
      refine ⟨v1.trans m1, v2.trans m2, v3.trans m3, v4.trans m4, ?_, ?_⟩
      · rintro ⟨h1, h2⟩
        have a := (v1.trans m1).mp h1
        have b := (v3.trans m3).mp h2
        omega
      · rintro ⟨h1, h2⟩
        have a := (v2.trans m2).mp h1
        have b := (v4.trans m4).mp h2
        omega

/-- C17 at the branch below a five-byte extension node: the loop body returns,
the non-hashed flag of the S side is set and its longer-than-55 flag is not. -/
theorem branch_block_length_flags_witness :
    ∃ (st' : WalkState) (row0 : Row) (rest : Rows) (flags : List ExtensionFlag),
      (walkStep Fixture.externals Fixture.evenExtProof Fixture.evenExtProof [[1, 1]]
        Fixture.key false false 1 Fixture.afterLongEvenExt).res = .ok st' ∧
      st'.rows = Fixture.afterLongEvenExt.rows ++ writeFlags Fixture.externals row0 flags ::
        rest ∧
      ExtensionFlag.isExtNodeSNonHashed ∈ flags ∧ ExtensionFlag.isSExtLongerThan55 ∉ flags := by
  have hok : (walkStep Fixture.externals Fixture.evenExtProof Fixture.evenExtProof [[1, 1]]
      Fixture.key false false 1 Fixture.afterLongEvenExt).res.toBool = true := by decide
  obtain ⟨st', h⟩ := exists_ok_of_toBool hok
  obtain ⟨c, n, bRows, ext, row0, rest, prevS, prevC, flags, _, _, _, _, hS, _, _, _, hrows,
    m1, _, m3, _⟩ :=
    branch_block_length_flags Fixture.externals Fixture.evenExtProof Fixture.evenExtProof
      [[1, 1]] Fixture.key false false 1 Fixture.afterLongEvenExt st' (Fixture.branchOf 7) rfl
      (by decide) rfl h
  have hp : Fixture.evenExtProof[1 - 1]? = some Fixture.longEvenExt := rfl
  rw [hp] at hS
  cases hS
  exact ⟨st', row0, rest, flags, h, hrows, m3.mpr (by decide),
    fun hin => absurd (m1.mp hin) (by decide)⟩

theorem Run.bind_res_error {α β : Type} {m : Run α} {f : α → Run β} {e : Fault}
    (h : (m >>= f).res = .error e) :
    m.res = .error e ∨ ∃ a, m.res = .ok a ∧ (f a).res = .error e := by
  rw [Run.bind_def] at h
  unfold Run.bind at h
  cases hm : m.res with
  | error e' =>
    rw [hm] at h
    change Except.error e' = Except.error e at h
    cases h
    exact Or.inl rfl
  | ok a =>
    rw [hm] at h
    exact Or.inr ⟨a, rfl, h⟩

theorem Run.bind_res_of_error {α β : Type} {m : Run α} {f : α → Run β} {e : Fault}
    (h : m.res = .error e) : (m >>= f).res = .error e := by
  rw [Run.bind_def]
  unfold Run.bind
  rw [h]

theorem Run.bind_trace_of_error {α β : Type} {m : Run α} {f : α → Run β} {e : Fault}
    (h : m.res = .error e) : (m >>= f).trace = m.trace := by
  rw [Run.bind_def]
  unfold Run.bind
  rw [h]

theorem Run.mem_bind_trace {α β : Type} {m : Run α} {f : α → Run β} {ev : Event}
    (h : ev ∈ (m >>= f).trace) : ev ∈ m.trace ∨ ∃ a, m.res = .ok a ∧ ev ∈ (f a).trace := by
  cases hm : m.res with
  | error e =>
    rw [Run.bind_trace_of_error hm] at h
    exact Or.inl h
  | ok a =>
    rw [Run.bind_trace_of_ok hm, List.mem_append] at h
    rcases h with h | h
    · exact Or.inl h
    · exact Or.inr ⟨a, rfl, h⟩

theorem Run.mem_bind_trace_left {α β : Type} {m : Run α} {f : α → Run β} {ev : Event}
    (h : ev ∈ m.trace) : ev ∈ (m >>= f).trace := by
  cases hm : m.res with
  | error e =>
    rw [Run.bind_trace_of_error hm]
    exact h
  | ok a =>
    rw [Run.bind_trace_of_ok hm]
    exact List.mem_append_left _ h

theorem Run.mem_bind_trace_right {α β : Type} {m : Run α} {f : α → Run β} {ev : Event} {a : α}
    (hm : m.res = .ok a) (h : ev ∈ (f a).trace) : ev ∈ (m >>= f).trace := by
  rw [Run.bind_trace_of_ok hm]
  exact List.mem_append_right _ h

theorem Run.noCheck_bind {α β : Type} {m : Run α} {f : α → Run β}
    (hm : m.NoCheckFault) (hf : ∀ a, (f a).NoCheckFault) : (m >>= f).NoCheckFault := by
  intro h
  rcases Run.bind_res_error h with h1 | ⟨a, _, h2⟩
  · exact hm h1
  · exact hf a h2

theorem Run.noCheck_pure {α : Type} {a : α} : (Run.pure a).NoCheckFault := by
  intro h
  cases h

theorem Run.noCheck_liftE {α : Type} {r : Except Fault α} (h : NoCheckStep r) :
    (liftE r).NoCheckFault := h

theorem Run.noCheck_emit {e : Event} : (emit e).NoCheckFault := by
  intro h
  cases h

theorem Run.noCheck_emitIf {b : Bool} {e : Event} : (emitIf b e).NoCheckFault := by
  unfold emitIf
  split
  · exact Run.noCheck_emit
  · exact Run.noCheck_pure

theorem Run.noCheck_callExt {α : Type} {e : Event} {r : Option α} :
    (callExt e r).NoCheckFault := by
  intro h
  cases r with
  | none => simp [callExt] at h
  | some a => simp [callExt] at h

theorem except_bind_error {α β : Type} {x : Except Fault α} {f : α → Except Fault β}
    {e : Fault} (h : (x >>= f) = .error e) :
    x = .error e ∨ ∃ a, x = .ok a ∧ f a = .error e := by
  cases x with
  | error e' =>
    change Except.error e' = Except.error e at h
    cases h
    exact Or.inl rfl
  | ok a => exact Or.inr ⟨a, rfl, h⟩

theorem noCheckStep_bind {α β : Type} {x : Except Fault α} {f : α → Except Fault β}
    (hx : NoCheckStep x) (hf : ∀ a, NoCheckStep (f a)) : NoCheckStep (x >>= f) := by
  intro h
  rcases except_bind_error h with h1 | ⟨a, _, h2⟩
  · exact hx h1
  · exact hf a h2

theorem noCheck_ok {α : Type} {a : α} : NoCheckStep (.ok a : Except Fault α) := by
  intro h
  cases h

theorem noCheck_index {α : Type} {site : IndexSite} :
    NoCheckStep (.error (.indexOutOfRange site) : Except Fault α) := by
  intro h
  cases h

theorem noCheck_getI {α : Type} {site : IndexSite} {xs : List α} {i : Int} :
    NoCheckStep (getI site xs i) := by
  unfold getI
  split
  · exact noCheck_index
  · split
    · exact noCheck_ok
    · exact noCheck_index

theorem noCheck_getN {α : Type} {site : IndexSite} {xs : List α} {i : Nat} :
    NoCheckStep (getN site xs i) := by
  unfold getN
  split
  · exact noCheck_ok
  · exact noCheck_index

theorem noCheck_setB {row : Row} {i : Int} {v : Nat} : NoCheckStep (setB row i v) := by
  unfold setB
  repeat (first | exact noCheck_ok | exact noCheck_index | split)

theorem noCheck_setRowByte {rows : Rows} {r pos v : Nat} :
    NoCheckStep (setRowByte rows r pos v) := by
  unfold setRowByte
  repeat (first | exact noCheck_ok | exact noCheck_index | split)

theorem noCheck_sliceFrom {key : Row} {start : Nat} : NoCheckStep (sliceFrom key start) := by
  unfold sliceFrom
  repeat (first | exact noCheck_ok | exact noCheck_index | split)

theorem noCheck_switchC16 (E : Externals StateDB Address) (proof1 : Rows) (i : Nat)
    (stash : Option (Row × Row)) : NoCheckStep (switchC16 E proof1 i stash) := by
  unfold switchC16
  repeat (first
    | exact noCheck_ok
    | refine noCheckStep_bind noCheck_getI (fun _ => ?_)
    | refine noCheckStep_bind noCheck_getN (fun _ => ?_)
    | split)

theorem noCheck_setExtensionFlags (E : Externals StateDB Address) (proof1 proof2 : Rows)
    (i branchC16 : Nat) (bRows : Rows) :
    NoCheckStep (setExtensionFlags E proof1 proof2 i branchC16 bRows) := by
  unfold setExtensionFlags
  repeat (first
    | exact noCheck_ok
    | exact noCheck_setRowByte
    | refine noCheckStep_bind noCheck_getI (fun _ => ?_)
    | refine noCheckStep_bind noCheck_getN (fun _ => ?_)
    | refine noCheckStep_bind noCheck_setRowByte (fun _ => ?_)
    | refine noCheckStep_bind ?_ (fun _ => ?_)
    | split)

theorem noCheck_attachExtension (E : Externals StateDB Address) (proof1 proof2 : Rows)
    (i branchC16 : Nat) (stash : Option (Row × Row)) (bRows toBeHashed : Rows) :
    NoCheckStep (attachExtension E proof1 proof2 i branchC16 stash bRows toBeHashed) := by
  unfold attachExtension
  repeat (first
    | exact noCheck_ok
    | refine noCheckStep_bind (noCheck_setExtensionFlags E _ _ _ _ _) (fun _ => ?_)
    | refine noCheckStep_bind noCheck_getI (fun _ => ?_)
    | split)

theorem noCheck_additionalBranchOf (E : Externals StateDB Address) (proof1 proof2 : Rows) :
    NoCheckStep (additionalBranchOf E proof1 proof2) := by
  unfold additionalBranchOf
  simp only []
  repeat (first
    | exact noCheck_ok
    | refine noCheckStep_bind noCheck_getI (fun _ => ?_)
    | split)

theorem noCheck_fillKeyBytes (remainingNibbles : Row) (offset : Nat) (n : Nat) :
    ∀ (i : Nat) (leaf : Row), NoCheckStep (fillKeyBytes remainingNibbles offset n i leaf) := by
  induction n with
  | zero =>
    intro i leaf
    exact noCheck_ok
  | succ n ih =>
    intro i leaf
    unfold fillKeyBytes
    refine noCheckStep_bind noCheck_getN (fun _ => ?_)
    refine noCheckStep_bind noCheck_getN (fun _ => ?_)
    refine noCheckStep_bind noCheck_setB (fun _ => ?_)
    exact ih _ _

theorem noCheck_syntheticAccountLeaf (rowLen : Nat) (key : Row) (keyIndex : Nat) :
    NoCheckStep (syntheticAccountLeaf rowLen key keyIndex) := by
  unfold syntheticAccountLeaf syntheticAccountLeafHeader
  simp only []
  repeat (first
    | exact noCheck_ok
    | exact noCheck_setB
    | exact noCheck_fillKeyBytes _ _ _ _ _
    | refine noCheckStep_bind noCheck_getI (fun _ => ?_)
    | refine noCheckStep_bind noCheck_getN (fun _ => ?_)
    | refine noCheckStep_bind noCheck_setB (fun _ => ?_)
    | refine noCheckStep_bind noCheck_sliceFrom (fun _ => ?_)
    | refine noCheckStep_bind ?_ (fun _ => ?_)
    | split)

theorem noCheck_branchTerminusStorageRow (emptyRow key : Row) (keyIndex : Nat) :
    NoCheckStep (branchTerminusStorageRow emptyRow key keyIndex) := by
  unfold branchTerminusStorageRow
  simp only []
  repeat (first
    | exact noCheck_ok
    | exact noCheck_setB
    | refine noCheckStep_bind noCheck_getN (fun _ => ?_)
    | refine noCheckStep_bind noCheck_setB (fun _ => ?_)
    | refine noCheckStep_bind noCheck_sliceFrom (fun _ => ?_)
    | split)

theorem noCheck_placeholderStorageLeaf (rowLen : Nat) :
    NoCheckStep (placeholderStorageLeaf rowLen) := by
  unfold placeholderStorageLeaf
  simp only []
  repeat (first
    | exact noCheck_setB
    | refine noCheckStep_bind noCheck_setB (fun _ => ?_))

theorem checkRowBytes_check_fault (branch2start : Nat) (row : Row) (n : Nat) :
    ∀ j, checkRowBytes branch2start row n j = .error .witnessNotProperlyGenerated →
      ∃ t, t < n ∧ ∃ a b, row[j + t]? = some a ∧ row[branch2start + (j + t)]? = some b ∧
        a ≠ b := by
  induction n with
  | zero =>
    intro j h
    simp [checkRowBytes] at h
  | succ n ih =>
    intro j h
    unfold checkRowBytes at h
    rcases except_bind_error h with h1 | ⟨a, ha, h⟩
    · exact absurd h1 noCheck_getN
    · rcases except_bind_error h with h1 | ⟨b, hb, h⟩
      · exact absurd h1 noCheck_getN
      · split at h
        · rename_i hne
          exact ⟨0, by omega, a, b, getN_eq_ok.mp ha, getN_eq_ok.mp hb, hne⟩
        · obtain ⟨t, ht, a', b', h1, h2, h3⟩ := ih (j + 1) h
          refine ⟨t + 1, by omega, a', b', ?_, ?_, h3⟩
          · rw [← h1]
            congr 1
            omega
          · rw [← h2]
            congr 1
            omega

theorem checkRowBytes_shaped (branch2start : Nat) (row : Row) (n : Nat) :
    ∀ j, branch2start + (j + n) ≤ row.length →
      checkRowBytes branch2start row n j = .ok () ∨
      checkRowBytes branch2start row n j = .error .witnessNotProperlyGenerated := by
  induction n with
  | zero =>
    intro j _
    exact Or.inl rfl
  | succ n ih =>
    intro j hlen
    unfold checkRowBytes
    have h1 : j < row.length := by omega
    have h2 : branch2start + j < row.length := by omega
    have ha : getN IndexSite.rowBuffer row j = .ok row[j] :=
      getN_eq_ok.mpr (List.getElem?_eq_getElem h1)
    have hb : getN IndexSite.rowBuffer row (branch2start + j) = .ok row[branch2start + j] :=
      getN_eq_ok.mpr (List.getElem?_eq_getElem h2)
    rw [ha, hb]
    change (if row[j] ≠ row[branch2start + j] then .error .witnessNotProperlyGenerated
      else checkRowBytes branch2start row n (j + 1)) = .ok () ∨
      (if row[j] ≠ row[branch2start + j] then .error .witnessNotProperlyGenerated
      else checkRowBytes branch2start row n (j + 1)) = .error .witnessNotProperlyGenerated
    split
    · exact Or.inr rfl
    · exact ih (j + 1) (by omega)

theorem checkBranches_check_fault (branchNodeRLPLen branch2start : Nat) (key : Row) (i : Nat)
    (bRows : Rows) (nibble : Nat) (hkey : key[i]? = some nibble) (n : Nat) :
    ∀ k, checkBranches branchNodeRLPLen branch2start key i bRows n k =
        .error .witnessNotProperlyGenerated →
      ∃ t, t < n ∧ (k + t) - 1 ≠ nibble ∧ ∃ row, bRows[k + t]? = some row ∧
        ∃ j, j < branchNodeRLPLen + 32 ∧ ∃ a b, row[j]? = some a ∧
          row[branch2start + j]? = some b ∧ a ≠ b := by
  induction n with
  | zero =>
    intro k h
    simp [checkBranches] at h
  | succ n ih =>
    intro k h
    unfold checkBranches at h
    rw [getN_eq_ok.mpr hkey] at h
    change (if k - 1 = nibble then
        checkBranches branchNodeRLPLen branch2start key i bRows n (k + 1)
      else do
        let row ← getN .rowsList bRows k
        checkRowBytes branch2start row (branchNodeRLPLen + 32) 0
        checkBranches branchNodeRLPLen branch2start key i bRows n (k + 1)) =
      .error .witnessNotProperlyGenerated at h
    have hrec : checkBranches branchNodeRLPLen branch2start key i bRows n (k + 1) =
        .error .witnessNotProperlyGenerated →
        ∃ t, t < n + 1 ∧ (k + t) - 1 ≠ nibble ∧ ∃ row, bRows[k + t]? = some row ∧
          ∃ j, j < branchNodeRLPLen + 32 ∧ ∃ a b, row[j]? = some a ∧
            row[branch2start + j]? = some b ∧ a ≠ b := by
      intro h'
      obtain ⟨t, ht, hne, row, hrow, rest⟩ := ih (k + 1) h'
      refine ⟨t + 1, by omega, ?_, row, ?_, rest⟩
      · have e : k + (t + 1) = k + 1 + t := by omega
        rw [e]
        exact hne
      · rw [← hrow]
        congr 1
        omega
    split at h
    · exact hrec h
    · rename_i hne
      rcases except_bind_error h with h1 | ⟨row, hrow, h⟩
      · exact absurd h1 noCheck_getN
      · rcases except_bind_error h with h1 | ⟨_, _, h⟩
        · obtain ⟨t, ht, a, b, ha, hb, hab⟩ :=
            checkRowBytes_check_fault branch2start row (branchNodeRLPLen + 32) 0 h1
          refine ⟨0, by omega, hne, row, getN_eq_ok.mp hrow, t, ht, a, b, ?_, ?_, hab⟩
          · rw [← ha]
            congr 1
            omega
          · rw [← hb]
            congr 1
            omega
        · exact hrec h

theorem checkBranches_shaped (branchNodeRLPLen branch2start : Nat) (key : Row) (i : Nat)
    (bRows : Rows) (nibble : Nat) (hkey : key[i]? = some nibble) (n : Nat) :
    ∀ k, (∀ t, t < n → ∃ row, bRows[k + t]? = some row ∧
        branch2start + (branchNodeRLPLen + 32) ≤ row.length) →
      checkBranches branchNodeRLPLen branch2start key i bRows n k = .ok () ∨
      checkBranches branchNodeRLPLen branch2start key i bRows n k =
        .error .witnessNotProperlyGenerated := by
  induction n with
  | zero =>
    intro k _
    exact Or.inl rfl
  | succ n ih =>
    intro k hshape
    unfold checkBranches
    rw [getN_eq_ok.mpr hkey]
    change (if k - 1 = nibble then
        checkBranches branchNodeRLPLen branch2start key i bRows n (k + 1)
      else do
        let row ← getN .rowsList bRows k
        checkRowBytes branch2start row (branchNodeRLPLen + 32) 0
        checkBranches branchNodeRLPLen branch2start key i bRows n (k + 1)) = .ok () ∨
      (if k - 1 = nibble then
        checkBranches branchNodeRLPLen branch2start key i bRows n (k + 1)
      else do
        let row ← getN .rowsList bRows k
        checkRowBytes branch2start row (branchNodeRLPLen + 32) 0
        checkBranches branchNodeRLPLen branch2start key i bRows n (k + 1)) =
        .error .witnessNotProperlyGenerated
    have hrec := ih (k + 1) (fun t ht => by
      obtain ⟨row, hrow, hlen⟩ := hshape (t + 1) (by omega)
      refine ⟨row, ?_, hlen⟩
      rw [← hrow]
      congr 1
      omega)
    split
    · exact hrec
    · obtain ⟨row, hrow, hlen⟩ := hshape 0 (by omega)
      rw [Nat.add_zero] at hrow
      rw [getN_eq_ok.mpr hrow]
      change (checkRowBytes branch2start row (branchNodeRLPLen + 32) 0 >>= fun _ =>
          checkBranches branchNodeRLPLen branch2start key i bRows n (k + 1)) = .ok () ∨
        (checkRowBytes branch2start row (branchNodeRLPLen + 32) 0 >>= fun _ =>
          checkBranches branchNodeRLPLen branch2start key i bRows n (k + 1)) =
          .error .witnessNotProperlyGenerated
      rcases checkRowBytes_shaped branch2start row (branchNodeRLPLen + 32) 0 (by omega)
        with h | h
      · rw [h]
        exact hrec
      · rw [h]
        exact Or.inr rfl

theorem mismatch_not_agree {branchNodeRLPLen branch2start nibble : Nat} {bRows : Rows}
    (h : BranchesMismatch branchNodeRLPLen branch2start nibble bRows) :
    ¬ BranchesAgree branchNodeRLPLen branch2start nibble bRows := by
  intro hagree
  obtain ⟨k, j, row, a, b, h1, h16, hne, hj, hrow, ha, hb, hab⟩ := h
  obtain ⟨row', a', hrow', ha', hb'⟩ := hagree k h1 h16 hne j hj
  rw [hrow] at hrow'
  cases hrow'
  rw [ha] at ha'
  rw [hb] at hb'
  cases ha'
  cases hb'
  exact hab rfl

theorem checkBranches_mismatch_iff (branchNodeRLPLen branch2start : Nat) (key : Row) (i : Nat)
    (bRows : Rows) (nibble : Nat) (hkey : key[i]? = some nibble) :
    (checkBranches branchNodeRLPLen branch2start key i bRows 16 1 =
        .error .witnessNotProperlyGenerated →
      BranchesMismatch branchNodeRLPLen branch2start nibble bRows) ∧
    (BlockShaped branchNodeRLPLen branch2start bRows →
      BranchesMismatch branchNodeRLPLen branch2start nibble bRows →
      checkBranches branchNodeRLPLen branch2start key i bRows 16 1 =
        .error .witnessNotProperlyGenerated) := by
  constructor
  · intro h
    obtain ⟨t, ht, hne, row, hrow, j, hj, a, b, ha, hb, hab⟩ :=
      checkBranches_check_fault branchNodeRLPLen branch2start key i bRows nibble hkey 16 1 h
    exact ⟨1 + t, j, row, a, b, by omega, by omega, hne, hj, hrow, ha, hb, hab⟩
  · intro hshape hmis
    rcases checkBranches_shaped branchNodeRLPLen branch2start key i bRows nibble hkey 16 1
      (fun t ht => hshape (1 + t) (by omega) (by omega)) with h | h
    · exact absurd ((checkBranches_iff_agree _ _ key i bRows nibble hkey).mp h)
        (mismatch_not_agree hmis)
    · exact h

theorem walkExtension_noCheck (E : Externals StateDB Address) (proof1 proof2 extNibblesS : Rows)
    (i : Nat) (st : WalkState) :
    (walkExtension E proof1 proof2 extNibblesS i st).NoCheckFault := by
  unfold walkExtension
  repeat (first
    | exact Run.noCheck_pure
    | refine Run.noCheck_bind (Run.noCheck_liftE noCheck_getN) (fun _ => ?_)
    | refine Run.noCheck_bind Run.noCheck_callExt (fun _ => ?_))

theorem walkLeaf_noCheck (E : Externals StateDB Address) (proof1 proof2 : Rows) (key : Row)
    (isAccountProof nonExistingAccountProof : Bool) (i : Nat) (st : WalkState) :
    (walkLeaf E proof1 proof2 key isAccountProof nonExistingAccountProof i st).NoCheckFault := by
  unfold walkLeaf
  repeat (first
    | exact Run.noCheck_pure
    | refine Run.noCheck_bind (Run.noCheck_liftE noCheck_getN) (fun _ => ?_)
    | refine Run.noCheck_bind (Run.noCheck_liftE noCheck_getI) (fun _ => ?_)
    | refine Run.noCheck_bind Run.noCheck_callExt (fun _ => ?_)
    | split)

theorem walkExtension_no_block (E : Externals StateDB Address)
    (proof1 proof2 extNibblesS : Rows) (i : Nat) (st : WalkState) :
    (walkExtension E proof1 proof2 extNibblesS i st).Sat (fun e => ¬ e.isBranchBlock)
      (fun _ => True) := by
  unfold walkExtension
  repeat (first
    | exact Run.sat_pure trivial
    | refine Run.sat_bind (Q := fun _ => True) (Run.sat_liftE (fun _ _ => trivial)) (fun _ _ => ?_)
    | refine Run.sat_bind (Q := fun _ => True) (Run.sat_callExt (fun h => h)
        (fun _ _ => trivial)) (fun _ _ => ?_))

theorem walkLeaf_no_block (E : Externals StateDB Address) (proof1 proof2 : Rows) (key : Row)
    (isAccountProof nonExistingAccountProof : Bool) (i : Nat) (st : WalkState) :
    (walkLeaf E proof1 proof2 key isAccountProof nonExistingAccountProof i st).Sat
      (fun e => ¬ e.isBranchBlock) (fun _ => True) := by
  unfold walkLeaf
  repeat (first
    | exact Run.sat_pure trivial
    | refine Run.sat_bind (Q := fun _ => True) (Run.sat_liftE (fun _ _ => trivial)) (fun _ _ => ?_)
    | refine Run.sat_bind (Q := fun _ => True) (Run.sat_callExt (fun h => h)
        (fun _ _ => trivial)) (fun _ _ => ?_)
    | split)

theorem noCheck_ite {α : Type} {c : Prop} [Decidable c] {a b : Except Fault α}
    (ha : NoCheckStep a) (hb : NoCheckStep b) : NoCheckStep (if c then a else b) := by
  split
  · exact ha
  · exact hb

theorem addBranchAndPlaceholder_noCheck (E : Externals StateDB Address) (statedb : StateDB)
    (addr : Address) (rows proof1 proof2 extNibblesS extNibblesC : Rows) (key neighbourNode : Row)
    (keyIndex extensionNodeInd : Nat)
    (additionalBranch isAccountProof nonExistingAccountProof isShorterProofLastLeaf : Bool)
    (branchC16 branchC1 : Nat) (toBeHashed : Rows) :
    (addBranchAndPlaceholder E statedb addr rows proof1 proof2 extNibblesS extNibblesC key
      neighbourNode keyIndex extensionNodeInd additionalBranch isAccountProof
      nonExistingAccountProof isShorterProofLastLeaf branchC16 branchC1
      toBeHashed).NoCheckFault := by
  unfold addBranchAndPlaceholder addBranchExtensionPart
  simp only []
  repeat (first
    | exact Run.noCheck_pure
    | refine Run.noCheck_bind (Run.noCheck_liftE (noCheck_ite noCheck_getI noCheck_getI))
        (fun _ => ?_)
    | refine Run.noCheck_bind (Run.noCheck_liftE noCheck_getN) (fun _ => ?_)
    | refine Run.noCheck_bind Run.noCheck_callExt (fun _ => ?_)
    | refine Run.noCheck_bind Run.noCheck_emit (fun _ => ?_)
    | refine Run.noCheck_bind ?_ (fun _ => ?_)
    | split)

theorem tailUnequal_noCheck (E : Externals StateDB Address) (statedb : StateDB) (addr : Address)
    (proof1 proof2 extNibblesS extNibblesC : Rows) (key neighbourNode : Row)
    (isAccountProof nonExistingAccountProof isShorterProofLastLeaf additionalBranch : Bool)
    (st : WalkState) :
    (tailUnequal E statedb addr proof1 proof2 extNibblesS extNibblesC key neighbourNode
      isAccountProof nonExistingAccountProof isShorterProofLastLeaf additionalBranch
      st).NoCheckFault := by
  unfold tailUnequal
  split
  · refine Run.noCheck_bind (addBranchAndPlaceholder_noCheck E _ _ _ _ _ _ _ _ _ _ _ _ _ _ _ _
      _ _) (fun _ => ?_)
    refine Run.noCheck_bind ?_ (fun _ => ?_)
    · split
      · exact Run.noCheck_callExt
      · exact Run.noCheck_callExt
    · split
      · exact Run.noCheck_callExt
      · exact Run.noCheck_pure
  · exact Run.noCheck_callExt

theorem tailEqual_noCheck (E : Externals StateDB Address) (proof2 : Rows) (key : Row)
    (isAccountProof nonExistingAccountProof nonExistingStorageProof : Bool) (st : WalkState) :
    (tailEqual E proof2 key isAccountProof nonExistingAccountProof nonExistingStorageProof
      st).NoCheckFault := by
  unfold tailEqual tailBranchStorage tailBranchAccount tailLeaf
  simp only []
  repeat (first
    | exact Run.noCheck_pure
    | refine Run.noCheck_bind (Run.noCheck_liftE noCheck_getN) (fun _ => ?_)
    | refine Run.noCheck_bind (Run.noCheck_liftE noCheck_getI) (fun _ => ?_)
    | refine Run.noCheck_bind (Run.noCheck_liftE (noCheck_placeholderStorageLeaf _))
        (fun _ => ?_)
    | refine Run.noCheck_bind (Run.noCheck_liftE (noCheck_syntheticAccountLeaf _ _ _))
        (fun _ => ?_)
    | refine Run.noCheck_bind (Run.noCheck_liftE (noCheck_branchTerminusStorageRow _ _ _))
        (fun _ => ?_)
    | refine Run.noCheck_bind Run.noCheck_callExt (fun _ => ?_)
    | split)

theorem tailOf_noCheck (E : Externals StateDB Address) (statedb : StateDB) (addr : Address)
    (proof1 proof2 extNibblesS extNibblesC : Rows) (key neighbourNode : Row)
    (isAccountProof nonExistingAccountProof nonExistingStorageProof isShorterProofLastLeaf
      additionalBranch : Bool) (st : WalkState) :
    (tailOf E statedb addr proof1 proof2 extNibblesS extNibblesC key neighbourNode isAccountProof
      nonExistingAccountProof nonExistingStorageProof isShorterProofLastLeaf additionalBranch
      st).NoCheckFault := by
  unfold tailOf
  split
  · exact tailUnequal_noCheck E statedb addr proof1 proof2 extNibblesS extNibblesC key
      neighbourNode isAccountProof nonExistingAccountProof isShorterProofLastLeaf
      additionalBranch st
  · exact tailEqual_noCheck E proof2 key isAccountProof nonExistingAccountProof
      nonExistingStorageProof st

theorem walkBranch_emitted (E : Externals StateDB Address) (proof1 proof2 : Rows) (key : Row)
    (i : Nat) (st : WalkState) (j ind nibble : Nat) (bRows : Rows)
    (hmem : Event.branchBlock j ind nibble bRows ∈ (walkBranch E proof1 proof2 key i st).trace) :
    j = i ∧ ind = st.extensionNodeInd ∧ key[st.keyIndex]? = some nibble ∧
    (st.extensionNodeInd = 0 → ∀ e,
      checkBranches E.branchNodeRLPLen E.branch2start key i bRows 16 1 = .error e →
        (walkBranch E proof1 proof2 key i st).res = .error e) := by
  unfold walkBranch at hmem ⊢
  rcases Run.mem_bind_trace hmem with h | ⟨sw, hsw, hmem⟩
  · simp [liftE] at h
  rw [Run.bind_res_of_ok hsw, Run.emitIf_bind_res]
  rw [Run.emitIf_bind_trace, List.mem_append] at hmem
  rcases hmem with h | hmem
  · cases sw <;> simp at h
  rcases Run.mem_bind_trace hmem with h | ⟨s, hs, hmem⟩
  · simp [liftE] at h
  rw [Run.bind_res_of_ok hs]
  rcases Run.mem_bind_trace hmem with h | ⟨c, hc, hmem⟩
  · simp [liftE] at h
  rw [Run.bind_res_of_ok hc]
  rcases Run.mem_bind_trace hmem with h | ⟨nib, hk, hmem⟩
  · simp [liftE] at h
  rw [Run.bind_res_of_ok hk]
  rcases Run.mem_bind_trace hmem with h | ⟨bR, hb, hmem⟩
  · simp [callExt] at h
  rw [Run.bind_res_of_ok hb]
  rcases Run.mem_bind_trace hmem with h | ⟨blk, ha, hmem⟩
  · simp [liftE] at h
  rw [Run.bind_res_of_ok ha, Run.emit_bind_res]
  rw [Run.emit_bind_trace, List.mem_cons] at hmem
  rcases hmem with hev | hmem
  · injection hev with hj hind hn hbr
    subst hj hind hn hbr
    refine ⟨rfl, rfl, getN_eq_ok.mp hk, ?_⟩
    intro h0 e hchk
    rw [if_pos h0, hchk]
    rfl
  · rcases Run.mem_bind_trace hmem with h | ⟨_, _, h⟩
    · simp [liftE] at h
    · simp [Run.pure] at h

theorem walkBranch_check_fault (E : Externals StateDB Address) (proof1 proof2 : Rows)
    (key : Row) (i : Nat) (st : WalkState)
    (h : (walkBranch E proof1 proof2 key i st).res = .error .witnessNotProperlyGenerated) :
    ∃ (nibble : Nat) (bRows : Rows),
      Event.branchBlock i 0 nibble bRows ∈ (walkBranch E proof1 proof2 key i st).trace ∧
      st.extensionNodeInd = 0 ∧ key[st.keyIndex]? = some nibble ∧
      checkBranches E.branchNodeRLPLen E.branch2start key i bRows 16 1 =
        .error .witnessNotProperlyGenerated := by
  unfold walkBranch at h ⊢
  rcases Run.bind_res_error h with h1 | ⟨sw, hsw, h⟩
  · exact absurd h1 (noCheck_switchC16 E proof1 i st.extensionRows)
  rw [Run.bind_trace_of_ok hsw]
  rw [Run.emitIf_bind_res] at h
  rw [Run.emitIf_bind_trace]
  rcases Run.bind_res_error h with h1 | ⟨s, hs, h⟩
  · exact absurd h1 noCheck_getN
  rw [Run.bind_trace_of_ok hs]
  rcases Run.bind_res_error h with h1 | ⟨c, hc, h⟩
  · exact absurd h1 noCheck_getN
  rw [Run.bind_trace_of_ok hc]
  rcases Run.bind_res_error h with h1 | ⟨nib, hk, h⟩
  · exact absurd h1 noCheck_getN
  rw [Run.bind_trace_of_ok hk]
  rcases Run.bind_res_error h with h1 | ⟨bR, hb, h⟩
  · exact absurd h1 Run.noCheck_callExt
  rw [Run.bind_trace_of_ok hb]
  rcases Run.bind_res_error h with h1 | ⟨blk, ha, h⟩
  · exact absurd h1 (noCheck_attachExtension E _ _ _ _ _ _ _)
  rw [Run.bind_trace_of_ok ha]
  rw [Run.emit_bind_res] at h
  rw [Run.emit_bind_trace]
  rcases Run.bind_res_error h with h1 | ⟨_, _, h⟩
  · have h1' : (if st.extensionNodeInd = 0 then
        checkBranches E.branchNodeRLPLen E.branch2start key i blk.1 16 1
        else .ok ()) = .error .witnessNotProperlyGenerated := h1
    split at h1'
    · rename_i h0
      refine ⟨nib, blk.1, ?_, h0, getN_eq_ok.mp hk, h1'⟩
      rw [h0]
      simp [liftE, callExt]
    · cases h1'
  · cases h

theorem walkStep_block_mem (E : Externals StateDB Address) (proof1 proof2 extNibblesS : Rows)
    (key : Row) (isAccountProof nonExistingAccountProof : Bool) (i : Nat) (st : WalkState)
    (ev : Event) (hev : ev.isBranchBlock)
    (hmem : ev ∈ (walkStep E proof1 proof2 extNibblesS key isAccountProof
      nonExistingAccountProof i st).trace) :
    walkStep E proof1 proof2 extNibblesS key isAccountProof nonExistingAccountProof i st =
      walkBranch E proof1 proof2 key i st := by
  cases hs : proof1[i]? with
  | none =>
    exfalso
    unfold walkStep at hmem
    have hg : getN IndexSite.proofList proof1 i = .error (.indexOutOfRange .proofList) := by
      unfold getN; rw [hs]
    simp [hg, Run.liftE_bind_trace] at hmem
  | some s =>
    cases hb : E.isBranch s with
    | true => exact walkStep_branch E _ _ _ _ _ _ i st s hs hb
    | false =>
      exfalso
      by_cases hi : i + 1 = proof1.length
      · rw [walkStep_leaf E _ _ _ _ _ _ i st s hs hb hi] at hmem
        exact (walkLeaf_no_block E proof1 proof2 key isAccountProof nonExistingAccountProof i
          st).1 ev hmem hev
      · rw [walkStep_extension E _ _ _ _ _ _ i st s hs hb hi] at hmem
        exact (walkExtension_no_block E proof1 proof2 extNibblesS i st).1 ev hmem hev

theorem walkStep_check_fault (E : Externals StateDB Address) (proof1 proof2 extNibblesS : Rows)
    (key : Row) (isAccountProof nonExistingAccountProof : Bool) (i : Nat) (st : WalkState)
    (h : (walkStep E proof1 proof2 extNibblesS key isAccountProof nonExistingAccountProof i
      st).res = .error .witnessNotProperlyGenerated) :
    walkStep E proof1 proof2 extNibblesS key isAccountProof nonExistingAccountProof i st =
      walkBranch E proof1 proof2 key i st := by
  cases hs : proof1[i]? with
  | none =>
    exfalso
    unfold walkStep at h
    have hg : getN IndexSite.proofList proof1 i = .error (.indexOutOfRange .proofList) := by
      unfold getN; rw [hs]
    simp [hg, Run.liftE_bind_res] at h
  | some s =>
    cases hb : E.isBranch s with
    | true => exact walkStep_branch E _ _ _ _ _ _ i st s hs hb
    | false =>
      exfalso
      by_cases hi : i + 1 = proof1.length
      · rw [walkStep_leaf E _ _ _ _ _ _ i st s hs hb hi] at h
        exact walkLeaf_noCheck E proof1 proof2 key isAccountProof nonExistingAccountProof i st h
      · rw [walkStep_extension E _ _ _ _ _ _ i st s hs hb hi] at h
        exact walkExtension_noCheck E proof1 proof2 extNibblesS i st h

theorem walkStep_invariant (E : Externals StateDB Address) (proof1 proof2 extNibblesS : Rows)
    (key : Row) (isAccountProof nonExistingAccountProof : Bool) (i : Nat) (st st1 : WalkState)
    (hinv : st.extensionNodeInd = 0 → st.keyIndex = i)
    (h1 : (walkStep E proof1 proof2 extNibblesS key isAccountProof nonExistingAccountProof i
      st).res = .ok st1) :
    i + 1 = proof1.length ∨ (st1.extensionNodeInd = 0 → st1.keyIndex = i + 1) := by
  obtain ⟨s, hs, hcase⟩ := walkStep_cases E proof1 proof2 extNibblesS key isAccountProof
    nonExistingAccountProof i st st1 h1
  rcases hcase with ⟨_, heq⟩ | ⟨_, _, heq⟩ | ⟨_, hlast, _⟩
  · rw [heq] at h1
    obtain ⟨sw, s', c, nib, bR, blk, _, _, _, _, _, _, _, _, hst1⟩ :=
      walkBranch_ok E proof1 proof2 key i st st1 h1
    right
    intro h0
    rw [hst1] at h0 ⊢
    simp only [] at h0 ⊢
    rw [hinv h0]
  · rw [heq] at h1
    obtain ⟨s', c, ext, _, _, _, _, hst1⟩ :=
      walkExtension_ok E proof1 proof2 extNibblesS i st st1 h1
    right
    intro h0
    rw [hst1] at h0
    simp at h0
  · exact Or.inl hlast

theorem walkFrom_keyIndex (E : Externals StateDB Address) (proof1 proof2 extNibblesS : Rows)
    (key : Row) (isAccountProof nonExistingAccountProof : Bool) (n : Nat) :
    ∀ (i : Nat) (st st' : WalkState), i + n < proof1.length →
    (st.extensionNodeInd = 0 → st.keyIndex = i) →
    (walkFrom E proof1 proof2 extNibblesS key isAccountProof nonExistingAccountProof n i st).res =
      .ok st' →
    st'.extensionNodeInd = 0 → st'.keyIndex = i + n := by
  induction n with
  | zero =>
    intro i st st' _ hinv h
    simp only [walkFrom, Run.pure, Except.ok.injEq] at h
    subst h
    exact hinv
  | succ n ih =>
    intro i st st' hbound hinv hres
    have hres' : (walkStep E proof1 proof2 extNibblesS key isAccountProof
        nonExistingAccountProof i st >>= fun s => walkFrom E proof1 proof2 extNibblesS key
        isAccountProof nonExistingAccountProof n (i + 1) s).res = .ok st' := hres
    obtain ⟨st1, h1, h2⟩ := Run.bind_res_ok hres'
    rcases walkStep_invariant E proof1 proof2 extNibblesS key isAccountProof
      nonExistingAccountProof i st st1 hinv h1 with hlast | hinv1
    · omega
    · intro h0
      have := ih (i + 1) st1 st' (by omega) hinv1 h2 h0
      omega

theorem walkFrom_check_fault (E : Externals StateDB Address) (proof1 proof2 extNibblesS : Rows)
    (key : Row) (isAccountProof nonExistingAccountProof : Bool) (n : Nat) :
    ∀ (i : Nat) (st : WalkState), i + n ≤ proof1.length →
    (st.extensionNodeInd = 0 → st.keyIndex = i) →
    (walkFrom E proof1 proof2 extNibblesS key isAccountProof nonExistingAccountProof n i st).res =
      .error .witnessNotProperlyGenerated →
    ∃ j nibble bRows, Event.branchBlock j 0 nibble bRows ∈
        (walkFrom E proof1 proof2 extNibblesS key isAccountProof nonExistingAccountProof n i
          st).trace ∧
      key[j]? = some nibble ∧
      BranchesMismatch E.branchNodeRLPLen E.branch2start nibble bRows := by
  induction n with
  | zero =>
    intro i st _ _ h
    simp [walkFrom, Run.pure] at h
  | succ n ih =>
    intro i st hbound hinv hres
    have hres' : (walkStep E proof1 proof2 extNibblesS key isAccountProof
        nonExistingAccountProof i st >>= fun s => walkFrom E proof1 proof2 extNibblesS key
        isAccountProof nonExistingAccountProof n (i + 1) s).res =
        .error .witnessNotProperlyGenerated := hres
    have htr : (walkFrom E proof1 proof2 extNibblesS key isAccountProof
        nonExistingAccountProof (n + 1) i st).trace =
        (walkStep E proof1 proof2 extNibblesS key isAccountProof
        nonExistingAccountProof i st >>= fun s => walkFrom E proof1 proof2 extNibblesS key
        isAccountProof nonExistingAccountProof n (i + 1) s).trace := rfl
    rw [htr]
    rcases Run.bind_res_error hres' with h1 | ⟨st1, h1, h2⟩
    · have heq := walkStep_check_fault E proof1 proof2 extNibblesS key isAccountProof
        nonExistingAccountProof i st h1
      rw [heq] at h1
      obtain ⟨nibble, bRows, hmem, h0, hkey, hchk⟩ :=
        walkBranch_check_fault E proof1 proof2 key i st h1
      rw [hinv h0] at hkey
      refine ⟨i, nibble, bRows, Run.mem_bind_trace_left (by rw [heq]; exact hmem), hkey, ?_⟩
      exact (checkBranches_mismatch_iff _ _ key i bRows nibble hkey).1 hchk
    · rcases walkStep_invariant E proof1 proof2 extNibblesS key isAccountProof
        nonExistingAccountProof i st st1 hinv h1 with hlast | hinv1
      · have hn : n = 0 := by omega
        subst hn
        simp [walkFrom, Run.pure] at h2
      · obtain ⟨j, nibble, bRows, hmem, hkey, hmis⟩ := ih (i + 1) st1 (by omega) hinv1 h2
        exact ⟨j, nibble, bRows, Run.mem_bind_trace_right h1 hmem, hkey, hmis⟩

theorem walkFrom_block_checked (E : Externals StateDB Address)
    (proof1 proof2 extNibblesS : Rows) (key : Row)
    (isAccountProof nonExistingAccountProof : Bool) (n : Nat) :
    ∀ (i : Nat) (st : WalkState), i + n ≤ proof1.length →
    (st.extensionNodeInd = 0 → st.keyIndex = i) →
    ∀ j nibble bRows, Event.branchBlock j 0 nibble bRows ∈
      (walkFrom E proof1 proof2 extNibblesS key isAccountProof nonExistingAccountProof n i
        st).trace →
      key[j]? = some nibble ∧
      ∀ e, checkBranches E.branchNodeRLPLen E.branch2start key j bRows 16 1 = .error e →
        (walkFrom E proof1 proof2 extNibblesS key isAccountProof nonExistingAccountProof n i
          st).res = .error e := by
  induction n with
  | zero =>
    intro i st _ _ j nibble bRows hmem
    simp [walkFrom, Run.pure] at hmem
  | succ n ih =>
    intro i st hbound hinv j nibble bRows hmem
    have hmem' : Event.branchBlock j 0 nibble bRows ∈ (walkStep E proof1 proof2 extNibblesS key
        isAccountProof nonExistingAccountProof i st >>= fun s => walkFrom E proof1 proof2
        extNibblesS key isAccountProof nonExistingAccountProof n (i + 1) s).trace := hmem
    have hres : (walkFrom E proof1 proof2 extNibblesS key isAccountProof
        nonExistingAccountProof (n + 1) i st).res =
        (walkStep E proof1 proof2 extNibblesS key isAccountProof
        nonExistingAccountProof i st >>= fun s => walkFrom E proof1 proof2 extNibblesS key
        isAccountProof nonExistingAccountProof n (i + 1) s).res := rfl
    rw [hres]
    rcases Run.mem_bind_trace hmem' with hm | ⟨st1, h1, hm⟩
    · have heq := walkStep_block_mem E proof1 proof2 extNibblesS key isAccountProof
        nonExistingAccountProof i st (Event.branchBlock j 0 nibble bRows) trivial hm
      rw [heq] at hm
      obtain ⟨hj, h0, hkey, hfatal⟩ := walkBranch_emitted E proof1 proof2 key i st j 0 nibble
        bRows hm
      subst hj
      rw [hinv h0.symm] at hkey
      refine ⟨hkey, fun e he => ?_⟩
      refine Run.bind_res_of_error ?_
      rw [heq]
      exact hfatal h0.symm e he
    · rcases walkStep_invariant E proof1 proof2 extNibblesS key isAccountProof
        nonExistingAccountProof i st st1 hinv h1 with hlast | hinv1
      · have hn : n = 0 := by omega
        subst hn
        simp [walkFrom, Run.pure] at hm
      · obtain ⟨hkey, hfatal⟩ := ih (i + 1) st1 (by omega) hinv1 j nibble bRows hm
        refine ⟨hkey, fun e he => ?_⟩
        rw [Run.bind_res_of_ok h1]
        exact hfatal e he

theorem prepareWitness_eq (E : Externals StateDB Address) (statedb : StateDB) (addr : Address)
    (proof1 proof2 extNibblesS extNibblesC : Rows) (key neighbourNode : Row)
    (isAccountProof nonExistingAccountProof nonExistingStorageProof
      isShorterProofLastLeaf : Bool) :
    ∃ ab, additionalBranchOf E proof1 proof2 = .ok ab ∧
      prepareWitness E statedb addr proof1 proof2 extNibblesS extNibblesC key neighbourNode
        isAccountProof nonExistingAccountProof nonExistingStorageProof isShorterProofLastLeaf =
        (walk E proof1 proof2 extNibblesS key isAccountProof nonExistingAccountProof ab >>=
          fun st => tailOf E statedb addr proof1 proof2 extNibblesS extNibblesC key
            neighbourNode isAccountProof nonExistingAccountProof nonExistingStorageProof
            isShorterProofLastLeaf ab st >>=
          fun out => Run.pure (out.1, out.2, decide (st.extensionNodeInd > 0))) := by
  obtain ⟨ab, hab, _⟩ := additionalBranchOf_spec E proof1 proof2
  refine ⟨ab, hab, ?_⟩
  unfold prepareWitness
  rw [hab, liftE_ok_bind]
  rfl

theorem prepareWitness_block_in_walk (E : Externals StateDB Address) (statedb : StateDB)
    (addr : Address) (proof1 proof2 extNibblesS extNibblesC : Rows) (key neighbourNode : Row)
    (isAccountProof nonExistingAccountProof nonExistingStorageProof
      isShorterProofLastLeaf : Bool) (ab : Bool) (ev : Event) (hev : ev.isBranchBlock)
    (hmem : ev ∈ (walk E proof1 proof2 extNibblesS key isAccountProof nonExistingAccountProof
      ab >>= fun st => tailOf E statedb addr proof1 proof2 extNibblesS extNibblesC key
        neighbourNode isAccountProof nonExistingAccountProof nonExistingStorageProof
        isShorterProofLastLeaf ab st >>=
      fun out => Run.pure (out.1, out.2, decide (st.extensionNodeInd > 0))).trace) :
    ev ∈ (walk E proof1 proof2 extNibblesS key isAccountProof nonExistingAccountProof
      ab).trace := by
  rcases Run.mem_bind_trace hmem with h | ⟨st, _, h⟩
  · exact h
  · exfalso
    rcases Run.mem_bind_trace h with h | ⟨out, _, h⟩
    · have := (tailOf_tailEvents E statedb addr proof1 proof2 extNibblesS extNibblesC key
        neighbourNode isAccountProof nonExistingAccountProof nonExistingStorageProof
        isShorterProofLastLeaf ab st).1 _ h
      cases ev <;> first | exact hev.elim | exact this.elim
    · simp [Run.pure] at h

/-- C18. The branch check before the first extension node. (1) Whenever the loop
reaches a position `i` of `proof1` with `extensionNodeInd = 0`, `keyIndex = i`:
the child index `key[i]` skipped by the check is the active nibble `key[keyIndex]`
given to `prepareTwoBranches`. (2) For every branch block emitted before the first
extension node, the nibble given to `prepareTwoBranches` is `key[i]`, and a fault
of the check of that block is the fault of the run. (3) If `prepareWitness` stops
with "witness not properly generated", some block emitted before the first
extension node has `k` in `1..16` with `k - 1 ≠ key[i]` and
`j < branchNodeRLPLen + 32` with `bRows[k][j] ≠ bRows[k][branch2start + j]`.
(4) Conversely, if such a block has such a mismatch, the run does not return; and
if rows `1..16` of the block have the bytes the check reads, the run stops with
"witness not properly generated". -/
theorem prepareWitness_branch_check (E : Externals StateDB Address) (statedb : StateDB)
    (addr : Address) (proof1 proof2 extNibblesS extNibblesC : Rows) (key neighbourNode : Row)
    (isAccountProof nonExistingAccountProof nonExistingStorageProof
      isShorterProofLastLeaf : Bool) :
    (∀ (i : Nat) (st : WalkState), i < proof1.length →
      (walkFrom E proof1 proof2 extNibblesS key isAccountProof nonExistingAccountProof i 0
        initialState).res = .ok st →
      st.extensionNodeInd = 0 → st.keyIndex = i) ∧
    (∀ i nibble bRows, Event.branchBlock i 0 nibble bRows ∈
      (prepareWitness E statedb addr proof1 proof2 extNibblesS extNibblesC key neighbourNode
        isAccountProof nonExistingAccountProof nonExistingStorageProof
        isShorterProofLastLeaf).trace →
      key[i]? = some nibble ∧
      ∀ e, checkBranches E.branchNodeRLPLen E.branch2start key i bRows 16 1 = .error e →
        (prepareWitness E statedb addr proof1 proof2 extNibblesS extNibblesC key neighbourNode
          isAccountProof nonExistingAccountProof nonExistingStorageProof
          isShorterProofLastLeaf).res = .error e) ∧
    ((prepareWitness E statedb addr proof1 proof2 extNibblesS extNibblesC key neighbourNode
        isAccountProof nonExistingAccountProof nonExistingStorageProof
        isShorterProofLastLeaf).res = .error .witnessNotProperlyGenerated →
      ∃ i nibble bRows, Event.branchBlock i 0 nibble bRows ∈
        (prepareWitness E statedb addr proof1 proof2 extNibblesS extNibblesC key neighbourNode
          isAccountProof nonExistingAccountProof nonExistingStorageProof
          isShorterProofLastLeaf).trace ∧
        key[i]? = some nibble ∧
        BranchesMismatch E.branchNodeRLPLen E.branch2start nibble bRows) ∧
    (∀ i nibble bRows, Event.branchBlock i 0 nibble bRows ∈
      (prepareWitness E statedb addr proof1 proof2 extNibblesS extNibblesC key neighbourNode
        isAccountProof nonExistingAccountProof nonExistingStorageProof
        isShorterProofLastLeaf).trace →
      BranchesMismatch E.branchNodeRLPLen E.branch2start nibble bRows →
      (∃ e, (prepareWitness E statedb addr proof1 proof2 extNibblesS extNibblesC key
          neighbourNode isAccountProof nonExistingAccountProof nonExistingStorageProof
          isShorterProofLastLeaf).res = .error e) ∧
      (BlockShaped E.branchNodeRLPLen E.branch2start bRows →
        (prepareWitness E statedb addr proof1 proof2 extNibblesS extNibblesC key neighbourNode
          isAccountProof nonExistingAccountProof nonExistingStorageProof
          isShorterProofLastLeaf).res = .error .witnessNotProperlyGenerated)) := by
  obtain ⟨ab, hab, heq⟩ := prepareWitness_eq E statedb addr proof1 proof2 extNibblesS
    extNibblesC key neighbourNode isAccountProof nonExistingAccountProof
    nonExistingStorageProof isShorterProofLastLeaf
  have hup : 0 + (upToOf proof1 proof2 ab).toNat ≤ proof1.length := by
    have := (upToOf_le_length proof1 proof2 ab).1
    omega
  have hblock : ∀ i nibble bRows, Event.branchBlock i 0 nibble bRows ∈
      (prepareWitness E statedb addr proof1 proof2 extNibblesS extNibblesC key neighbourNode
        isAccountProof nonExistingAccountProof nonExistingStorageProof
        isShorterProofLastLeaf).trace →
      key[i]? = some nibble ∧
      ∀ e, checkBranches E.branchNodeRLPLen E.branch2start key i bRows 16 1 = .error e →
        (prepareWitness E statedb addr proof1 proof2 extNibblesS extNibblesC key neighbourNode
          isAccountProof nonExistingAccountProof nonExistingStorageProof
          isShorterProofLastLeaf).res = .error e := by
    intro i nibble bRows hmem
    rw [heq] at hmem ⊢
    have hw := prepareWitness_block_in_walk E statedb addr proof1 proof2 extNibblesS
      extNibblesC key neighbourNode isAccountProof nonExistingAccountProof
      nonExistingStorageProof isShorterProofLastLeaf ab (Event.branchBlock i 0 nibble bRows)
      trivial hmem
    obtain ⟨hkey, hfatal⟩ := walkFrom_block_checked E proof1 proof2 extNibblesS key
      isAccountProof nonExistingAccountProof _ 0 initialState hup (fun _ => rfl) i nibble bRows
      hw
    exact ⟨hkey, fun e he => Run.bind_res_of_error (hfatal e he)⟩
  refine ⟨?_, hblock, ?_, ?_⟩
  · intro i st hi hres h0
    have := walkFrom_keyIndex E proof1 proof2 extNibblesS key isAccountProof
      nonExistingAccountProof i 0 initialState st (by omega) (fun _ => rfl) hres h0
    omega
  · intro hres
    rw [heq] at hres ⊢
    rcases Run.bind_res_error hres with h1 | ⟨st, _, h2⟩
    · obtain ⟨j, nibble, bRows, hmem, hkey, hmis⟩ := walkFrom_check_fault E proof1 proof2
        extNibblesS key isAccountProof nonExistingAccountProof _ 0 initialState hup
        (fun _ => rfl) h1
      exact ⟨j, nibble, bRows, Run.mem_bind_trace_left hmem, hkey, hmis⟩
    · exfalso
      rcases Run.bind_res_error h2 with h3 | ⟨_, _, h4⟩
      · exact tailOf_noCheck E statedb addr proof1 proof2 extNibblesS extNibblesC key
          neighbourNode isAccountProof nonExistingAccountProof nonExistingStorageProof
          isShorterProofLastLeaf ab st h3
      · cases h4
  · intro i nibble bRows hmem hmis
    obtain ⟨hkey, hfatal⟩ := hblock i nibble bRows hmem
    constructor
    · cases hchk : checkBranches E.branchNodeRLPLen E.branch2start key i bRows 16 1 with
      | ok u =>
        exact absurd ((checkBranches_iff_agree _ _ key i bRows nibble hkey).mp hchk)
          (mismatch_not_agree hmis)
      | error e => exact ⟨e, hfatal e hchk⟩
    · intro hshape
      exact hfatal _ ((checkBranches_mismatch_iff _ _ key i bRows nibble hkey).2 hshape hmis)

/-- C18 at Scenario A with a second difference between the two root branches, at
child 2, off the active nibble `key[0] = 1`: the block is emitted, its row 3
differs between the S and the C side, and the run stops with "witness not
properly generated". -/
theorem prepareWitness_branch_check_witness :
    (prepareWitness Fixture.externals () () Fixture.updateS Fixture.mismatchC [] [] Fixture.key
      [] false false false false).res = .error .witnessNotProperlyGenerated := by
  have hmem : Event.branchBlock 0 0 1
      ((([1, 0, 1] ++ List.replicate 65 0) ::
        Fixture.childRows (Fixture.branchWith 7 1 8) ((Fixture.branchWith 7 1 9).set 3 9)) ++
        [Fixture.zeroRow, Fixture.zeroRow]) ∈
      (prepareWitness Fixture.externals () () Fixture.updateS Fixture.mismatchC [] []
        Fixture.key [] false false false false).trace := by decide
  have hmis : BranchesMismatch Fixture.externals.branchNodeRLPLen
      Fixture.externals.branch2start 1
      ((([1, 0, 1] ++ List.replicate 65 0) ::
        Fixture.childRows (Fixture.branchWith 7 1 8) ((Fixture.branchWith 7 1 9).set 3 9)) ++
        [Fixture.zeroRow, Fixture.zeroRow]) :=
    ⟨3, 0, List.replicate 34 7 ++ List.replicate 34 9, 7, 9, by decide, by decide, by decide,
      by decide, by decide, by decide, by decide, by decide⟩
  have hshape : BlockShaped Fixture.externals.branchNodeRLPLen Fixture.externals.branch2start
      ((([1, 0, 1] ++ List.replicate 65 0) ::
        Fixture.childRows (Fixture.branchWith 7 1 8) ((Fixture.branchWith 7 1 9).set 3 9)) ++
        [Fixture.zeroRow, Fixture.zeroRow]) := by
    intro k h1 h16
    interval_cases k <;> exact ⟨_, rfl, by decide⟩
  exact ((prepareWitness_branch_check Fixture.externals () () Fixture.updateS
    Fixture.mismatchC [] [] Fixture.key [] false false false false).2.2.2 0 1 _ hmem hmis).2
    hshape

theorem kindFlag_mem_flagsSet (E : Externals StateDB Address) (prevS prevC : Row)
    (branchC16 : Nat) (k : ExtensionFlag) (hk : k ∈ kindFlags) :
    k ∈ flagsSet E prevS prevC branchC16 ↔ k = selectedKindFlag E prevS branchC16 := by
  rw [flagsSet_mem]
  simp only [kindFlags, List.mem_cons, List.mem_singleton, List.not_mem_nil, or_false] at hk
  rcases hk with rfl | rfl | rfl | rfl | rfl | rfl <;> simp

/-- C16. Extension kind flags in the branch init row. Let the loop body return at
a branch position `i`. If extension rows are stashed, row 0 of the emitted block
is the row 0 before the flags (`row0`) with 1 written at the bytes of the flags
set by lines 215-254: `isExtension` is set and, of the six kind flags, exactly the
one selected by (key length 1: Short; else marker byte `proof1[i-1][2]` zero:
LongEven, non-zero: LongOdd) and by the parity after the flip (`branchC16 = 1`:
C16 variant, else C1 variant); the bytes at `isExtensionPos` and at the selected
kind position are 1. When the flag bytes of `row0` are zero, the six kind
positions are pairwise distinct and they differ from `isExtensionPos` and the
four length-derived flag positions, the selected kind byte is the only kind byte
that is 1. If nothing is stashed, the block is the rows of `prepareTwoBranches`
followed by `prepareEmptyExtensionRows(false, false)`: no flag is written. -/
theorem branch_block_kind_flags (E : Externals StateDB Address)
    (proof1 proof2 extNibblesS : Rows) (key : Row)
    (isAccountProof nonExistingAccountProof : Bool) (i : Nat) (st st' : WalkState) (node : Row)
    (hnode : proof1[i]? = some node) (hbr : E.isBranch node = true)
    (hret : (walkStep E proof1 proof2 extNibblesS key isAccountProof nonExistingAccountProof i
      st).res = .ok st') :
    ∃ (c : Row) (n : Nat) (bRows blk : Rows),
      E.prepareTwoBranches node c n st'.branchC16 st'.branchC1 false false = some bRows ∧
      Event.branchBlock i st.extensionNodeInd n blk ∈
        (walkStep E proof1 proof2 extNibblesS key isAccountProof nonExistingAccountProof i
          st).trace ∧
      st'.rows = st.rows ++ blk ∧
      (st.extensionRows = none → blk = bRows ++ E.prepareEmptyExtensionRows false false) ∧
      (st.extensionRows.isSome = true →
        ∃ (ext : Row × Row) (row0 : Row) (rest : Rows) (prevS prevC : Row)
          (flags : List ExtensionFlag),
          st.extensionRows = some ext ∧ bRows ++ [ext.1, ext.2] = row0 :: rest ∧
          0 < i ∧ proof1[i - 1]? = some prevS ∧ proof2[i - 1]? = some prevC ∧
          flags = flagsSet E prevS prevC st'.branchC16 ∧
          blk = writeFlags E row0 flags :: rest ∧
          ExtensionFlag.isExtension ∈ flags ∧
          (∀ k ∈ kindFlags, k ∈ flags ↔ k = selectedKindFlag E prevS st'.branchC16) ∧
          (writeFlags E row0 flags)[E.isExtensionPos]? = some 1 ∧
          (writeFlags E row0 flags)[flagPos E (selectedKindFlag E prevS st'.branchC16)]? =
            some 1 ∧
          ((∀ f ∈ allFlags, row0[flagPos E f]? = some 0) →
            (kindFlags.map (flagPos E)).Nodup →
            (∀ k ∈ kindFlags, ∀ f ∈ ExtensionFlag.isExtension :: lengthFlags,
              flagPos E k ≠ flagPos E f) →
            ∀ k ∈ kindFlags, (writeFlags E row0 flags)[flagPos E k]? =
              some (if k = selectedKindFlag E prevS st'.branchC16 then 1 else 0))) := by
  obtain ⟨c, n, bRows, blk, _, _, hprep, hmem, hrows, hcase⟩ :=
    walkStep_branch_block E proof1 proof2 extNibblesS key isAccountProof
      nonExistingAccountProof i st st' node hnode hbr hret
  refine ⟨c, n, bRows, blk, hprep, hmem, hrows, ?_, ?_⟩
  · intro hnone
    rcases hcase with ⟨_, hblk⟩ | ⟨ext, _, _, _, _, hsome, _⟩
    · exact hblk
    · rw [hnone] at hsome
      cases hsome
  · intro hs
    rcases hcase with ⟨hnone, _⟩ |
      ⟨ext, row0, rest, prevS, prevC, hsome, hcons, hi, hS, hC, hbound, hblk⟩
    · rw [hnone] at hs
      cases hs
    · have hin : ExtensionFlag.isExtension ∈ flagsSet E prevS prevC st'.branchC16 :=
        (flagsSet_mem E prevS prevC st'.branchC16 _).mpr (Or.inl rfl)
      have hsel : selectedKindFlag E prevS st'.branchC16 ∈
          flagsSet E prevS prevC st'.branchC16 :=
        (flagsSet_mem E prevS prevC st'.branchC16 _).mpr
          (Or.inr (Or.inr (Or.inr (Or.inr (Or.inr rfl)))))
      refine ⟨ext, row0, rest, prevS, prevC, _, hsome, hcons, hi, hS, hC, rfl, hblk, hin,
        fun k hk => kindFlag_mem_flagsSet E prevS prevC st'.branchC16 k hk, ?_, ?_, ?_⟩
      · have hpos : E.isExtensionPos ∈
            (flagsSet E prevS prevC st'.branchC16).map (flagPos E) :=
          List.mem_map.mpr ⟨_, hin, rfl⟩
        rw [writeFlags_getElem?, if_pos ⟨hpos, hbound _ hin⟩]
      · rw [writeFlags_getElem?, if_pos ⟨List.mem_map.mpr ⟨_, hsel, rfl⟩, hbound _ hsel⟩]
      · intro hz hkinds hother k hk
        rw [writeFlags_getElem?]
        by_cases hksel : k = selectedKindFlag E prevS st'.branchC16
        · have hkin : k ∈ flagsSet E prevS prevC st'.branchC16 := by
            rw [hksel]
            exact hsel
          rw [if_pos ⟨List.mem_map.mpr ⟨_, hkin, rfl⟩, hbound _ hkin⟩, if_pos hksel]
        · have hnot : ¬ (flagPos E k ∈ (flagsSet E prevS prevC st'.branchC16).map (flagPos E) ∧
              flagPos E k < row0.length) := by
            rintro ⟨hm, _⟩
            obtain ⟨f, hf, hpos⟩ := List.mem_map.mp hm
            rcases (flagsSet_mem E prevS prevC st'.branchC16 f).mp hf with
              h | ⟨h, _⟩ | ⟨h, _⟩ | ⟨h, _⟩ | ⟨h, _⟩ | h
            · exact hother k hk f (by rw [h]; simp) hpos.symm
            · exact hother k hk f (by rw [h]; simp [lengthFlags]) hpos.symm
            · exact hother k hk f (by rw [h]; simp [lengthFlags]) hpos.symm
            · exact hother k hk f (by rw [h]; simp [lengthFlags]) hpos.symm
            · exact hother k hk f (by rw [h]; simp [lengthFlags]) hpos.symm
            · have hfk : f ∈ kindFlags := by
                rw [h]
                exact selectedKindFlag_mem E prevS st'.branchC16
              have := List.inj_on_of_nodup_map hkinds hfk hk hpos
              exact hksel (by rw [← this, h])
          rw [if_neg hnot, if_neg hksel]
          exact hz k (allFlags_mem k)

/-- C16 at the branch below a two-nibble extension node with marker byte 0, from
the pair `(0, 1)`: the loop body returns, row 0 of the block has byte
`isExtensionPos` = 1, the selected kind flag is LongEven C16 and it is the only
kind flag whose byte is 1. -/
theorem branch_block_kind_flags_witness :
    ∃ (st' : WalkState) (row0 : Row) (rest : Rows),
      (walkStep Fixture.externals Fixture.evenExtProof Fixture.evenExtProof [[1, 1]]
        Fixture.key false false 1 Fixture.afterLongEvenExt).res = .ok st' ∧
      st'.rows = Fixture.afterLongEvenExt.rows ++ row0 :: rest ∧
      row0[Fixture.externals.isExtensionPos]? = some 1 ∧
      selectedKindFlag Fixture.externals Fixture.longEvenExt st'.branchC16 =
        .isExtLongEvenC16 ∧
      ∀ k ∈ kindFlags, row0[flagPos Fixture.externals k]? =
        some (if k = selectedKindFlag Fixture.externals Fixture.longEvenExt st'.branchC16
          then 1 else 0) := by
  have hok : (walkStep Fixture.externals Fixture.evenExtProof Fixture.evenExtProof [[1, 1]]
      Fixture.key false false 1 Fixture.afterLongEvenExt).res.toBool = true := by decide
  obtain ⟨st', h⟩ := exists_ok_of_toBool hok
  have h16 : (walkStep Fixture.externals Fixture.evenExtProof Fixture.evenExtProof [[1, 1]]
      Fixture.key false false 1 Fixture.afterLongEvenExt).res.map WalkState.branchC16 =
      .ok 1 := by decide
  rw [h] at h16
  simp only [Except.map, Except.ok.injEq] at h16
  obtain ⟨c, n, bRows, blk, hprep, _, hrows, _, hsome⟩ :=
    branch_block_kind_flags Fixture.externals Fixture.evenExtProof Fixture.evenExtProof [[1, 1]]
      Fixture.key false false 1 Fixture.afterLongEvenExt st' (Fixture.branchOf 7) rfl
      (by decide) h
  obtain ⟨ext, row0, rest, prevS, prevC, flags, _, hcons, _, hS, _, _, hblk, _, _, hext, _,
    hvalue⟩ := hsome rfl
  have hp : Fixture.evenExtProof[1 - 1]? = some Fixture.longEvenExt := rfl
  rw [hp] at hS
  cases hS
  obtain ⟨r0, rest0, hb, hz⟩ := Fixture.prepareTwoBranches_flags_zero Fixture.externals rfl
    (by decide) _ _ _ _ _ _ hprep
  have hrow : row0 = r0 := by
    rw [hb] at hcons
    injection hcons with h1 _
    exact h1.symm
  subst hrow
  rw [hblk] at hrows
  refine ⟨st', _, rest, h, hrows, hext, ?_, hvalue hz (by decide) (by decide)⟩
  rw [h16]
  decide

theorem packNibbles_getElem? (t : Nat) :
    ∀ l : List Nat, (packNibbles l)[t]? =
      if 2 * t + 1 < l.length then some (l.getD (2 * t) 0 * 16 + l.getD (2 * t + 1) 0)
      else none := by
  induction t with
  | zero =>
    intro l
    cases l with
    | nil => simp [packNibbles]
    | cons hi l' =>
      cases l' with
      | nil => simp [packNibbles]
      | cons lo rest => simp [packNibbles]
  | succ t ih =>
    intro l
    cases l with
    | nil => simp [packNibbles]
    | cons hi l' =>
      cases l' with
      | nil => simp [packNibbles]
      | cons lo rest =>
        simp only [packNibbles, List.getElem?_cons_succ, ih, List.length_cons]
        have e1 : 2 * (t + 1) = 2 * t + 1 + 1 := by omega
        have e2 : 2 * (t + 1) + 1 = 2 * t + 1 + 1 + 1 := by omega
        by_cases h : 2 * t + 1 < rest.length
        · rw [if_pos h, if_pos (by omega), e2, e1]
          simp only [List.getD_cons_succ]
        · rw [if_neg h, if_neg (by omega)]

theorem packNibbles_length (n : Nat) :
    ∀ l : List Nat, l.length = 2 * n → (packNibbles l).length = n := by
  induction n with
  | zero =>
    intro l h
    have : l = [] := List.length_eq_zero.mp (by omega)
    subst this
    rfl
  | succ n ih =>
    intro l h
    cases l with
    | nil => simp at h
    | cons hi l' =>
      cases l' with
      | nil => simp at h; omega
      | cons lo rest =>
        simp only [packNibbles, List.length_cons]
        rw [ih rest (by simp only [List.length_cons] at h; omega)]

theorem fillKeyBytes_values (remainingNibbles : Row) (offset : Nat) (n : Nat) :
    ∀ (i : Nat) (leaf leaf' : Row),
    fillKeyBytes remainingNibbles offset n i leaf = .ok leaf' →
    ∀ t, t < n → ∃ hi lo, remainingNibbles[2 * (i + t) + offset]? = some hi ∧
      remainingNibbles[2 * (i + t) + 1 + offset]? = some lo ∧
      leaf'[4 + (i + t)]? = some ((hi * 16 + lo) % 256) := by
  induction n with
  | zero =>
    intro i leaf leaf' _ t ht
    omega
  | succ n ih =>
    intro i leaf leaf' h t ht
    unfold fillKeyBytes at h
    obtain ⟨hi, hhi, h⟩ := except_bind_ok h
    obtain ⟨lo, hlo, h⟩ := except_bind_ok h
    obtain ⟨l1, hset, h⟩ := except_bind_ok h
    obtain ⟨_, hi1, hl1⟩ := setB_ok hset
    have hT : (4 + (i : Int)).toNat = 4 + i := by omega
    rw [hT] at hi1 hl1
    cases t with
    | zero =>
      obtain ⟨_, hp⟩ := fillKeyBytes_preserves remainingNibbles offset n (i + 1) l1 leaf' h
      refine ⟨hi, lo, getN_eq_ok.mp hhi, getN_eq_ok.mp hlo, ?_⟩
      rw [Nat.add_zero, hp (4 + i) (by omega), hl1]
      exact List.getElem?_set_self hi1
    | succ t =>
      obtain ⟨hi', lo', h1, h2, h3⟩ := ih (i + 1) l1 leaf' h t (by omega)
      have e : i + (t + 1) = i + 1 + t := by omega
      rw [e]
      exact ⟨hi', lo', h1, h2, h3⟩

theorem fillKeyBytes_total (remainingNibbles : Row) (offset : Nat) (n : Nat) :
    ∀ (i : Nat) (leaf : Row),
    2 * (i + n) + offset ≤ remainingNibbles.length → 4 + i + n ≤ leaf.length →
    ∃ leaf', fillKeyBytes remainingNibbles offset n i leaf = .ok leaf' := by
  induction n with
  | zero =>
    intro i leaf _ _
    exact ⟨leaf, rfl⟩
  | succ n ih =>
    intro i leaf hrem hleaf
    unfold fillKeyBytes
    have h1 : 2 * i + offset < remainingNibbles.length := by omega
    have h2 : 2 * i + 1 + offset < remainingNibbles.length := by omega
    rw [getN_eq_ok.mpr (List.getElem?_eq_getElem h1),
      getN_eq_ok.mpr (List.getElem?_eq_getElem h2)]
    have hset : setB leaf (4 + (i : Int))
        ((remainingNibbles[2 * i + offset] * 16 + remainingNibbles[2 * i + 1 + offset]) % 256) =
        .ok (leaf.set (4 + i)
          ((remainingNibbles[2 * i + offset] * 16 + remainingNibbles[2 * i + 1 + offset]) %
            256)) := by
      unfold setB
      have hT : (4 + (i : Int)).toNat = 4 + i := by omega
      rw [if_neg (by omega), hT, if_pos (by omega)]
    obtain ⟨leaf', h⟩ := ih (i + 1) (leaf.set (4 + i)
      ((remainingNibbles[2 * i + offset] * 16 + remainingNibbles[2 * i + 1 + offset]) % 256))
      (by omega) (by rw [List.length_set]; omega)
    refine ⟨leaf', ?_⟩
    change (setB leaf (4 + (i : Int))
      ((remainingNibbles[2 * i + offset] * 16 + remainingNibbles[2 * i + 1 + offset]) % 256) >>=
      fun l => fillKeyBytes remainingNibbles offset n (i + 1) l) = .ok leaf'
    rw [hset]
    exact h

theorem fillKeyBytes_congr (rem rem' : Row) (offset : Nat) (n : Nat) :
    ∀ (i : Nat) (leaf : Row),
    (∀ p, p < 2 * (i + n) + offset → rem'[p]? = rem[p]?) →
    fillKeyBytes rem' offset n i leaf = fillKeyBytes rem offset n i leaf := by
  induction n with
  | zero =>
    intro i leaf _
    rfl
  | succ n ih =>
    intro i leaf hsame
    unfold fillKeyBytes
    have h1 : getN IndexSite.keyNibbles rem' (2 * i + offset) =
        getN IndexSite.keyNibbles rem (2 * i + offset) := by
      unfold getN
      rw [hsame _ (by omega)]
    have h2 : getN IndexSite.keyNibbles rem' (2 * i + 1 + offset) =
        getN IndexSite.keyNibbles rem (2 * i + 1 + offset) := by
      unfold getN
      rw [hsame _ (by omega)]
    rw [h1, h2]
    have hrec : ∀ l, fillKeyBytes rem' offset n (i + 1) l =
        fillKeyBytes rem offset n (i + 1) l :=
      fun l => ih (i + 1) l (fun p hp => hsame p (by omega))
    simp only [hrec]
theorem setB_eq_ok {row : Row} {i : Int} {v : Nat} (n : Nat) (hi : i = (n : Int))
    (h : n < row.length) : setB row i v = .ok (row.set n v) := by
  subst hi
  unfold setB
  rw [if_neg (by omega), Int.toNat_ofNat, if_pos h]

theorem setB_total (row : Row) (i : Int) (v : Nat) (h0 : 0 ≤ i) (h : i < row.length) :
    ∃ row', setB row i v = .ok row' ∧ row'.length = row.length := by
  refine ⟨row.set i.toNat v, ?_, List.length_set _ _ _⟩
  unfold setB
  rw [if_neg (by omega), if_pos (by omega)]

theorem syntheticAccountLeafHeader_total {rowLen kl : Nat} (h : kl + 7 ≤ rowLen) :
    ∃ leaf, syntheticAccountLeafHeader rowLen (kl : Int) = .ok leaf := by
  unfold syntheticAccountLeafHeader
  have n0 : (List.replicate rowLen 0 : Row).length = rowLen := List.length_replicate _ _
  obtain ⟨l0, h0, m0⟩ := setB_total (List.replicate rowLen 0) 0 248 (by omega) (by omega)
  obtain ⟨l1, h1, m1⟩ := setB_total l0 2 ((byteOfInt (kl : Int) + 128) % 256) (by omega)
    (by omega)
  obtain ⟨l2, h2, m2⟩ := setB_total l1 (3 + (kl : Int)) 184 (by omega) (by omega)
  obtain ⟨l3, h3, m3⟩ := setB_total l2 (3 + (kl : Int) + 1 + 1) 248 (by omega) (by omega)
  have hget : ∃ v, getI IndexSite.rowBuffer l3 (3 + (kl : Int) + 1) = .ok v := by
    unfold getI
    have e4 : (3 + (kl : Int) + 1).toNat = 3 + kl + 1 := by omega
    rw [if_neg (by omega), e4, List.getElem?_eq_getElem (by omega)]
    exact ⟨_, rfl⟩
  obtain ⟨v, hv⟩ := hget
  obtain ⟨l4, h4, _⟩ := setB_total l3 (3 + (kl : Int) + 1 + 1 + 1) ((v + 256 - 2) % 256)
    (by omega) (by omega)
  refine ⟨l4, ?_⟩
  simp only [h0, h1, h2, h3, hv, h4, bind, Except.bind]

theorem syntheticAccountLeaf_total {rowLen : Nat} {key : Row} {keyIndex : Nat}
    (hki : keyIndex ≤ 63) (hlen : key.length = 65)
    (hrow : (64 - keyIndex) / 2 + 1 + 7 ≤ rowLen) :
    ∃ leaf, syntheticAccountLeaf rowLen key keyIndex = .ok leaf := by
  obtain ⟨kl, hkl⟩ : ∃ kl : Nat, kl = (64 - keyIndex) / 2 + 1 := ⟨_, rfl⟩
  have hkey : placeholderKeyLen keyIndex = (kl : Int) := by
    rw [placeholderKeyLen_eq]; omega
  have hfill : ((kl : Int) - 1).toNat = kl - 1 := by omega
  obtain ⟨l4, hhead⟩ := @syntheticAccountLeafHeader_total rowLen kl
    (by omega)
  have n4 : l4.length = rowLen := (syntheticAccountLeafHeader_ok (by omega) (by omega) hhead).1
  have hslice : sliceFrom key keyIndex = .ok (key.drop keyIndex) := by
    unfold sliceFrom
    rw [if_pos (by omega)]
  have hremlen : (key.drop keyIndex).length = 65 - keyIndex := by
    rw [List.length_drop, hlen]
  unfold syntheticAccountLeaf
  rw [hkey, hslice]
  simp only [bind, Except.bind, hhead, hfill]
  split
  · rename_i hev
    have hev' : keyIndex % 2 = 0 := by simpa using hev
    obtain ⟨l5, h5, m5⟩ := setB_total l4 3 32 (by omega) (by omega)
    obtain ⟨leaf, hleaf⟩ := fillKeyBytes_total (key.drop keyIndex) 0 (kl - 1) 0 l5
      (by omega) (by omega)
    refine ⟨leaf, ?_⟩
    simp only [h5, hleaf]
  · have hb : 0 < (key.drop keyIndex).length := by omega
    have hfirst : getN IndexSite.keyNibbles (key.drop keyIndex) 0 =
        .ok (key.drop keyIndex)[0] :=
      getN_eq_ok.mpr (List.getElem?_eq_getElem hb)
    obtain ⟨l5, h5, m5⟩ := setB_total l4 3 (((key.drop keyIndex)[0] + 48) % 256)
      (by omega) (by omega)
    obtain ⟨leaf, hleaf⟩ := fillKeyBytes_total (key.drop keyIndex) 1 (kl - 1) 0 l5
      (by omega) (by omega)
    refine ⟨leaf, ?_⟩
    simp only [hfirst, h5, hleaf]
theorem drop_getElem?_getD {key : Row} {keyIndex j : Nat} (h : keyIndex + j < key.length) :
    (key.drop keyIndex)[j]? = some (key.getD (keyIndex + j) 0) := by
  rw [List.getElem?_drop, List.getD_eq_getElem?_getD, List.getElem?_eq_getElem h]
  rfl

theorem syntheticAccountLeaf_bytes {rowLen : Nat} {key leaf : Row} {keyIndex : Nat}
    (hki : keyIndex ≤ 63) (hlen : key.length = 65)
    (h : syntheticAccountLeaf rowLen key keyIndex = .ok leaf) :
    leaf.length = rowLen ∧ (64 - keyIndex) / 2 + 1 + 7 ≤ rowLen ∧
    leaf[3]? = some (if keyIndex % 2 = 0 then 32 else (key.getD keyIndex 0 + 48) % 256) ∧
    ∀ t, t < (64 - keyIndex) / 2 →
      leaf[4 + t]? = some ((key.getD (keyIndex + (2 * t + keyIndex % 2)) 0 * 16 +
        key.getD (keyIndex + (2 * t + 1 + keyIndex % 2)) 0) % 256) := by
  obtain ⟨kl, hkl⟩ : ∃ kl : Nat, kl = (64 - keyIndex) / 2 + 1 := ⟨_, rfl⟩
  have hkey : placeholderKeyLen keyIndex = (kl : Int) := by
    rw [placeholderKeyLen_eq]; omega
  have hfill : ((kl : Int) - 1).toNat = kl - 1 := by omega
  unfold syntheticAccountLeaf at h
  rw [hkey] at h
  obtain ⟨rem, hrem, h⟩ := except_bind_ok h
  obtain ⟨l4, hhead, h⟩ := except_bind_ok h
  obtain ⟨n4, _, _, _, _, _, q6⟩ := syntheticAccountLeafHeader_ok (by omega) (by omega) hhead
  have hrow : kl + 7 ≤ rowLen := by
    have hlt : 3 + kl + 3 < l4.length := by
      by_contra hcon
      rw [List.getElem?_eq_none (by omega)] at q6
      cases q6
    omega
  rw [hfill] at h
  have hremeq : rem = key.drop keyIndex := by
    unfold sliceFrom at hrem
    rw [if_pos (by omega)] at hrem
    cases hrem
    rfl
  subst hremeq
  have key_step : ∀ (b off : Nat) (l5 : Row), off = keyIndex % 2 → setB l4 3 b = .ok l5 →
      fillKeyBytes (key.drop keyIndex) off (kl - 1) 0 l5 = .ok leaf →
      leaf.length = rowLen ∧ leaf[3]? = some b ∧
      ∀ t, t < (64 - keyIndex) / 2 →
        leaf[4 + t]? = some ((key.getD (keyIndex + (2 * t + keyIndex % 2)) 0 * 16 +
          key.getD (keyIndex + (2 * t + 1 + keyIndex % 2)) 0) % 256) := by
    intro b off l5 hoff h6 hf
    obtain ⟨a6, b6⟩ := setB_nat_ok (n := 3) h6
    obtain ⟨hl, hp⟩ := fillKeyBytes_preserves (key.drop keyIndex) off _ 0 l5 leaf hf
    have n5 : l5.length = rowLen := by rw [b6, List.length_set, n4]
    refine ⟨by rw [hl, n5], ?_, ?_⟩
    · rw [hp 3 (by omega), b6]
      exact List.getElem?_set_self a6
    · intro t ht
      obtain ⟨hi, lo, hhi, hlo, hv⟩ :=
        fillKeyBytes_values (key.drop keyIndex) off _ 0 l5 leaf hf t (by omega)
      rw [Nat.zero_add] at hhi hlo hv
      rw [drop_getElem?_getD (by omega)] at hhi hlo
      cases hhi
      cases hlo
      rw [hv, hoff]
  split at h
  · rename_i hev
    have hev' : keyIndex % 2 = 0 := by simpa using hev
    obtain ⟨l5, h6, hf⟩ := except_bind_ok h
    obtain ⟨c1, c2, c3⟩ := key_step _ _ l5 hev'.symm h6 hf
    refine ⟨c1, by omega, ?_, c3⟩
    rw [c2, if_pos hev']
  · rename_i hev
    have hev' : keyIndex % 2 = 1 := by
      have : ¬ keyIndex % 2 = 0 := by simpa using hev
      omega
    obtain ⟨first, hfirst, h⟩ := except_bind_ok h
    obtain ⟨l5, h6, hf⟩ := except_bind_ok h
    obtain ⟨c1, c2, c3⟩ := key_step _ _ l5 hev'.symm h6 hf
    refine ⟨c1, by omega, ?_, c3⟩
    have hfi := getN_eq_ok.mp hfirst
    rw [drop_getElem?_getD (by omega)] at hfi
    cases hfi
    rw [c2, if_neg (by omega)]
    rfl

theorem syntheticAccountLeaf_terminator (rowLen : Nat) (key : Row) (keyIndex t : Nat)
    (hki : keyIndex ≤ 63) :
    syntheticAccountLeaf rowLen (key.set 64 t) keyIndex =
      syntheticAccountLeaf rowLen key keyIndex := by
  have hsame : ∀ p, p < 64 - keyIndex →
      ((key.set 64 t).drop keyIndex)[p]? = (key.drop keyIndex)[p]? := by
    intro p hp
    rw [List.getElem?_drop, List.getElem?_drop, List.getElem?_set_ne (by omega)]
  have hkl : (placeholderKeyLen keyIndex - 1).toNat = (64 - keyIndex) / 2 := by
    rw [placeholderKeyLen_eq]; omega
  unfold syntheticAccountLeaf sliceFrom
  rw [List.length_set]
  by_cases hle : keyIndex ≤ key.length
  · rw [if_pos hle, if_pos hle]
    simp only [bind, Except.bind, hkl]
    cases syntheticAccountLeafHeader rowLen (placeholderKeyLen keyIndex) with
    | error e => rfl
    | ok l4 =>
      simp only []
      by_cases hev : keyIndex % 2 = 0
      · have hb : (keyIndex % 2 == 0) = true := by simpa using hev
        simp only [hb, if_true]
        cases setB l4 3 32 with
        | error e => rfl
        | ok l5 =>
          exact fillKeyBytes_congr _ _ 0 _ 0 l5 (fun p hp => hsame p (by omega))
      · have hb : (keyIndex % 2 == 0) = false := by simpa using hev
        have hg : getN IndexSite.keyNibbles ((key.set 64 t).drop keyIndex) 0 =
            getN IndexSite.keyNibbles (key.drop keyIndex) 0 := by
          unfold getN
          rw [hsame 0 (by omega)]
        simp only [hb, hg]
        cases getN IndexSite.keyNibbles (key.drop keyIndex) 0 with
        | error e => rfl
        | ok first =>
          simp only []
          cases setB l4 3 ((first + 48) % 256) with
          | error e => rfl
          | ok l5 =>
            exact fillKeyBytes_congr _ _ 1 _ 0 l5 (fun p hp => hsame p (by omega))
  · rw [if_neg hle, if_neg hle]
theorem syntheticAccountLeaf_encoding {rowLen : Nat} {key leaf : Row} {keyIndex : Nat}
    (hki : keyIndex ≤ 63) (hlen : key.length = 65)
    (hnib : ∀ p, p < 64 → key.getD p 0 < 16)
    (h : syntheticAccountLeaf rowLen key keyIndex = .ok leaf) :
    (leaf.drop 3).take ((64 - keyIndex) / 2 + 1) =
      hexPrefixLeaf ((key.drop keyIndex).take (64 - keyIndex)) := by
  obtain ⟨hl, hrow, h3, hbytes⟩ := syntheticAccountLeaf_bytes hki hlen h
  obtain ⟨nib, hnibdef⟩ : ∃ nib, nib = (key.drop keyIndex).take (64 - keyIndex) := ⟨_, rfl⟩
  rw [← hnibdef]
  have hniblen : nib.length = 64 - keyIndex := by
    rw [hnibdef, List.length_take, List.length_drop, hlen]
    omega
  have hnibj : ∀ j, j < 64 - keyIndex → nib.getD j 0 = key.getD (keyIndex + j) 0 := by
    intro j hj
    rw [hnibdef, List.getD_eq_getElem?_getD, List.getElem?_take_of_lt hj,
      drop_getElem?_getD (by omega)]
    rfl
  have hbyte : ∀ a b, a < 64 → b < 64 →
      (key.getD a 0 * 16 + key.getD b 0) % 256 = key.getD a 0 * 16 + key.getD b 0 := by
    intro a b ha hb
    have := hnib a ha
    have := hnib b hb
    exact Nat.mod_eq_of_lt (by omega)
  have hlhs : ∀ n, ((leaf.drop 3).take ((64 - keyIndex) / 2 + 1))[n]? =
      if n < (64 - keyIndex) / 2 + 1 then leaf[3 + n]? else none := by
    intro n
    by_cases hn : n < (64 - keyIndex) / 2 + 1
    · rw [if_pos hn, List.getElem?_take_of_lt hn, List.getElem?_drop]
    · rw [if_neg hn, List.getElem?_eq_none]
      rw [List.length_take]
      omega
  apply List.ext_getElem?
  intro n
  rw [hlhs]
  by_cases hev : keyIndex % 2 = 0
  · have hhp : hexPrefixLeaf nib = 32 :: packNibbles nib := by
      unfold hexPrefixLeaf
      rw [if_pos (by omega)]
    rw [hhp]
    cases n with
    | zero =>
      rw [if_pos (by omega), h3, if_pos hev, List.getElem?_cons_zero]
    | succ t =>
      rw [List.getElem?_cons_succ, packNibbles_getElem?]
      by_cases ht : t < (64 - keyIndex) / 2
      · have e : 3 + (t + 1) = 4 + t := by omega
        rw [if_pos (by omega), if_pos (by omega), e, hbytes t ht, hev,
          hnibj _ (by omega), hnibj _ (by omega), hbyte _ _ (by omega) (by omega)]
        simp only [Nat.add_zero]
      · rw [if_neg (by omega), if_neg (by omega)]
  · cases hn : nib with
    | nil =>
      rw [hn] at hniblen
      simp only [List.length_nil] at hniblen
      omega
    | cons first rest =>
      have hhp : hexPrefixLeaf (first :: rest) = (48 + first) :: packNibbles rest := by
        have hodd : ¬ (first :: rest).length % 2 = 0 := by
          rw [← hn]
          omega
        unfold hexPrefixLeaf
        rw [if_neg hodd]
      rw [hhp]
      have hfirst : first = key.getD keyIndex 0 := by
        have := hnibj 0 (by omega)
        rw [hn] at this
        simpa using this
      have hrest : ∀ j, j + 1 < 64 - keyIndex →
          rest.getD j 0 = key.getD (keyIndex + (j + 1)) 0 := by
        intro j hj
        have := hnibj (j + 1) hj
        rw [hn, List.getD_cons_succ] at this
        exact this
      have hrestlen : rest.length = 63 - keyIndex := by
        rw [hn, List.length_cons] at hniblen
        omega
      cases n with
      | zero =>
        have hf := hnib keyIndex (by omega)
        rw [if_pos (by omega), h3, if_neg hev, hfirst, Nat.mod_eq_of_lt (by omega),
          Nat.add_comm, List.getElem?_cons_zero]
      | succ t =>
        rw [List.getElem?_cons_succ, packNibbles_getElem?]
        by_cases ht : t < (64 - keyIndex) / 2
        · have e : 3 + (t + 1) = 4 + t := by omega
          have hodd : keyIndex % 2 = 1 := by omega
          rw [if_pos (by omega), if_pos (by omega), e, hbytes t ht, hodd,
            hrest _ (by omega), hrest _ (by omega), hbyte _ _ (by omega) (by omega)]
        · rw [if_neg (by omega), if_neg (by omega)]
/-- C19. Synthetic account-leaf key encoding. For `keyIndex` in 0..63 and a
65-element key whose first 64 entries are nibbles, with
`keyLen = floor((64 - keyIndex) / 2) + 1`: the leaf is built whenever the row
buffer has room for the `keyLen + 7` header and key bytes; the `keyLen` bytes
`leaf[3 .. 3 + keyLen)` of the leaf are the hex-prefix (compact) leaf encoding of
the remaining nibbles `key[keyIndex .. 64)`: byte 3 is 32 when the remaining
count is even and `48 + key[keyIndex]` when it is odd, and byte `4 + t` is
`high * 16 + low` of the next pair of nibbles, a value below 256; the terminator
`key[64]` is not read, the leaf being the same whatever stands there; and in the
account branch-terminus case of a returning run this leaf is the one handed to
`prepareAccountLeaf`. -/
theorem syntheticAccountLeaf_key_encoding (E : Externals StateDB Address) (key : Row)
    (keyIndex : Nat) (hki : keyIndex ≤ 63) (hlen : key.length = 65)
    (hnib : ∀ p, p < 64 → key.getD p 0 < 16) :
    placeholderKeyLen keyIndex = (((64 - keyIndex) / 2 + 1 : Nat) : Int) ∧
    ((64 - keyIndex) / 2 + 1 + 7 ≤ E.rowLen →
      ∃ leaf, syntheticAccountLeaf E.rowLen key keyIndex = .ok leaf) ∧
    (∀ leaf, syntheticAccountLeaf E.rowLen key keyIndex = .ok leaf →
      (leaf.drop 3).take ((64 - keyIndex) / 2 + 1) =
        hexPrefixLeaf ((key.drop keyIndex).take (64 - keyIndex)) ∧
      leaf[3]? = some (if (64 - keyIndex) % 2 = 0 then 32 else 48 + key.getD keyIndex 0) ∧
      ∀ t, t < (64 - keyIndex) / 2 →
        leaf[4 + t]? = some (key.getD (keyIndex + (64 - keyIndex) % 2 + 2 * t) 0 * 16 +
          key.getD (keyIndex + (64 - keyIndex) % 2 + 2 * t + 1) 0) ∧
        key.getD (keyIndex + (64 - keyIndex) % 2 + 2 * t) 0 * 16 +
          key.getD (keyIndex + (64 - keyIndex) % 2 + 2 * t + 1) 0 < 256 ∧
        keyIndex + (64 - keyIndex) % 2 + 2 * t + 1 < 64) ∧
    (∀ t, syntheticAccountLeaf E.rowLen (key.set 64 t) keyIndex =
      syntheticAccountLeaf E.rowLen key keyIndex) ∧
    (∀ (statedb : StateDB) (addr : Address)
      (proof1 proof2 extNibblesS extNibblesC : Rows) (neighbourNode : Row)
      (nonExistingAccountProof nonExistingStorageProof isShorterProofLastLeaf : Bool)
      (lastC : Row) (out : Rows × Rows × Bool) (st : WalkState),
      proof1.length = proof2.length → proof2.getLast? = some lastC →
      E.isBranch lastC = true →
      (prepareWitness E statedb addr proof1 proof2 extNibblesS extNibblesC key
        neighbourNode true nonExistingAccountProof nonExistingStorageProof
        isShorterProofLastLeaf).res = .ok out →
      (walk E proof1 proof2 extNibblesS key true nonExistingAccountProof false).res = .ok st →
      st.keyIndex = keyIndex →
      ∃ leaf, syntheticAccountLeaf E.rowLen key keyIndex = .ok leaf ∧
        (prepareWitness E statedb addr proof1 proof2 extNibblesS extNibblesC key neighbourNode
          true nonExistingAccountProof nonExistingStorageProof isShorterProofLastLeaf).trace =
        (walk E proof1 proof2 extNibblesS key true nonExistingAccountProof false).trace ++
          [.prepareAccountLeaf leaf leaf key nonExistingAccountProof true]) := by
  refine ⟨?_, ?_, ?_, ?_, ?_⟩
  · rw [placeholderKeyLen_eq]
    omega
  · intro hrow
    exact syntheticAccountLeaf_total hki hlen hrow
  · intro leaf h
    obtain ⟨_, _, h3, hbytes⟩ := syntheticAccountLeaf_bytes hki hlen h
    have hpar : (64 - keyIndex) % 2 = keyIndex % 2 := by omega
    refine ⟨syntheticAccountLeaf_encoding hki hlen hnib h, ?_, ?_⟩
    · rw [h3]
      by_cases hev : keyIndex % 2 = 0
      · rw [if_pos hev, if_pos (by omega)]
      · have hf := hnib keyIndex (by omega)
        rw [if_neg hev, if_neg (by omega), Nat.mod_eq_of_lt (by omega), Nat.add_comm]
    · intro t ht
      have ha := hnib (keyIndex + (64 - keyIndex) % 2 + 2 * t) (by omega)
      have hb := hnib (keyIndex + (64 - keyIndex) % 2 + 2 * t + 1) (by omega)
      refine ⟨?_, by omega, by omega⟩
      have e1 : keyIndex + (2 * t + keyIndex % 2) = keyIndex + (64 - keyIndex) % 2 + 2 * t := by
        omega
      have e2 : keyIndex + (2 * t + 1 + keyIndex % 2) =
          keyIndex + (64 - keyIndex) % 2 + 2 * t + 1 := by omega
      rw [hbytes t ht, e1, e2, Nat.mod_eq_of_lt (by omega)]
  · intro t
    exact syntheticAccountLeaf_terminator E.rowLen key keyIndex t hki
  · intro statedb addr proof1 proof2 extNibblesS extNibblesC neighbourNode
      nonExistingAccountProof nonExistingStorageProof isShorterProofLastLeaf lastC out st
      hlen' hlastC hbr hret hwalk hkeyIndex
    obtain ⟨ab, st', tl, hab, hst, htl, htr, _⟩ := prepareWitness_ok E statedb addr proof1
      proof2 extNibblesS extNibblesC key neighbourNode true nonExistingAccountProof
      nonExistingStorageProof isShorterProofLastLeaf out hret
    rw [additionalBranchOf_equal_length E _ _ hlen'] at hab
    cases hab
    rw [hwalk] at hst
    cases hst
    rw [tailOf_equal_branch E statedb addr proof1 proof2 extNibblesS extNibblesC key
      neighbourNode true nonExistingAccountProof nonExistingStorageProof isShorterProofLastLeaf
      false st lastC hlen' hlastC hbr] at htl htr
    simp only [if_true] at htl htr
    obtain ⟨leaf, leafRows, hleaf, _, htr', _⟩ :=
      tailBranchAccount_ok E key nonExistingAccountProof st tl htl
    rw [htr'] at htr
    rw [hkeyIndex] at hleaf
    exact ⟨leaf, hleaf, htr⟩

/-- C19 at a concrete branch terminus: below a two-nibble extension node and a
branch (`keyIndex = 3`, `keyLen = 31`) the leaf handed to `prepareAccountLeaf`
carries `49, 17, ..., 17`, the compact encoding of the 61 remaining nibbles. -/
theorem syntheticAccountLeaf_key_encoding_witness :
    ∃ leaf, syntheticAccountLeaf 68 Fixture.key 3 = .ok leaf ∧
      (leaf.drop 3).take 31 = hexPrefixLeaf ((Fixture.key.drop 3).take 61) ∧
      hexPrefixLeaf ((Fixture.key.drop 3).take 61) = 49 :: List.replicate 30 17 ∧
      syntheticAccountLeaf 68 (Fixture.key.set 64 0) 3 = .ok leaf ∧
      (prepareWitness Fixture.externals () () Fixture.extTerminus Fixture.extTerminus [[1, 1]] []
        Fixture.key [] true false false false).trace =
        (walk Fixture.externals Fixture.extTerminus Fixture.extTerminus [[1, 1]] Fixture.key true
          false false).trace ++ [.prepareAccountLeaf leaf leaf Fixture.key false true] := by
  have hok : (prepareWitness Fixture.externals () () Fixture.extTerminus Fixture.extTerminus
      [[1, 1]] [] Fixture.key [] true false false false).res.toBool = true := by decide
  obtain ⟨out, hout⟩ := exists_ok_of_toBool hok
  have hwok : (walk Fixture.externals Fixture.extTerminus Fixture.extTerminus [[1, 1]]
      Fixture.key true false false).res.toBool = true := by decide
  obtain ⟨st, hst⟩ := exists_ok_of_toBool hwok
  have hki : st.keyIndex = 3 := by
    have h1 : ((walk Fixture.externals Fixture.extTerminus Fixture.extTerminus [[1, 1]]
        Fixture.key true false false).res.map fun s => s.keyIndex) = .ok 3 := by decide
    rw [hst] at h1
    simp only [Except.map, Except.ok.injEq] at h1
    exact h1
  have hnib : ∀ p, p < 64 → Fixture.key.getD p 0 < 16 := by
    intro p hp
    unfold Fixture.key
    rw [List.getD_eq_getElem?_getD, List.getElem?_append_left (by simpa using hp),
      List.getElem?_replicate, if_pos hp]
    decide
  obtain ⟨_, _, henc, hterm, hrun⟩ := syntheticAccountLeaf_key_encoding Fixture.externals
    Fixture.key 3 (by decide) (by decide) hnib
  obtain ⟨leaf, hleaf, htr⟩ := hrun () () Fixture.extTerminus Fixture.extTerminus [[1, 1]] []
    [] false false false (Fixture.branchOf 7) out st rfl rfl rfl hout hst hki
  refine ⟨leaf, hleaf, (henc leaf hleaf).1, by decide, ?_, htr⟩
  have := hterm 0
  rw [hleaf] at this
  exact this

theorem walk_no_placeholderEntry (E : Externals StateDB Address)
    (proof1 proof2 extNibblesS : Rows) (key : Row)
    (isAccountProof nonExistingAccountProof additionalBranch : Bool) :
    ∀ e ∈ (walk E proof1 proof2 extNibblesS key isAccountProof nonExistingAccountProof
      additionalBranch).trace, e.placeholderEntry? = none := by
  intro e he
  have h := (walkFrom_walkEvents E proof1 proof2 extNibblesS key isAccountProof
    nonExistingAccountProof _ 0 initialState).1 e he
  cases e <;> first | rfl | exact h.elim

theorem tailOf_no_placeholderEntry (E : Externals StateDB Address) (statedb : StateDB)
    (addr : Address) (proof1 proof2 extNibblesS extNibblesC : Rows) (key neighbourNode : Row)
    (isAccountProof nonExistingAccountProof nonExistingStorageProof
      isShorterProofLastLeaf : Bool) (st : WalkState) :
    (tailOf E statedb addr proof1 proof2 extNibblesS extNibblesC key neighbourNode isAccountProof
      nonExistingAccountProof nonExistingStorageProof isShorterProofLastLeaf false st).Sat
      (fun e => e.placeholderEntry? = none) (fun _ => True) := by
  unfold tailOf tailUnequal tailEqual tailBranchStorage tailBranchAccount tailLeaf
  simp only [Bool.false_eq_true, if_false]
  repeat (first
    | exact Run.sat_pure trivial
    | exact Run.sat_callExt rfl (fun _ _ => trivial)
    | refine Run.sat_bind (Q := fun _ => True) (Run.sat_liftE (fun _ _ => trivial)) (fun _ _ => ?_)
    | refine Run.sat_bind (Q := fun _ => True) (Run.sat_callExt rfl (fun _ _ => trivial))
        (fun _ _ => ?_)
    | split)

theorem addBranchExtensionPart_no_placeholderEntry (E : Externals StateDB Address)
    (proof1 proof2 extNibblesS extNibblesC : Rows) (extensionNodeInd branchC16 branchC1 : Nat)
    (toBeHashed : Rows) :
    (addBranchExtensionPart E proof1 proof2 extNibblesS extNibblesC extensionNodeInd branchC16
      branchC1 toBeHashed).trace.filterMap Event.placeholderEntry? = [] := by
  refine filterMap_eq_nil_of_forall (fun e he => ?_)
  have h := (addBranchExtensionPart_events E proof1 proof2 extNibblesS extNibblesC
    extensionNodeInd branchC16 branchC1 toBeHashed).1 e he
  cases e <;> first | rfl | exact h.elim

/-- C20. Implicit: the modified-extension-node flag where `prepareWitness`
calls `addBranchAndPlaceholder`. The flag `additionalBranch` is always computed,
and it holds exactly when the lengths differ and the shorter proof is non-empty
with a non-branch last element. On a returning run of `prepareWitness`:
`addBranchAndPlaceholder` is entered once when `additionalBranch` holds and not
at all otherwise; when it is entered, it returns with `isModifiedExtNode` equal
to `!isShorterProofLastLeaf`; and `addModifiedExtNode` is called once when the
lengths differ, the shorter proof is non-empty with a non-branch last element
and `isShorterProofLastLeaf` is false, and is not called otherwise. -/
theorem addModifiedExtNode_call_condition (E : Externals StateDB Address) (statedb : StateDB)
    (addr : Address) (proof1 proof2 extNibblesS extNibblesC : Rows) (key neighbourNode : Row)
    (isAccountProof nonExistingAccountProof nonExistingStorageProof
      isShorterProofLastLeaf : Bool) (out : Rows × Rows × Bool)
    (hret : (prepareWitness E statedb addr proof1 proof2 extNibblesS extNibblesC key
      neighbourNode isAccountProof nonExistingAccountProof nonExistingStorageProof
      isShorterProofLastLeaf).res = .ok out) :
    (∃ ab, additionalBranchOf E proof1 proof2 = .ok ab ∧
      (ab = true ↔ proof1.length ≠ proof2.length ∧
        ∃ last, (shorterProof proof1 proof2).getLast? = some last ∧ E.isBranch last = false) ∧
      (prepareWitness E statedb addr proof1 proof2 extNibblesS extNibblesC key neighbourNode
        isAccountProof nonExistingAccountProof nonExistingStorageProof
        isShorterProofLastLeaf).trace.filterMap Event.placeholderEntry? =
        if ab then [()] else []) ∧
    (additionalBranchOf E proof1 proof2 = .ok true →
      ∃ (st : WalkState) (r : BranchPlaceholderResult),
        (walk E proof1 proof2 extNibblesS key isAccountProof nonExistingAccountProof
          true).res = .ok st ∧
        (addBranchAndPlaceholder E statedb addr st.rows proof1 proof2 extNibblesS extNibblesC
          key neighbourNode st.keyIndex st.extensionNodeInd true isAccountProof
          nonExistingAccountProof isShorterProofLastLeaf st.branchC16 st.branchC1
          st.toBeHashed).res = .ok r ∧
        r.isModifiedExtNode = !isShorterProofLastLeaf) ∧
    ((proof1.length ≠ proof2.length ∧
        (∃ last, (shorterProof proof1 proof2).getLast? = some last ∧ E.isBranch last = false) ∧
        isShorterProofLastLeaf = false) →
      (prepareWitness E statedb addr proof1 proof2 extNibblesS extNibblesC key neighbourNode
        isAccountProof nonExistingAccountProof nonExistingStorageProof
        isShorterProofLastLeaf).trace.filterMap Event.modifiedExtNode? = [()]) ∧
    (¬ (proof1.length ≠ proof2.length ∧
        (∃ last, (shorterProof proof1 proof2).getLast? = some last ∧ E.isBranch last = false) ∧
        isShorterProofLastLeaf = false) →
      (prepareWitness E statedb addr proof1 proof2 extNibblesS extNibblesC key neighbourNode
        isAccountProof nonExistingAccountProof nonExistingStorageProof
        isShorterProofLastLeaf).trace.filterMap Event.modifiedExtNode? = []) := by
  obtain ⟨ab, st, tl, hab, hst, htl, htr, _⟩ := prepareWitness_ok E statedb addr proof1 proof2
    extNibblesS extNibblesC key neighbourNode isAccountProof nonExistingAccountProof
    nonExistingStorageProof isShorterProofLastLeaf out hret
  obtain ⟨ab', hab', hiff⟩ := additionalBranchOf_spec E proof1 proof2
  rw [hab] at hab'
  cases hab'
  have hwalkM := filterMap_eq_nil_of_forall (walk_no_modifiedExtNode E proof1 proof2
    extNibblesS key isAccountProof nonExistingAccountProof ab)
  have hwalkP := filterMap_eq_nil_of_forall (walk_no_placeholderEntry E proof1 proof2
    extNibblesS key isAccountProof nonExistingAccountProof ab)
  cases ab with
  | false =>
    have hno : ¬ (proof1.length ≠ proof2.length ∧
        ∃ last, (shorterProof proof1 proof2).getLast? = some last ∧ E.isBranch last = false) :=
      fun hc => Bool.noConfusion (hiff.mpr hc)
    have hM : (prepareWitness E statedb addr proof1 proof2 extNibblesS extNibblesC key
        neighbourNode isAccountProof nonExistingAccountProof nonExistingStorageProof
        isShorterProofLastLeaf).trace.filterMap Event.modifiedExtNode? = [] := by
      rw [htr, List.filterMap_append, hwalkM]
      exact filterMap_eq_nil_of_forall (tailOf_no_modifiedExtNode E statedb addr proof1 proof2
        extNibblesS extNibblesC key neighbourNode isAccountProof nonExistingAccountProof
        nonExistingStorageProof isShorterProofLastLeaf st).1
    refine ⟨⟨false, hab, hiff, ?_⟩, ?_, ?_, ?_⟩
    · rw [htr, List.filterMap_append, hwalkP]
      exact filterMap_eq_nil_of_forall (tailOf_no_placeholderEntry E statedb addr proof1 proof2
        extNibblesS extNibblesC key neighbourNode isAccountProof nonExistingAccountProof
        nonExistingStorageProof isShorterProofLastLeaf st).1
    · intro htrue
      rw [hab] at htrue
      cases htrue
    · rintro ⟨hne, hlast, _⟩
      exact absurd ⟨hne, hlast⟩ hno
    · intro _
      exact hM
  | true =>
    obtain ⟨hne, last, hlast, hnb⟩ := hiff.mp rfl
    obtain ⟨_, htail⟩ := tailOf_additional E statedb addr proof1 proof2 extNibblesS extNibblesC
      key neighbourNode isAccountProof nonExistingAccountProof nonExistingStorageProof
      isShorterProofLastLeaf st hab
    rw [htail] at htl htr
    obtain ⟨r, l, hr, _, _, htr'⟩ := tailUnequal_ok E statedb addr proof1 proof2 extNibblesS
      extNibblesC key neighbourNode isAccountProof nonExistingAccountProof
      isShorterProofLastLeaf st tl htl
    obtain ⟨p, longExtNode, branch, nibble, pb, _, hl, _, _, _, htrP, hrdef⟩ :=
      addBranchAndPlaceholder_ok E statedb addr st.rows proof1 proof2 extNibblesS extNibblesC key
        neighbourNode st.keyIndex st.extensionNodeInd true isAccountProof
        nonExistingAccountProof isShorterProofLastLeaf st.branchC16 st.branchC1 st.toBeHashed r
        hr
    have hlong : (shorterProof proof1 proof2).getLast? = some longExtNode := by
      unfold shorterProof
      by_cases hgt : proof1.length > proof2.length
      · rw [if_pos hgt] at hl
        rw [if_neg (by omega)]
        exact getI_last_ok hl
      · rw [if_neg hgt] at hl
        rw [if_pos (by omega)]
        exact getI_last_ok hl
    rw [hlast] at hlong
    cases hlong
    have hmod : r.isModifiedExtNode = !isShorterProofLastLeaf := by
      rw [hrdef]
      simp only [hnb, Bool.not_false, Bool.true_and]
    have habpM := filterMap_eq_nil_of_forall (addBranchAndPlaceholder_no_modifiedExtNode E
      statedb addr st.rows proof1 proof2 extNibblesS extNibblesC key neighbourNode st.keyIndex
      st.extensionNodeInd true isAccountProof nonExistingAccountProof isShorterProofLastLeaf
      st.branchC16 st.branchC1 st.toBeHashed).1
    have hM : (prepareWitness E statedb addr proof1 proof2 extNibblesS extNibblesC key
        neighbourNode isAccountProof nonExistingAccountProof nonExistingStorageProof
        isShorterProofLastLeaf).trace.filterMap Event.modifiedExtNode? =
        if isShorterProofLastLeaf then [] else [()] := by
      rw [htr, htr', List.filterMap_append, List.filterMap_append, List.filterMap_append, hwalkM,
        habpM, hmod]
      cases isAccountProof <;> cases isShorterProofLastLeaf <;> rfl
    refine ⟨⟨true, hab, hiff, ?_⟩, ?_, ?_, ?_⟩
    · have hext := addBranchExtensionPart_no_placeholderEntry E proof1 proof2 extNibblesS
        extNibblesC st.extensionNodeInd st.branchC16 st.branchC1 st.toBeHashed
      rw [htr, htr', htrP, List.filterMap_append, List.filterMap_append, List.filterMap_append,
        hwalkP, List.filterMap_cons, List.filterMap_append, hext]
      cases isAccountProof <;> cases r.isModifiedExtNode <;> rfl
    · intro _
      exact ⟨st, r, hst, hr, hmod⟩
    · rintro ⟨_, _, hfalse⟩
      rw [hM, hfalse]
      rfl
    · intro hnot
      have hleaf : isShorterProofLastLeaf = true := by
        cases hs : isShorterProofLastLeaf with
        | true => rfl
        | false => exact absurd ⟨hne, ⟨last, hlast, hnb⟩, hs⟩ hnot
      rw [hM, hleaf]
      rfl
/-- C20 at a concrete modified extension node: `proof1` stops at an extension
node, `proof2` adds a branch and a leaf, and `isShorterProofLastLeaf` is false.
The run returns, `addBranchAndPlaceholder` is entered once and returns
`isModifiedExtNode = true`, and `addModifiedExtNode` is called once. -/
theorem addModifiedExtNode_call_condition_witness :
    (∃ (st : WalkState) (r : BranchPlaceholderResult),
      (walk Fixture.externals Fixture.modifiedS Fixture.modifiedC [] Fixture.key false false
        true).res = .ok st ∧
      (addBranchAndPlaceholder Fixture.externals () () st.rows Fixture.modifiedS
        Fixture.modifiedC [] [] Fixture.key [] st.keyIndex st.extensionNodeInd true false false
        false st.branchC16 st.branchC1 st.toBeHashed).res = .ok r ∧
      r.isModifiedExtNode = true) ∧
    (prepareWitness Fixture.externals () () Fixture.modifiedS Fixture.modifiedC [] []
      Fixture.key [] false false false false).trace.filterMap Event.placeholderEntry? = [()] ∧
    (prepareWitness Fixture.externals () () Fixture.modifiedS Fixture.modifiedC [] []
      Fixture.key [] false false false false).trace.filterMap Event.modifiedExtNode? = [()] := by
  have hok : (prepareWitness Fixture.externals () () Fixture.modifiedS Fixture.modifiedC [] []
      Fixture.key [] false false false false).res.toBool = true := by decide
  obtain ⟨out, hout⟩ := exists_ok_of_toBool hok
  obtain ⟨⟨ab, hab, _, hentry⟩, hflag, hcall, _⟩ := addModifiedExtNode_call_condition
    Fixture.externals () () Fixture.modifiedS Fixture.modifiedC [] [] Fixture.key [] false false
    false false out hout
  have habt : additionalBranchOf Fixture.externals Fixture.modifiedS Fixture.modifiedC =
      .ok true := rfl
  rw [habt] at hab
  cases hab
  obtain ⟨st, r, hst, hr, hmod⟩ := hflag habt
  exact ⟨⟨st, r, hst, hr, hmod⟩, hentry,
    hcall ⟨by decide, ⟨Fixture.longEvenExt, by decide, by decide⟩, rfl⟩⟩

theorem Run.proofSafe_bind {α β : Type} {m : Run α} {f : α → Run β}
    (hm : m.ProofIndexSafe) (hf : ∀ a, m.res = .ok a → (f a).ProofIndexSafe) :
    (m >>= f).ProofIndexSafe := by
  intro h
  rcases Run.bind_res_error h with h1 | ⟨a, ha, h2⟩
  · exact hm h1
  · exact hf a ha h2

theorem Run.proofSafe_pure {α : Type} {a : α} : (Run.pure a).ProofIndexSafe := by
  intro h
  cases h

theorem Run.proofSafe_liftE {α : Type} {r : Except Fault α} (h : ProofIndexSafeStep r) :
    (liftE r).ProofIndexSafe := h

theorem Run.proofSafe_emit {e : Event} : (emit e).ProofIndexSafe := by
  intro h
  cases h

theorem Run.proofSafe_emitIf {b : Bool} {e : Event} : (emitIf b e).ProofIndexSafe := by
  unfold emitIf
  split
  · exact Run.proofSafe_emit
  · exact Run.proofSafe_pure

theorem Run.proofSafe_callExt {α : Type} {e : Event} {r : Option α} :
    (callExt e r).ProofIndexSafe := by
  intro h
  cases r with
  | none => simp [callExt] at h
  | some a => simp [callExt] at h

theorem safeStep_bind {α β : Type} {x : Except Fault α} {f : α → Except Fault β}
    (hx : ProofIndexSafeStep x) (hf : ∀ a, x = .ok a → ProofIndexSafeStep (f a)) :
    ProofIndexSafeStep (x >>= f) := by
  intro h
  rcases except_bind_error h with h1 | ⟨a, ha, h2⟩
  · exact hx h1
  · exact hf a ha h2

theorem safeStep_ok {α : Type} {a : α} : ProofIndexSafeStep (.ok a : Except Fault α) := by
  intro h
  cases h

theorem safeStep_fault {α : Type} {e : Fault} (h : e ≠ .indexOutOfRange .proofList) :
    ProofIndexSafeStep (.error e : Except Fault α) := by
  intro h'
  cases h'
  exact h rfl

theorem safeStep_getI_inRange {α : Type} {site : IndexSite} {xs : List α} {i : Int}
    (h0 : 0 ≤ i) (h : i < xs.length) : ProofIndexSafeStep (getI site xs i) := by
  unfold getI
  rw [if_neg (by omega), List.getElem?_eq_getElem (by omega)]
  exact safeStep_ok

theorem safeStep_getN_inRange {α : Type} {site : IndexSite} {xs : List α} {i : Nat}
    (h : i < xs.length) : ProofIndexSafeStep (getN site xs i) := by
  unfold getN
  rw [List.getElem?_eq_getElem h]
  exact safeStep_ok

theorem safeStep_getI_other {α : Type} {site : IndexSite} {xs : List α} {i : Int}
    (hs : site ≠ .proofList) : ProofIndexSafeStep (getI site xs i) := by
  have hf : Fault.indexOutOfRange site ≠ .indexOutOfRange .proofList := by
    intro h
    cases h
    exact hs rfl
  unfold getI
  split
  · exact safeStep_fault hf
  · split
    · exact safeStep_ok
    · exact safeStep_fault hf

theorem safeStep_getN_other {α : Type} {site : IndexSite} {xs : List α} {i : Nat}
    (hs : site ≠ .proofList) : ProofIndexSafeStep (getN site xs i) := by
  have hf : Fault.indexOutOfRange site ≠ .indexOutOfRange .proofList := by
    intro h
    cases h
    exact hs rfl
  unfold getN
  split
  · exact safeStep_ok
  · exact safeStep_fault hf

theorem safeStep_setB {row : Row} {i : Int} {v : Nat} : ProofIndexSafeStep (setB row i v) := by
  unfold setB
  repeat (first | exact safeStep_ok | exact safeStep_fault (by decide) | split)

theorem safeStep_setRowByte {rows : Rows} {r pos v : Nat} :
    ProofIndexSafeStep (setRowByte rows r pos v) := by
  unfold setRowByte
  repeat (first | exact safeStep_ok | exact safeStep_fault (by decide) | split)

theorem safeStep_sliceFrom {key : Row} {start : Nat} :
    ProofIndexSafeStep (sliceFrom key start) := by
  unfold sliceFrom
  repeat (first | exact safeStep_ok | exact safeStep_fault (by decide) | split)

theorem safeStep_ite {α : Type} {c : Prop} [Decidable c] {x y : Except Fault α}
    (hx : c → ProofIndexSafeStep x) (hy : ¬ c → ProofIndexSafeStep y) :
    ProofIndexSafeStep (if c then x else y) := by
  split
  · exact hx ‹_›
  · exact hy ‹_›

theorem safeStep_switchC16 (E : Externals StateDB Address) (proof1 : Rows) (i : Nat)
    (stash : Option (Row × Row)) (h : stash.isSome = true → 0 < i ∧ i ≤ proof1.length) :
    ProofIndexSafeStep (switchC16 E proof1 i stash) := by
  unfold switchC16
  cases stash with
  | none => exact safeStep_ok
  | some x =>
    obtain ⟨h0, h1⟩ := h rfl
    simp only []
    refine safeStep_bind (safeStep_getI_inRange (by omega) (by omega)) (fun _ _ => ?_)
    split
    · exact safeStep_ok
    · refine safeStep_bind (safeStep_getN_other (by decide)) (fun _ _ => ?_)
      split
      · exact safeStep_ok
      · exact safeStep_ok

theorem safeStep_setExtensionFlags (E : Externals StateDB Address) (proof1 proof2 : Rows)
    (i branchC16 : Nat) (bRows : Rows) (h0 : 0 < i) (h1 : i ≤ proof1.length)
    (h2 : i ≤ proof2.length) :
    ProofIndexSafeStep (setExtensionFlags E proof1 proof2 i branchC16 bRows) := by
  unfold setExtensionFlags
  repeat (first
    | exact safeStep_ok
    | exact safeStep_setRowByte
    | refine safeStep_bind (safeStep_getI_inRange (by omega) (by omega)) (fun _ _ => ?_)
    | refine safeStep_bind (safeStep_getN_other (by decide)) (fun _ _ => ?_)
    | refine safeStep_bind safeStep_setRowByte (fun _ _ => ?_)
    | refine safeStep_bind ?_ (fun _ _ => ?_)
    | split)

theorem safeStep_attachExtension (E : Externals StateDB Address) (proof1 proof2 : Rows)
    (i branchC16 : Nat) (stash : Option (Row × Row)) (bRows toBeHashed : Rows)
    (h : stash.isSome = true → 0 < i ∧ i ≤ proof1.length ∧ i ≤ proof2.length) :
    ProofIndexSafeStep (attachExtension E proof1 proof2 i branchC16 stash bRows toBeHashed) := by
  unfold attachExtension
  cases stash with
  | none => exact safeStep_ok
  | some x =>
    obtain ⟨h0, h1, h2⟩ := h rfl
    simp only []
    refine safeStep_bind (safeStep_setExtensionFlags E _ _ _ _ _ h0 h1 h2) (fun _ _ => ?_)
    refine safeStep_bind (safeStep_getI_inRange (by omega) (by omega)) (fun _ _ => ?_)
    refine safeStep_bind (safeStep_getI_inRange (by omega) (by omega)) (fun _ _ => ?_)
    exact safeStep_ok

theorem safeStep_checkRowBytes (branch2start : Nat) (row : Row) (n : Nat) :
    ∀ j, ProofIndexSafeStep (checkRowBytes branch2start row n j) := by
  induction n with
  | zero =>
    intro j
    exact safeStep_ok
  | succ n ih =>
    intro j
    unfold checkRowBytes
    refine safeStep_bind (safeStep_getN_other (by decide)) (fun _ _ => ?_)
    refine safeStep_bind (safeStep_getN_other (by decide)) (fun _ _ => ?_)
    split
    · exact safeStep_fault (by decide)
    · exact ih _

theorem safeStep_checkBranches (branchNodeRLPLen branch2start : Nat) (key : Row) (i : Nat)
    (bRows : Rows) (n : Nat) :
    ∀ k, ProofIndexSafeStep (checkBranches branchNodeRLPLen branch2start key i bRows n k) := by
  induction n with
  | zero =>
    intro k
    exact safeStep_ok
  | succ n ih =>
    intro k
    unfold checkBranches
    refine safeStep_bind (safeStep_getN_other (by decide)) (fun _ _ => ?_)
    split
    · exact ih _
    · refine safeStep_bind (safeStep_getN_other (by decide)) (fun _ _ => ?_)
      refine safeStep_bind (safeStep_checkRowBytes _ _ _ _) (fun _ _ => ?_)
      exact ih _
theorem walkExtension_proofSafe (E : Externals StateDB Address)
    (proof1 proof2 extNibblesS : Rows) (i : Nat) (st : WalkState)
    (h1 : i < proof1.length) (h2 : i < proof2.length) :
    (walkExtension E proof1 proof2 extNibblesS i st).ProofIndexSafe := by
  unfold walkExtension
  refine Run.proofSafe_bind (Run.proofSafe_liftE (safeStep_getN_inRange h1)) (fun _ _ => ?_)
  refine Run.proofSafe_bind (Run.proofSafe_liftE (safeStep_getN_inRange h2)) (fun _ _ => ?_)
  refine Run.proofSafe_bind Run.proofSafe_callExt (fun _ _ => ?_)
  exact Run.proofSafe_pure

theorem walkLeaf_proofSafe (E : Externals StateDB Address) (proof1 proof2 : Rows) (key : Row)
    (isAccountProof nonExistingAccountProof : Bool) (i : Nat) (st : WalkState)
    (h1 : i + 1 = proof1.length) (h2 : i < proof2.length) :
    (walkLeaf E proof1 proof2 key isAccountProof nonExistingAccountProof i st).ProofIndexSafe := by
  unfold walkLeaf
  split
  · refine Run.proofSafe_bind
      (Run.proofSafe_liftE (safeStep_getI_inRange (by omega) (by omega))) (fun _ _ => ?_)
    refine Run.proofSafe_bind
      (Run.proofSafe_liftE (safeStep_getI_inRange (by omega) (by omega))) (fun _ _ => ?_)
    refine Run.proofSafe_bind Run.proofSafe_callExt (fun _ _ => ?_)
    exact Run.proofSafe_pure
  · refine Run.proofSafe_bind
      (Run.proofSafe_liftE (safeStep_getN_inRange (by omega))) (fun _ _ => ?_)
    refine Run.proofSafe_bind Run.proofSafe_callExt (fun _ _ => ?_)
    refine Run.proofSafe_bind (Run.proofSafe_liftE (safeStep_getN_inRange h2)) (fun _ _ => ?_)
    refine Run.proofSafe_bind Run.proofSafe_callExt (fun _ _ => ?_)
    exact Run.proofSafe_pure

theorem walkBranch_proofSafe (E : Externals StateDB Address) (proof1 proof2 : Rows) (key : Row)
    (i : Nat) (st : WalkState) (h1 : i < proof1.length) (h2 : i < proof2.length)
    (hstash : st.extensionRows.isSome = true → 0 < i) :
    (walkBranch E proof1 proof2 key i st).ProofIndexSafe := by
  unfold walkBranch
  refine Run.proofSafe_bind (Run.proofSafe_liftE (safeStep_switchC16 E proof1 i _
    (fun hs => ⟨hstash hs, by omega⟩))) (fun _ _ => ?_)
  refine Run.proofSafe_bind Run.proofSafe_emitIf (fun _ _ => ?_)
  refine Run.proofSafe_bind (Run.proofSafe_liftE (safeStep_getN_inRange h1)) (fun _ _ => ?_)
  refine Run.proofSafe_bind (Run.proofSafe_liftE (safeStep_getN_inRange h2)) (fun _ _ => ?_)
  refine Run.proofSafe_bind (Run.proofSafe_liftE (safeStep_getN_other (by decide)))
    (fun _ _ => ?_)
  refine Run.proofSafe_bind Run.proofSafe_callExt (fun _ _ => ?_)
  refine Run.proofSafe_bind (Run.proofSafe_liftE (safeStep_attachExtension E proof1 proof2 i _
    _ _ _ (fun hs => ⟨hstash hs, by omega, by omega⟩))) (fun _ _ => ?_)
  refine Run.proofSafe_bind Run.proofSafe_emit (fun _ _ => ?_)
  refine Run.proofSafe_bind (Run.proofSafe_liftE (safeStep_ite
    (fun _ => safeStep_checkBranches _ _ _ _ _ _ _) (fun _ => safeStep_ok))) (fun _ _ => ?_)
  exact Run.proofSafe_pure

theorem walkStep_proofSafe (E : Externals StateDB Address) (proof1 proof2 extNibblesS : Rows)
    (key : Row) (isAccountProof nonExistingAccountProof : Bool) (i : Nat) (st : WalkState)
    (h1 : i < proof1.length) (h2 : i < proof2.length)
    (hstash : st.extensionRows.isSome = true → 0 < i) :
    (walkStep E proof1 proof2 extNibblesS key isAccountProof nonExistingAccountProof i
      st).ProofIndexSafe := by
  unfold walkStep
  refine Run.proofSafe_bind (Run.proofSafe_liftE (safeStep_getN_inRange h1)) (fun _ _ => ?_)
  split
  · split
    · exact walkExtension_proofSafe E proof1 proof2 extNibblesS i st h1 h2
    · rename_i hlast
      exact walkLeaf_proofSafe E proof1 proof2 key isAccountProof nonExistingAccountProof i st
        (by
          have : (i : Int) = (proof1.length : Int) - 1 := not_not.mp hlast
          omega) h2
  · exact walkBranch_proofSafe E proof1 proof2 key i st h1 h2 hstash

theorem walkFrom_proofSafe (E : Externals StateDB Address) (proof1 proof2 extNibblesS : Rows)
    (key : Row) (isAccountProof nonExistingAccountProof : Bool) (n : Nat) :
    ∀ (i : Nat) (st : WalkState), i + n ≤ proof1.length → i + n ≤ proof2.length →
    (st.extensionRows.isSome = true → 0 < i) →
    (walkFrom E proof1 proof2 extNibblesS key isAccountProof nonExistingAccountProof n i
      st).ProofIndexSafe := by
  induction n with
  | zero =>
    intro i st _ _ _
    exact Run.proofSafe_pure
  | succ n ih =>
    intro i st h1 h2 hstash
    show (walkStep E proof1 proof2 extNibblesS key isAccountProof nonExistingAccountProof i st >>=
      fun s => walkFrom E proof1 proof2 extNibblesS key isAccountProof nonExistingAccountProof n
        (i + 1) s).ProofIndexSafe
    refine Run.proofSafe_bind (walkStep_proofSafe E proof1 proof2 extNibblesS key isAccountProof
      nonExistingAccountProof i st (by omega) (by omega) hstash) (fun s _ => ?_)
    exact ih (i + 1) s (by omega) (by omega) (fun _ => Nat.succ_pos i)

theorem walk_proofSafe (E : Externals StateDB Address) (proof1 proof2 extNibblesS : Rows)
    (key : Row) (isAccountProof nonExistingAccountProof additionalBranch : Bool) :
    (walk E proof1 proof2 extNibblesS key isAccountProof nonExistingAccountProof
      additionalBranch).ProofIndexSafe := by
  unfold walk
  obtain ⟨h1, h2⟩ := upToOf_le_length proof1 proof2 additionalBranch
  refine walkFrom_proofSafe E proof1 proof2 extNibblesS key isAccountProof
    nonExistingAccountProof _ 0 initialState (by omega) (by omega) (fun h => ?_)
  cases h

theorem additionalBranchOf_proofSafe (E : Externals StateDB Address) (proof1 proof2 : Rows) :
    ProofIndexSafeStep (additionalBranchOf E proof1 proof2) := by
  unfold additionalBranchOf
  simp only []
  split
  · refine safeStep_bind (safeStep_getI_inRange (by omega) (by omega)) (fun _ _ => ?_)
    exact safeStep_ok
  · split
    · refine safeStep_bind (safeStep_getI_inRange (by omega) (by omega)) (fun _ _ => ?_)
      exact safeStep_ok
    · exact safeStep_ok

theorem addBranchExtensionPart_proofSafe (E : Externals StateDB Address)
    (proof1 proof2 extNibblesS extNibblesC : Rows) (extensionNodeInd branchC16 branchC1 : Nat)
    (toBeHashed : Rows) (h1 : 0 < proof1.length) (h2 : 0 < proof2.length) :
    (addBranchExtensionPart E proof1 proof2 extNibblesS extNibblesC extensionNodeInd branchC16
      branchC1 toBeHashed).ProofIndexSafe := by
  unfold addBranchExtensionPart
  simp only []
  split
  · refine Run.proofSafe_bind Run.proofSafe_emit (fun _ _ => ?_)
    exact Run.proofSafe_pure
  · rename_i hext
    have hdiff : proof1.length = proof2.length + 2 ∨ proof2.length = proof1.length + 2 := by
      have himp : ¬ proof1.length = proof2.length + 2 → proof2.length = proof1.length + 2 := by
        simpa using hext
      by_cases hc : proof1.length = proof2.length + 2
      · exact Or.inl hc
      · exact Or.inr (himp hc)
    refine Run.proofSafe_bind (Run.proofSafe_liftE (safeStep_ite
      (fun hgt => safeStep_getI_inRange (by omega) (by omega))
      (fun hgt => safeStep_getI_inRange (by omega) (by omega)))) (fun _ _ => ?_)
    refine Run.proofSafe_bind Run.proofSafe_callExt (fun _ _ => ?_)
    split
    · refine Run.proofSafe_bind Run.proofSafe_emit (fun _ _ => ?_)
      exact Run.proofSafe_pure
    · exact Run.proofSafe_pure

theorem addBranchAndPlaceholder_proofSafe (E : Externals StateDB Address) (statedb : StateDB)
    (addr : Address) (rows proof1 proof2 extNibblesS extNibblesC : Rows)
    (key neighbourNode : Row) (keyIndex extensionNodeInd : Nat)
    (additionalBranch isAccountProof nonExistingAccountProof isShorterProofLastLeaf : Bool)
    (branchC16 branchC1 : Nat) (toBeHashed : Rows)
    (h1 : 0 < proof1.length) (h2 : 0 < proof2.length) (hne : proof1.length ≠ proof2.length) :
    (addBranchAndPlaceholder E statedb addr rows proof1 proof2 extNibblesS extNibblesC key
      neighbourNode keyIndex extensionNodeInd additionalBranch isAccountProof
      nonExistingAccountProof isShorterProofLastLeaf branchC16 branchC1
      toBeHashed).ProofIndexSafe := by
  unfold addBranchAndPlaceholder
  simp only []
  refine Run.proofSafe_bind Run.proofSafe_emit (fun _ _ => ?_)
  refine Run.proofSafe_bind (addBranchExtensionPart_proofSafe E proof1 proof2 extNibblesS
    extNibblesC extensionNodeInd branchC16 branchC1 toBeHashed h1 h2) (fun _ _ => ?_)
  refine Run.proofSafe_bind (Run.proofSafe_liftE (safeStep_ite
    (fun hgt => safeStep_getI_inRange (by omega) (by omega))
    (fun hgt => safeStep_getI_inRange (by omega) (by omega)))) (fun _ _ => ?_)
  refine Run.proofSafe_bind (Run.proofSafe_liftE (safeStep_ite
    (fun hgt => safeStep_getI_inRange (by omega) (by omega))
    (fun hgt => safeStep_getI_inRange (by omega) (by omega)))) (fun _ _ => ?_)
  refine Run.proofSafe_bind (Run.proofSafe_liftE (safeStep_getN_other (by decide)))
    (fun _ _ => ?_)
  refine Run.proofSafe_bind Run.proofSafe_callExt (fun _ _ => ?_)
  exact Run.proofSafe_pure

theorem tailUnequal_proofSafe (E : Externals StateDB Address) (statedb : StateDB)
    (addr : Address) (proof1 proof2 extNibblesS extNibblesC : Rows) (key neighbourNode : Row)
    (isAccountProof nonExistingAccountProof isShorterProofLastLeaf additionalBranch : Bool)
    (st : WalkState)
    (h1 : 0 < proof1.length) (h2 : 0 < proof2.length) (hne : proof1.length ≠ proof2.length) :
    (tailUnequal E statedb addr proof1 proof2 extNibblesS extNibblesC key neighbourNode
      isAccountProof nonExistingAccountProof isShorterProofLastLeaf additionalBranch
      st).ProofIndexSafe := by
  unfold tailUnequal
  split
  · refine Run.proofSafe_bind (addBranchAndPlaceholder_proofSafe E statedb addr _ proof1 proof2
      extNibblesS extNibblesC key neighbourNode _ _ _ _ _ _ _ _ _ h1 h2 hne) (fun _ _ => ?_)
    refine Run.proofSafe_bind ?_ (fun _ _ => ?_)
    · split
      · exact Run.proofSafe_callExt
      · exact Run.proofSafe_callExt
    · split
      · exact Run.proofSafe_callExt
      · exact Run.proofSafe_pure
  · exact Run.proofSafe_callExt

theorem tailEqual_proofSafe (E : Externals StateDB Address) (proof2 : Rows) (key : Row)
    (isAccountProof nonExistingAccountProof nonExistingStorageProof : Bool) (st : WalkState)
    (h2 : 0 < proof2.length) :
    (tailEqual E proof2 key isAccountProof nonExistingAccountProof nonExistingStorageProof
      st).ProofIndexSafe := by
  unfold tailEqual
  refine Run.proofSafe_bind
    (Run.proofSafe_liftE (safeStep_getI_inRange (by omega) (by omega))) (fun _ _ => ?_)
  unfold tailBranchStorage tailBranchAccount tailLeaf
  have hstorage : ProofIndexSafeStep (placeholderStorageLeaf E.rowLen) := by
    unfold placeholderStorageLeaf
    simp only []
    repeat (first
      | exact safeStep_setB
      | refine safeStep_bind safeStep_setB (fun _ _ => ?_))
  have hrow : ∀ k, ProofIndexSafeStep
      (branchTerminusStorageRow E.prepareEmptyNonExistingStorageRow key k) := by
    intro k
    unfold branchTerminusStorageRow
    simp only []
    repeat (first
      | exact safeStep_ok
      | exact safeStep_setB
      | refine safeStep_bind (safeStep_getN_other (by decide)) (fun _ _ => ?_)
      | refine safeStep_bind safeStep_setB (fun _ _ => ?_)
      | refine safeStep_bind safeStep_sliceFrom (fun _ _ => ?_)
      | split)
  have hfill : ∀ (rem : Row) (offset n i : Nat) (leaf : Row),
      ProofIndexSafeStep (fillKeyBytes rem offset n i leaf) := by
    intro rem offset n
    induction n with
    | zero =>
      intro i leaf
      exact safeStep_ok
    | succ n ih =>
      intro i leaf
      unfold fillKeyBytes
      refine safeStep_bind (safeStep_getN_other (by decide)) (fun _ _ => ?_)
      refine safeStep_bind (safeStep_getN_other (by decide)) (fun _ _ => ?_)
      refine safeStep_bind safeStep_setB (fun _ _ => ?_)
      exact ih _ _
  have hleaf : ∀ k, ProofIndexSafeStep (syntheticAccountLeaf E.rowLen key k) := by
    intro k
    unfold syntheticAccountLeaf syntheticAccountLeafHeader
    simp only []
    repeat (first
      | exact safeStep_ok
      | exact safeStep_setB
      | exact hfill _ _ _ _ _
      | refine safeStep_bind (safeStep_getI_other (by decide)) (fun _ _ => ?_)
      | refine safeStep_bind (safeStep_getN_other (by decide)) (fun _ _ => ?_)
      | refine safeStep_bind safeStep_setB (fun _ _ => ?_)
      | refine safeStep_bind safeStep_sliceFrom (fun _ _ => ?_)
      | refine safeStep_bind ?_ (fun _ _ => ?_)
      | split)
  repeat (first
    | exact Run.proofSafe_pure
    | exact Run.proofSafe_callExt
    | refine Run.proofSafe_bind (Run.proofSafe_liftE hstorage) (fun _ _ => ?_)
    | refine Run.proofSafe_bind (Run.proofSafe_liftE (hrow _)) (fun _ _ => ?_)
    | refine Run.proofSafe_bind (Run.proofSafe_liftE (hleaf _)) (fun _ _ => ?_)
    | refine Run.proofSafe_bind (Run.proofSafe_liftE (safeStep_getI_other (by decide)))
        (fun _ _ => ?_)
    | refine Run.proofSafe_bind Run.proofSafe_callExt (fun _ _ => ?_)
    | split)
/-- C21. Implicit: proof-list indexing is safe when both proofs are non-empty.
For `|S| ≥ 1` and `|C| ≥ 1`, whatever the other arguments and the preparers do:
(1) no run of `prepareWitness` stops with an out-of-range index into `proof1` or
`proof2`; (2) the loop bound `upTo` is at most `|S|` and at most `|C|`, so
`proof1[i]` and `proof2[i]` exist for every `i < upTo`, and the walk alone never
stops with such an index; (3) extension rows are stashed only after a previous
iteration: when the first `i` iterations return with rows stashed, `i ≥ 1` and
`proof1[i-1]`, `proof2[i-1]` exist if `i ≤ upTo`; (4) when the lengths differ,
`addBranchAndPlaceholder` never stops with such an index, from any locals: the
shorter proof has `[len-1]`, the longer one has `[len-2]` and, when the lengths
differ by exactly 2, `[len-3]`; (5) `proof2[|C|-1]`, read by the equal-length
tail, exists. -/
theorem prepareWitness_proof_index_safe (E : Externals StateDB Address) (statedb : StateDB)
    (addr : Address) (proof1 proof2 extNibblesS extNibblesC : Rows) (key neighbourNode : Row)
    (isAccountProof nonExistingAccountProof nonExistingStorageProof
      isShorterProofLastLeaf : Bool)
    (hS : 1 ≤ proof1.length) (hC : 1 ≤ proof2.length) :
    (prepareWitness E statedb addr proof1 proof2 extNibblesS extNibblesC key neighbourNode
      isAccountProof nonExistingAccountProof nonExistingStorageProof
      isShorterProofLastLeaf).res ≠ .error (.indexOutOfRange .proofList) ∧
    (∀ additionalBranch : Bool,
      (upToOf proof1 proof2 additionalBranch).toNat ≤ proof1.length ∧
      (upToOf proof1 proof2 additionalBranch).toNat ≤ proof2.length ∧
      (∀ i, i < (upToOf proof1 proof2 additionalBranch).toNat →
        ∃ s c, proof1[i]? = some s ∧ proof2[i]? = some c) ∧
      (walk E proof1 proof2 extNibblesS key isAccountProof nonExistingAccountProof
        additionalBranch).res ≠ .error (.indexOutOfRange .proofList) ∧
      ∀ (i : Nat) (st : WalkState), i ≤ (upToOf proof1 proof2 additionalBranch).toNat →
        (walkFrom E proof1 proof2 extNibblesS key isAccountProof nonExistingAccountProof i 0
          initialState).res = .ok st →
        st.extensionRows.isSome = true →
        0 < i ∧ ∃ s c, proof1[i - 1]? = some s ∧ proof2[i - 1]? = some c) ∧
    (proof1.length ≠ proof2.length →
      (∀ (rows : Rows) (keyIndex extensionNodeInd : Nat) (additionalBranch : Bool)
        (branchC16 branchC1 : Nat) (toBeHashed : Rows),
        (addBranchAndPlaceholder E statedb addr rows proof1 proof2 extNibblesS extNibblesC key
          neighbourNode keyIndex extensionNodeInd additionalBranch isAccountProof
          nonExistingAccountProof isShorterProofLastLeaf branchC16 branchC1 toBeHashed).res ≠
          .error (.indexOutOfRange .proofList)) ∧
      (∃ longExtNode,
        (if proof1.length > proof2.length then
            getI .proofList proof2 ((proof2.length : Int) - 1)
          else getI .proofList proof1 ((proof1.length : Int) - 1)) = .ok longExtNode) ∧
      (∃ branch,
        (if proof1.length > proof2.length then
            getI .proofList proof1 ((proof1.length : Int) - 2)
          else getI .proofList proof2 ((proof2.length : Int) - 2)) = .ok branch) ∧
      (proof1.length = proof2.length + 2 ∨ proof2.length = proof1.length + 2 →
        ∃ node,
          (if proof1.length > proof2.length then
              getI .proofList proof1 ((proof1.length : Int) - 3)
            else getI .proofList proof2 ((proof2.length : Int) - 3)) = .ok node)) ∧
    (∃ last, getI .proofList proof2 ((proof2.length : Int) - 1) = .ok last) := by
  have hget : ∀ (xs : Rows) (k : Int), 0 ≤ k → k < xs.length →
      ∃ x, getI IndexSite.proofList xs k = .ok x := by
    intro xs k h0 h1
    unfold getI
    rw [if_neg (by omega), List.getElem?_eq_getElem (by omega)]
    exact ⟨_, rfl⟩
  refine ⟨?_, ?_, ?_, ?_⟩
  · unfold prepareWitness
    refine Run.proofSafe_bind (Run.proofSafe_liftE (additionalBranchOf_proofSafe E proof1 proof2))
      (fun ab _ => ?_)
    refine Run.proofSafe_bind (walk_proofSafe E proof1 proof2 extNibblesS key isAccountProof
      nonExistingAccountProof ab) (fun st _ => ?_)
    refine Run.proofSafe_bind ?_ (fun _ _ => Run.proofSafe_pure)
    split
    · exact tailUnequal_proofSafe E statedb addr proof1 proof2 extNibblesS extNibblesC key
        neighbourNode isAccountProof nonExistingAccountProof isShorterProofLastLeaf ab st
        (by omega) (by omega) ‹_›
    · exact tailEqual_proofSafe E proof2 key isAccountProof nonExistingAccountProof
        nonExistingStorageProof st (by omega)
  · intro ab
    obtain ⟨h1, h2⟩ := upToOf_le_length proof1 proof2 ab
    refine ⟨h1, h2, ?_, walk_proofSafe E proof1 proof2 extNibblesS key isAccountProof
      nonExistingAccountProof ab, ?_⟩
    · intro i hi
      exact ⟨proof1[i], proof2[i], List.getElem?_eq_getElem (by omega),
        List.getElem?_eq_getElem (by omega)⟩
    · intro i st hi hres hstash
      cases i with
      | zero =>
        simp only [walkFrom, Run.pure, Except.ok.injEq] at hres
        subst hres
        cases hstash
      | succ j =>
        have hj1 : j < proof1.length := by omega
        have hj2 : j < proof2.length := by omega
        exact ⟨Nat.succ_pos j, proof1[j], proof2[j], List.getElem?_eq_getElem hj1,
          List.getElem?_eq_getElem hj2⟩
  · intro hne
    refine ⟨?_, ?_, ?_, ?_⟩
    · intro rows keyIndex extensionNodeInd additionalBranch branchC16 branchC1 toBeHashed
      exact addBranchAndPlaceholder_proofSafe E statedb addr rows proof1 proof2 extNibblesS
        extNibblesC key neighbourNode keyIndex extensionNodeInd additionalBranch isAccountProof
        nonExistingAccountProof isShorterProofLastLeaf branchC16 branchC1 toBeHashed
        (by omega) (by omega) hne
    · split
      · exact hget _ _ (by omega) (by omega)
      · exact hget _ _ (by omega) (by omega)
    · split
      · exact hget _ _ (by omega) (by omega)
      · exact hget _ _ (by omega) (by omega)
    · intro hdiff
      split
      · exact hget _ _ (by omega) (by omega)
      · exact hget _ _ (by omega) (by omega)
  · exact hget _ _ (by omega) (by omega)

/-- C21 at a branch split below a new extension node: `proof1` is one leaf and
`proof2` an extension node, a branch and a leaf. The run reads `proof1[0]`,
`proof2[0]` and `proof2[1]`, returns, and so does not stop at a proof index. -/
theorem prepareWitness_proof_index_safe_witness :
    (prepareWitness Fixture.externals () () Fixture.splitS Fixture.splitExtC [] [[1]]
      Fixture.key [] false false false true).res ≠ .error (.indexOutOfRange .proofList) ∧
    (prepareWitness Fixture.externals () () Fixture.splitS Fixture.splitExtC [] [[1]]
      Fixture.key [] false false false true).res.toBool = true ∧
    getI IndexSite.proofList Fixture.splitExtC
      ((Fixture.splitExtC.length : Int) - 3) = .ok Fixture.shortExt := by
  refine ⟨(prepareWitness_proof_index_safe Fixture.externals () () Fixture.splitS
    Fixture.splitExtC [] [[1]] Fixture.key [] false false false true (by decide)
    (by decide)).1, by decide, by decide⟩

theorem flipPair_of_parity (c k : Nat) (h : c = k % 2) :
    (flipPair c).1 = (k + 1) % 2 ∧ (flipPair c).2 = 1 - (flipPair c).1 := by
  unfold flipPair
  by_cases hc : c = 1
  · rw [if_pos hc]
    exact ⟨by show 0 = (k + 1) % 2; omega, rfl⟩
  · rw [if_neg hc]
    exact ⟨by show 1 = (k + 1) % 2; omega, rfl⟩

theorem oddExtension_eq_not_switch (E : Externals StateDB Address) (prev : Row) :
    oddExtension E prev = !(E.getExtensionNodeKeyLen prev != 1 && prev.getD 2 0 == 0) := by
  unfold oddExtension
  simp only [bne]
  cases (E.getExtensionNodeKeyLen prev == 1) <;> cases (prev.getD 2 0 == 0) <;> rfl

theorem walkStep_walkParity (E : Externals StateDB Address) (proof1 proof2 extNibblesS : Rows)
    (key : Row) (isAccountProof nonExistingAccountProof : Bool) (n i : Nat)
    (st st' : WalkState) (hi : i < n)
    (hfollow : ExtensionsFollowedByBranch E proof1 n)
    (hcount : NibbleCountParity E (walkStep E proof1 proof2 extNibblesS key isAccountProof
      nonExistingAccountProof i st).trace)
    (hinv : WalkParity E proof1 i st)
    (h : (walkStep E proof1 proof2 extNibblesS key isAccountProof nonExistingAccountProof i
      st).res = .ok st') :
    WalkParity E proof1 (i + 1) st' := by
  obtain ⟨hc1, hcase⟩ := hinv
  obtain ⟨s, hs, hstep⟩ := walkStep_cases E proof1 proof2 extNibblesS key isAccountProof
    nonExistingAccountProof i st st' h
  -- a stash before a node that is not a branch contradicts `hfollow`
  have hnone : E.isBranch s = false → st.extensionRows = none := by
    intro hnb
    cases hx : st.extensionRows with
    | none => rfl
    | some x =>
      exfalso
      rw [hx] at hcase
      obtain ⟨h0, _, prev, hprev, hpb, _⟩ := hcase
      obtain ⟨next, hnext, hnextb⟩ := hfollow (i - 1) prev (by omega) hprev hpb
      have e : i - 1 + 1 = i := by omega
      rw [e, hs] at hnext
      cases hnext
      rw [hnb] at hnextb
      cases hnextb
  rcases hstep with ⟨hb, heq⟩ | ⟨hb, hnl, heq⟩ | ⟨hb, hl, heq⟩
  · rw [heq] at h
    obtain ⟨sw, s', c, nib, bR, blk, hsw, _, _, _, _, _, _, _, hst'⟩ :=
      walkBranch_ok E proof1 proof2 key i st st' h
    rw [hst']
    show (if sw = true then (flipPair st.branchC16).2 else st.branchC1) =
        1 - (if sw = true then (flipPair st.branchC16).1 else st.branchC16) ∧
      (if sw = true then (flipPair st.branchC16).1 else st.branchC16) = (st.keyIndex + 1) % 2
    rcases switchC16_ok E proof1 i st.extensionRows sw hsw with
      ⟨hno, hswt⟩ | ⟨hsome, prev, _, hprev, hswv⟩
    · rw [hno] at hcase
      have hc16 : st.branchC16 = st.keyIndex % 2 := hcase
      obtain ⟨f1, f2⟩ := flipPair_of_parity st.branchC16 st.keyIndex hc16
      rw [hswt, if_pos rfl, if_pos rfl]
      exact ⟨f2, f1⟩
    · cases hx : st.extensionRows with
      | none => rw [hx] at hsome; cases hsome
      | some x =>
        rw [hx] at hcase
        obtain ⟨_, _, prev', hprev', _, hc16⟩ := hcase
        rw [hprev] at hprev'
        cases hprev'
        have hodd : oddExtension E prev = !sw := by
          rw [hswv]
          exact oddExtension_eq_not_switch E prev
        cases hswc : sw with
        | true =>
          rw [hswc] at hodd
          rw [hodd] at hc16
          have hc16' : st.branchC16 = st.keyIndex % 2 := by
            simpa using hc16
          obtain ⟨f1, f2⟩ := flipPair_of_parity st.branchC16 st.keyIndex hc16'
          rw [if_pos rfl, if_pos rfl]
          exact ⟨f2, f1⟩
        | false =>
          rw [hswc] at hodd
          rw [hodd] at hc16
          have hc16' : st.branchC16 = (st.keyIndex + 1) % 2 := by
            simpa using hc16
          rw [if_neg (by decide), if_neg (by decide)]
          exact ⟨hc1, hc16'⟩
  · rw [heq] at h hcount
    obtain ⟨s', c, ext, hs', hc, hext, htr, hst'⟩ :=
      walkExtension_ok E proof1 proof2 extNibblesS i st st' h
    rw [hs] at hs'
    cases hs'
    have hno := hnone hb
    rw [hno] at hcase
    simp only [] at hcase
    have hpar := hcount extNibblesS st.extensionNodeInd s c false false ext
      (by rw [htr]; exact List.mem_singleton.mpr rfl) hext
    rw [hst']
    unfold WalkParity
    simp only []
    refine ⟨hc1, Nat.succ_pos i, hnl, s, by simpa using hs, hb, ?_⟩
    have hodd : oddExtension E s = true ↔
        (E.getExtensionNodeKeyLen s = 1 ∨ s.getD 2 0 ≠ 0) := by
      unfold oddExtension
      simp
    by_cases ho : oddExtension E s = true
    · rw [if_pos ho]
      have := hpar.mpr (hodd.mp ho)
      omega
    · rw [if_neg ho]
      have : ¬ (ext.1 % 256) % 2 = 1 := fun hp => ho (hodd.mpr (hpar.mp hp))
      omega
  · rw [heq] at h
    have hno := hnone hb
    rw [hno] at hcase
    simp only [] at hcase
    have hsame : st'.branchC16 = st.branchC16 ∧ st'.branchC1 = st.branchC1 ∧
        st'.keyIndex = st.keyIndex ∧ st'.extensionRows = st.extensionRows := by
      rcases walkLeaf_ok E proof1 proof2 key isAccountProof nonExistingAccountProof i st st' h
        with ⟨_, _, _, _, _, _, _, _, hst'⟩ | ⟨_, _, _, _, _, _, _, _, _, _, hst'⟩
      · rw [hst']
        exact ⟨rfl, rfl, rfl, rfl⟩
      · rw [hst']
        exact ⟨rfl, rfl, rfl, rfl⟩
    obtain ⟨e1, e2, e3, e4⟩ := hsame
    unfold WalkParity
    rw [e1, e2, e3, e4, hno]
    exact ⟨hc1, hcase⟩

theorem walkFrom_walkParity (E : Externals StateDB Address) (proof1 proof2 extNibblesS : Rows)
    (key : Row) (isAccountProof nonExistingAccountProof : Bool) (n : Nat)
    (hfollow : ExtensionsFollowedByBranch E proof1 n) (a : Nat) :
    ∀ (i : Nat) (st st' : WalkState), i + a ≤ n → WalkParity E proof1 i st →
    NibbleCountParity E (walkFrom E proof1 proof2 extNibblesS key isAccountProof
      nonExistingAccountProof a i st).trace →
    (walkFrom E proof1 proof2 extNibblesS key isAccountProof nonExistingAccountProof a i st).res =
      .ok st' →
    WalkParity E proof1 (i + a) st' := by
  induction a with
  | zero =>
    intro i st st' _ hinv _ h
    simp only [walkFrom, Run.pure, Except.ok.injEq] at h
    subst h
    exact hinv
  | succ a ih =>
    intro i st st' hbound hinv hcount hres
    have hres' : (walkStep E proof1 proof2 extNibblesS key isAccountProof
        nonExistingAccountProof i st >>= fun s => walkFrom E proof1 proof2 extNibblesS key
        isAccountProof nonExistingAccountProof a (i + 1) s).res = .ok st' := hres
    obtain ⟨st1, h1, h2⟩ := Run.bind_res_ok hres'
    have htr : (walkFrom E proof1 proof2 extNibblesS key isAccountProof
        nonExistingAccountProof (a + 1) i st).trace =
        (walkStep E proof1 proof2 extNibblesS key isAccountProof nonExistingAccountProof i
          st).trace ++
        (walkFrom E proof1 proof2 extNibblesS key isAccountProof nonExistingAccountProof a
          (i + 1) st1).trace := Run.bind_trace_of_ok h1
    rw [htr] at hcount
    have hinv1 := walkStep_walkParity E proof1 proof2 extNibblesS key isAccountProof
      nonExistingAccountProof n i st st1 (by omega) hfollow
      (fun x ind s c p q ext hm hx => hcount x ind s c p q ext (List.mem_append_left _ hm) hx)
      hinv h1
    have := ih (i + 1) st1 st' (by omega) hinv1
      (fun x ind s c p q ext hm hx => hcount x ind s c p q ext (List.mem_append_right _ hm) hx)
      h2
    have e : i + 1 + a = i + (a + 1) := by omega
    rw [e] at this
    exact this

theorem walkFrom_trace_append (E : Externals StateDB Address)
    (proof1 proof2 extNibblesS : Rows) (key : Row)
    (isAccountProof nonExistingAccountProof : Bool) (b a : Nat) :
    ∀ (i : Nat) (st st' : WalkState),
    (walkFrom E proof1 proof2 extNibblesS key isAccountProof nonExistingAccountProof a i st).res =
      .ok st' →
    (walkFrom E proof1 proof2 extNibblesS key isAccountProof nonExistingAccountProof (a + b) i
      st).trace =
      (walkFrom E proof1 proof2 extNibblesS key isAccountProof nonExistingAccountProof a i
        st).trace ++
      (walkFrom E proof1 proof2 extNibblesS key isAccountProof nonExistingAccountProof b (i + a)
        st').trace := by
  induction a with
  | zero =>
    intro i st st' h
    simp only [walkFrom, Run.pure, Except.ok.injEq] at h
    subst h
    rw [Nat.zero_add, Nat.add_zero]
    simp [walkFrom, Run.pure]
  | succ a ih =>
    intro i st st' hres
    have hres' : (walkStep E proof1 proof2 extNibblesS key isAccountProof
        nonExistingAccountProof i st >>= fun s => walkFrom E proof1 proof2 extNibblesS key
        isAccountProof nonExistingAccountProof a (i + 1) s).res = .ok st' := hres
    obtain ⟨st1, h1, h2⟩ := Run.bind_res_ok hres'
    have e : a + 1 + b = (a + b) + 1 := by omega
    have htr1 : (walkFrom E proof1 proof2 extNibblesS key isAccountProof
        nonExistingAccountProof ((a + b) + 1) i st).trace =
        (walkStep E proof1 proof2 extNibblesS key isAccountProof nonExistingAccountProof i
          st).trace ++
        (walkFrom E proof1 proof2 extNibblesS key isAccountProof nonExistingAccountProof (a + b)
          (i + 1) st1).trace := Run.bind_trace_of_ok h1
    have htr2 : (walkFrom E proof1 proof2 extNibblesS key isAccountProof
        nonExistingAccountProof (a + 1) i st).trace =
        (walkStep E proof1 proof2 extNibblesS key isAccountProof nonExistingAccountProof i
          st).trace ++
        (walkFrom E proof1 proof2 extNibblesS key isAccountProof nonExistingAccountProof a
          (i + 1) st1).trace := Run.bind_trace_of_ok h1
    have e2 : i + (a + 1) = i + 1 + a := by omega
    rw [e, htr1, htr2, ih (i + 1) st1 st' h2, e2, List.append_assoc]

theorem initialState_walkParity (E : Externals StateDB Address) (proof1 : Rows) :
    WalkParity E proof1 0 initialState :=
  ⟨rfl, rfl⟩
theorem walkStep_keyIndex_consumed (E : Externals StateDB Address)
    (proof1 proof2 extNibblesS : Rows) (key : Row)
    (isAccountProof nonExistingAccountProof : Bool) (i : Nat) (st st' : WalkState)
    (h : (walkStep E proof1 proof2 extNibblesS key isAccountProof nonExistingAccountProof i
      st).res = .ok st') :
    st'.keyIndex = st.keyIndex +
      ((walkStep E proof1 proof2 extNibblesS key isAccountProof nonExistingAccountProof i
        st).trace.map (Event.nibblesConsumed E)).sum := by
  obtain ⟨s, hs, hstep⟩ := walkStep_cases E proof1 proof2 extNibblesS key isAccountProof
    nonExistingAccountProof i st st' h
  rcases hstep with ⟨_, heq⟩ | ⟨_, _, heq⟩ | ⟨_, _, heq⟩
  · rw [heq] at h ⊢
    obtain ⟨sw, s', c, nib, bR, blk, _, _, _, _, _, _, _, htr, hst'⟩ :=
      walkBranch_ok E proof1 proof2 key i st st' h
    rw [htr, hst']
    cases sw <;> simp [Event.nibblesConsumed]
  · rw [heq] at h ⊢
    obtain ⟨s', c, ext, _, _, hext, htr, hst'⟩ :=
      walkExtension_ok E proof1 proof2 extNibblesS i st st' h
    rw [htr, hst']
    simp [Event.nibblesConsumed, hext]
  · rw [heq] at h ⊢
    rcases walkLeaf_ok E proof1 proof2 key isAccountProof nonExistingAccountProof i st st' h
      with ⟨_, _, _, _, _, _, _, htr, hst'⟩ | ⟨_, _, _, _, _, _, _, _, _, htr, hst'⟩
    · rw [htr, hst']
      simp [Event.nibblesConsumed]
    · rw [htr, hst']
      simp [Event.nibblesConsumed]

theorem walkFrom_keyIndex_consumed (E : Externals StateDB Address)
    (proof1 proof2 extNibblesS : Rows) (key : Row)
    (isAccountProof nonExistingAccountProof : Bool) (a : Nat) :
    ∀ (i : Nat) (st st' : WalkState),
    (walkFrom E proof1 proof2 extNibblesS key isAccountProof nonExistingAccountProof a i st).res =
      .ok st' →
    st'.keyIndex = st.keyIndex +
      ((walkFrom E proof1 proof2 extNibblesS key isAccountProof nonExistingAccountProof a i
        st).trace.map (Event.nibblesConsumed E)).sum := by
  induction a with
  | zero =>
    intro i st st' h
    simp only [walkFrom, Run.pure, Except.ok.injEq] at h
    subst h
    simp [walkFrom, Run.pure]
  | succ a ih =>
    intro i st st' hres
    have hres' : (walkStep E proof1 proof2 extNibblesS key isAccountProof
        nonExistingAccountProof i st >>= fun s => walkFrom E proof1 proof2 extNibblesS key
        isAccountProof nonExistingAccountProof a (i + 1) s).res = .ok st' := hres
    obtain ⟨st1, h1, h2⟩ := Run.bind_res_ok hres'
    have htr : (walkFrom E proof1 proof2 extNibblesS key isAccountProof
        nonExistingAccountProof (a + 1) i st).trace =
        (walkStep E proof1 proof2 extNibblesS key isAccountProof nonExistingAccountProof i
          st).trace ++
        (walkFrom E proof1 proof2 extNibblesS key isAccountProof nonExistingAccountProof a
          (i + 1) st1).trace := Run.bind_trace_of_ok h1
    rw [htr, List.map_append, List.sum_append, ih (i + 1) st1 st' h2,
      walkStep_keyIndex_consumed E proof1 proof2 extNibblesS key isAccountProof
        nonExistingAccountProof i st st1 h1]
    omega

/-- C22. Implicit: parity tracks key position. Assume that among the positions
of the common-prefix walk every extension node is immediately followed by a
branch, and that the nibble count returned by every call of
`prepareExtensionRows` the walk makes is odd exactly when
`getExtensionNodeKeyLen(node) == 1` or `node[2] != 0` for the node `proof1[i]` of
the call.
Then (1) whenever the walk has emitted the branch block of a position `j`, the
locals satisfy `branchC16 == keyIndex mod 2` and `branchC1 == 1 - branchC16`, and
`keyIndex` is the number of nibbles consumed so far: 1 for every branch and the
returned nibble count for every extension node; (2) when the proofs have equal
length, so that the tail may reach a branch terminus, the locals left by the
walk satisfy the same two equations, and the test `keyIndex % 2 == 0` of the
placeholder leaves agrees with `branchC16 == 0`. -/
theorem walk_parity_tracks_key (E : Externals StateDB Address)
    (proof1 proof2 extNibblesS : Rows) (key : Row)
    (isAccountProof nonExistingAccountProof additionalBranch : Bool)
    (hfollow : ExtensionsFollowedByBranch E proof1 (upToOf proof1 proof2 additionalBranch).toNat)
    (hcount : NibbleCountParity E (walk E proof1 proof2 extNibblesS key isAccountProof
      nonExistingAccountProof additionalBranch).trace) :
    (∀ (j : Nat) (s : Row) (st : WalkState),
      j < (upToOf proof1 proof2 additionalBranch).toNat →
      proof1[j]? = some s → E.isBranch s = true →
      (walkFrom E proof1 proof2 extNibblesS key isAccountProof nonExistingAccountProof (j + 1) 0
        initialState).res = .ok st →
      st.branchC16 = st.keyIndex % 2 ∧ st.branchC1 = 1 - st.branchC16 ∧
      st.keyIndex =
        ((walkFrom E proof1 proof2 extNibblesS key isAccountProof nonExistingAccountProof
          (j + 1) 0 initialState).trace.map (Event.nibblesConsumed E)).sum) ∧
    (∀ st : WalkState, proof1.length = proof2.length →
      (walk E proof1 proof2 extNibblesS key isAccountProof nonExistingAccountProof
        additionalBranch).res = .ok st →
      st.branchC16 = st.keyIndex % 2 ∧ st.branchC1 = 1 - st.branchC16 ∧
      st.keyIndex =
        ((walk E proof1 proof2 extNibblesS key isAccountProof nonExistingAccountProof
          additionalBranch).trace.map (Event.nibblesConsumed E)).sum ∧
      (st.keyIndex % 2 == 0) = (st.branchC16 == 0)) := by
  constructor
  · intro j s st hj hs hb hres
    have hsplit := walkFrom_trace_append E proof1 proof2 extNibblesS key isAccountProof
      nonExistingAccountProof ((upToOf proof1 proof2 additionalBranch).toNat - (j + 1)) (j + 1) 0
      initialState st hres
    have en : j + 1 + ((upToOf proof1 proof2 additionalBranch).toNat - (j + 1)) =
        (upToOf proof1 proof2 additionalBranch).toNat := by omega
    rw [en] at hsplit
    have hcount' : NibbleCountParity E (walkFrom E proof1 proof2 extNibblesS key isAccountProof
        nonExistingAccountProof (j + 1) 0 initialState).trace := by
      intro x ind nodeS nodeC p q ext hm hx
      refine hcount x ind nodeS nodeC p q ext ?_ hx
      unfold walk
      rw [hsplit]
      exact List.mem_append_left _ hm
    have hinv := walkFrom_walkParity E proof1 proof2 extNibblesS key isAccountProof
      nonExistingAccountProof _ hfollow (j + 1) 0 initialState st (by omega)
      (initialState_walkParity E proof1) hcount' hres
    have hkey := walkFrom_keyIndex_consumed E proof1 proof2 extNibblesS key isAccountProof
      nonExistingAccountProof (j + 1) 0 initialState st hres
    obtain ⟨hc1, hcase⟩ := hinv
    refine ⟨?_, hc1, ?_⟩
    · cases hx : st.extensionRows with
      | none =>
        rw [hx] at hcase
        exact hcase
      | some x =>
        exfalso
        rw [hx] at hcase
        obtain ⟨_, _, prev, hprev, hpb, _⟩ := hcase
        have e : 0 + (j + 1) - 1 = j := by omega
        rw [e, hs] at hprev
        cases hprev
        rw [hb] at hpb
        cases hpb
    · rw [hkey]
      show 0 + _ = _
      omega
  · intro st hlen hres
    have hn : (upToOf proof1 proof2 additionalBranch).toNat = proof1.length := by
      unfold upToOf
      simp only []
      rw [if_neg (by omega), if_neg (by omega)]
      omega
    unfold walk at hres hcount ⊢
    have hinv := walkFrom_walkParity E proof1 proof2 extNibblesS key isAccountProof
      nonExistingAccountProof _ hfollow _ 0 initialState st (by omega)
      (initialState_walkParity E proof1) hcount hres
    have hkey := walkFrom_keyIndex_consumed E proof1 proof2 extNibblesS key isAccountProof
      nonExistingAccountProof _ 0 initialState st hres
    obtain ⟨hc1, hcase⟩ := hinv
    have hc16 : st.branchC16 = st.keyIndex % 2 := by
      cases hx : st.extensionRows with
      | none =>
        rw [hx] at hcase
        exact hcase
      | some x =>
        exfalso
        rw [hx] at hcase
        obtain ⟨_, hne, _⟩ := hcase
        rw [hn] at hne
        omega
    refine ⟨hc16, hc1, ?_, ?_⟩
    · rw [hkey]
      show 0 + _ = _
      omega
    · rw [hc16]

/-- C22 at a chain of mixed parity: both proofs are a one-nibble extension node
and its branch followed by two two-nibble extension nodes with their branches,
and the three calls of `prepareExtensionRows` return 1, 2 and 2 nibbles. After
the second branch the walk has consumed `1 + 1 + 2 + 1 = 5` nibbles and the pair
is `(branchC16, branchC1) = (1, 0)`; at the end it has consumed 8 nibbles and the
pair is flipped back to `(0, 1)`. -/
theorem walk_parity_tracks_key_witness :
    (∃ st : WalkState,
      (walk Fixture.externals Fixture.mixedChain Fixture.mixedChain [[1], [1, 1], [1, 1]]
        Fixture.key true false false).res = .ok st ∧
      st.keyIndex = 8 ∧ st.branchC16 = 0 ∧ st.branchC1 = 1 ∧
      (st.keyIndex % 2 == 0) = (st.branchC16 == 0)) ∧
    (∃ st : WalkState,
      (walkFrom Fixture.externals Fixture.mixedChain Fixture.mixedChain [[1], [1, 1], [1, 1]]
        Fixture.key true false 4 0 initialState).res = .ok st ∧
      st.keyIndex = 5 ∧ st.branchC16 = 1 ∧ st.branchC1 = 0) ∧
    ((walk Fixture.externals Fixture.mixedChain Fixture.mixedChain [[1], [1, 1], [1, 1]]
      Fixture.key true false false).res.map
        fun s => (s.keyIndex, s.branchC16, s.branchC1)) = .ok (8, 0, 1) ∧
    ((walkFrom Fixture.externals Fixture.mixedChain Fixture.mixedChain [[1], [1, 1], [1, 1]]
      Fixture.key true false 4 0 initialState).res.map
        fun s => (s.keyIndex, s.branchC16, s.branchC1)) = .ok (5, 1, 0) := by
  have hn : (upToOf Fixture.mixedChain Fixture.mixedChain false).toNat = 6 := by decide
  have hfollow : ExtensionsFollowedByBranch Fixture.externals Fixture.mixedChain
      (upToOf Fixture.mixedChain Fixture.mixedChain false).toNat := by
    rw [hn]
    intro i node hi hnode hb
    have hcases : i = 0 ∨ i = 1 ∨ i = 2 ∨ i = 3 ∨ i = 4 := by omega
    rcases hcases with h0 | h1 | h2 | h3 | h4
    · subst h0
      exact ⟨Fixture.branchOf 7, by decide, by decide⟩
    · subst h1
      have : Fixture.mixedChain[1]? = some (Fixture.branchOf 7) := by decide
      rw [this] at hnode
      cases hnode
      exact absurd hb (by decide)
    · subst h2
      exact ⟨Fixture.branchOf 7, by decide, by decide⟩
    · subst h3
      have : Fixture.mixedChain[3]? = some (Fixture.branchOf 7) := by decide
      rw [this] at hnode
      cases hnode
      exact absurd hb (by decide)
    · subst h4
      exact ⟨Fixture.branchOf 7, by decide, by decide⟩
  have hcalls : (walk Fixture.externals Fixture.mixedChain Fixture.mixedChain
      [[1], [1, 1], [1, 1]] Fixture.key true false false).trace.filterMap
        Event.extensionCall? =
      [([[1], [1, 1], [1, 1]], 0, Fixture.shortExt, Fixture.shortExt, false, false),
       ([[1], [1, 1], [1, 1]], 1, Fixture.longEvenExt, Fixture.longEvenExt, false, false),
       ([[1], [1, 1], [1, 1]], 2, Fixture.longEvenExt, Fixture.longEvenExt, false, false)] := by
    rfl
  have hcount : NibbleCountParity Fixture.externals
      (walk Fixture.externals Fixture.mixedChain Fixture.mixedChain [[1], [1, 1], [1, 1]]
        Fixture.key true false false).trace := by
    intro x ind nodeS nodeC p q ext hm hx
    have hmem : (x, ind, nodeS, nodeC, p, q) ∈
        (walk Fixture.externals Fixture.mixedChain Fixture.mixedChain [[1], [1, 1], [1, 1]]
          Fixture.key true false false).trace.filterMap Event.extensionCall? :=
      List.mem_filterMap.mpr ⟨_, hm, rfl⟩
    rw [hcalls] at hmem
    simp only [List.mem_cons, List.mem_singleton, Prod.mk.injEq, List.not_mem_nil,
      or_false] at hmem
    rcases hmem with ⟨rfl, rfl, rfl, rfl, rfl, rfl⟩ | ⟨rfl, rfl, rfl, rfl, rfl, rfl⟩ |
      ⟨rfl, rfl, rfl, rfl, rfl, rfl⟩
    · have he : Fixture.externals.prepareExtensionRows [[1], [1, 1], [1, 1]] 0 Fixture.shortExt
          Fixture.shortExt false false = some (1, Fixture.shortExt, Fixture.shortExt) := rfl
      rw [he] at hx
      cases hx
      decide
    · have he : Fixture.externals.prepareExtensionRows [[1], [1, 1], [1, 1]] 1
          Fixture.longEvenExt Fixture.longEvenExt false false =
          some (2, Fixture.longEvenExt, Fixture.longEvenExt) := rfl
      rw [he] at hx
      cases hx
      decide
    · have he : Fixture.externals.prepareExtensionRows [[1], [1, 1], [1, 1]] 2
          Fixture.longEvenExt Fixture.longEvenExt false false =
          some (2, Fixture.longEvenExt, Fixture.longEvenExt) := rfl
      rw [he] at hx
      cases hx
      decide
  have hfull : ((walk Fixture.externals Fixture.mixedChain Fixture.mixedChain
      [[1], [1, 1], [1, 1]] Fixture.key true false false).res.map
        fun s => (s.keyIndex, s.branchC16, s.branchC1)) = .ok (8, 0, 1) := by decide
  have hpre : ((walkFrom Fixture.externals Fixture.mixedChain Fixture.mixedChain
      [[1], [1, 1], [1, 1]] Fixture.key true false 4 0 initialState).res.map
        fun s => (s.keyIndex, s.branchC16, s.branchC1)) = .ok (5, 1, 0) := by decide
  have hwok : (walk Fixture.externals Fixture.mixedChain Fixture.mixedChain
      [[1], [1, 1], [1, 1]] Fixture.key true false false).res.toBool = true := by decide
  obtain ⟨st, hst⟩ := exists_ok_of_toBool hwok
  have hki : st.keyIndex = 8 := by
    have h1 := hfull
    rw [hst] at h1
    simp only [Except.map, Except.ok.injEq, Prod.mk.injEq] at h1
    exact h1.1
  have hpok : (walkFrom Fixture.externals Fixture.mixedChain Fixture.mixedChain
      [[1], [1, 1], [1, 1]] Fixture.key true false 4 0 initialState).res.toBool = true := by
    decide
  obtain ⟨sp, hsp⟩ := exists_ok_of_toBool hpok
  have hkp : sp.keyIndex = 5 := by
    have h1 := hpre
    rw [hsp] at h1
    simp only [Except.map, Except.ok.injEq, Prod.mk.injEq] at h1
    exact h1.1
  have hthm := walk_parity_tracks_key Fixture.externals Fixture.mixedChain Fixture.mixedChain
    [[1], [1, 1], [1, 1]] Fixture.key true false false hfollow hcount
  obtain ⟨h16, h1, _, heven⟩ := hthm.2 st rfl hst
  obtain ⟨p16, p1, _⟩ := hthm.1 3 (Fixture.branchOf 7) sp (by rw [hn]; decide) (by decide)
    (by decide) hsp
  refine ⟨⟨st, hst, hki, ?_, ?_, heven⟩, ⟨sp, hsp, hkp, ?_, ?_⟩, hfull, hpre⟩
  · rw [h16, hki]
  · rw [h1, h16, hki]
  · rw [p16, hkp]
  · rw [p1, p16, hkp]

/-- C6. Non-existing storage at a branch terminus (Scenario E). For a storage
proof with `|S| = |C| ≥ 1` whose last C element is a branch, every returning run
of `prepareWitness` ends its rows with: two placeholder storage-leaf blocks
(sides 2 and 3) built from a `rowLen` buffer starting 228, 130, 51, the
drifted-leaf placeholder, and one last row. Without `nonExistingStorageProof`
the last row is `prepareEmptyNonExistingStorageRow()` unmodified. With it, the
last row is that row with byte 1 overwritten by `keyLen + 128` (as a byte) and
byte 2 by 32 when `keyIndex` is even or by `key[keyIndex] + 48` (as a byte) when
it is odd. Here `keyIndex` is the nibble count left by the walk, which is the
number of nibbles the walk consumed: 1 for every `prepareTwoBranches` call and
the returned nibble count for every `prepareExtensionRows` call; and
`keyLen = floor((64 - keyIndex) / 2) + 1`, so that byte 1 is
`(64 - keyIndex) / 2 + 1 + 128` for `keyIndex ≤ 64`; for `keyIndex ≤ 64` and a
nibble below 16 no byte wraps. -/
theorem prepareWitness_storage_branch_terminus (E : Externals StateDB Address)
    (statedb : StateDB) (addr : Address)
    (proof1 proof2 extNibblesS extNibblesC : Rows) (key neighbourNode : Row)
    (nonExistingAccountProof nonExistingStorageProof isShorterProofLastLeaf : Bool)
    (lastC : Row) (out : Rows × Rows × Bool)
    (hlen : proof1.length = proof2.length) (hlastC : proof2.getLast? = some lastC)
    (hbr : E.isBranch lastC = true)
    (hret : (prepareWitness E statedb addr proof1 proof2 extNibblesS extNibblesC key
      neighbourNode false nonExistingAccountProof nonExistingStorageProof
      isShorterProofLastLeaf).res = .ok out) :
    ∃ (st : WalkState) (ls lc : Rows × Row) (last : Row),
      (walk E proof1 proof2 extNibblesS key false nonExistingAccountProof false).res = .ok st ∧
      st.keyIndex =
        ((walk E proof1 proof2 extNibblesS key false nonExistingAccountProof false).trace.map
          (Event.nibblesConsumed E)).sum ∧
      placeholderKeyLen st.keyIndex = (64 - (st.keyIndex : Int)) / 2 + 1 ∧
      3 ≤ E.rowLen ∧
      E.prepareStorageLeafRows (228 :: 130 :: 51 :: List.replicate (E.rowLen - 3) 0) 2 false =
        some ls ∧
      E.prepareStorageLeafRows (228 :: 130 :: 51 :: List.replicate (E.rowLen - 3) 0) 3 false =
        some lc ∧
      out.1 = st.rows ++ ls.1 ++ lc.1 ++ E.prepareDriftedLeafPlaceholder false ++ [last] ∧
      (nonExistingStorageProof = false → last = E.prepareEmptyNonExistingStorageRow) ∧
      (nonExistingStorageProof = true →
        2 < E.prepareEmptyNonExistingStorageRow.length ∧
        ∃ b1 b2 : Nat, last = (E.prepareEmptyNonExistingStorageRow.set 1 b1).set 2 b2 ∧
          (b1 : Int) = (placeholderKeyLen st.keyIndex + 128) % 256 ∧
          (b1 : Int) = ((64 - (st.keyIndex : Int)) / 2 + 1 + 128) % 256 ∧
          (st.keyIndex ≤ 64 → (b1 : Int) = placeholderKeyLen st.keyIndex + 128) ∧
          (st.keyIndex ≤ 64 → b1 = (64 - st.keyIndex) / 2 + 1 + 128) ∧
          (st.keyIndex % 2 = 0 → b2 = 32) ∧
          (st.keyIndex % 2 = 1 → ∃ nibble, key[st.keyIndex]? = some nibble ∧
            b2 = (nibble + 48) % 256 ∧ (nibble < 16 → b2 = nibble + 48))) := by
  obtain ⟨ab, st, tl, hab, hst, htl, _, hout⟩ := prepareWitness_ok E statedb addr proof1 proof2
    extNibblesS extNibblesC key neighbourNode false nonExistingAccountProof
    nonExistingStorageProof isShorterProofLastLeaf out hret
  rw [additionalBranchOf_equal_length E _ _ hlen] at hab
  cases hab
  rw [tailOf_equal_branch E statedb addr proof1 proof2 extNibblesS extNibblesC key neighbourNode
    false nonExistingAccountProof nonExistingStorageProof isShorterProofLastLeaf false st lastC
    hlen hlastC hbr] at htl
  simp only [Bool.false_eq_true, if_false] at htl
  obtain ⟨leaf, ls, lc, last, hleaf, hls, hlc, hlast, htl'⟩ :=
    tailBranchStorage_ok E key nonExistingStorageProof st tl htl
  obtain ⟨hrow, hleaf'⟩ := placeholderStorageLeaf_ok hleaf
  subst hleaf'
  have hkey : st.keyIndex =
      ((walk E proof1 proof2 extNibblesS key false nonExistingAccountProof false).trace.map
        (Event.nibblesConsumed E)).sum := by
    have h := walkFrom_keyIndex_consumed E proof1 proof2 extNibblesS key false
      nonExistingAccountProof _ 0 initialState st hst
    unfold walk
    rw [h]
    show 0 + _ = _
    omega
  refine ⟨st, ls, lc, last, hst, hkey, placeholderKeyLen_eq _, hrow, hls, hlc, ?_, ?_, ?_⟩
  · rw [hout, htl']
  · intro hne
    rw [hne] at hlast
    simpa using hlast
  · intro hne
    rw [hne] at hlast
    simp only [if_true] at hlast
    obtain ⟨h2, _, b2, hl, hev, hodd⟩ := branchTerminusStorageRow_ok hlast
    refine ⟨h2, _, b2, hl, byteOfInt_add_128 _, ?_, ?_, ?_, hev, ?_⟩
    · rw [byteOfInt_add_128, placeholderKeyLen_eq]
    · intro hk
      rw [byteOfInt_add_128, placeholderKeyLen_eq]
      omega
    · intro hk
      have hb := byteOfInt_add_128 (placeholderKeyLen st.keyIndex)
      have hp := placeholderKeyLen_eq st.keyIndex
      omega
    · intro h1
      obtain ⟨nibble, hn, hb⟩ := hodd h1
      exact ⟨nibble, hn, hb, fun hlt => by rw [hb]; omega⟩

/-- C6 at a concrete branch terminus: both proofs are the same two-nibble
extension node and branch, `nonExistingStorageProof` is set. The run returns;
the walk consumed `2 + 1 = 3` nibbles, so `keyIndex = 3` is odd and
`keyLen = 31`; the last row is the empty non-existing-storage row with byte 1
set to `31 + 128 = 159` and byte 2 to `key[3] + 48 = 49`. -/
theorem prepareWitness_storage_branch_terminus_witness :
    ∃ (out : Rows × Rows × Bool) (st : WalkState) (ls lc : Rows × Row),
      (prepareWitness Fixture.externals () () Fixture.extTerminus Fixture.extTerminus
        [[1, 1]] [] Fixture.key [] false false true false).res = .ok out ∧
      (walk Fixture.externals Fixture.extTerminus Fixture.extTerminus [[1, 1]] Fixture.key false
        false false).res = .ok st ∧
      st.keyIndex = 3 ∧
      ((walk Fixture.externals Fixture.extTerminus Fixture.extTerminus [[1, 1]] Fixture.key false
        false false).trace.map (Event.nibblesConsumed Fixture.externals)).sum = 3 ∧
      placeholderKeyLen 3 = 31 ∧
      Fixture.key[3]? = some 1 ∧
      out.1 = st.rows ++ ls.1 ++ lc.1 ++ Fixture.externals.prepareDriftedLeafPlaceholder false ++
        [(Fixture.externals.prepareEmptyNonExistingStorageRow.set 1 159).set 2 49] ∧
      out.1.getLast? = some ([0, 159, 49] ++ List.replicate 65 0) ∧
      ((prepareWitness Fixture.externals () () Fixture.extTerminus Fixture.extTerminus
        [[1, 1]] [] Fixture.key [] false false true false).res.map
          fun o => o.1.getLast?) = .ok (some ([0, 159, 49] ++ List.replicate 65 0)) ∧
      ((walk Fixture.externals Fixture.extTerminus Fixture.extTerminus [[1, 1]] Fixture.key false
        false false).res.map fun s => s.keyIndex) = .ok 3 := by
  have hok : (prepareWitness Fixture.externals () () Fixture.extTerminus Fixture.extTerminus
      [[1, 1]] [] Fixture.key [] false false true false).res.toBool = true := by decide
  obtain ⟨out, hout⟩ := exists_ok_of_toBool hok
  obtain ⟨st, ls, lc, last, hst, hsum, hlen, _, _, _, hrows, _, hlast⟩ :=
    prepareWitness_storage_branch_terminus Fixture.externals () ()
      Fixture.extTerminus Fixture.extTerminus [[1, 1]] [] Fixture.key [] false true false
      (Fixture.branchOf 7) out rfl rfl rfl hout
  have hwalk : ((walk Fixture.externals Fixture.extTerminus Fixture.extTerminus [[1, 1]]
      Fixture.key false false false).res.map fun s => s.keyIndex) = .ok 3 := by decide
  have hrun : ((prepareWitness Fixture.externals () () Fixture.extTerminus Fixture.extTerminus
      [[1, 1]] [] Fixture.key [] false false true false).res.map
        fun o => o.1.getLast?) = .ok (some ([0, 159, 49] ++ List.replicate 65 0)) := by
    decide
  have hki : st.keyIndex = 3 := by
    have h1 := hwalk
    rw [hst] at h1
    simp only [Except.map, Except.ok.injEq] at h1
    exact h1
  obtain ⟨_, b1, b2, hl, _, _, _, hb1, _, hb2⟩ := hlast rfl
  have e1 : b1 = 159 := by
    have := hb1 (by omega)
    rw [hki] at this
    exact this
  have e2 : b2 = 49 := by
    obtain ⟨nibble, hn, _, hb⟩ := hb2 (by rw [hki])
    rw [hki] at hn
    have hk : Fixture.key[3]? = some 1 := by decide
    rw [hk] at hn
    cases hn
    exact hb (by decide)
  subst e1 e2
  subst hl
  rw [hki] at hsum hlen
  refine ⟨out, st, ls, lc, hout, hst, hki, hsum.symm, by decide, by decide, hrows, ?_, hrun,
    hwalk⟩
  rw [hrows, List.getLast?_append, List.getLast?_singleton]
  rfl

end

end MptWitness
